import Mathlib

/-!
Shallow embedding of the rsg2 retained-mode scene graph (src/scene.rs and
src/components.rs) and proofs about it.

Modelling conventions:
* `RSGNodeKey` (a slotmap generation-tagged key) is modelled as `Nat`; the
  arena allocates strictly increasing fresh keys, which reproduces the
  observable behaviour of generation tagging (a removed key is never handed
  out again, so stale keys never alias live entries).
* The slotmap arena is an association list `List (Nat × RSGNode)` with
  unique keys, paired with the `next` fresh-key counter.
* `f32` scalars are modelled as `ℚ`: the verified claims are about the
  structure and ordering produced by the algorithms, which hold over any
  linear ordered field; NaN inputs are a documented programmer error in the
  source.
* Rust functions that can panic (`unwrap` on missing data) are modelled with
  `Option` results where a claim is about the panic, and are otherwise
  totalised; the theorems' hypotheses restrict attention to the non-panicking
  inputs, mirroring the source's documented preconditions.
* The observer is not stored inside the scene: every mutating operation
  returns the ordered list of `RSGEvent`s it hands to `Observer::notify`,
  which is exactly the information an observer receives.
-/

/-- Key type for scene nodes (source: `slotmap::new_key_type! RSGNodeKey`). -/
abbrev RSGNodeKey := Nat

/-- Scene-graph observer events (source: `enum RSGEvent`). The dirty flags
payload is the raw `u32` bit set, modelled as `Nat`. -/
inductive RSGEvent where
  | SubtreeAddedOrReattached (key : RSGNodeKey)
  | SubtreeAboutToBeRemoved (key : RSGNodeKey)
  | SubtreeAboutToBeTemporarilyDetached (key : RSGNodeKey)
  | Dirty (key : RSGNodeKey) (flags : Nat)
  deriving DecidableEq, Repr

/-- Per-node component handles (source: `struct RSGComponentLinks`).
Component keys of each slotmap family are modelled as `Nat`. -/
structure RSGComponentLinks where
  transform_key : Option Nat := none
  opacity_key : Option Nat := none
  material_key : Option Nat := none
  mesh_key : Option Nat := none
  layer_key : Option Nat := none
  deriving DecidableEq, Repr

instance : Inhabited RSGComponentLinks := ⟨{}⟩

/-- Dirty flag bits (source: `bitflags! RSGDirtyFlags`). -/
def RSGDirtyFlags.TRANSFORM : Nat := 0x01

def RSGDirtyFlags.OPACITY : Nat := 0x02

def RSGDirtyFlags.MATERIAL : Nat := 0x04

def RSGDirtyFlags.MATERIAL_VALUES : Nat := 0x08

def RSGDirtyFlags.MESH : Nat := 0x10

/-- `RSGDirtyFlags::from_bits`: `some` exactly when no bit outside the five
known bits (mask 0x1f) is set.  The argument is the `u32` payload. -/
def RSGDirtyFlags.from_bits (f : Nat) : Option Nat :=
  if f &&& 0x1f = f then some f else none

/-- `RSGDirtyFlags::contains` for a single-bit flag value (bitflags
`contains` is `bits &&& other = other`). -/
def RSGDirtyFlags.containsBit (flags bit : Nat) : Bool :=
  flags &&& bit = bit

/-- The canonical scene observer (source: `struct RSGSceneObserver`). -/
structure RSGSceneObserver where
  changed : Bool := false
  hierarchy_changed : Bool := false
  dirty_world_roots : List RSGNodeKey := []
  dirty_opacity_roots : List RSGNodeKey := []
  dirty_material_nodes : List RSGNodeKey := []
  dirty_material_value_nodes : List RSGNodeKey := []
  dirty_mesh_nodes : List RSGNodeKey := []
  deriving DecidableEq, Repr

instance : Inhabited RSGSceneObserver := ⟨{}⟩

/-- `RSGObserver::notify` for `RSGSceneObserver` (source:
`impl RSGObserver for RSGSceneObserver`).  The `Dirty` arm is a Rust `match`
with guard clauses on the same pattern, so the first matching guard wins:
the nested `if` chain below reproduces exactly that first-match semantics. -/
def RSGSceneObserver.notify (o : RSGSceneObserver) (event : RSGEvent) : RSGSceneObserver :=
  let o := { o with changed := true }
  match event with
  | .SubtreeAddedOrReattached key =>
      { o with
        hierarchy_changed := true
        dirty_world_roots := o.dirty_world_roots ++ [key]
        dirty_opacity_roots := o.dirty_opacity_roots ++ [key]
        dirty_material_nodes := o.dirty_material_nodes ++ [key]
        dirty_material_value_nodes := o.dirty_material_value_nodes ++ [key]
        dirty_mesh_nodes := o.dirty_mesh_nodes ++ [key] }
  | .SubtreeAboutToBeRemoved _ => { o with hierarchy_changed := true }
  | .Dirty key f =>
      match RSGDirtyFlags.from_bits f with
      | some flags =>
          if RSGDirtyFlags.containsBit flags RSGDirtyFlags.TRANSFORM then
            { o with dirty_world_roots := o.dirty_world_roots ++ [key] }
          else if RSGDirtyFlags.containsBit flags RSGDirtyFlags.OPACITY then
            { o with dirty_opacity_roots := o.dirty_opacity_roots ++ [key] }
          else if RSGDirtyFlags.containsBit flags RSGDirtyFlags.MATERIAL then
            { o with dirty_material_nodes := o.dirty_material_nodes ++ [key] }
          else if RSGDirtyFlags.containsBit flags RSGDirtyFlags.MATERIAL_VALUES then
            { o with dirty_material_value_nodes := o.dirty_material_value_nodes ++ [key] }
          else if RSGDirtyFlags.containsBit flags RSGDirtyFlags.MESH then
            { o with dirty_mesh_nodes := o.dirty_mesh_nodes ++ [key] }
          else o
      | none => o
  | .SubtreeAboutToBeTemporarilyDetached _ => o

/-- Subtree-add transaction operation kind (source: `enum RSGSubtreeAddOp`). -/
inductive RSGSubtreeAddOp where
  | Append
  | Prepend
  deriving DecidableEq, Repr

/-- A scene node (source: `struct RSGNode<CompLinksT>`). -/
structure RSGNode (C : Type) where
  key : Option RSGNodeKey := none
  parent_key : Option RSGNodeKey := none
  first_child_key : Option RSGNodeKey := none
  last_child_key : Option RSGNodeKey := none
  prev_sibling_key : Option RSGNodeKey := none
  next_sibling_key : Option RSGNodeKey := none
  comp_links : C

/-- `RSGNode::with_component_links`. -/
def RSGNode.with_component_links {C : Type} (links : C) : RSGNode C := { comp_links := links }

/-- `RSGNode::is_clean`: all six link fields are empty. -/
def RSGNode.is_clean {C : Type} (n : RSGNode C) : Prop :=
  n.key = none ∧ n.parent_key = none ∧ n.first_child_key = none ∧
    n.last_child_key = none ∧ n.prev_sibling_key = none ∧ n.next_sibling_key = none

instance {C : Type} (n : RSGNode C) : Decidable n.is_clean := by
  unfold RSGNode.is_clean; infer_instance

/-- Association-list lookup in the arena (models `SlotMap::get`). -/
def aGet {C : Type} : List (RSGNodeKey × RSGNode C) → RSGNodeKey → Option (RSGNode C)
  | [], _ => none
  | (k', n) :: rest, k => if k' = k then some n else aGet rest k

/-- Pointwise arena update (models `SlotMap::get_mut` followed by field
assignments; a missing key leaves the arena unchanged, which the source
precludes by `unwrap`). -/
def aModify {C : Type} (a : List (RSGNodeKey × RSGNode C)) (k : RSGNodeKey)
    (f : RSGNode C → RSGNode C) : List (RSGNodeKey × RSGNode C) :=
  a.map (fun p => if p.1 = k then (p.1, f p.2) else p)

/-- Arena removal (models `SlotMap::remove`). -/
def aRemove {C : Type} (a : List (RSGNodeKey × RSGNode C)) (k : RSGNodeKey) :
    List (RSGNodeKey × RSGNode C) :=
  a.filter (fun p => p.1 ≠ k)

/-- The scene (source: `struct RSGScene<CompLinksT, ObserverT>`).  `next` is
the fresh-key counter of the slotmap model. -/
structure RSGScene (C : Type) where
  arena : List (RSGNodeKey × RSGNode C) := []
  next : RSGNodeKey := 0
  root_key : Option RSGNodeKey := none

/-- `RSGScene::new`. -/
def RSGScene.new (C : Type) : RSGScene C := {}

/-- `SlotMap::insert`: allocate a fresh key at the end of the arena. -/
def RSGScene.insertNode {C : Type} (s : RSGScene C) (n : RSGNode C) : RSGScene C × RSGNodeKey :=
  ({ s with arena := s.arena ++ [(s.next, n)], next := s.next + 1 }, s.next)

/-- `RSGScene::is_valid`: the slot is live and the node is linked (or is the
root).  Note `node.key == self.root_key` is an `Option` equality, exactly as
in the source. -/
def RSGScene.is_valid {C : Type} (s : RSGScene C) (node_key : RSGNodeKey) : Bool :=
  match aGet s.arena node_key with
  | some node => node.parent_key.isSome || decide (node.key = s.root_key)
  | none => false

/-- `RSGScene::get_component_links`, totalised with a default for the
`unwrap` (reachable scenes always have the key present). -/
def RSGScene.get_component_links {C : Type} [Inhabited C] (s : RSGScene C)
    (node_key : RSGNodeKey) : C :=
  match aGet s.arena node_key with
  | some node => node.comp_links
  | none => default

/-- `RSGScene::set_root`.  The source asserts that no root exists yet; the
reachability relation imposes that precondition. -/
def RSGScene.set_root {C : Type} (s : RSGScene C) (node : RSGNode C) :
    RSGScene C × RSGNodeKey × List RSGEvent :=
  let (s, key) := s.insertNode node
  let s := { s with root_key := some key }
  let s := { s with arena := aModify s.arena key (fun n => { n with key := some key }) }
  (s, key, [RSGEvent.SubtreeAddedOrReattached key])

/-- `RSGScene::append_impl`. -/
def RSGScene.append_impl {C : Type} (s : RSGScene C) (parent_key node_key : RSGNodeKey) :
    RSGScene C :=
  let old_last_node_key := (aGet s.arena parent_key).bind (·.last_child_key)
  let s := { s with arena := aModify s.arena parent_key (fun p =>
    { p with
      first_child_key := if p.first_child_key = none then some node_key else p.first_child_key
      last_child_key := some node_key }) }
  let s := { s with arena := aModify s.arena node_key (fun n =>
    { n with
      key := some node_key
      parent_key := some parent_key
      prev_sibling_key := old_last_node_key
      next_sibling_key := none }) }
  match old_last_node_key with
  | some ol => { s with arena := aModify s.arena ol (fun n => { n with next_sibling_key := some node_key }) }
  | none => s

/-- `RSGScene::append`. -/
def RSGScene.append {C : Type} (s : RSGScene C) (parent_key : RSGNodeKey) (node : RSGNode C) :
    RSGScene C × RSGNodeKey × List RSGEvent :=
  let (s, node_key) := s.insertNode node
  let s := s.append_impl parent_key node_key
  (s, node_key, [RSGEvent.SubtreeAddedOrReattached node_key])

/-- `RSGScene::prepend_impl`. -/
def RSGScene.prepend_impl {C : Type} (s : RSGScene C) (parent_key node_key : RSGNodeKey) :
    RSGScene C :=
  let old_first_node_key := (aGet s.arena parent_key).bind (·.first_child_key)
  let s := { s with arena := aModify s.arena parent_key (fun p =>
    { p with
      first_child_key := some node_key
      last_child_key := if p.last_child_key = none then some node_key else p.last_child_key }) }
  let s := { s with arena := aModify s.arena node_key (fun n =>
    { n with
      key := some node_key
      parent_key := some parent_key
      prev_sibling_key := none
      next_sibling_key := old_first_node_key }) }
  match old_first_node_key with
  | some f => { s with arena := aModify s.arena f (fun n => { n with prev_sibling_key := some node_key }) }
  | none => s

/-- `RSGScene::prepend`. -/
def RSGScene.prepend {C : Type} (s : RSGScene C) (parent_key : RSGNodeKey) (node : RSGNode C) :
    RSGScene C × RSGNodeKey × List RSGEvent :=
  let (s, node_key) := s.insertNode node
  let s := s.prepend_impl parent_key node_key
  (s, node_key, [RSGEvent.SubtreeAddedOrReattached node_key])

/-- `RSGScene::insert_before_impl`. -/
def RSGScene.insert_before_impl {C : Type} (s : RSGScene C) (before_key node_key : RSGNodeKey) :
    RSGScene C :=
  let parent_key := (aGet s.arena before_key).bind (·.parent_key)
  let old_prev_sibling_key := (aGet s.arena before_key).bind (·.prev_sibling_key)
  let s := { s with arena := aModify s.arena before_key (fun n =>
    { n with prev_sibling_key := some node_key }) }
  let s := { s with arena := aModify s.arena node_key (fun n =>
    { n with
      key := some node_key
      parent_key := parent_key
      prev_sibling_key := old_prev_sibling_key
      next_sibling_key := some before_key }) }
  match old_prev_sibling_key with
  | some op => { s with arena := aModify s.arena op (fun n => { n with next_sibling_key := some node_key }) }
  | none =>
    match parent_key with
    | some p => { s with arena := aModify s.arena p (fun n => { n with first_child_key := some node_key }) }
    | none => s

/-- `RSGScene::insert_before`.  The source asserts `before_key` is not the
root; the reachability relation imposes that precondition. -/
def RSGScene.insert_before {C : Type} (s : RSGScene C) (before_key : RSGNodeKey) (node : RSGNode C) :
    RSGScene C × RSGNodeKey × List RSGEvent :=
  let (s, node_key) := s.insertNode node
  let s := s.insert_before_impl before_key node_key
  (s, node_key, [RSGEvent.SubtreeAddedOrReattached node_key])

/-- `RSGScene::insert_after_impl`. -/
def RSGScene.insert_after_impl {C : Type} (s : RSGScene C) (after_key node_key : RSGNodeKey) :
    RSGScene C :=
  let parent_key := (aGet s.arena after_key).bind (·.parent_key)
  let old_next_sibling_key := (aGet s.arena after_key).bind (·.next_sibling_key)
  let s := { s with arena := aModify s.arena after_key (fun n =>
    { n with next_sibling_key := some node_key }) }
  let s := { s with arena := aModify s.arena node_key (fun n =>
    { n with
      key := some node_key
      parent_key := parent_key
      prev_sibling_key := some after_key
      next_sibling_key := old_next_sibling_key }) }
  match old_next_sibling_key with
  | some onk => { s with arena := aModify s.arena onk (fun n => { n with prev_sibling_key := some node_key }) }
  | none =>
    match parent_key with
    | some p => { s with arena := aModify s.arena p (fun n => { n with last_child_key := some node_key }) }
    | none => s

/-- `RSGScene::insert_after`. -/
def RSGScene.insert_after {C : Type} (s : RSGScene C) (after_key : RSGNodeKey) (node : RSGNode C) :
    RSGScene C × RSGNodeKey × List RSGEvent :=
  let (s, node_key) := s.insertNode node
  let s := s.insert_after_impl after_key node_key
  (s, node_key, [RSGEvent.SubtreeAddedOrReattached node_key])

/-- A subtree-add transaction (source: `struct RSGSubtreeAddTransaction`):
recorded entries `(parent_key, node_key, op)` in recording order.  The
debug-only `possible_parent_keys` set is the set of node keys of the
recorded entries. -/
structure RSGSubtreeAddTransaction where
  entries : List (RSGNodeKey × RSGNodeKey × RSGSubtreeAddOp) := []
  deriving DecidableEq, Repr

/-- `RSGSubtreeAddTransaction::new`. -/
def RSGSubtreeAddTransaction.new : RSGSubtreeAddTransaction := {}

/-- The staged node keys of a transaction (the source's debug-only
`possible_parent_keys`). -/
def RSGSubtreeAddTransaction.stagedKeys (t : RSGSubtreeAddTransaction) : List RSGNodeKey :=
  t.entries.map (fun e => e.2.1)

/-- `RSGScene::record_add_transaction`: allocate a slot for the (clean) node
and record the intent; nothing is linked and no event is emitted. -/
def RSGScene.record_add_transaction {C : Type} (s : RSGScene C) (op : RSGSubtreeAddOp)
    (parent_key : RSGNodeKey) (node : RSGNode C) (transaction : RSGSubtreeAddTransaction) :
    RSGScene C × RSGSubtreeAddTransaction × RSGNodeKey :=
  let (s, node_key) := s.insertNode node
  (s, { entries := transaction.entries ++ [(parent_key, node_key, op)] }, node_key)

/-- `RSGScene::commit`: apply every recorded entry in recording order as a
regular `append_impl`/`prepend_impl` linking, then notify a single
`SubtreeAddedOrReattached` with the first staged key (if any). -/
def RSGScene.commit {C : Type} (s : RSGScene C) (transaction : RSGSubtreeAddTransaction) :
    RSGScene C × List RSGEvent :=
  let s := transaction.entries.foldl (fun s e =>
    match e.2.2 with
    | RSGSubtreeAddOp.Append => s.append_impl e.1 e.2.1
    | RSGSubtreeAddOp.Prepend => s.prepend_impl e.1 e.2.1) s
  match transaction.entries.head? with
  | some e => (s, [RSGEvent.SubtreeAddedOrReattached e.2.1])
  | none => (s, [])

/-- `RSGScene::rollback`: free every staged slot; no linking, no events. -/
def RSGScene.rollback {C : Type} (s : RSGScene C) (transaction : RSGSubtreeAddTransaction) :
    RSGScene C × List RSGEvent :=
  (transaction.entries.foldl (fun s e => { s with arena := aRemove s.arena e.2.1 }) s, [])

/-- `RSGScene::remove_from_arena`: destructively free a whole forest of
subtrees, following `first_child`/`next_sibling` links with an explicit
stack, exactly like the source's loop.  `fuel` bounds the number of loop
steps; the wrapper passes enough fuel for any scene. -/
def RSGScene.remove_from_arena_go {C : Type} : Nat → RSGScene C → List RSGNodeKey → RSGScene C
  | 0, s, _ => s
  | _ + 1, s, [] => s
  | fuel + 1, s, k :: stk =>
    match aGet s.arena k with
    | none => RSGScene.remove_from_arena_go fuel s stk
    | some child_node =>
      let s := { s with arena := aRemove s.arena k }
      let stk := match child_node.first_child_key with
        | some child_key => child_key :: stk
        | none => stk
      match child_node.next_sibling_key with
      | some sibling_key => RSGScene.remove_from_arena_go fuel s (sibling_key :: stk)
      | none => RSGScene.remove_from_arena_go fuel s stk

/-- `RSGScene::remove_from_arena` entry point. -/
def RSGScene.remove_from_arena {C : Type} (s : RSGScene C) (start_key_opt : Option RSGNodeKey) :
    RSGScene C :=
  match start_key_opt with
  | none => s
  | some start_key => RSGScene.remove_from_arena_go (3 * s.arena.length + 3) s [start_key]

/-- `RSGScene::remove_helper`.  Returns the updated scene, the emitted
events, and the removed node's component links (`none` only on the
`unwrap` paths the source's preconditions exclude). -/
def RSGScene.remove_helper {C : Type} (s : RSGScene C) (node_key : RSGNodeKey)
    (with_children : Bool) : RSGScene C × List RSGEvent × Option C :=
  let s := if with_children then s else
    { s with arena := aModify s.arena node_key (fun n =>
      { n with first_child_key := none, last_child_key := none }) }
  let evs := [RSGEvent.SubtreeAboutToBeRemoved node_key]
  match aGet s.arena node_key with
  | none => (s, evs, none)
  | some node =>
    let s := { s with arena := aRemove s.arena node_key }
    match node.parent_key with
    | none => (s, evs, none)
    | some parent_key =>
      let s :=
        match node.prev_sibling_key, node.next_sibling_key with
        | some pk, some nk =>
          let s := { s with arena := aModify s.arena pk (fun n => { n with next_sibling_key := some nk }) }
          { s with arena := aModify s.arena nk (fun n => { n with prev_sibling_key := some pk }) }
        | some pk, none =>
          let s := { s with arena := aModify s.arena parent_key (fun n => { n with last_child_key := some pk }) }
          { s with arena := aModify s.arena pk (fun n => { n with next_sibling_key := none }) }
        | none, some nk =>
          let s := { s with arena := aModify s.arena parent_key (fun n => { n with first_child_key := some nk }) }
          { s with arena := aModify s.arena nk (fun n => { n with prev_sibling_key := none }) }
        | none, none =>
          { s with arena := aModify s.arena parent_key (fun n =>
            { n with first_child_key := none, last_child_key := none }) }
      let s := if with_children then s.remove_from_arena node.first_child_key else s
      (s, evs, some node.comp_links)

/-- `RSGScene::remove`: destructive removal of a node and its whole
subtree. -/
def RSGScene.remove {C : Type} (s : RSGScene C) (node_key : RSGNodeKey) :
    RSGScene C × List RSGEvent × Option C :=
  s.remove_helper node_key true

/-- The child-removal loop of `RSGScene::remove_children`: walk the sibling
chain, reading the next key before removing the current child. -/
def RSGScene.remove_children_go {C : Type} :
    Nat → RSGScene C → Option RSGNodeKey → RSGScene C × List RSGEvent × List C
  | 0, s, _ => (s, [], [])
  | _ + 1, s, none => (s, [], [])
  | fuel + 1, s, some key =>
    let nxt := (aGet s.arena key).bind (·.next_sibling_key)
    let (s, evs, links) := s.remove key
    let (s, evs2, rest) := RSGScene.remove_children_go fuel s nxt
    (s, evs ++ evs2, links.toList ++ rest)

/-- `RSGScene::remove_children`. -/
def RSGScene.remove_children {C : Type} (s : RSGScene C) (node_key : RSGNodeKey) :
    RSGScene C × List RSGEvent × List C :=
  RSGScene.remove_children_go (s.arena.length + 1) s ((aGet s.arena node_key).bind (·.first_child_key))

/-- `RSGScene::clear`. -/
def RSGScene.clear {C : Type} (s : RSGScene C) : RSGScene C × List RSGEvent × List C :=
  match s.root_key with
  | some key => s.remove_children key
  | none => (s, [], [])

/-- The notification loop over a sibling chain (used by `insert_under` and
`remove_without_children`): pure chain walk emitting one event per child. -/
def RSGScene.chainEvents_go {C : Type} (s : RSGScene C) (mk : RSGNodeKey → RSGEvent) :
    Nat → Option RSGNodeKey → List RSGEvent
  | 0, _ => []
  | _ + 1, none => []
  | fuel + 1, some key => mk key :: RSGScene.chainEvents_go s mk fuel ((aGet s.arena key).bind (·.next_sibling_key))

/-- The reparenting loop of `RSGScene::insert_under`: set `parent_key` of
every node on the chain to `node_key`, following `next_sibling` links of the
evolving arena exactly as the source does. -/
def RSGScene.reparent_go {C : Type} :
    Nat → RSGScene C → Option RSGNodeKey → RSGNodeKey → RSGScene C
  | 0, s, _, _ => s
  | _ + 1, s, none, _ => s
  | fuel + 1, s, some key, node_key =>
    let s := { s with arena := aModify s.arena key (fun n => { n with parent_key := some node_key }) }
    RSGScene.reparent_go fuel s ((aGet s.arena key).bind (·.next_sibling_key)) node_key

/-- `RSGScene::insert_under`: wrap the parent's children under a new node. -/
def RSGScene.insert_under {C : Type} (s : RSGScene C) (parent_key : RSGNodeKey) (node : RSGNode C) :
    RSGScene C × RSGNodeKey × List RSGEvent :=
  let fuel := s.arena.length + 1
  let evs := RSGScene.chainEvents_go s RSGEvent.SubtreeAboutToBeTemporarilyDetached fuel
    ((aGet s.arena parent_key).bind (·.first_child_key))
  let child_node_key_opt := (aGet s.arena parent_key).bind (·.first_child_key)
  let (s, node_key) := s.insertNode node
  let first_child_key_opt := (aGet s.arena parent_key).bind (·.first_child_key)
  let last_child_key_opt := (aGet s.arena parent_key).bind (·.last_child_key)
  let s := { s with arena := aModify s.arena parent_key (fun p =>
    { p with first_child_key := some node_key, last_child_key := some node_key }) }
  let s := { s with arena := aModify s.arena node_key (fun n =>
    { n with
      key := some node_key
      parent_key := some parent_key
      first_child_key := first_child_key_opt
      last_child_key := last_child_key_opt }) }
  let s := RSGScene.reparent_go fuel s child_node_key_opt node_key
  (s, node_key, evs ++ [RSGEvent.SubtreeAddedOrReattached node_key])

/-- The re-insertion loop of `RSGScene::remove_without_children`: walk the
detached children (reading each `next_sibling` before re-linking the child)
and re-insert each one before `before_key` (or append to `parent_key` when
the removed node had no next sibling), notifying one
`SubtreeAddedOrReattached` per child. -/
def RSGScene.reinsert_go {C : Type} :
    Nat → RSGScene C → Option RSGNodeKey → Option RSGNodeKey → RSGNodeKey →
      RSGScene C × List RSGEvent
  | 0, s, _, _, _ => (s, [])
  | _ + 1, s, none, _, _ => (s, [])
  | fuel + 1, s, some key, insert_children_before_key_opt, parent_key =>
    let nxt := (aGet s.arena key).bind (·.next_sibling_key)
    let s := match insert_children_before_key_opt with
      | some before_key => s.insert_before_impl before_key key
      | none => s.append_impl parent_key key
    let (s, evs) := RSGScene.reinsert_go fuel s nxt insert_children_before_key_opt parent_key
    (s, RSGEvent.SubtreeAddedOrReattached key :: evs)

/-- `RSGScene::remove_without_children`: remove a node, keeping and
re-inserting its children at its former position. -/
def RSGScene.remove_without_children {C : Type} (s : RSGScene C) (node_key : RSGNodeKey) :
    RSGScene C × List RSGEvent × Option C :=
  let fuel := s.arena.length + 1
  let parent_key := (aGet s.arena node_key).bind (·.parent_key)
  let insert_children_before_key_opt := (aGet s.arena node_key).bind (·.next_sibling_key)
  let detach_evs := RSGScene.chainEvents_go s RSGEvent.SubtreeAboutToBeTemporarilyDetached fuel
    ((aGet s.arena node_key).bind (·.first_child_key))
  let child_node_key_opt := (aGet s.arena node_key).bind (·.first_child_key)
  let (s, remove_evs, component_links) := s.remove_helper node_key false
  let (s, add_evs) := RSGScene.reinsert_go fuel s child_node_key_opt
    insert_children_before_key_opt (parent_key.getD 0)
  (s, detach_evs ++ remove_evs ++ add_evs, component_links)

/-- `RSGScene::mark_dirty`: emit `Dirty(node, flags)` without touching the
tree. -/
def RSGScene.mark_dirty {C : Type} (s : RSGScene C) (node_key : RSGNodeKey) (flags : Nat) :
    RSGScene C × List RSGEvent :=
  (s, [RSGEvent.Dirty node_key flags])

/-- State of the depth-first pre-order iterator (source: `enum RSGIterState`). -/
inductive RSGIterState where
  | AcceptAndVisitChildren (key : RSGNodeKey) (depth : Nat)
  | VisitSiblings (key : RSGNodeKey) (depth : Nat)
  deriving DecidableEq, Repr

/-- One run of the `RSGIter` state machine (source: `impl Iterator for
RSGIter`), accumulating the emitted `(key, depth)` pairs.  `fuel` bounds the
number of state transitions; the wrapper passes enough fuel for any
well-formed scene (every node enters each of the two states at most
once). -/
def RSGScene.traverse_go {C : Type} (s : RSGScene C) (start_key : RSGNodeKey) :
    Nat → Option RSGIterState → List (RSGNodeKey × Nat)
  | 0, _ => []
  | _ + 1, none => []
  | fuel + 1, some st =>
    match st with
    | RSGIterState.AcceptAndVisitChildren node_key depth =>
      let nxt := match (aGet s.arena node_key).bind (·.first_child_key) with
        | some key => some (RSGIterState.AcceptAndVisitChildren key (depth + 1))
        | none => some (RSGIterState.VisitSiblings node_key depth)
      (node_key, depth) :: RSGScene.traverse_go s start_key fuel nxt
    | RSGIterState.VisitSiblings node_key depth =>
      if node_key = start_key then []
      else
        match (aGet s.arena node_key).bind (·.next_sibling_key) with
        | some key => RSGScene.traverse_go s start_key fuel
            (some (RSGIterState.AcceptAndVisitChildren key depth))
        | none =>
          match (aGet s.arena node_key).bind (·.parent_key) with
          | some p => RSGScene.traverse_go s start_key fuel
              (some (RSGIterState.VisitSiblings p (depth - 1)))
          | none => []

/-- `RSGScene::traverse`: depth-first pre-order over the subtree rooted at
`node_key`, as the list of `(key, depth)` pairs the iterator yields. -/
def RSGScene.traverse {C : Type} (s : RSGScene C) (node_key : RSGNodeKey) :
    List (RSGNodeKey × Nat) :=
  RSGScene.traverse_go s node_key (2 * s.arena.length + 4)
    (some (RSGIterState.AcceptAndVisitChildren node_key 0))

/-- The ancestor chain walk (source: `impl Iterator for RSGAncestorIter`),
starting from an optional key and following `parent_key` links. -/
def RSGScene.ancestors_go {C : Type} (s : RSGScene C) :
    Nat → Option RSGNodeKey → List RSGNodeKey
  | 0, _ => []
  | _ + 1, none => []
  | fuel + 1, some key =>
    key :: RSGScene.ancestors_go s fuel ((aGet s.arena key).bind (·.parent_key))

/-- `RSGScene::ancestors`: the node's proper ancestors, nearest first. -/
def RSGScene.ancestors {C : Type} (s : RSGScene C) (node_key : RSGNodeKey) : List RSGNodeKey :=
  RSGScene.ancestors_go s (s.arena.length + 1) ((aGet s.arena node_key).bind (·.parent_key))

/-- `RSGScene::ancestors_with_node`: the node itself followed by its
ancestors. -/
def RSGScene.ancestors_with_node {C : Type} (s : RSGScene C) (node_key : RSGNodeKey) :
    List RSGNodeKey :=
  RSGScene.ancestors_go s (s.arena.length + 1) (some node_key)

/-- A 3-component vector over `ℚ` (models `glm::Vec3`, with `f32` scalars
modelled as exact rationals). -/
structure Vec3 where
  x : ℚ
  y : ℚ
  z : ℚ
  deriving DecidableEq, Repr

/-- A 4-component vector over `ℚ` (models `glm::Vec4`). -/
structure Vec4 where
  x : ℚ
  y : ℚ
  z : ℚ
  w : ℚ
  deriving DecidableEq, Repr

/-- A 4x4 matrix over `ℚ` (models `glm::Mat4`); `mRC` is the entry in row
`R`, column `C`. -/
structure Mat4 where
  m00 : ℚ
  m01 : ℚ
  m02 : ℚ
  m03 : ℚ
  m10 : ℚ
  m11 : ℚ
  m12 : ℚ
  m13 : ℚ
  m20 : ℚ
  m21 : ℚ
  m22 : ℚ
  m23 : ℚ
  m30 : ℚ
  m31 : ℚ
  m32 : ℚ
  m33 : ℚ
  deriving DecidableEq, Repr

/-- Matrix product (models `glm::Mat4` multiplication). -/
def Mat4.mul (a b : Mat4) : Mat4 where
  m00 := a.m00 * b.m00 + a.m01 * b.m10 + a.m02 * b.m20 + a.m03 * b.m30
  m01 := a.m00 * b.m01 + a.m01 * b.m11 + a.m02 * b.m21 + a.m03 * b.m31
  m02 := a.m00 * b.m02 + a.m01 * b.m12 + a.m02 * b.m22 + a.m03 * b.m32
  m03 := a.m00 * b.m03 + a.m01 * b.m13 + a.m02 * b.m23 + a.m03 * b.m33
  m10 := a.m10 * b.m00 + a.m11 * b.m10 + a.m12 * b.m20 + a.m13 * b.m30
  m11 := a.m10 * b.m01 + a.m11 * b.m11 + a.m12 * b.m21 + a.m13 * b.m31
  m12 := a.m10 * b.m02 + a.m11 * b.m12 + a.m12 * b.m22 + a.m13 * b.m32
  m13 := a.m10 * b.m03 + a.m11 * b.m13 + a.m12 * b.m23 + a.m13 * b.m33
  m20 := a.m20 * b.m00 + a.m21 * b.m10 + a.m22 * b.m20 + a.m23 * b.m30
  m21 := a.m20 * b.m01 + a.m21 * b.m11 + a.m22 * b.m21 + a.m23 * b.m31
  m22 := a.m20 * b.m02 + a.m21 * b.m12 + a.m22 * b.m22 + a.m23 * b.m32
  m23 := a.m20 * b.m03 + a.m21 * b.m13 + a.m22 * b.m23 + a.m23 * b.m33
  m30 := a.m30 * b.m00 + a.m31 * b.m10 + a.m32 * b.m20 + a.m33 * b.m30
  m31 := a.m30 * b.m01 + a.m31 * b.m11 + a.m32 * b.m21 + a.m33 * b.m31
  m32 := a.m30 * b.m02 + a.m31 * b.m12 + a.m32 * b.m22 + a.m33 * b.m32
  m33 := a.m30 * b.m03 + a.m31 * b.m13 + a.m32 * b.m23 + a.m33 * b.m33

instance : Mul Mat4 := ⟨Mat4.mul⟩

/-- Matrix-vector product (models `mat4 * vec4` in glm). -/
def Mat4.mulVec4 (a : Mat4) (v : Vec4) : Vec4 where
  x := a.m00 * v.x + a.m01 * v.y + a.m02 * v.z + a.m03 * v.w
  y := a.m10 * v.x + a.m11 * v.y + a.m12 * v.z + a.m13 * v.w
  z := a.m20 * v.x + a.m21 * v.y + a.m22 * v.z + a.m23 * v.w
  w := a.m30 * v.x + a.m31 * v.y + a.m32 * v.z + a.m33 * v.w

/-- `glm::vec4_to_vec3`. -/
def Vec4.toVec3 (v : Vec4) : Vec3 := ⟨v.x, v.y, v.z⟩

instance : Add Vec3 := ⟨fun a b => ⟨a.x + b.x, a.y + b.y, a.z + b.z⟩⟩

instance : Sub Vec3 := ⟨fun a b => ⟨a.x - b.x, a.y - b.y, a.z - b.z⟩⟩

/-- Componentwise scaling `v * c` (models `glm` scalar multiplication). -/
def Vec3.scale (v : Vec3) (c : ℚ) : Vec3 := ⟨v.x * c, v.y * c, v.z * c⟩

/-- `glm::dot` on 3-vectors. -/
def Vec3.dot (a b : Vec3) : ℚ := a.x * b.x + a.y * b.y + a.z * b.z

/-- Transform component (source: `struct RSGTransformComponent`). -/
structure RSGTransformComponent where
  local_transform : Mat4
  world_transform : Mat4
  deriving DecidableEq, Repr

/-- `RSGTransformComponent::new`: the world transform starts out as the
local transform. -/
def RSGTransformComponent.new (local_transform : Mat4) : RSGTransformComponent :=
  { local_transform := local_transform, world_transform := local_transform }

/-- The transform component table (source: `RSGTransformComponentList`, a
slotmap), modelled as its totalised key-to-value view. -/
abbrev RSGTransformComponentList := Nat → RSGTransformComponent

/-- Opacity component (source: `struct RSGOpacityComponent`). -/
structure RSGOpacityComponent where
  opacity : ℚ
  inherited_opacity : ℚ
  deriving DecidableEq, Repr

/-- `RSGOpacityComponent::new`. -/
def RSGOpacityComponent.new (opacity : ℚ) : RSGOpacityComponent :=
  { opacity := opacity, inherited_opacity := opacity }

/-- The opacity component table (source: `RSGOpacityComponentList`). -/
abbrev RSGOpacityComponentList := Nat → RSGOpacityComponent

/-- Blend state (source: `struct RSGMaterialBlend`); only `blend_enable` is
read by the functions verified here, the remaining factor/op fields are
opaque to them and omitted. -/
structure RSGMaterialBlend where
  blend_enable : Bool
  deriving DecidableEq, Repr

/-- Graphics state (source: `struct RSGMaterialGraphicsState`); only the
blend block is read by the functions verified here. -/
structure RSGMaterialGraphicsState where
  blend : RSGMaterialBlend
  deriving DecidableEq, Repr

/-- Material record (source: `struct RSGMaterial`); only the graphics state
is read by the functions verified here. -/
structure RSGMaterial where
  graphics_state : RSGMaterialGraphicsState
  deriving DecidableEq, Repr

/-- Material data table (source: `RSGMaterialComponentData`, a secondary
map), modelled as its totalised key-to-value view. -/
abbrev RSGMaterialComponentData := Nat → RSGMaterial

/-- Axis-aligned bounding box (source: `struct RSGAabb`). -/
structure RSGAabb where
  minimum : Vec3
  maximum : Vec3
  deriving DecidableEq, Repr

/-- `RSGAabb::center`: `(minimum + maximum) * 0.5`. -/
def RSGAabb.center (b : RSGAabb) : Vec3 := (b.minimum + b.maximum).scale (1 / 2)

/-- Mesh record (source: `struct RSGMesh`); only `bounds_3d` is read by the
functions verified here, the buffer views and submeshes are opaque to
them and omitted. -/
structure RSGMesh where
  bounds_3d : Option RSGAabb
  deriving DecidableEq, Repr

/-- Mesh data table (source: `RSGMeshComponentData`, a secondary map whose
`get` yields an `Option`). -/
abbrev RSGMeshComponentData := Nat → Option RSGMesh

/-- Camera-derived properties (source:
`struct RSGCameraWorldTransformDerivedProperties`). -/
structure RSGCameraWorldTransformDerivedProperties where
  position : Vec3
  direction : Vec3
  deriving DecidableEq, Repr

/-- The component container (source: `struct RSGComponentContainer`),
restricted to the four tables read by the functions verified here (the
material/mesh/layer key-liveness slotmaps are not read by them). -/
structure RSGComponentContainer where
  transforms : RSGTransformComponentList
  opacities : RSGOpacityComponentList
  material_data : RSGMaterialComponentData
  mesh_data : RSGMeshComponentData

/-- The source's `RSGComponentContainer` method is_opaque: false iff the node has an opacity
component with inherited opacity below 1 or a material with blending
enabled. -/
def RSGComponentContainer.is_opaque (c : RSGComponentContainer) (links : RSGComponentLinks) :
    Bool :=
  (match links.opacity_key with
   | some opacity_key => !decide ((c.opacities opacity_key).inherited_opacity < 1)
   | none => true) &&
  (match links.material_key with
   | some material_key => !(c.material_data material_key).graphics_state.blend.blend_enable
   | none => true)

/-- The ancestor lookup of `update_world_transforms`: walk the ancestor
list; the first ancestor carrying a transform component yields its
transform key; a layer-bearing ancestor (without a transform) or chain
exhaustion yields `none`. -/
def ancestorTransformKey (s : RSGScene RSGComponentLinks) : List RSGNodeKey → Option Nat
  | [] => none
  | a :: rest =>
    match (s.get_component_links a).transform_key with
    | some transform_key => some transform_key
    | none =>
      if (s.get_component_links a).layer_key.isSome then none
      else ancestorTransformKey s rest

/-- The per-node body of `update_world_transforms`: recompute one node's
world transform (local times nearest transform-bearing ancestor's world,
identity input at a layer barrier or when no such ancestor exists). -/
def updateNodeWorld (s : RSGScene RSGComponentLinks) (transforms : RSGTransformComponentList)
    (key : RSGNodeKey) : RSGTransformComponentList :=
  match (s.get_component_links key).transform_key with
  | none => transforms
  | some transform_key =>
    let world_transform :=
      match ancestorTransformKey s (s.ancestors key) with
      | some atk => (transforms transform_key).local_transform * (transforms atk).world_transform
      | none => (transforms transform_key).local_transform
    fun k =>
      if k = transform_key then
        { local_transform := (transforms transform_key).local_transform
          world_transform := world_transform }
      else transforms k

/-- `update_world_transforms` (source: free function in components.rs):
for each dirty subtree root, depth-first pre-order recomputation of world
transforms. -/
def update_world_transforms (transform_components : RSGTransformComponentList)
    (s : RSGScene RSGComponentLinks) (subtree_roots : List RSGNodeKey) :
    RSGTransformComponentList :=
  subtree_roots.foldl
    (fun transforms r => ((s.traverse r).map Prod.fst).foldl (updateNodeWorld s) transforms)
    transform_components

/-- The ancestor lookup of `update_inherited_opacities` (same discipline as
the transform pass, matching on opacity components). -/
def ancestorOpacityKey (s : RSGScene RSGComponentLinks) : List RSGNodeKey → Option Nat
  | [] => none
  | a :: rest =>
    match (s.get_component_links a).opacity_key with
    | some opacity_key => some opacity_key
    | none =>
      if (s.get_component_links a).layer_key.isSome then none
      else ancestorOpacityKey s rest

/-- The per-node body of `update_inherited_opacities`. -/
def updateNodeInheritedOpacity (s : RSGScene RSGComponentLinks)
    (opacities : RSGOpacityComponentList) (key : RSGNodeKey) : RSGOpacityComponentList :=
  match (s.get_component_links key).opacity_key with
  | none => opacities
  | some opacity_key =>
    let inherited_opacity :=
      match ancestorOpacityKey s (s.ancestors key) with
      | some aok => (opacities opacity_key).opacity * (opacities aok).inherited_opacity
      | none => (opacities opacity_key).opacity
    fun k =>
      if k = opacity_key then
        { opacity := (opacities opacity_key).opacity
          inherited_opacity := inherited_opacity }
      else opacities k

/-- `update_inherited_opacities` (source: free function in components.rs). -/
def update_inherited_opacities (opacity_components : RSGOpacityComponentList)
    (s : RSGScene RSGComponentLinks) (subtree_roots : List RSGNodeKey) :
    RSGOpacityComponentList :=
  subtree_roots.foldl
    (fun opacities r => ((s.traverse r).map Prod.fst).foldl (updateNodeInheritedOpacity s) opacities)
    opacity_components

/-- `calculate_sorting_distance` (source: free function in components.rs):
projection of the world-space bounds center, relative to the camera
position, onto the camera direction. -/
def calculate_sorting_distance (world_transform : Mat4) (bounds : RSGAabb)
    (camera_properties : RSGCameraWorldTransformDerivedProperties) : ℚ :=
  let center := bounds.center
  let world_center := (world_transform.mulVec4 ⟨center.x, center.y, center.z, 1⟩).toVec3
  Vec3.dot (world_center - camera_properties.position) camera_properties.direction

/-- A render list entry pairs a node key with its sort key (source:
`RSGRenderList = Vec<(RSGNodeKey, f32)>`). -/
abbrev RSGRenderList := List (RSGNodeKey × ℚ)

/-- The binary-search loop of Rust's `slice::binary_search_by`, with the
`Ok`/`Err` results collapsed to the contained index, matching the source's
`unwrap_or_else(|i| i)`.  `fuel` bounds the number of iterations; the
wrapper passes the slice length, which always suffices since the interval
shrinks every iteration. -/
def binary_search_by_go (f : RSGNodeKey × ℚ → Ordering) (l : RSGRenderList) :
    Nat → Nat → Nat → Nat
  | left, _, 0 => left
  | left, right, fuel + 1 =>
    if left < right then
      let mid := left + (right - left) / 2
      match f (l.getD mid (0, 0)) with
      | Ordering.lt => binary_search_by_go f l (mid + 1) right fuel
      | Ordering.gt => binary_search_by_go f l left mid fuel
      | Ordering.eq => mid
    else left

/-- `slice::binary_search_by(f).unwrap_or_else(|i| i)`: the insertion
index used by the source's binary-insertion into the render lists. -/
def binary_search_by (f : RSGNodeKey × ℚ → Ordering) (l : RSGRenderList) : Nat :=
  binary_search_by_go f l 0 l.length l.length

/-- The node-processing loop of `build_render_lists` in 3D mode
(`camera_properties_3d = Some`): for every mesh-bearing node compute the
sorting distance and binary-insert into the opaque (ascending) or alpha
(descending) list.  A `none` result models a panic of one of the source's
`unwrap`s (missing mesh data record, missing transform component, missing
`bounds_3d`). -/
def build_render_lists_3d_go (comps : RSGComponentContainer) (s : RSGScene RSGComponentLinks)
    (cam : RSGCameraWorldTransformDerivedProperties) :
    List RSGNodeKey → RSGRenderList × RSGRenderList → Option (RSGRenderList × RSGRenderList)
  | [], acc => some acc
  | key :: rest, (opaque_list, alpha_list) =>
    let links := s.get_component_links key
    match links.mesh_key with
    | none => build_render_lists_3d_go comps s cam rest (opaque_list, alpha_list)
    | some mesh_key =>
      match comps.mesh_data mesh_key with
      | none => none
      | some mesh_data =>
        match links.transform_key with
        | none => none
        | some transform_key =>
          match mesh_data.bounds_3d with
          | none => none
          | some bounds =>
            let sort_dist := calculate_sorting_distance
              (comps.transforms transform_key).world_transform bounds cam
            if comps.is_opaque links then
              let pos := binary_search_by (fun e => compare e.2 sort_dist) opaque_list
              build_render_lists_3d_go comps s cam rest
                (opaque_list.insertIdx pos (key, sort_dist), alpha_list)
            else
              let pos := binary_search_by (fun e => compare sort_dist e.2) alpha_list
              build_render_lists_3d_go comps s cam rest
                (opaque_list, alpha_list.insertIdx pos (key, sort_dist))

/-- The node-processing loop of `build_render_lists` in 2D mode
(`camera_properties_3d = None`): append `(node, counter)` to the opaque or
alpha list and advance the stacking counter once per mesh-bearing node.  A
`none` result models a panic of the source's mesh-data `unwrap`. -/
def build_render_lists_2d_go (comps : RSGComponentContainer) (s : RSGScene RSGComponentLinks) :
    List RSGNodeKey → Nat → RSGRenderList × RSGRenderList → Option (RSGRenderList × RSGRenderList)
  | [], _, acc => some acc
  | key :: rest, stacking_order_2d, (opaque_list, alpha_list) =>
    let links := s.get_component_links key
    match links.mesh_key with
    | none => build_render_lists_2d_go comps s rest stacking_order_2d (opaque_list, alpha_list)
    | some mesh_key =>
      match comps.mesh_data mesh_key with
      | none => none
      | some _ =>
        if comps.is_opaque links then
          build_render_lists_2d_go comps s rest (stacking_order_2d + 1)
            (opaque_list ++ [(key, (stacking_order_2d : ℚ))], alpha_list)
        else
          build_render_lists_2d_go comps s rest (stacking_order_2d + 1)
            (opaque_list, alpha_list ++ [(key, (stacking_order_2d : ℚ))])

/-- The traversal actually processed by `build_render_lists`: the
depth-first pre-order prefix that ends with (and includes) the first
layer-bearing node other than `start`, since the source checks the layer
component and breaks only after the mesh handling of the current node. -/
def renderCut (s : RSGScene RSGComponentLinks) (start : RSGNodeKey) :
    List RSGNodeKey → List RSGNodeKey
  | [] => []
  | key :: rest =>
    key :: (if (s.get_component_links key).layer_key.isSome && key ≠ start then []
            else renderCut s start rest)

/-- The node keys visited by `build_render_lists` starting at
`start_node_key`. -/
def renderVisit (s : RSGScene RSGComponentLinks) (start_node_key : RSGNodeKey) :
    List RSGNodeKey :=
  renderCut s start_node_key ((s.traverse start_node_key).map Prod.fst)

/-- `build_render_lists` (source: free function in components.rs),
sequentialised: the source moves the opacity/transform tables out to
concurrent refresh tasks and joins each task before its table is first
read, which is observably equivalent to refreshing both tables up front.
Returns the refreshed container and the two lists; `none` models a panic
of one of the source's `unwrap`s. -/
def build_render_lists (components : RSGComponentContainer) (s : RSGScene RSGComponentLinks)
    (start_node_key : RSGNodeKey)
    (camera_properties_3d : Option RSGCameraWorldTransformDerivedProperties)
    (dirty_world_roots dirty_opacity_roots : List RSGNodeKey) :
    Option (RSGComponentContainer × RSGRenderList × RSGRenderList) :=
  let opacities :=
    if dirty_opacity_roots.isEmpty then components.opacities
    else update_inherited_opacities components.opacities s dirty_opacity_roots
  let transforms :=
    if dirty_world_roots.isEmpty then components.transforms
    else update_world_transforms components.transforms s dirty_world_roots
  let comps := { components with opacities := opacities, transforms := transforms }
  let keys := renderVisit s start_node_key
  match camera_properties_3d with
  | some cam =>
    (build_render_lists_3d_go comps s cam keys ([], [])).map
      (fun acc => (comps, acc.1, acc.2))
  | none =>
    (build_render_lists_2d_go comps s keys 0 ([], [])).map
      (fun acc => (comps, acc.1.reverse, acc.2))

/-- All staged node keys of a list of pending (not yet committed or rolled
back) transactions, in order. -/
def pendingKeys (ts : List RSGSubtreeAddTransaction) : List RSGNodeKey :=
  (ts.map RSGSubtreeAddTransaction.stagedKeys).flatten

/-- All five handle references a node stores (parent, first/last child,
prev/next sibling). -/
def nodeRefs {C : Type} (n : RSGNode C) : List RSGNodeKey :=
  [n.parent_key, n.first_child_key, n.last_child_key, n.prev_sibling_key,
    n.next_sibling_key].filterMap id

/-- The child and sibling references of a node (everything but the parent
pointer). -/
def childSibRefs {C : Type} (n : RSGNode C) : List RSGNodeKey :=
  [n.first_child_key, n.last_child_key, n.prev_sibling_key, n.next_sibling_key].filterMap id

/-- The structural invariant of reachable scenes.  `ts` are the pending
transactions and `E` is a scratch list of currently unclassified clean
slots, used while stepping through the middle of a compound operation
(`E = []` at every operation boundary).  Every arena entry is either
linked (its `key` field is set and it has a parent or is the root) or a
clean staged/scratch slot; staged slots are never referenced by any link
field, and the root is never referenced as a child or sibling. -/
structure SceneInvX {C : Type} (s : RSGScene C) (ts : List RSGSubtreeAddTransaction)
    (E : List RSGNodeKey) : Prop where
  a_nodup : (s.arena.map Prod.fst).Nodup
  keys_lt : ∀ p ∈ s.arena, p.1 < s.next
  refs_lt : ∀ p ∈ s.arena, ∀ t ∈ nodeRefs p.2, t < s.next
  root_lt : ∀ r, s.root_key = some r → r < s.next
  root_empty : s.root_key = none → s.arena = []
  classify : ∀ p ∈ s.arena,
    (p.2.key = some p.1 ∧ (p.2.parent_key.isSome = true ∨ s.root_key = some p.1)) ∨
      (p.2.is_clean ∧ (p.1 ∈ pendingKeys ts ∨ p.1 ∈ E))
  pending_nodup : (pendingKeys ts).Nodup
  pending_present : ∀ k ∈ pendingKeys ts, ∃ n, aGet s.arena k = some n ∧ n.is_clean
  root_not_pending : ∀ r, s.root_key = some r → r ∉ pendingKeys ts ∧ r ∉ E
  no_refs : ∀ p ∈ s.arena, ∀ t ∈ nodeRefs p.2, t ∉ pendingKeys ts ∧ t ∉ E
  root_unref : ∀ p ∈ s.arena, ∀ t ∈ childSibRefs p.2, s.root_key ≠ some t
  parents_ok : ∀ txn ∈ ts, ∀ pre e post, txn.entries = pre ++ e :: post →
    (e.1 ∈ pre.map (fun x => x.2.1) ∨ e.1 ∉ pendingKeys ts) ∧ e.1 < s.next

/-- The invariant at operation boundaries. -/
def SceneInv {C : Type} (s : RSGScene C) (ts : List RSGSubtreeAddTransaction) : Prop :=
  SceneInvX s ts []

/-- Sibling/child back-link coherence of an arena, together with a
parent rank `f` (strictly decreasing towards the root, so the parent
graph is acyclic) and a sibling rank `g` (strictly increasing along
`next_sibling` links, so sibling chains are acyclic).  Every reachable
scene's arena satisfies `Coh`; the clauses mirror the pointer structure
the source maintains: siblings are doubly linked and share a parent
field, a first child has no previous sibling, a last child has no next
sibling, a node has a first child iff it has a last child, and a
chain-end child of a live parent is pointed back at by the parent's
`first_child`/`last_child` field. -/
structure ArenaCoh {C : Type} (a : List (RSGNodeKey × RSGNode C))
    (f g : RSGNodeKey → ℚ) : Prop where
  next_coh : ∀ j n, aGet a j = some n → ∀ t, n.next_sibling_key = some t →
    ∃ m, aGet a t = some m ∧ m.prev_sibling_key = some j ∧ m.parent_key = n.parent_key
  prev_coh : ∀ j n, aGet a j = some n → ∀ t, n.prev_sibling_key = some t →
    ∃ m, aGet a t = some m ∧ m.next_sibling_key = some j ∧ m.parent_key = n.parent_key
  first_coh : ∀ j n, aGet a j = some n → ∀ t, n.first_child_key = some t →
    ∃ m, aGet a t = some m ∧ m.prev_sibling_key = none ∧ m.parent_key = some j
  last_coh : ∀ j n, aGet a j = some n → ∀ t, n.last_child_key = some t →
    ∃ m, aGet a t = some m ∧ m.next_sibling_key = none ∧ m.parent_key = some j
  fl_coh : ∀ j n, aGet a j = some n → (n.first_child_key = none ↔ n.last_child_key = none)
  fst_bl : ∀ j n, aGet a j = some n → n.prev_sibling_key = none →
    ∀ q, n.parent_key = some q → ∀ m, aGet a q = some m → m.first_child_key = some j
  lst_bl : ∀ j n, aGet a j = some n → n.next_sibling_key = none →
    ∀ q, n.parent_key = some q → ∀ m, aGet a q = some m → m.last_child_key = some j
  rank_par : ∀ j n, aGet a j = some n → ∀ t, n.parent_key = some t → f t < f j
  rank_sib : ∀ j n, aGet a j = some n → ∀ t, n.next_sibling_key = some t → g j < g t

/-- The link-coherence invariant of a scene (the ranks are ghost data). -/
def Coh {C : Type} (s : RSGScene C) : Prop := ∃ f g, ArenaCoh s.arena f g

/-- Loop invariant of `remove_from_arena`: full coherence except that a
stack member's `prev_sibling` back-link may point at an already freed
slot, and every present stack member is the head of an orphaned chain
(previous sibling gone or never set, parent slot already freed). -/
structure ArenaCohRem {C : Type} (a : List (RSGNodeKey × RSGNode C))
    (f g : RSGNodeKey → ℚ) (stk : List RSGNodeKey) : Prop where
  next_coh : ∀ j n, aGet a j = some n → ∀ t, n.next_sibling_key = some t →
    ∃ m, aGet a t = some m ∧ m.prev_sibling_key = some j ∧ m.parent_key = n.parent_key
  prev_coh : ∀ j n, aGet a j = some n → ∀ t, n.prev_sibling_key = some t →
    (∃ m, aGet a t = some m ∧ m.next_sibling_key = some j ∧ m.parent_key = n.parent_key) ∨
      (j ∈ stk ∧ aGet a t = none)
  first_coh : ∀ j n, aGet a j = some n → ∀ t, n.first_child_key = some t →
    ∃ m, aGet a t = some m ∧ m.prev_sibling_key = none ∧ m.parent_key = some j
  last_coh : ∀ j n, aGet a j = some n → ∀ t, n.last_child_key = some t →
    ∃ m, aGet a t = some m ∧ m.next_sibling_key = none ∧ m.parent_key = some j
  fl_coh : ∀ j n, aGet a j = some n → (n.first_child_key = none ↔ n.last_child_key = none)
  fst_bl : ∀ j n, aGet a j = some n → n.prev_sibling_key = none →
    ∀ q, n.parent_key = some q → ∀ m, aGet a q = some m → m.first_child_key = some j
  lst_bl : ∀ j n, aGet a j = some n → n.next_sibling_key = none →
    ∀ q, n.parent_key = some q → ∀ m, aGet a q = some m → m.last_child_key = some j
  rank_par : ∀ j n, aGet a j = some n → ∀ t, n.parent_key = some t → f t < f j
  rank_sib : ∀ j n, aGet a j = some n → ∀ t, n.next_sibling_key = some t → g j < g t
  stk_ok : ∀ h ∈ stk, ∀ n, aGet a h = some n →
    (n.prev_sibling_key = none ∨ ∃ t, n.prev_sibling_key = some t ∧ aGet a t = none) ∧
    (n.parent_key = none ∨ ∃ q, n.parent_key = some q ∧ aGet a q = none)

/-- Loop invariant of the re-insertion loop of `remove_without_children`
(and of the re-parenting loop of `insert_under`): full coherence except
that the current chain head's `prev_sibling` back-link may be stale. -/
structure ArenaCohIns {C : Type} (a : List (RSGNodeKey × RSGNode C))
    (f g : RSGNodeKey → ℚ) (o : Option RSGNodeKey) : Prop where
  next_coh : ∀ j n, aGet a j = some n → ∀ t, n.next_sibling_key = some t →
    ∃ m, aGet a t = some m ∧ m.prev_sibling_key = some j ∧ m.parent_key = n.parent_key
  prev_coh : ∀ j n, aGet a j = some n → ∀ t, n.prev_sibling_key = some t →
    (∃ m, aGet a t = some m ∧ m.next_sibling_key = some j ∧ m.parent_key = n.parent_key) ∨
      o = some j
  first_coh : ∀ j n, aGet a j = some n → ∀ t, n.first_child_key = some t →
    ∃ m, aGet a t = some m ∧ m.prev_sibling_key = none ∧ m.parent_key = some j
  last_coh : ∀ j n, aGet a j = some n → ∀ t, n.last_child_key = some t →
    ∃ m, aGet a t = some m ∧ m.next_sibling_key = none ∧ m.parent_key = some j
  fl_coh : ∀ j n, aGet a j = some n → (n.first_child_key = none ↔ n.last_child_key = none)
  fst_bl : ∀ j n, aGet a j = some n → n.prev_sibling_key = none →
    ∀ q, n.parent_key = some q → ∀ m, aGet a q = some m → m.first_child_key = some j
  lst_bl : ∀ j n, aGet a j = some n → n.next_sibling_key = none →
    ∀ q, n.parent_key = some q → ∀ m, aGet a q = some m → m.last_child_key = some j
  rank_par : ∀ j n, aGet a j = some n → ∀ t, n.parent_key = some t → f t < f j
  rank_sib : ∀ j n, aGet a j = some n → ∀ t, n.next_sibling_key = some t → g j < g t

/-- The sibling chain of an arena: `IsNextChain a cs o` says that starting
from the optional key `o` and repeatedly following `next_sibling` links
visits exactly the keys `cs` (each present) and then stops at `none`. -/
def IsNextChain {C : Type} (a : List (RSGNodeKey × RSGNode C)) :
    List RSGNodeKey → Option RSGNodeKey → Prop
  | [], o => o = none
  | c :: cs, o => o = some c ∧ ∃ n, aGet a c = some n ∧
      IsNextChain a cs n.next_sibling_key


/-- The identity matrix, for example scenes. -/
def mId : Mat4 := ⟨1,0,0,0, 0,1,0,0, 0,0,1,0, 0,0,0,1⟩

/-- An example component container for concrete witnesses: identity
transforms, opacity 1, no blending, and a mesh record with degenerate
bounds at the origin for every key. -/
def exContainer : RSGComponentContainer where
  transforms := fun _ => RSGTransformComponent.new mId
  opacities := fun _ => RSGOpacityComponent.new 1
  material_data := fun _ => { graphics_state := { blend := { blend_enable := false } } }
  mesh_data := fun _ => some { bounds_3d := some { minimum := ⟨0,0,0⟩, maximum := ⟨0,0,0⟩ } }

/-- A one-node scene whose root carries a mesh component but no transform
component. -/
def exSceneMeshNoTransform : RSGScene RSGComponentLinks where
  arena := [(0, { key := some 0, comp_links := { mesh_key := some 0 } })]
  next := 1
  root_key := some 0

/-- A three-node scene: the root has children 1 (a layer root that also
carries a mesh) and 2. -/
def exSceneLayerChild : RSGScene RSGComponentLinks where
  arena :=
    [(0, { key := some 0, first_child_key := some 1, last_child_key := some 2,
           comp_links := {} }),
     (1, { key := some 1, parent_key := some 0, next_sibling_key := some 2,
           comp_links := { mesh_key := some 0, layer_key := some 0 } }),
     (2, { key := some 2, parent_key := some 0, prev_sibling_key := some 1,
           comp_links := {} })]
  next := 3
  root_key := some 0

/-- A container like `exContainer` but whose opacity slot 5 is translucent
(opacity 4/5). -/
def exContainerAlpha : RSGComponentContainer where
  transforms := fun _ => RSGTransformComponent.new mId
  opacities := fun k => if k = 5 then RSGOpacityComponent.new (4 / 5) else RSGOpacityComponent.new 1
  material_data := fun _ => { graphics_state := { blend := { blend_enable := false } } }
  mesh_data := fun _ => some { bounds_3d := some { minimum := ⟨0,0,0⟩, maximum := ⟨0,0,0⟩ } }

/-- A three-node scene of mesh-bearing nodes: root 0 and children 1 and 2;
node 1 links the translucent opacity slot 5. -/
def exSceneMeshes : RSGScene RSGComponentLinks where
  arena :=
    [(0, { key := some 0, first_child_key := some 1, last_child_key := some 2,
           comp_links := { mesh_key := some 0 } }),
     (1, { key := some 1, parent_key := some 0, next_sibling_key := some 2,
           comp_links := { mesh_key := some 1, opacity_key := some 5 } }),
     (2, { key := some 2, parent_key := some 0, prev_sibling_key := some 1,
           comp_links := { mesh_key := some 2 } })]
  next := 3
  root_key := some 0

/-- A container for 3D examples: node key `k`'s world transform translates
by `-k` along z; opacity slot 5 is translucent. -/
def exContainer3D : RSGComponentContainer where
  transforms := fun k =>
    { local_transform := mId, world_transform := { mId with m23 := -(k : ℚ) } }
  opacities := fun k => if k = 5 then RSGOpacityComponent.new (4 / 5) else RSGOpacityComponent.new 1
  material_data := fun _ => { graphics_state := { blend := { blend_enable := false } } }
  mesh_data := fun _ => some { bounds_3d := some { minimum := ⟨0,0,0⟩, maximum := ⟨0,0,0⟩ } }

/-- A three-node 3D scene: every node has a transform and a mesh; node 1
links the translucent opacity slot 5. -/
def exSceneMeshes3D : RSGScene RSGComponentLinks where
  arena :=
    [(0, { key := some 0, first_child_key := some 1, last_child_key := some 2,
           comp_links := { transform_key := some 0, mesh_key := some 0 } }),
     (1, { key := some 1, parent_key := some 0, next_sibling_key := some 2,
           comp_links := { transform_key := some 1, mesh_key := some 1, opacity_key := some 5 } }),
     (2, { key := some 2, parent_key := some 0, prev_sibling_key := some 1,
           comp_links := { transform_key := some 2, mesh_key := some 2 } })]
  next := 3
  root_key := some 0

/-- A camera at (0, 0, 600) looking along -z. -/
def exCam : RSGCameraWorldTransformDerivedProperties where
  position := ⟨0, 0, 600⟩
  direction := ⟨0, 0, -1⟩

/-- A two-node scene for the transform pass: the root 0 carries transform
slot 0 and its child 1 carries transform slot 1. -/
def exSceneT : RSGScene RSGComponentLinks where
  arena :=
    [(0, { key := some 0, first_child_key := some 1, last_child_key := some 1,
           comp_links := { transform_key := some 0 } }),
     (1, { key := some 1, parent_key := some 0,
           comp_links := { transform_key := some 1 } })]
  next := 2
  root_key := some 0

/-- A transform table for the transform-pass witness: slot `k` starts with a
local translation by `k + 1` along x and an identity world transform. -/
def exTblT : RSGTransformComponentList :=
  fun k => { local_transform := { mId with m03 := (k + 1 : ℚ) }, world_transform := mId }

/-- The source's `self.arena[k].next_sibling_key` read. -/
def nextKeyOf {C : Type} (s : RSGScene C) (k : RSGNodeKey) : Option RSGNodeKey :=
  (aGet s.arena k).bind (·.next_sibling_key)

/-- The source's `self.arena[k].prev_sibling_key` read. -/
def prevKeyOf {C : Type} (s : RSGScene C) (k : RSGNodeKey) : Option RSGNodeKey :=
  (aGet s.arena k).bind (·.prev_sibling_key)

/-- The source's `self.arena[k].parent_key` read. -/
def parentKeyOf {C : Type} (s : RSGScene C) (k : RSGNodeKey) : Option RSGNodeKey :=
  (aGet s.arena k).bind (·.parent_key)

/-- The source's `self.arena[k].first_child_key` read. -/
def firstChildOf {C : Type} (s : RSGScene C) (k : RSGNodeKey) : Option RSGNodeKey :=
  (aGet s.arena k).bind (·.first_child_key)

/-- The source's `self.arena[k].last_child_key` read. -/
def lastChildOf {C : Type} (s : RSGScene C) (k : RSGNodeKey) : Option RSGNodeKey :=
  (aGet s.arena k).bind (·.last_child_key)

/-- `chainNext s cs o`: starting from the optional key `o`, following
`next_sibling` links in `s` enumerates exactly the keys `cs` and then
stops.  This is the access pattern of every sibling-chain `while let` loop
in the source. -/
def chainNext {C : Type} (s : RSGScene C) : List RSGNodeKey → Option RSGNodeKey → Prop
  | [], o => o = none
  | c :: rest, o => o = some c ∧ chainNext s rest (nextKeyOf s c)

def chainNextDec {C : Type} (s : RSGScene C) :
    (cs : List RSGNodeKey) → (o : Option RSGNodeKey) → Decidable (chainNext s cs o)
  | [], o => by unfold chainNext; infer_instance
  | c :: rest, o =>
    have := chainNextDec s rest (nextKeyOf s c)
    by unfold chainNext; infer_instance

instance {C : Type} (s : RSGScene C) (cs : List RSGNodeKey) (o : Option RSGNodeKey) :
    Decidable (chainNext s cs o) := chainNextDec s cs o

/-- The spec's S4 scenario tree `root(N1, N2(N21, N22(N221)), N3)` with keys
`root = 0, N1 = 1, N2 = 2, N3 = 3, N21 = 4, N22 = 5, N221 = 6`. -/
def exSceneS4 : RSGScene Unit where
  arena :=
    [(0, { key := some 0, first_child_key := some 1, last_child_key := some 3,
           comp_links := () }),
     (1, { key := some 1, parent_key := some 0, next_sibling_key := some 2,
           comp_links := () }),
     (2, { key := some 2, parent_key := some 0, prev_sibling_key := some 1,
           next_sibling_key := some 3, first_child_key := some 4, last_child_key := some 5,
           comp_links := () }),
     (3, { key := some 3, parent_key := some 0, prev_sibling_key := some 2,
           comp_links := () }),
     (4, { key := some 4, parent_key := some 2, next_sibling_key := some 5,
           comp_links := () }),
     (5, { key := some 5, parent_key := some 2, prev_sibling_key := some 4,
           first_child_key := some 6, last_child_key := some 6, comp_links := () }),
     (6, { key := some 6, parent_key := some 5, comp_links := () })]
  next := 7
  root_key := some 0

/-- C1, counterexample: `notify` on `Dirty(0, 3)` (TRANSFORM and OPACITY
bits both set) pushes key 0 onto `dirty_world_roots` only — the OPACITY bit
is set, yet `dirty_opacity_roots` stays empty, because the source's match
guards are mutually exclusive and the TRANSFORM arm matches first. -/
theorem C1_dirty_counterexample :
    RSGDirtyFlags.containsBit 3 RSGDirtyFlags.OPACITY = true ∧
    (RSGSceneObserver.notify {} (RSGEvent.Dirty 0 3)).dirty_world_roots = [0] ∧
    (RSGSceneObserver.notify {} (RSGEvent.Dirty 0 3)).dirty_opacity_roots = [] := by
  decide

/-- C1, amended: a `Dirty(k, flags)` notification pushes `k` onto at most
one per-kind list — the first one, in the fixed order TRANSFORM, OPACITY,
MATERIAL, MATERIAL_VALUES, MESH, whose bit is set — and only when `flags`
contains no unknown bits; every other list is left unchanged. -/
theorem C1_dirty_single_list (o : RSGSceneObserver) (k : RSGNodeKey) (f : Nat)
    (hf : f < 2 ^ 32) :
    (RSGSceneObserver.notify o (RSGEvent.Dirty k f)).dirty_world_roots =
      o.dirty_world_roots ++
        (if (RSGDirtyFlags.from_bits f).isSome &&
            RSGDirtyFlags.containsBit f RSGDirtyFlags.TRANSFORM then [k] else []) ∧
    (RSGSceneObserver.notify o (RSGEvent.Dirty k f)).dirty_opacity_roots =
      o.dirty_opacity_roots ++
        (if (RSGDirtyFlags.from_bits f).isSome &&
            !RSGDirtyFlags.containsBit f RSGDirtyFlags.TRANSFORM &&
            RSGDirtyFlags.containsBit f RSGDirtyFlags.OPACITY then [k] else []) ∧
    (RSGSceneObserver.notify o (RSGEvent.Dirty k f)).dirty_material_nodes =
      o.dirty_material_nodes ++
        (if (RSGDirtyFlags.from_bits f).isSome &&
            !RSGDirtyFlags.containsBit f RSGDirtyFlags.TRANSFORM &&
            !RSGDirtyFlags.containsBit f RSGDirtyFlags.OPACITY &&
            RSGDirtyFlags.containsBit f RSGDirtyFlags.MATERIAL then [k] else []) ∧
    (RSGSceneObserver.notify o (RSGEvent.Dirty k f)).dirty_material_value_nodes =
      o.dirty_material_value_nodes ++
        (if (RSGDirtyFlags.from_bits f).isSome &&
            !RSGDirtyFlags.containsBit f RSGDirtyFlags.TRANSFORM &&
            !RSGDirtyFlags.containsBit f RSGDirtyFlags.OPACITY &&
            !RSGDirtyFlags.containsBit f RSGDirtyFlags.MATERIAL &&
            RSGDirtyFlags.containsBit f RSGDirtyFlags.MATERIAL_VALUES then [k] else []) ∧
    (RSGSceneObserver.notify o (RSGEvent.Dirty k f)).dirty_mesh_nodes =
      o.dirty_mesh_nodes ++
        (if (RSGDirtyFlags.from_bits f).isSome &&
            !RSGDirtyFlags.containsBit f RSGDirtyFlags.TRANSFORM &&
            !RSGDirtyFlags.containsBit f RSGDirtyFlags.OPACITY &&
            !RSGDirtyFlags.containsBit f RSGDirtyFlags.MATERIAL &&
            !RSGDirtyFlags.containsBit f RSGDirtyFlags.MATERIAL_VALUES &&
            RSGDirtyFlags.containsBit f RSGDirtyFlags.MESH then [k] else []) := by
  by_cases hv : f &&& 0x1f = f
  · by_cases h1 : RSGDirtyFlags.containsBit f RSGDirtyFlags.TRANSFORM <;>
      by_cases h2 : RSGDirtyFlags.containsBit f RSGDirtyFlags.OPACITY <;>
      by_cases h3 : RSGDirtyFlags.containsBit f RSGDirtyFlags.MATERIAL <;>
      by_cases h4 : RSGDirtyFlags.containsBit f RSGDirtyFlags.MATERIAL_VALUES <;>
      by_cases h5 : RSGDirtyFlags.containsBit f RSGDirtyFlags.MESH <;>
      simp [RSGSceneObserver.notify, RSGDirtyFlags.from_bits, hv, h1, h2, h3, h4, h5]
  · simp [RSGSceneObserver.notify, RSGDirtyFlags.from_bits, hv]

/-- C1, witness for the amended theorem at `o = {}`, `k = 5`,
`f = OPACITY ||| MESH = 0x12`: the key goes onto `dirty_opacity_roots`
alone. -/
theorem C1_dirty_single_list_witness :
    (RSGSceneObserver.notify {} (RSGEvent.Dirty 5 0x12)).dirty_opacity_roots = [5] ∧
    (RSGSceneObserver.notify {} (RSGEvent.Dirty 5 0x12)).dirty_mesh_nodes = [] := by
  have h := C1_dirty_single_list {} 5 0x12 (by norm_num)
  refine ⟨?_, ?_⟩
  · rw [h.2.1]; decide
  · rw [h.2.2.2.2]; decide

theorem aGet_aRemove {C : Type} (a : List (RSGNodeKey × RSGNode C)) (k j : RSGNodeKey) :
    aGet (aRemove a k) j = if j = k then none else aGet a j := by
  induction a with
  | nil => simp [aRemove, aGet]
  | cons p rest ih =>
    obtain ⟨pk, pn⟩ := p
    by_cases hpk : pk = k <;> by_cases hpj : pk = j <;>
      simp_all [aRemove, aGet, List.filter_cons]

theorem aGet_aModify {C : Type} (a : List (RSGNodeKey × RSGNode C)) (k j : RSGNodeKey)
    (f : RSGNode C → RSGNode C) :
    aGet (aModify a k f) j = if j = k then (aGet a k).map f else aGet a j := by
  induction a with
  | nil => simp [aModify, aGet]
  | cons p rest ih =>
    obtain ⟨pk, pn⟩ := p
    show aGet ((if pk = k then (pk, f pn) else (pk, pn)) :: aModify rest k f) j = _
    by_cases hpk : pk = k
    · rw [if_pos hpk]
      subst hpk
      by_cases hpj : pk = j
      · subst hpj
        simp [aGet]
      · have h1 : ¬j = pk := fun h => hpj h.symm
        simp only [aGet, if_neg hpj, if_neg h1, ih]
    · rw [if_neg hpk]
      by_cases hpj : pk = j
      · subst hpj
        simp [aGet, if_neg hpk]
      · by_cases hjk : j = k
        · subst hjk
          simp only [aGet, if_neg hpj, if_neg hpk, ih, if_pos rfl]
        · simp only [aGet, if_neg hpj, if_neg hjk, ih]

theorem aGet_appendEntry {C : Type} (a : List (RSGNodeKey × RSGNode C)) (k j : RSGNodeKey)
    (n : RSGNode C) :
    aGet (a ++ [(k, n)]) j =
      match aGet a j with
      | some m => some m
      | none => if k = j then some n else none := by
  induction a with
  | nil => simp [aGet]
  | cons p rest ih =>
    obtain ⟨pk, pn⟩ := p
    by_cases hpj : pk = j <;> simp_all [aGet]

theorem rollback_fold_get {C : Type} (entries : List (RSGNodeKey × RSGNodeKey × RSGSubtreeAddOp))
    (s : RSGScene C) (k : RSGNodeKey) :
    aGet ((entries.foldl (fun s e => { s with arena := aRemove s.arena e.2.1 }) s).arena) k =
      if k ∈ entries.map (fun e => e.2.1) then none else aGet s.arena k := by
  induction entries generalizing s with
  | nil => simp
  | cons e rest ih =>
    simp only [List.foldl_cons, List.map_cons, List.mem_cons]
    rw [ih]
    by_cases h1 : k ∈ rest.map (fun e => e.2.1) <;>
      by_cases h2 : k = e.2.1 <;> simp [h1, h2, aGet_aRemove]

theorem rollback_fold_root {C : Type}
    (entries : List (RSGNodeKey × RSGNodeKey × RSGSubtreeAddOp)) (s : RSGScene C) :
    (entries.foldl (fun s e => { s with arena := aRemove s.arena e.2.1 }) s).root_key =
      s.root_key := by
  induction entries generalizing s with
  | nil => rfl
  | cons e rest ih => simp only [List.foldl_cons]; exact ih _

/-- C5: `rollback` frees every staged slot without linking: afterwards no
handle staged by the transaction is valid, no event is emitted, and every
other node's arena entry — all its parent/child/sibling links included —
and the scene root are unchanged. -/
theorem C5_rollback_frees_staged {C : Type} (s : RSGScene C)
    (txn : RSGSubtreeAddTransaction) :
    (s.rollback txn).2 = [] ∧
    (∀ e ∈ txn.entries, (s.rollback txn).1.is_valid e.2.1 = false) ∧
    (∀ k, k ∉ txn.stagedKeys → aGet (s.rollback txn).1.arena k = aGet s.arena k) ∧
    (s.rollback txn).1.root_key = s.root_key := by
  refine ⟨rfl, ?_, ?_, rollback_fold_root _ _⟩
  · intro e he
    have h := rollback_fold_get txn.entries s e.2.1
    rw [if_pos (List.mem_map.mpr ⟨e, he, rfl⟩)] at h
    simp [RSGScene.rollback, RSGScene.is_valid, h]
  · intro k hk
    have h := rollback_fold_get txn.entries s k
    have hk' : k ∉ List.map (fun e => e.2.1) txn.entries := hk
    rw [if_neg hk'] at h
    exact h

/-- C5, witness: a two-node scene (root plus one staged slot) with a
one-entry transaction; rollback invalidates the staged handle and leaves
the root entry untouched. -/
theorem C5_rollback_frees_staged_witness :
    (((⟨[(0, { key := some 0, comp_links := () }), (1, { comp_links := () })], 2,
        some 0⟩ : RSGScene Unit).rollback
        ⟨[(0, 1, RSGSubtreeAddOp.Append)]⟩).1.is_valid 1 = false) ∧
    (aGet (((⟨[(0, { key := some 0, comp_links := () }), (1, { comp_links := () })], 2,
        some 0⟩ : RSGScene Unit).rollback
        ⟨[(0, 1, RSGSubtreeAddOp.Append)]⟩).1.arena) 0 =
      aGet [(0, ({ key := some 0, comp_links := () } : RSGNode Unit)),
        (1, { comp_links := () })] 0) := by
  constructor
  · exact (C5_rollback_frees_staged _ _).2.1 (0, 1, RSGSubtreeAddOp.Append) (by decide)
  · exact (C5_rollback_frees_staged
      (⟨[(0, { key := some 0, comp_links := () }), (1, { comp_links := () })], 2,
        some 0⟩ : RSGScene Unit) ⟨[(0, 1, RSGSubtreeAddOp.Append)]⟩).2.2.1 0 (by decide)

theorem append_impl_get_isSome {C : Type} (s : RSGScene C) (p k j : RSGNodeKey) :
    (aGet (s.append_impl p k).arena j).isSome = (aGet s.arena j).isSome := by
  unfold RSGScene.append_impl
  cases hol : (aGet s.arena p).bind (fun n => n.last_child_key) with
  | none =>
    simp only [hol, aGet_aModify]
    split_ifs <;> simp_all
  | some ol =>
    simp only [hol, aGet_aModify]
    split_ifs <;> simp_all

theorem prepend_impl_get_isSome {C : Type} (s : RSGScene C) (p k j : RSGNodeKey) :
    (aGet (s.prepend_impl p k).arena j).isSome = (aGet s.arena j).isSome := by
  unfold RSGScene.prepend_impl
  cases hol : (aGet s.arena p).bind (fun n => n.first_child_key) with
  | none =>
    simp only [hol, aGet_aModify]
    split_ifs <;> simp_all
  | some f =>
    simp only [hol, aGet_aModify]
    split_ifs <;> simp_all

theorem append_impl_parent_isSome {C : Type} (s : RSGScene C) (p k j : RSGNodeKey)
    (h : ∃ n, aGet s.arena j = some n ∧ n.parent_key.isSome = true) :
    ∃ n', aGet (s.append_impl p k).arena j = some n' ∧ n'.parent_key.isSome = true := by
  obtain ⟨n, hn, hp⟩ := h
  unfold RSGScene.append_impl
  cases hol : (aGet s.arena p).bind (fun n => n.last_child_key) with
  | none =>
    simp only [hol, aGet_aModify]
    split_ifs <;> simp_all
  | some ol =>
    simp only [hol, aGet_aModify]
    split_ifs <;> simp_all

theorem prepend_impl_parent_isSome {C : Type} (s : RSGScene C) (p k j : RSGNodeKey)
    (h : ∃ n, aGet s.arena j = some n ∧ n.parent_key.isSome = true) :
    ∃ n', aGet (s.prepend_impl p k).arena j = some n' ∧ n'.parent_key.isSome = true := by
  obtain ⟨n, hn, hp⟩ := h
  unfold RSGScene.prepend_impl
  cases hol : (aGet s.arena p).bind (fun n => n.first_child_key) with
  | none =>
    simp only [hol, aGet_aModify]
    split_ifs <;> simp_all
  | some f =>
    simp only [hol, aGet_aModify]
    split_ifs <;> simp_all

theorem append_impl_links_node {C : Type} (s : RSGScene C) (p k : RSGNodeKey)
    (h : (aGet s.arena k).isSome = true) :
    ∃ n', aGet (s.append_impl p k).arena k = some n' ∧ n'.parent_key.isSome = true := by
  unfold RSGScene.append_impl
  cases hk : aGet s.arena k with
  | none => rw [hk] at h; simp at h
  | some n =>
    cases hol : (aGet s.arena p).bind (fun n => n.last_child_key) with
    | none =>
      simp only [hol, aGet_aModify, if_pos rfl]
      by_cases hkp : k = p <;> simp [hkp, hk] at hk ⊢ <;> simp [hk]
    | some ol =>
      simp only [hol, aGet_aModify]
      by_cases hkol : k = ol <;> by_cases hkp : k = p <;> by_cases holp : ol = p <;>
        simp_all

theorem prepend_impl_links_node {C : Type} (s : RSGScene C) (p k : RSGNodeKey)
    (h : (aGet s.arena k).isSome = true) :
    ∃ n', aGet (s.prepend_impl p k).arena k = some n' ∧ n'.parent_key.isSome = true := by
  unfold RSGScene.prepend_impl
  cases hk : aGet s.arena k with
  | none => rw [hk] at h; simp at h
  | some n =>
    cases hol : (aGet s.arena p).bind (fun n => n.first_child_key) with
    | none =>
      simp only [hol, aGet_aModify, if_pos rfl]
      by_cases hkp : k = p <;> simp [hkp, hk] at hk ⊢ <;> simp [hk]
    | some f =>
      simp only [hol, aGet_aModify]
      by_cases hkol : k = f <;> by_cases hkp : k = p <;> by_cases holp : f = p <;>
        simp_all

theorem commit_fold_isSome {C : Type}
    (entries : List (RSGNodeKey × RSGNodeKey × RSGSubtreeAddOp)) (s : RSGScene C)
    (j : RSGNodeKey) :
    (aGet ((entries.foldl (fun s e =>
      match e.2.2 with
      | RSGSubtreeAddOp.Append => s.append_impl e.1 e.2.1
      | RSGSubtreeAddOp.Prepend => s.prepend_impl e.1 e.2.1) s).arena) j).isSome =
      (aGet s.arena j).isSome := by
  induction entries generalizing s with
  | nil => rfl
  | cons e rest ih =>
    simp only [List.foldl_cons]
    cases e.2.2 with
    | Append => rw [ih, append_impl_get_isSome]
    | Prepend => rw [ih, prepend_impl_get_isSome]

theorem commit_fold_parent_isSome {C : Type}
    (entries : List (RSGNodeKey × RSGNodeKey × RSGSubtreeAddOp)) (s : RSGScene C)
    (j : RSGNodeKey) (h : ∃ n, aGet s.arena j = some n ∧ n.parent_key.isSome = true) :
    ∃ n', aGet ((entries.foldl (fun s e =>
      match e.2.2 with
      | RSGSubtreeAddOp.Append => s.append_impl e.1 e.2.1
      | RSGSubtreeAddOp.Prepend => s.prepend_impl e.1 e.2.1) s).arena) j = some n' ∧
      n'.parent_key.isSome = true := by
  induction entries generalizing s with
  | nil => exact h
  | cons e rest ih =>
    simp only [List.foldl_cons]
    cases e.2.2 with
    | Append => exact ih _ (append_impl_parent_isSome _ _ _ _ h)
    | Prepend => exact ih _ (prepend_impl_parent_isSome _ _ _ _ h)

theorem commit_fold_valid {C : Type}
    (entries : List (RSGNodeKey × RSGNodeKey × RSGSubtreeAddOp)) (s : RSGScene C)
    (hpres : ∀ e ∈ entries, (aGet s.arena e.2.1).isSome = true) :
    ∀ e ∈ entries, ∃ n', aGet ((entries.foldl (fun s e =>
      match e.2.2 with
      | RSGSubtreeAddOp.Append => s.append_impl e.1 e.2.1
      | RSGSubtreeAddOp.Prepend => s.prepend_impl e.1 e.2.1) s).arena) e.2.1 = some n' ∧
      n'.parent_key.isSome = true := by
  induction entries generalizing s with
  | nil => intro e he; cases he
  | cons e0 rest ih =>
    intro e he
    simp only [List.foldl_cons]
    rcases List.mem_cons.mp he with he0 | herest
    · subst he0
      cases h0 : e.2.2 with
      | Append =>
        refine commit_fold_parent_isSome rest _ _ ?_
        have := append_impl_links_node s e.1 e.2.1 (hpres e (List.mem_cons_self _ _))
        simpa [h0] using this
      | Prepend =>
        refine commit_fold_parent_isSome rest _ _ ?_
        have := prepend_impl_links_node s e.1 e.2.1 (hpres e (List.mem_cons_self _ _))
        simpa [h0] using this
    · cases h0 : e0.2.2 with
      | Append =>
        refine ih _ ?_ e herest
        intro e' he'
        rw [append_impl_get_isSome]
        exact hpres e' (List.mem_cons_of_mem _ he')
      | Prepend =>
        refine ih _ ?_ e herest
        intro e' he'
        rw [prepend_impl_get_isSome]
        exact hpres e' (List.mem_cons_of_mem _ he')

/-- C4: committing a non-empty subtree-add transaction links every staged
node (applying the recorded operations in recording order, which is the
definition of `commit`); afterwards every handle staged by the transaction
is valid, and exactly one event is emitted for the whole commit: a single
`SubtreeAddedOrReattached` carrying the first-staged handle. -/
theorem C4_commit_links_all_staged {C : Type} (s : RSGScene C)
    (txn : RSGSubtreeAddTransaction) (hne : txn.entries ≠ [])
    (hpres : ∀ e ∈ txn.entries, (aGet s.arena e.2.1).isSome = true) :
    (s.commit txn).2 = [RSGEvent.SubtreeAddedOrReattached ((txn.entries.head hne).2.1)] ∧
    ∀ e ∈ txn.entries, (s.commit txn).1.is_valid e.2.1 = true := by
  obtain ⟨e0, rest, h⟩ := List.exists_cons_of_ne_nil hne
  constructor
  · simp [RSGScene.commit, h]
  · intro e he
    have hx := commit_fold_valid txn.entries s hpres e he
    obtain ⟨n', hn', hp⟩ := hx
    rw [h] at hn'
    simp only [RSGScene.commit, h, List.head?_cons]
    simp only [RSGScene.is_valid, hn', hp]
    simp

/-- C4, witness: a root scene with two staged nodes `1` (under the root)
and `2` (under `1`); the commit emits the single event for handle `1` and
both staged handles are valid afterwards. -/
theorem C4_commit_links_all_staged_witness :
    ((⟨[(0, { key := some 0, comp_links := () }), (1, { comp_links := () }),
        (2, { comp_links := () })], 3, some 0⟩ : RSGScene Unit).commit
        ⟨[(0, 1, RSGSubtreeAddOp.Append), (1, 2, RSGSubtreeAddOp.Append)]⟩).2 =
      [RSGEvent.SubtreeAddedOrReattached 1] ∧
    ((⟨[(0, { key := some 0, comp_links := () }), (1, { comp_links := () }),
        (2, { comp_links := () })], 3, some 0⟩ : RSGScene Unit).commit
        ⟨[(0, 1, RSGSubtreeAddOp.Append), (1, 2, RSGSubtreeAddOp.Append)]⟩).1.is_valid 2 =
      true := by
  have h := C4_commit_links_all_staged
    (⟨[(0, { key := some 0, comp_links := () }), (1, { comp_links := () }),
      (2, { comp_links := () })], 3, some 0⟩ : RSGScene Unit)
    ⟨[(0, 1, RSGSubtreeAddOp.Append), (1, 2, RSGSubtreeAddOp.Append)]⟩
    (by decide) (by decide)
  exact ⟨h.1, h.2 (1, 2, RSGSubtreeAddOp.Append) (by decide)⟩

theorem build3d_go_none {comps : RSGComponentContainer} {s : RSGScene RSGComponentLinks}
    {cam : RSGCameraWorldTransformDerivedProperties} {k : RSGNodeKey}
    (hmesh : (s.get_component_links k).mesh_key.isSome = true)
    (htrans : (s.get_component_links k).transform_key = none) :
    ∀ l, k ∈ l → ∀ acc, build_render_lists_3d_go comps s cam l acc = none := by
  intro l
  induction l with
  | nil => intro hk; cases hk
  | cons k0 rest ih =>
    intro hk acc
    obtain ⟨o, a⟩ := acc
    rcases List.mem_cons.mp hk with hk0 | hkrest
    · subst hk0
      simp only [build_render_lists_3d_go]
      cases hm : (s.get_component_links k).mesh_key with
      | none => rw [hm] at hmesh; simp at hmesh
      | some mesh_key =>
        cases hmd : comps.mesh_data mesh_key with
        | none => simp [hmd]
        | some md => simp [hmd, htrans]
    · simp only [build_render_lists_3d_go]
      cases hm : (s.get_component_links k0).mesh_key with
      | none => exact ih hkrest (o, a)
      | some mesh_key =>
        cases hmd : comps.mesh_data mesh_key with
        | none => simp [hmd]
        | some md =>
          cases ht : (s.get_component_links k0).transform_key with
          | none => simp [hmd, ht]
          | some tk =>
            cases hb : md.bounds_3d with
            | none => simp [hmd, ht, hb]
            | some bounds =>
              by_cases hop : comps.is_opaque (s.get_component_links k0) = true <;>
                simp only [hmd, ht, hb, hop, if_true, if_false, Bool.false_eq_true] <;>
                exact ih hkrest _

/-- C9: in 3D mode (`camera_properties_3d = Some`), every mesh-bearing node
reached by the traversal must also carry a transform component: the source
unwraps `links.transform_key`, so a reached mesh-bearing node without a
transform component makes `build_render_lists` panic (modelled as `none`),
whatever the rest of the scene holds. -/
theorem C9_mesh_node_needs_transform_3d (components : RSGComponentContainer)
    (s : RSGScene RSGComponentLinks) (start_node_key : RSGNodeKey)
    (cam : RSGCameraWorldTransformDerivedProperties)
    (dirty_world_roots dirty_opacity_roots : List RSGNodeKey) (k : RSGNodeKey)
    (hvis : k ∈ renderVisit s start_node_key)
    (hmesh : (s.get_component_links k).mesh_key.isSome = true)
    (htrans : (s.get_component_links k).transform_key = none) :
    build_render_lists components s start_node_key (some cam)
      dirty_world_roots dirty_opacity_roots = none := by
  simp only [build_render_lists]
  rw [build3d_go_none hmesh htrans _ hvis]
  rfl

/-- C9, witness: a root node carrying a mesh but no transform makes the 3D
build panic. -/
theorem C9_mesh_node_needs_transform_3d_witness :
    build_render_lists exContainer exSceneMeshNoTransform 0
      (some { position := ⟨0,0,0⟩, direction := ⟨0,0,-1⟩ }) [] [] = none :=
  C9_mesh_node_needs_transform_3d exContainer exSceneMeshNoTransform 0
    { position := ⟨0,0,0⟩, direction := ⟨0,0,-1⟩ } [] [] 0
    (by decide) (by decide) (by decide)

theorem binary_search_by_go_le (f : RSGNodeKey × ℚ → Ordering) (l : RSGRenderList) :
    ∀ fuel left right, left ≤ right → binary_search_by_go f l left right fuel ≤ right := by
  intro fuel
  induction fuel with
  | zero => intro left right h; exact h
  | succ fuel ih =>
    intro left right h
    simp only [binary_search_by_go]
    by_cases hlt : left < right
    · rw [if_pos hlt]
      cases f (l.getD (left + (right - left) / 2) (0, 0)) with
      | lt => exact ih (left + (right - left) / 2 + 1) right (by omega)
      | gt => exact le_trans (ih left (left + (right - left) / 2) (by omega)) (by omega)
      | eq => show left + (right - left) / 2 ≤ right; omega
    · rw [if_neg hlt]; exact h

theorem binary_search_by_le (f : RSGNodeKey × ℚ → Ordering) (l : RSGRenderList) :
    binary_search_by f l ≤ l.length :=
  binary_search_by_go_le f l l.length 0 l.length (Nat.zero_le _)

theorem build3d_go_mono {comps : RSGComponentContainer} {s : RSGScene RSGComponentLinks}
    {cam : RSGCameraWorldTransformDerivedProperties} :
    ∀ l acc res, build_render_lists_3d_go comps s cam l acc = some res →
      ∀ x, (x ∈ acc.1 → x ∈ res.1) ∧ (x ∈ acc.2 → x ∈ res.2) := by
  intro l
  induction l with
  | nil =>
    intro acc res h x
    simp only [build_render_lists_3d_go, Option.some.injEq] at h
    subst h
    exact ⟨id, id⟩
  | cons k0 rest ih =>
    intro acc res h x
    obtain ⟨o, a⟩ := acc
    simp only [build_render_lists_3d_go] at h
    split at h
    · exact ih _ _ h x
    · split at h
      · cases h
      · split at h
        · cases h
        · split at h
          · cases h
          · split at h
            · have hmono := ih _ _ h x
              refine ⟨fun hx => hmono.1 ?_, fun hx => hmono.2 hx⟩
              exact (List.mem_insertIdx (binary_search_by_le _ _)).mpr (Or.inr hx)
            · have hmono := ih _ _ h x
              refine ⟨fun hx => hmono.1 hx, fun hx => hmono.2 ?_⟩
              exact (List.mem_insertIdx (binary_search_by_le _ _)).mpr (Or.inr hx)

theorem build3d_go_mem {comps : RSGComponentContainer} {s : RSGScene RSGComponentLinks}
    {cam : RSGCameraWorldTransformDerivedProperties} {k : RSGNodeKey}
    (hmesh : (s.get_component_links k).mesh_key.isSome = true) :
    ∀ l acc res, build_render_lists_3d_go comps s cam l acc = some res → k ∈ l →
      k ∈ (res.1 ++ res.2).map Prod.fst := by
  intro l
  induction l with
  | nil => intro acc res h hk; cases hk
  | cons k0 rest ih =>
    intro acc res h hk
    obtain ⟨o, a⟩ := acc
    rcases List.mem_cons.mp hk with hk0 | hkrest
    · subst hk0
      simp only [build_render_lists_3d_go] at h
      cases hm : (s.get_component_links k).mesh_key with
      | none => rw [hm] at hmesh; simp at hmesh
      | some mesh_key =>
        rw [hm] at h
        simp only [] at h
        cases hmd : comps.mesh_data mesh_key with
        | none => rw [hmd] at h; simp at h
        | some md =>
          rw [hmd] at h
          simp only [] at h
          cases ht : (s.get_component_links k).transform_key with
          | none => rw [ht] at h; simp at h
          | some tk =>
            rw [ht] at h
            simp only [] at h
            cases hb : md.bounds_3d with
            | none => rw [hb] at h; simp at h
            | some bounds =>
              rw [hb] at h
              simp only [] at h
              by_cases hop : comps.is_opaque (s.get_component_links k) = true
              · rw [if_pos hop] at h
                have hmono := (build3d_go_mono rest _ res h
                  (k, calculate_sorting_distance (comps.transforms tk).world_transform
                    bounds cam)).1
                have hin := hmono ((List.mem_insertIdx
                  (binary_search_by_le _ _)).mpr (Or.inl rfl))
                exact List.mem_map.mpr ⟨_, List.mem_append.mpr (Or.inl hin), rfl⟩
              · rw [if_neg hop] at h
                have hmono := (build3d_go_mono rest _ res h
                  (k, calculate_sorting_distance (comps.transforms tk).world_transform
                    bounds cam)).2
                have hin := hmono ((List.mem_insertIdx
                  (binary_search_by_le _ _)).mpr (Or.inl rfl))
                exact List.mem_map.mpr ⟨_, List.mem_append.mpr (Or.inr hin), rfl⟩
    · simp only [build_render_lists_3d_go] at h
      split at h
      · exact ih _ _ h hkrest
      · split at h
        · cases h
        · split at h
          · cases h
          · split at h
            · cases h
            · split at h
              · exact ih _ _ h hkrest
              · exact ih _ _ h hkrest

theorem build2d_go_mono {comps : RSGComponentContainer} {s : RSGScene RSGComponentLinks} :
    ∀ l cnt acc res, build_render_lists_2d_go comps s l cnt acc = some res →
      ∀ x, (x ∈ acc.1 → x ∈ res.1) ∧ (x ∈ acc.2 → x ∈ res.2) := by
  intro l
  induction l with
  | nil =>
    intro cnt acc res h x
    simp only [build_render_lists_2d_go, Option.some.injEq] at h
    subst h
    exact ⟨id, id⟩
  | cons k0 rest ih =>
    intro cnt acc res h x
    obtain ⟨o, a⟩ := acc
    simp only [build_render_lists_2d_go] at h
    split at h
    · exact ih _ _ _ h x
    · split at h
      · cases h
      · split at h
        · have hmono := ih _ _ _ h x
          exact ⟨fun hx => hmono.1 (List.mem_append.mpr (Or.inl hx)), hmono.2⟩
        · have hmono := ih _ _ _ h x
          exact ⟨hmono.1, fun hx => hmono.2 (List.mem_append.mpr (Or.inl hx))⟩

theorem build2d_go_mem {comps : RSGComponentContainer} {s : RSGScene RSGComponentLinks}
    {k : RSGNodeKey} (hmesh : (s.get_component_links k).mesh_key.isSome = true) :
    ∀ l cnt acc res, build_render_lists_2d_go comps s l cnt acc = some res → k ∈ l →
      k ∈ (res.1 ++ res.2).map Prod.fst := by
  intro l
  induction l with
  | nil => intro cnt acc res h hk; cases hk
  | cons k0 rest ih =>
    intro cnt acc res h hk
    obtain ⟨o, a⟩ := acc
    rcases List.mem_cons.mp hk with hk0 | hkrest
    · subst hk0
      simp only [build_render_lists_2d_go] at h
      cases hm : (s.get_component_links k).mesh_key with
      | none => rw [hm] at hmesh; simp at hmesh
      | some mesh_key =>
        rw [hm] at h
        simp only [] at h
        cases hmd : comps.mesh_data mesh_key with
        | none => rw [hmd] at h; simp at h
        | some md =>
          rw [hmd] at h
          simp only [] at h
          by_cases hop : comps.is_opaque (s.get_component_links k) = true
          · rw [if_pos hop] at h
            have hin := (build2d_go_mono rest _ _ res h (k, (cnt : ℚ))).1
              (List.mem_append.mpr (Or.inr (List.mem_singleton.mpr rfl)))
            exact List.mem_map.mpr ⟨_, List.mem_append.mpr (Or.inl hin), rfl⟩
          · rw [if_neg hop] at h
            have hin := (build2d_go_mono rest _ _ res h (k, (cnt : ℚ))).2
              (List.mem_append.mpr (Or.inr (List.mem_singleton.mpr rfl)))
            exact List.mem_map.mpr ⟨_, List.mem_append.mpr (Or.inr hin), rfl⟩
    · simp only [build_render_lists_2d_go] at h
      split at h
      · exact ih _ _ _ h hkrest
      · split at h
        · cases h
        · split at h
          · exact ih _ _ _ h hkrest
          · exact ih _ _ _ h hkrest

theorem renderCut_break {s : RSGScene RSGComponentLinks} {start k : RSGNodeKey}
    (hlayer : (s.get_component_links k).layer_key.isSome = true) (hne : k ≠ start) :
    ∀ l1 l2, (∀ j ∈ l1, (s.get_component_links j).layer_key.isSome = true → j = start) →
      renderCut s start (l1 ++ k :: l2) = l1 ++ [k] := by
  intro l1
  induction l1 with
  | nil =>
    intro l2 _
    simp [renderCut, hlayer, hne]
  | cons j rest ih =>
    intro l2 hfirst
    simp only [List.cons_append, renderCut]
    have hcond : ¬((s.get_component_links j).layer_key.isSome && j ≠ start) = true := by
      by_cases hj : (s.get_component_links j).layer_key.isSome = true
      · have := hfirst j (List.mem_cons_self _ _) hj
        simp [this]
      · simp at hj
        simp [hj]
    rw [if_neg hcond]
    show j :: renderCut s start (rest ++ k :: l2) = j :: (rest ++ [k])
    rw [ih l2 (fun j' hj' => hfirst j' (List.mem_cons_of_mem _ hj'))]

/-- C10: when the traversal of `build_render_lists` reaches a layer-bearing
node `k` other than the start node, `k` itself is still processed before the
traversal terminates: the visited prefix is exactly the nodes up to and
including `k`, and if `k` also carries a mesh component then (whenever the
build completes) `k`'s entry lands in one of the two render lists — the
mesh handling precedes the layer-termination check — in both the 3D and the
2D mode. -/
theorem C10_layer_node_still_processed (components : RSGComponentContainer)
    (s : RSGScene RSGComponentLinks) (start_node_key k : RSGNodeKey)
    (l1 l2 : List RSGNodeKey)
    (hsplit : (s.traverse start_node_key).map Prod.fst = l1 ++ k :: l2)
    (hlayer : (s.get_component_links k).layer_key.isSome = true)
    (hne : k ≠ start_node_key)
    (hfirst : ∀ j ∈ l1, (s.get_component_links j).layer_key.isSome = true →
      j = start_node_key) :
    renderVisit s start_node_key = l1 ++ [k] ∧
    (∀ cam dirty_world_roots dirty_opacity_roots res,
      build_render_lists components s start_node_key (some cam)
        dirty_world_roots dirty_opacity_roots = some res →
      (s.get_component_links k).mesh_key.isSome = true →
      k ∈ (res.2.1 ++ res.2.2).map Prod.fst) ∧
    (∀ dirty_world_roots dirty_opacity_roots res,
      build_render_lists components s start_node_key none
        dirty_world_roots dirty_opacity_roots = some res →
      (s.get_component_links k).mesh_key.isSome = true →
      k ∈ (res.2.1 ++ res.2.2).map Prod.fst) := by
  have hvisit : renderVisit s start_node_key = l1 ++ [k] := by
    unfold renderVisit
    rw [hsplit]
    exact renderCut_break hlayer hne l1 l2 hfirst
  have hkvis : k ∈ renderVisit s start_node_key := by
    rw [hvisit]; exact List.mem_append.mpr (Or.inr (List.mem_singleton.mpr rfl))
  refine ⟨hvisit, ?_, ?_⟩
  · intro cam dw dop res h hmesh
    simp only [build_render_lists] at h
    cases hgo : build_render_lists_3d_go
      { components with
        opacities := if dop.isEmpty = true then components.opacities
          else update_inherited_opacities components.opacities s dop
        transforms := if dw.isEmpty = true then components.transforms
          else update_world_transforms components.transforms s dw } s cam
      (renderVisit s start_node_key) ([], []) with
    | none => rw [hgo] at h; cases h
    | some res' =>
      rw [hgo] at h
      simp only [Option.map_some', Option.some.injEq] at h
      subst h
      exact build3d_go_mem hmesh _ _ _ hgo hkvis
  · intro dw dop res h hmesh
    simp only [build_render_lists] at h
    cases hgo : build_render_lists_2d_go
      { components with
        opacities := if dop.isEmpty = true then components.opacities
          else update_inherited_opacities components.opacities s dop
        transforms := if dw.isEmpty = true then components.transforms
          else update_world_transforms components.transforms s dw } s
      (renderVisit s start_node_key) 0 ([], []) with
    | none => rw [hgo] at h; cases h
    | some res' =>
      rw [hgo] at h
      simp only [Option.map_some', Option.some.injEq] at h
      subst h
      have := build2d_go_mem hmesh _ _ _ _ hgo hkvis
      simp only [List.map_append, List.mem_append, List.mem_map] at this ⊢
      rcases this with ⟨x, hx, hxk⟩ | hright
      · exact Or.inl ⟨x, List.mem_reverse.mpr hx, hxk⟩
      · exact Or.inr hright

/-- C10, witness: in the three-node example the layer child 1 terminates
the traversal but is still processed: the visited prefix is `[0, 1]` and in
2D mode its mesh entry lands in the opaque list. -/
theorem C10_layer_node_still_processed_witness :
    renderVisit exSceneLayerChild 0 = [0, 1] ∧
    (1 : RSGNodeKey) ∈
      ((([(1, ((0 : Nat) : ℚ))] : RSGRenderList) ++ ([] : RSGRenderList)).map Prod.fst) := by
  have h := C10_layer_node_still_processed exContainer exSceneLayerChild 0 1 [0] [2]
    (by decide) (by decide) (by decide) (by decide)
  exact ⟨h.1, h.2.2 [] [] (exContainer, [(1, ((0 : Nat) : ℚ))], []) (by rfl) (by decide)⟩

theorem build2d_go_spec {comps : RSGComponentContainer} {s : RSGScene RSGComponentLinks} :
    ∀ l cnt o a,
      (∀ k ∈ l, ∀ mk, (s.get_component_links k).mesh_key = some mk →
        (comps.mesh_data mk).isSome = true) →
      build_render_lists_2d_go comps s l cnt (o, a) = some
        (o ++ (((l.filter (fun k => (s.get_component_links k).mesh_key.isSome)).enumFrom cnt
          |>.filter (fun p => comps.is_opaque (s.get_component_links p.2))).map
            (fun p => (p.2, (p.1 : ℚ)))),
         a ++ (((l.filter (fun k => (s.get_component_links k).mesh_key.isSome)).enumFrom cnt
          |>.filter (fun p => ! comps.is_opaque (s.get_component_links p.2))).map
            (fun p => (p.2, (p.1 : ℚ))))) := by
  intro l
  induction l with
  | nil => intro cnt o a _; simp [build_render_lists_2d_go]
  | cons k0 rest ih =>
    intro cnt o a hdata
    simp only [build_render_lists_2d_go]
    cases hm : (s.get_component_links k0).mesh_key with
    | none =>
      rw [ih cnt o a (fun k hk => hdata k (List.mem_cons_of_mem _ hk))]
      simp [List.filter_cons, hm]
    | some mesh_key =>
      have hmd := hdata k0 (List.mem_cons_self _ _) mesh_key hm
      cases hmdv : comps.mesh_data mesh_key with
      | none => rw [hmdv] at hmd; simp at hmd
      | some md =>
        simp only [hmdv]
        have hrec := fun o' a' => ih (cnt + 1) o' a'
          (fun k hk => hdata k (List.mem_cons_of_mem _ hk))
        by_cases hop : comps.is_opaque (s.get_component_links k0) = true
        · rw [if_pos hop]
          rw [hrec (o ++ [(k0, (cnt : ℚ))]) a]
          simp [List.filter_cons, hm, List.enumFrom_cons, hop]
        · rw [if_neg hop]
          rw [hrec o (a ++ [(k0, (cnt : ℚ))])]
          have hop' : comps.is_opaque (s.get_component_links k0) = false :=
            Bool.eq_false_iff.mpr hop
          simp [List.filter_cons, hm, List.enumFrom_cons, hop']


/-- C8: in 2D mode (`camera_properties_3d = None`) each visited mesh-bearing
node gets a stacking counter starting at 0 and advancing by 1 per mesh node
in depth-first pre-order traversal order; `alpha_list` is exactly the
translucent mesh nodes in traversal order paired with their counters, and
`opaque_list` is exactly the opaque mesh nodes in reverse traversal order
(later in traversal ⇒ earlier in the list) paired with their counters. -/
theorem C8_2d_tree_order (components : RSGComponentContainer)
    (s : RSGScene RSGComponentLinks) (start_node_key : RSGNodeKey)
    (dirty_world_roots dirty_opacity_roots : List RSGNodeKey)
    (hdata : ∀ k ∈ renderVisit s start_node_key, ∀ mk,
      (s.get_component_links k).mesh_key = some mk →
      (components.mesh_data mk).isSome = true) :
    (build_render_lists components s start_node_key none
      dirty_world_roots dirty_opacity_roots).isSome = true ∧
    ∀ res, build_render_lists components s start_node_key none
        dirty_world_roots dirty_opacity_roots = some res →
      res.2.1 = (((((renderVisit s start_node_key).filter
          (fun k => (s.get_component_links k).mesh_key.isSome)).enumFrom 0).filter
          (fun p => RSGComponentContainer.is_opaque res.1 (s.get_component_links p.2))).map
          (fun p => (p.2, (p.1 : ℚ)))).reverse ∧
      res.2.2 = ((((renderVisit s start_node_key).filter
          (fun k => (s.get_component_links k).mesh_key.isSome)).enumFrom 0).filter
          (fun p => ! RSGComponentContainer.is_opaque res.1 (s.get_component_links p.2))).map
          (fun p => (p.2, (p.1 : ℚ))) := by
  have hgo := @build2d_go_spec
      { components with
        opacities := if dirty_opacity_roots.isEmpty = true then components.opacities
          else update_inherited_opacities components.opacities s dirty_opacity_roots
        transforms := if dirty_world_roots.isEmpty = true then components.transforms
          else update_world_transforms components.transforms s dirty_world_roots } s
    (renderVisit s start_node_key) 0 [] [] hdata
  constructor
  · simp only [build_render_lists]
    rw [hgo]
    rfl
  · intro res h
    simp only [build_render_lists] at h
    rw [hgo] at h
    simp only [Option.map_some', Option.some.injEq] at h
    subst h
    simp

/-- C8, witness: on the three-mesh example (node 1 translucent) the opaque
list is `[(2, 2), (0, 0)]` (reverse traversal order) and the alpha list is
`[(1, 1)]` (traversal order), counters 0,1,2 assigned in traversal order. -/
theorem C8_2d_tree_order_witness :
    (build_render_lists exContainerAlpha exSceneMeshes 0 none [] []).isSome = true ∧
    (exContainerAlpha, ([(2, ((2 : Nat) : ℚ)), (0, ((0 : Nat) : ℚ))] : RSGRenderList),
        ([(1, ((1 : Nat) : ℚ))] : RSGRenderList)).2.1 =
      (((((renderVisit exSceneMeshes 0).filter
          (fun k => (exSceneMeshes.get_component_links k).mesh_key.isSome)).enumFrom 0).filter
          (fun p => exContainerAlpha.is_opaque (exSceneMeshes.get_component_links p.2))).map
          (fun p => (p.2, (p.1 : ℚ)))).reverse := by
  have h := C8_2d_tree_order exContainerAlpha exSceneMeshes 0 [] []
    (fun k hk mk hmk => rfl)
  refine ⟨h.1, ?_⟩
  exact (h.2 (exContainerAlpha, [(2, ((2 : Nat) : ℚ)), (0, ((0 : Nat) : ℚ))],
    [(1, ((1 : Nat) : ℚ))]) (by with_unfolding_all rfl)).1

theorem insertIdx_eq_take_cons_drop {α : Type} (x : α) :
    ∀ (l : List α) (n : Nat), n ≤ l.length →
      l.insertIdx n x = l.take n ++ x :: l.drop n := by
  intro l
  induction l with
  | nil =>
    intro n hn
    have hn0 : n = 0 := by simpa using hn
    subst hn0
    simp [List.insertIdx]
  | cons a rest ih =>
    intro n hn
    cases n with
    | zero => simp [List.insertIdx]
    | succ m =>
      rw [List.insertIdx_succ_cons]
      simp only [List.take_succ_cons, List.drop_succ_cons, List.cons_append]
      rw [ih m (by simpa using hn)]

theorem mem_take_get {α : Type} {l : List α} {n : Nat} {y : α} (hy : y ∈ l.take n) :
    ∃ i : Fin l.length, (i : Nat) < n ∧ l.get i = y := by
  obtain ⟨j, hj⟩ := List.mem_iff_get.mp hy
  have hjlt := j.isLt
  simp only [List.length_take, lt_min_iff] at hjlt
  refine ⟨⟨j, hjlt.2⟩, hjlt.1, ?_⟩
  rw [← hj]
  simp [List.get_eq_getElem, List.getElem_take]

theorem mem_drop_get {α : Type} {l : List α} {n : Nat} {y : α} (hy : y ∈ l.drop n) :
    ∃ i : Fin l.length, n ≤ (i : Nat) ∧ l.get i = y := by
  obtain ⟨j, hj⟩ := List.mem_iff_get.mp hy
  have hjlt := j.isLt
  simp only [List.length_drop] at hjlt
  have hlen : n + (j : Nat) < l.length := by omega
  refine ⟨⟨n + (j : Nat), hlen⟩, Nat.le_add_right n (j : Nat), ?_⟩
  rw [← hj]
  simp [List.get_eq_getElem, List.getElem_drop]

theorem pairwise_insertIdx_of_bounds {α : Type} {R : α → α → Prop} {l : List α} {x : α}
    {n : Nat} (hn : n ≤ l.length) (hs : l.Pairwise R)
    (hb : ∀ i : Fin l.length, (i : Nat) < n → R (l.get i) x)
    (ha : ∀ i : Fin l.length, n ≤ (i : Nat) → R x (l.get i)) :
    (l.insertIdx n x).Pairwise R := by
  rw [insertIdx_eq_take_cons_drop x l n hn]
  have hsplit : l.take n ++ l.drop n = l := List.take_append_drop n l
  have hcross : ∀ a ∈ l.take n, ∀ b ∈ l.drop n, R a b := by
    have := hs
    rw [← hsplit] at this
    exact (List.pairwise_append.mp this).2.2
  rw [List.pairwise_append]
  refine ⟨hs.sublist (List.take_sublist n l), ?_, ?_⟩
  · rw [List.pairwise_cons]
    refine ⟨?_, hs.sublist (List.drop_sublist n l)⟩
    intro y hy
    obtain ⟨i, hi, hiy⟩ := mem_drop_get hy
    exact hiy ▸ ha i hi
  · intro a hha b hhb
    rcases List.mem_cons.mp hhb with hbx | hbd
    · obtain ⟨i, hi, hiy⟩ := mem_take_get hha
      exact hbx ▸ hiy ▸ hb i hi
    · exact hcross a hha b hbd

theorem pairwise_get_le {α : Type} {R : α → α → Prop} (hrefl : ∀ x, R x x) {l : List α}
    (hs : l.Pairwise R) (i j : Nat) (hi : i < l.length) (hj : j < l.length) (hij : i ≤ j) :
    R (l.get ⟨i, hi⟩) (l.get ⟨j, hj⟩) := by
  rcases Nat.lt_or_ge i j with hlt | hge
  · exact List.pairwise_iff_get.mp hs ⟨i, hi⟩ ⟨j, hj⟩ hlt
  · have : i = j := by omega
    subst this
    exact hrefl _

theorem bsGo_bounds_asc (t : ℚ) (l : RSGRenderList)
    (hs : l.Pairwise (fun p q => p.2 ≤ q.2)) :
    ∀ fuel left right, left ≤ right → right ≤ l.length → right - left ≤ fuel →
      (∀ i : Fin l.length, (i : Nat) < left → (l.get i).2 ≤ t) →
      (∀ i : Fin l.length, right ≤ (i : Nat) → t ≤ (l.get i).2) →
      (∀ i : Fin l.length,
        (i : Nat) < binary_search_by_go (fun e => compare e.2 t) l left right fuel →
          (l.get i).2 ≤ t) ∧
      (∀ i : Fin l.length,
        binary_search_by_go (fun e => compare e.2 t) l left right fuel ≤ (i : Nat) →
          t ≤ (l.get i).2) := by
  intro fuel
  induction fuel with
  | zero =>
    intro left right h1 h2 h3 hL hR
    simp only [binary_search_by_go]
    exact ⟨hL, fun i hi => hR i (by omega)⟩
  | succ fuel ih =>
    intro left right h1 h2 h3 hL hR
    simp only [binary_search_by_go]
    by_cases hlt : left < right
    · rw [if_pos hlt]
      have hmidlt : left + (right - left) / 2 < right := by omega
      have hmidlen : left + (right - left) / 2 < l.length := by omega
      rw [List.getD_eq_get l (0, 0) hmidlen]
      cases hcmp : compare (l.get ⟨left + (right - left) / 2, hmidlen⟩).2 t with
      | lt =>
        have hmlt := compare_lt_iff_lt.mp hcmp
        exact ih (left + (right - left) / 2 + 1) right (by omega) h2 (by omega)
          (fun i hi => by
            by_cases hcase : (i : Nat) < left
            · exact hL i hcase
            · exact le_trans
                (pairwise_get_le (fun x : RSGNodeKey × ℚ => le_refl x.2) hs (i : Nat) _
                  i.isLt hmidlen (by omega))
                (le_of_lt hmlt))
          hR
      | eq =>
        have hmeq := compare_eq_iff_eq.mp hcmp
        constructor
        · intro i hi
          have hi' : (i : Nat) < left + (right - left) / 2 := hi
          exact le_trans
            (pairwise_get_le (fun x : RSGNodeKey × ℚ => le_refl x.2) hs (i : Nat) _
              i.isLt hmidlen (by omega))
            (le_of_eq hmeq)
        · intro i hi
          have hi' : left + (right - left) / 2 ≤ (i : Nat) := hi
          exact le_trans (le_of_eq hmeq.symm)
            (pairwise_get_le (fun x : RSGNodeKey × ℚ => le_refl x.2) hs _ (i : Nat)
              hmidlen i.isLt (by omega))
      | gt =>
        have hmgt := compare_gt_iff_gt.mp hcmp
        exact ih left (left + (right - left) / 2) (by omega) (by omega) (by omega) hL
          (fun i hi => le_trans (le_of_lt hmgt)
            (pairwise_get_le (fun x : RSGNodeKey × ℚ => le_refl x.2) hs _ (i : Nat)
              hmidlen i.isLt (by omega)))
    · rw [if_neg hlt]
      exact ⟨hL, fun i hi => hR i (by omega)⟩

theorem bsGo_bounds_desc (t : ℚ) (l : RSGRenderList)
    (hs : l.Pairwise (fun p q => q.2 ≤ p.2)) :
    ∀ fuel left right, left ≤ right → right ≤ l.length → right - left ≤ fuel →
      (∀ i : Fin l.length, (i : Nat) < left → t ≤ (l.get i).2) →
      (∀ i : Fin l.length, right ≤ (i : Nat) → (l.get i).2 ≤ t) →
      (∀ i : Fin l.length,
        (i : Nat) < binary_search_by_go (fun e => compare t e.2) l left right fuel →
          t ≤ (l.get i).2) ∧
      (∀ i : Fin l.length,
        binary_search_by_go (fun e => compare t e.2) l left right fuel ≤ (i : Nat) →
          (l.get i).2 ≤ t) := by
  intro fuel
  induction fuel with
  | zero =>
    intro left right h1 h2 h3 hL hR
    simp only [binary_search_by_go]
    exact ⟨hL, fun i hi => hR i (by omega)⟩
  | succ fuel ih =>
    intro left right h1 h2 h3 hL hR
    simp only [binary_search_by_go]
    by_cases hlt : left < right
    · rw [if_pos hlt]
      have hmidlt : left + (right - left) / 2 < right := by omega
      have hmidlen : left + (right - left) / 2 < l.length := by omega
      rw [List.getD_eq_get l (0, 0) hmidlen]
      cases hcmp : compare t (l.get ⟨left + (right - left) / 2, hmidlen⟩).2 with
      | lt =>
        have hmlt := compare_lt_iff_lt.mp hcmp
        exact ih (left + (right - left) / 2 + 1) right (by omega) h2 (by omega)
          (fun i hi => by
            by_cases hcase : (i : Nat) < left
            · exact hL i hcase
            · exact le_trans (le_of_lt hmlt)
                (pairwise_get_le (fun x : RSGNodeKey × ℚ => le_refl x.2) hs (i : Nat) _
                  i.isLt hmidlen (by omega)))
          hR
      | eq =>
        have hmeq := compare_eq_iff_eq.mp hcmp
        constructor
        · intro i hi
          have hi' : (i : Nat) < left + (right - left) / 2 := hi
          exact le_trans (le_of_eq hmeq)
            (pairwise_get_le (fun x : RSGNodeKey × ℚ => le_refl x.2) hs (i : Nat) _
              i.isLt hmidlen (by omega))
        · intro i hi
          have hi' : left + (right - left) / 2 ≤ (i : Nat) := hi
          exact le_trans
            (pairwise_get_le (fun x : RSGNodeKey × ℚ => le_refl x.2) hs _ (i : Nat)
              hmidlen i.isLt (by omega))
            (le_of_eq hmeq.symm)
      | gt =>
        have hmgt := compare_gt_iff_gt.mp hcmp
        exact ih left (left + (right - left) / 2) (by omega) (by omega) (by omega) hL
          (fun i hi => le_trans
            (pairwise_get_le (fun x : RSGNodeKey × ℚ => le_refl x.2) hs _ (i : Nat)
              hmidlen i.isLt (by omega))
            (le_of_lt hmgt))
    · rw [if_neg hlt]
      exact ⟨hL, fun i hi => hR i (by omega)⟩

theorem insert_sorted_asc (l : RSGRenderList) (k : RSGNodeKey) (t : ℚ)
    (hs : l.Pairwise (fun p q => p.2 ≤ q.2)) :
    (l.insertIdx (binary_search_by (fun e => compare e.2 t) l) (k, t)).Pairwise
      (fun p q => p.2 ≤ q.2) := by
  have hb := bsGo_bounds_asc t l hs l.length 0 l.length (Nat.zero_le _) le_rfl (by omega)
    (fun i hi => absurd hi (by omega))
    (fun i hi => absurd i.isLt (by omega))
  exact pairwise_insertIdx_of_bounds (binary_search_by_le _ _) hs hb.1 hb.2

theorem insert_sorted_desc (l : RSGRenderList) (k : RSGNodeKey) (t : ℚ)
    (hs : l.Pairwise (fun p q => q.2 ≤ p.2)) :
    (l.insertIdx (binary_search_by (fun e => compare t e.2) l) (k, t)).Pairwise
      (fun p q => q.2 ≤ p.2) := by
  have hb := bsGo_bounds_desc t l hs l.length 0 l.length (Nat.zero_le _) le_rfl (by omega)
    (fun i hi => absurd hi (by omega))
    (fun i hi => absurd i.isLt (by omega))
  exact pairwise_insertIdx_of_bounds (binary_search_by_le _ _) hs hb.1 hb.2

theorem build3d_go_sorted {comps : RSGComponentContainer} {s : RSGScene RSGComponentLinks}
    {cam : RSGCameraWorldTransformDerivedProperties} :
    ∀ l acc res, build_render_lists_3d_go comps s cam l acc = some res →
      acc.1.Pairwise (fun p q => p.2 ≤ q.2) → acc.2.Pairwise (fun p q => q.2 ≤ p.2) →
      res.1.Pairwise (fun p q => p.2 ≤ q.2) ∧ res.2.Pairwise (fun p q => q.2 ≤ p.2) := by
  intro l
  induction l with
  | nil =>
    intro acc res h h1 h2
    simp only [build_render_lists_3d_go, Option.some.injEq] at h
    subst h
    exact ⟨h1, h2⟩
  | cons k0 rest ih =>
    intro acc res h h1 h2
    obtain ⟨o, a⟩ := acc
    simp only [build_render_lists_3d_go] at h
    split at h
    · exact ih _ _ h h1 h2
    · split at h
      · cases h
      · split at h
        · cases h
        · split at h
          · cases h
          · split at h
            · exact ih _ _ h (insert_sorted_asc o k0 _ h1) h2
            · exact ih _ _ h h1 (insert_sorted_desc a k0 _ h2)

theorem build3d_go_values {comps : RSGComponentContainer} {s : RSGScene RSGComponentLinks}
    {cam : RSGCameraWorldTransformDerivedProperties}
    {Po Pa : RSGNodeKey × ℚ → Prop}
    (hPo : ∀ k mk md tk b, (s.get_component_links k).mesh_key = some mk →
      comps.mesh_data mk = some md → (s.get_component_links k).transform_key = some tk →
      md.bounds_3d = some b → comps.is_opaque (s.get_component_links k) = true →
      Po (k, calculate_sorting_distance (comps.transforms tk).world_transform b cam))
    (hPa : ∀ k mk md tk b, (s.get_component_links k).mesh_key = some mk →
      comps.mesh_data mk = some md → (s.get_component_links k).transform_key = some tk →
      md.bounds_3d = some b → comps.is_opaque (s.get_component_links k) = false →
      Pa (k, calculate_sorting_distance (comps.transforms tk).world_transform b cam)) :
    ∀ l acc res, build_render_lists_3d_go comps s cam l acc = some res →
      (∀ x ∈ acc.1, Po x) → (∀ x ∈ acc.2, Pa x) →
      (∀ x ∈ res.1, Po x) ∧ (∀ x ∈ res.2, Pa x) := by
  intro l
  induction l with
  | nil =>
    intro acc res h ho ha
    simp only [build_render_lists_3d_go, Option.some.injEq] at h
    subst h
    exact ⟨ho, ha⟩
  | cons k0 rest ih =>
    intro acc res h ho ha
    obtain ⟨o, a⟩ := acc
    simp only [build_render_lists_3d_go] at h
    cases hm : (s.get_component_links k0).mesh_key with
    | none =>
      rw [hm] at h
      simp only [] at h
      exact ih _ _ h ho ha
    | some mk =>
      rw [hm] at h
      simp only [] at h
      cases hmd : comps.mesh_data mk with
      | none => rw [hmd] at h; simp at h
      | some md =>
        rw [hmd] at h
        simp only [] at h
        cases ht : (s.get_component_links k0).transform_key with
        | none => rw [ht] at h; simp at h
        | some tk =>
          rw [ht] at h
          simp only [] at h
          cases hb : md.bounds_3d with
          | none => rw [hb] at h; simp at h
          | some b =>
            rw [hb] at h
            simp only [] at h
            by_cases hop : comps.is_opaque (s.get_component_links k0) = true
            · rw [if_pos hop] at h
              refine ih _ _ h ?_ ha
              intro x hx
              rcases (List.mem_insertIdx (binary_search_by_le _ _)).mp hx with hxe | hxo
              · exact hxe ▸ hPo k0 mk md tk b hm hmd ht hb hop
              · exact ho x hxo
            · rw [if_neg hop] at h
              refine ih _ _ h ho ?_
              intro x hx
              rcases (List.mem_insertIdx (binary_search_by_le _ _)).mp hx with hxe | hxa
              · exact hxe ▸ hPa k0 mk md tk b hm hmd ht hb (Bool.eq_false_iff.mpr hop)
              · exact ha x hxa

/-- C7: in 3D mode every entry of either render list carries as its second
component exactly the sorting distance computed by
`calculate_sorting_distance` (the projection of the node's world-space
bounds center, relative to the camera position, onto the camera direction)
from the node's (refreshed) world transform and its mesh bounds; membership
in `opaque_list` versus `alpha_list` is decided by is_opaque on the
node's component links; `opaque_list` is ordered by non-decreasing sorting
distance and `alpha_list` by non-increasing sorting distance. -/
theorem C7_3d_sorted_lists (components : RSGComponentContainer)
    (s : RSGScene RSGComponentLinks) (start_node_key : RSGNodeKey)
    (cam : RSGCameraWorldTransformDerivedProperties)
    (dirty_world_roots dirty_opacity_roots : List RSGNodeKey) :
    ∀ res, build_render_lists components s start_node_key (some cam)
        dirty_world_roots dirty_opacity_roots = some res →
      (∀ x ∈ res.2.1,
        (∃ mk md tk b, (s.get_component_links x.1).mesh_key = some mk ∧
          res.1.mesh_data mk = some md ∧
          (s.get_component_links x.1).transform_key = some tk ∧
          md.bounds_3d = some b ∧
          x.2 = calculate_sorting_distance (res.1.transforms tk).world_transform b cam) ∧
        RSGComponentContainer.is_opaque res.1 (s.get_component_links x.1) = true) ∧
      (∀ x ∈ res.2.2,
        (∃ mk md tk b, (s.get_component_links x.1).mesh_key = some mk ∧
          res.1.mesh_data mk = some md ∧
          (s.get_component_links x.1).transform_key = some tk ∧
          md.bounds_3d = some b ∧
          x.2 = calculate_sorting_distance (res.1.transforms tk).world_transform b cam) ∧
        RSGComponentContainer.is_opaque res.1 (s.get_component_links x.1) = false) ∧
      res.2.1.Pairwise (fun p q => p.2 ≤ q.2) ∧
      res.2.2.Pairwise (fun p q => q.2 ≤ p.2) := by
  intro res h
  simp only [build_render_lists] at h
  set C : RSGComponentContainer :=
    { components with
      opacities := if dirty_opacity_roots.isEmpty = true then components.opacities
        else update_inherited_opacities components.opacities s dirty_opacity_roots
      transforms := if dirty_world_roots.isEmpty = true then components.transforms
        else update_world_transforms components.transforms s dirty_world_roots } with hC
  cases hgo : build_render_lists_3d_go C s cam (renderVisit s start_node_key) ([], []) with
  | none => rw [hgo] at h; cases h
  | some res2 =>
    rw [hgo] at h
    simp only [Option.map_some', Option.some.injEq] at h
    subst h
    have hvals := @build3d_go_values C s cam
      (fun x =>
        (∃ mk md tk b, (s.get_component_links x.1).mesh_key = some mk ∧
          C.mesh_data mk = some md ∧
          (s.get_component_links x.1).transform_key = some tk ∧
          md.bounds_3d = some b ∧
          x.2 = calculate_sorting_distance (C.transforms tk).world_transform b cam) ∧
        C.is_opaque (s.get_component_links x.1) = true)
      (fun x =>
        (∃ mk md tk b, (s.get_component_links x.1).mesh_key = some mk ∧
          C.mesh_data mk = some md ∧
          (s.get_component_links x.1).transform_key = some tk ∧
          md.bounds_3d = some b ∧
          x.2 = calculate_sorting_distance (C.transforms tk).world_transform b cam) ∧
        C.is_opaque (s.get_component_links x.1) = false)
      (fun k mk md tk b hm hmd ht hb hop => ⟨⟨mk, md, tk, b, hm, hmd, ht, hb, rfl⟩, hop⟩)
      (fun k mk md tk b hm hmd ht hb hop => ⟨⟨mk, md, tk, b, hm, hmd, ht, hb, rfl⟩, hop⟩)
      (renderVisit s start_node_key) ([], []) res2 hgo
      (fun x hx => absurd hx (List.not_mem_nil x))
      (fun x hx => absurd hx (List.not_mem_nil x))
    have hsort := build3d_go_sorted (renderVisit s start_node_key) ([], []) res2 hgo
      List.Pairwise.nil List.Pairwise.nil
    exact ⟨hvals.1, hvals.2, hsort.1, hsort.2⟩

/-- C7, witness: three mesh nodes at world depths 0, −1, −2 with a camera
at z = 600 looking along −z give opaque sort distances `[600, 602]`
(ascending) and alpha `[601]`. -/
theorem C7_3d_sorted_lists_witness :
    ([(0, (600 : ℚ)), (2, 602)] : RSGRenderList).Pairwise (fun p q => p.2 ≤ q.2) ∧
    ([(1, (601 : ℚ))] : RSGRenderList).Pairwise (fun p q => q.2 ≤ p.2) := by
  have h := C7_3d_sorted_lists exContainer3D exSceneMeshes3D 0 exCam [] []
    (exContainer3D, [(0, (600 : ℚ)), (2, 602)], [(1, (601 : ℚ))])
    (by with_unfolding_all rfl)
  exact ⟨h.2.2.1, h.2.2.2⟩

theorem updateNodeWorld_no_transform (s : RSGScene RSGComponentLinks)
    (tbl : RSGTransformComponentList) (n : RSGNodeKey)
    (h : (s.get_component_links n).transform_key = none) :
    updateNodeWorld s tbl n = tbl := by
  unfold updateNodeWorld
  rw [h]

theorem updateNodeWorld_write (s : RSGScene RSGComponentLinks)
    (tbl : RSGTransformComponentList) (n : RSGNodeKey) (tk : Nat)
    (h : (s.get_component_links n).transform_key = some tk) :
    updateNodeWorld s tbl n = fun k =>
      if k = tk then
        { local_transform := (tbl tk).local_transform
          world_transform :=
            match ancestorTransformKey s (s.ancestors n) with
            | some atk => (tbl tk).local_transform * (tbl atk).world_transform
            | none => (tbl tk).local_transform }
      else tbl k := by
  unfold updateNodeWorld
  rw [h]

theorem updateNodeWorld_frame (s : RSGScene RSGComponentLinks)
    (tbl : RSGTransformComponentList) (n : RSGNodeKey) (tk' : Nat)
    (h : ∀ mtk, (s.get_component_links n).transform_key = some mtk → mtk ≠ tk') :
    (updateNodeWorld s tbl n) tk' = tbl tk' := by
  cases hm : (s.get_component_links n).transform_key with
  | none => rw [updateNodeWorld_no_transform s tbl n hm]
  | some mtk =>
    rw [updateNodeWorld_write s tbl n mtk hm]
    exact if_neg (fun he => h mtk hm he.symm)

theorem foldl_updateNodeWorld_frame (s : RSGScene RSGComponentLinks) :
    ∀ (l : List RSGNodeKey) (tbl : RSGTransformComponentList) (tk' : Nat),
      (∀ m ∈ l, ∀ mtk, (s.get_component_links m).transform_key = some mtk → mtk ≠ tk') →
      (l.foldl (updateNodeWorld s) tbl) tk' = tbl tk' := by
  intro l
  induction l with
  | nil => intro tbl tk' _; rfl
  | cons m0 rest ih =>
    intro tbl tk' h
    simp only [List.foldl_cons]
    rw [ih _ tk' (fun m hm => h m (List.mem_cons_of_mem _ hm))]
    exact updateNodeWorld_frame s tbl m0 tk' (h m0 (List.mem_cons_self _ _))

theorem update_world_transforms_frame (s : RSGScene RSGComponentLinks) :
    ∀ (roots : List RSGNodeKey) (tbl : RSGTransformComponentList) (tk' : Nat),
      (∀ r ∈ roots, ∀ m ∈ (s.traverse r).map Prod.fst, ∀ mtk,
        (s.get_component_links m).transform_key = some mtk → mtk ≠ tk') →
      (update_world_transforms tbl s roots) tk' = tbl tk' := by
  intro roots
  induction roots with
  | nil => intro tbl tk' _; rfl
  | cons r0 rest ih =>
    intro tbl tk' h
    simp only [update_world_transforms, List.foldl_cons]
    have step : (((s.traverse r0).map Prod.fst).foldl (updateNodeWorld s) tbl) tk' = tbl tk' :=
      foldl_updateNodeWorld_frame s _ tbl tk' (fun m hm => h r0 (List.mem_cons_self _ _) m hm)
    have := ih (((s.traverse r0).map Prod.fst).foldl (updateNodeWorld s) tbl) tk'
      (fun r hr => h r (List.mem_cons_of_mem _ hr))
    simp only [update_world_transforms] at this
    rw [this, step]

theorem updateNodeWorld_local (s : RSGScene RSGComponentLinks)
    (tbl : RSGTransformComponentList) (n : RSGNodeKey) (tk' : Nat) :
    ((updateNodeWorld s tbl n) tk').local_transform = (tbl tk').local_transform := by
  cases hm : (s.get_component_links n).transform_key with
  | none => rw [updateNodeWorld_no_transform s tbl n hm]
  | some mtk =>
    rw [updateNodeWorld_write s tbl n mtk hm]
    by_cases he : tk' = mtk
    · subst he; simp
    · simp [he]

theorem foldl_updateNodeWorld_local (s : RSGScene RSGComponentLinks) :
    ∀ (l : List RSGNodeKey) (tbl : RSGTransformComponentList) (tk' : Nat),
      ((l.foldl (updateNodeWorld s) tbl) tk').local_transform = (tbl tk').local_transform := by
  intro l
  induction l with
  | nil => intro tbl tk'; rfl
  | cons m0 rest ih =>
    intro tbl tk'
    simp only [List.foldl_cons]
    rw [ih, updateNodeWorld_local]

theorem ancestorTransformKey_mem (s : RSGScene RSGComponentLinks) :
    ∀ (l : List RSGNodeKey) (atk : Nat), ancestorTransformKey s l = some atk →
      ∃ a ∈ l, (s.get_component_links a).transform_key = some atk := by
  intro l
  induction l with
  | nil => intro atk h; cases h
  | cons a rest ih =>
    intro atk h
    simp only [ancestorTransformKey] at h
    cases ht : (s.get_component_links a).transform_key with
    | some tk =>
      rw [ht] at h
      simp only [Option.some.injEq] at h
      exact ⟨a, List.mem_cons_self _ _, h ▸ ht⟩
    | none =>
      rw [ht] at h
      simp only [] at h
      by_cases hl : (s.get_component_links a).layer_key.isSome = true
      · rw [if_pos hl] at h; cases h
      · rw [if_neg hl] at h
        obtain ⟨a', ha', ht'⟩ := ih atk h
        exact ⟨a', List.mem_cons_of_mem _ ha', ht'⟩

theorem processList_world (s : RSGScene RSGComponentLinks) (N : List RSGNodeKey)
    (Hinj : ∀ m1 ∈ N, ∀ m2 ∈ N, ∀ tk : Nat,
      (s.get_component_links m1).transform_key = some tk →
      (s.get_component_links m2).transform_key = some tk → m1 = m2)
    (Hnoanc : ∀ n ∈ N, n ∉ s.ancestors n)
    (HancN : ∀ n ∈ N, ∀ a ∈ s.ancestors n, a ∈ N) :
    ∀ (l : List RSGNodeKey) (tbl : RSGTransformComponentList), l.Nodup →
      (∀ n ∈ l, n ∈ N) →
      (∀ l1 n l2, l = l1 ++ n :: l2 → ∀ a ∈ s.ancestors n, a ∉ l2) →
      ∀ n ∈ l, ∀ tk, (s.get_component_links n).transform_key = some tk →
        (l.foldl (updateNodeWorld s) tbl) tk =
          { local_transform := (tbl tk).local_transform
            world_transform :=
              match ancestorTransformKey s (s.ancestors n) with
              | some atk => (tbl tk).local_transform *
                  ((l.foldl (updateNodeWorld s) tbl) atk).world_transform
              | none => (tbl tk).local_transform } := by
  intro l
  induction l with
  | nil => intro tbl _ _ _ n hn; cases hn
  | cons n0 rest ih =>
    intro tbl hnodup hsub hprec n hn tk htk
    simp only [List.foldl_cons]
    rcases List.mem_cons.mp hn with hn0 | hnrest
    · subst hn0
      have hnN : n ∈ N := hsub n (List.mem_cons_self _ _)
      have hframe : (rest.foldl (updateNodeWorld s) (updateNodeWorld s tbl n)) tk =
          (updateNodeWorld s tbl n) tk := by
        refine foldl_updateNodeWorld_frame s rest _ tk ?_
        intro m hm mtk hmtk he
        have : m = n := Hinj m (hsub m (List.mem_cons_of_mem _ hm)) n hnN tk (he ▸ hmtk) htk
        exact (List.nodup_cons.mp hnodup).1 (this ▸ hm)
      rw [hframe]
      have hw : (updateNodeWorld s tbl n) tk =
          { local_transform := (tbl tk).local_transform
            world_transform :=
              match ancestorTransformKey s (s.ancestors n) with
              | some atk => (tbl tk).local_transform * (tbl atk).world_transform
              | none => (tbl tk).local_transform } := by
        rw [updateNodeWorld_write s tbl n tk htk]
        simp
      rw [hw]
      cases hatk : ancestorTransformKey s (s.ancestors n) with
      | none => simp only []
      | some atk =>
        obtain ⟨A, hA, hAtk⟩ := ancestorTransformKey_mem s _ atk hatk
        have hAN : A ∈ N := HancN n hnN A hA
        have hAne : A ≠ n := fun h => Hnoanc n hnN (h ▸ hA)
        have htkne : atk ≠ tk := fun h =>
          hAne (Hinj A hAN n hnN tk (h ▸ hAtk) htk)
        have hArest : A ∉ rest := hprec [] n rest rfl A hA
        have hupd_atk : (updateNodeWorld s tbl n) atk = tbl atk := by
          rw [updateNodeWorld_write s tbl n tk htk]
          exact if_neg htkne
        have hframe2 : (rest.foldl (updateNodeWorld s) (updateNodeWorld s tbl n)) atk =
            tbl atk := by
          rw [foldl_updateNodeWorld_frame s rest _ atk ?_, hupd_atk]
          intro m hm mtk hmtk he
          have : m = A := Hinj m (hsub m (List.mem_cons_of_mem _ hm)) A hAN atk
            (he ▸ hmtk) hAtk
          exact hArest (this ▸ hm)
        simp only []
        rw [hframe2]
    · have hrec := ih (updateNodeWorld s tbl n0) (List.nodup_cons.mp hnodup).2
        (fun m hm => hsub m (List.mem_cons_of_mem _ hm))
        (fun l1 m l2 hsplit => hprec (n0 :: l1) m l2 (by rw [hsplit]; rfl))
        n hnrest tk htk
      rw [hrec]
      rw [updateNodeWorld_local]
theorem update_world_transforms_eq_flatten (s : RSGScene RSGComponentLinks) :
    ∀ (roots : List RSGNodeKey) (tbl : RSGTransformComponentList),
      update_world_transforms tbl s roots =
        ((roots.map (fun r => (s.traverse r).map Prod.fst)).flatten).foldl
          (updateNodeWorld s) tbl := by
  intro roots
  induction roots with
  | nil => intro tbl; rfl
  | cons r rest ih =>
    intro tbl
    simp only [update_world_transforms, List.foldl_cons, List.map_cons, List.flatten_cons,
      List.foldl_append]
    have := ih (((s.traverse r).map Prod.fst).foldl (updateNodeWorld s) tbl)
    simp only [update_world_transforms] at this
    exact this

theorem ancestorTransformKey_prefix_trans (s : RSGScene RSGComponentLinks) :
    ∀ (l1 : List RSGNodeKey) (A : RSGNodeKey) (l2 : List RSGNodeKey) (atk : Nat),
      (∀ a ∈ l1, (s.get_component_links a).transform_key = none ∧
        (s.get_component_links a).layer_key = none) →
      (s.get_component_links A).transform_key = some atk →
      ancestorTransformKey s (l1 ++ A :: l2) = some atk := by
  intro l1
  induction l1 with
  | nil =>
    intro A l2 atk _ hA
    simp only [List.nil_append, ancestorTransformKey, hA]
  | cons a l1x ih =>
    intro A l2 atk h hA
    obtain ⟨hat, hal⟩ := h a (List.mem_cons_self _ _)
    simp only [List.cons_append, ancestorTransformKey, hat, hal]
    simpa using ih A l2 atk (fun x hx => h x (List.mem_cons_of_mem _ hx)) hA

theorem ancestorTransformKey_layer_none (s : RSGScene RSGComponentLinks) :
    ∀ (l1 : List RSGNodeKey) (B : RSGNodeKey) (l2 : List RSGNodeKey),
      (∀ a ∈ l1, (s.get_component_links a).transform_key = none ∧
        (s.get_component_links a).layer_key = none) →
      (s.get_component_links B).transform_key = none →
      (s.get_component_links B).layer_key.isSome = true →
      ancestorTransformKey s (l1 ++ B :: l2) = none := by
  intro l1
  induction l1 with
  | nil =>
    intro B l2 _ hBt hBl
    simp only [List.nil_append, ancestorTransformKey, hBt, hBl, if_true]
  | cons a l1x ih =>
    intro B l2 h hBt hBl
    obtain ⟨hat, hal⟩ := h a (List.mem_cons_self _ _)
    simp only [List.cons_append, ancestorTransformKey, hat, hal]
    simpa using ih B l2 (fun x hx => h x (List.mem_cons_of_mem _ hx)) hBt hBl

theorem ancestorTransformKey_clean_none (s : RSGScene RSGComponentLinks) :
    ∀ (l : List RSGNodeKey),
      (∀ a ∈ l, (s.get_component_links a).transform_key = none ∧
        (s.get_component_links a).layer_key = none) →
      ancestorTransformKey s l = none := by
  intro l
  induction l with
  | nil => intro _; rfl
  | cons a rest ih =>
    intro h
    obtain ⟨hat, hal⟩ := h a (List.mem_cons_self _ _)
    simp only [ancestorTransformKey, hat, hal]
    simpa using ih (fun x hx => h x (List.mem_cons_of_mem _ hx))

theorem pairwise_split {α : Type} {P : α → α → Prop} :
    ∀ (l1 : List α) (n : α) (l2 : List α) (L : List α), L.Pairwise P → L = l1 ++ n :: l2 →
      ∀ m ∈ l2, P n m := by
  intro l1 n l2 L hPW hL
  subst hL
  have h2 := (List.pairwise_append.mp hPW).2.1
  exact (List.pairwise_cons.mp h2).1
theorem exists_last_occurrence {α : Type} [DecidableEq α] :
    ∀ (l : List α) (a : α), a ∈ l → ∃ l1 l2, l = l1 ++ a :: l2 ∧ a ∉ l2 := by
  intro l
  induction l with
  | nil =>
    intro a ha
    cases ha
  | cons b rest ih =>
    intro a ha
    by_cases hr : a ∈ rest
    · obtain ⟨l1, l2, he, hn⟩ := ih a hr
      exact ⟨b :: l1, l2, by rw [he, List.cons_append], hn⟩
    · rcases List.mem_cons.mp ha with hb | hb
      · exact ⟨[], rest, by rw [hb, List.nil_append], hr⟩
      · exact absurd hb hr

theorem flatten_split {α : Type} :
    ∀ (ls : List (List α)) (M1 : List α) (a : α) (M2 : List α),
      ls.flatten = M1 ++ a :: M2 →
      ∃ ls1 u v ls2, ls = ls1 ++ (u ++ a :: v) :: ls2 ∧ M2 = v ++ ls2.flatten := by
  intro ls
  induction ls with
  | nil =>
    intro M1 a M2 h
    rw [List.flatten_nil] at h
    exact absurd h.symm (List.append_ne_nil_of_right_ne_nil _ (List.cons_ne_nil _ _))
  | cons b rest ih =>
    intro M1 a M2 h
    rw [List.flatten_cons] at h
    rcases List.append_eq_append_iff.mp h with ⟨a', ha1, ha2⟩ | ⟨c', hc1, hc2⟩
    · obtain ⟨ls1, u, v, ls2, hrs, hm2⟩ := ih a' a M2 ha2
      exact ⟨b :: ls1, u, v, ls2, by rw [hrs, List.cons_append], hm2⟩
    · cases c' with
      | nil =>
        rw [List.nil_append] at hc2
        obtain ⟨ls1, u, v, ls2, hrs, hm2⟩ := ih [] a M2 (by rw [List.nil_append]; exact hc2.symm)
        exact ⟨b :: ls1, u, v, ls2, by rw [hrs, List.cons_append], hm2⟩
      | cons x xs =>
        rw [List.cons_append] at hc2
        injection hc2 with hx hxs
        subst hx
        refine ⟨[], M1, xs, rest, ?_, hxs⟩
        rw [List.nil_append, hc1]

theorem mem_drop_of_split {α : Type} :
    ∀ (u : List α) (l : List α) (a : α) (v : List α), l = u ++ a :: v →
      ∃ hi : u.length < l.length, l.get ⟨u.length, hi⟩ = a ∧ l.drop (u.length + 1) = v := by
  intro u
  induction u with
  | nil =>
    intro l a v h
    subst h
    exact ⟨by simp, rfl, rfl⟩
  | cons b u2 ih =>
    intro l a v h
    subst h
    obtain ⟨hi, hg, hd⟩ := ih (u2 ++ a :: v) a v rfl
    exact ⟨by simpa using Nat.succ_lt_succ hi, hg, hd⟩

theorem processList_world_last (s : RSGScene RSGComponentLinks) (N : List RSGNodeKey)
    (Hinj : ∀ m1 ∈ N, ∀ m2 ∈ N, ∀ tk : Nat,
      (s.get_component_links m1).transform_key = some tk →
      (s.get_component_links m2).transform_key = some tk → m1 = m2)
    (Hnoanc : ∀ n ∈ N, n ∉ s.ancestors n)
    (HancN : ∀ n ∈ N, ∀ a ∈ s.ancestors n, a ∈ N)
    (l1 l2 : List RSGNodeKey) (n : RSGNodeKey) (tbl : RSGTransformComponentList)
    (hsub : ∀ m ∈ l1 ++ n :: l2, m ∈ N)
    (hlast : n ∉ l2)
    (hanc2 : ∀ a ∈ s.ancestors n, a ∉ l2)
    (tk : Nat) (htk : (s.get_component_links n).transform_key = some tk) :
    ((l1 ++ n :: l2).foldl (updateNodeWorld s) tbl) tk =
      { local_transform := (tbl tk).local_transform
        world_transform :=
          match ancestorTransformKey s (s.ancestors n) with
          | some atk => (tbl tk).local_transform *
              (((l1 ++ n :: l2).foldl (updateNodeWorld s) tbl) atk).world_transform
          | none => (tbl tk).local_transform } := by
  have hnN : n ∈ N := hsub n (List.mem_append.mpr (Or.inr (List.mem_cons_self _ _)))
  set tblA := l1.foldl (updateNodeWorld s) tbl with htblA
  have hfold : (l1 ++ n :: l2).foldl (updateNodeWorld s) tbl =
      l2.foldl (updateNodeWorld s) (updateNodeWorld s tblA n) := by
    rw [List.foldl_append]
    rfl
  have hframe_tk : (l2.foldl (updateNodeWorld s) (updateNodeWorld s tblA n)) tk =
      (updateNodeWorld s tblA n) tk := by
    refine foldl_updateNodeWorld_frame s l2 _ tk ?_
    intro m hm mtk hmtk he
    have hmN : m ∈ N := hsub m (List.mem_append.mpr (Or.inr (List.mem_cons_of_mem _ hm)))
    have hmn : m = n := Hinj m hmN n hnN tk (he ▸ hmtk) htk
    exact hlast (hmn ▸ hm)
  have hw : (updateNodeWorld s tblA n) tk =
      { local_transform := (tblA tk).local_transform
        world_transform :=
          match ancestorTransformKey s (s.ancestors n) with
          | some atk => (tblA tk).local_transform * (tblA atk).world_transform
          | none => (tblA tk).local_transform } := by
    rw [updateNodeWorld_write s tblA n tk htk]
    simp
  have hlocalA : (tblA tk).local_transform = (tbl tk).local_transform :=
    foldl_updateNodeWorld_local s l1 tbl tk
  rw [hfold, hframe_tk, hw]
  cases hatk : ancestorTransformKey s (s.ancestors n) with
  | none =>
    simp only []
    rw [hlocalA]
  | some atk =>
    obtain ⟨A, hA, hAtk⟩ := ancestorTransformKey_mem s _ atk hatk
    have hAN : A ∈ N := HancN n hnN A hA
    have hAne : A ≠ n := fun h => Hnoanc n hnN (h ▸ hA)
    have htkne : atk ≠ tk := fun h => hAne (Hinj A hAN n hnN tk (h ▸ hAtk) htk)
    have hupd_atk : (updateNodeWorld s tblA n) atk = tblA atk := by
      rw [updateNodeWorld_write s tblA n tk htk]
      exact if_neg htkne
    have hframe_atk : (l2.foldl (updateNodeWorld s) (updateNodeWorld s tblA n)) atk =
        tblA atk := by
      rw [foldl_updateNodeWorld_frame s l2 _ atk ?_, hupd_atk]
      intro m hm mtk hmtk he
      have hmN : m ∈ N := hsub m (List.mem_append.mpr (Or.inr (List.mem_cons_of_mem _ hm)))
      have hmA : m = A := Hinj m hmN A hAN atk (he ▸ hmtk) hAtk
      exact (hanc2 A hA) (hmA ▸ hm)
    simp only []
    rw [hlocalA, hframe_atk]
/-- C2: after `update_world_transforms` runs on a scene and an arbitrary
list of dirty subtree roots (duplicates, overlaps and any order allowed,
exactly as the observer produces them), for every node of a dirty subtree
that carries a transform component: if the ancestor walk (parents outward)
meets a first transform-bearing ancestor `A` with no layer-bearing ancestor
strictly before it, the node's world transform equals its local transform
times `A`'s world transform (local on the left); if the walk meets a
layer-bearing, transform-free ancestor first, or exhausts the chain without
finding a transform, the node's world transform equals its local
transform. The hypotheses are scene well-formedness only: transform slots
are not shared between nodes, no node is its own ancestor, the node set `N`
is ancestor-closed, and each traversal that visits an ancestor of a node
visits that node again afterwards (depth-first pre-order of a tree). -/
theorem C2_world_transform_composition
    (s : RSGScene RSGComponentLinks) (N : List RSGNodeKey)
    (tbl : RSGTransformComponentList) (roots : List RSGNodeKey)
    (Hinj : ∀ m1 ∈ N, ∀ m2 ∈ N, m1 ≠ m2 →
      (s.get_component_links m1).transform_key = none ∨
      (s.get_component_links m1).transform_key ≠ (s.get_component_links m2).transform_key)
    (Hnoanc : ∀ n ∈ N, n ∉ s.ancestors n)
    (HancN : ∀ n ∈ N, ∀ a ∈ s.ancestors n, a ∈ N)
    (hsub : ∀ n ∈ (roots.map (fun r => (s.traverse r).map Prod.fst)).flatten, n ∈ N)
    (Hdesc : ∀ r ∈ roots, ∀ (i : Nat) (hi : i < ((s.traverse r).map Prod.fst).length),
      ∀ m ∈ N, ((s.traverse r).map Prod.fst).get ⟨i, hi⟩ ∈ s.ancestors m →
        m ∈ ((s.traverse r).map Prod.fst).drop (i + 1)) :
    ∀ n ∈ (roots.map (fun r => (s.traverse r).map Prod.fst)).flatten,
    ∀ tk, (s.get_component_links n).transform_key = some tk →
      (∀ l1 A l2 atk, s.ancestors n = l1 ++ A :: l2 →
        (∀ a ∈ l1, (s.get_component_links a).transform_key = none ∧
          (s.get_component_links a).layer_key = none) →
        (s.get_component_links A).transform_key = some atk →
        ((update_world_transforms tbl s roots) tk).world_transform =
          ((update_world_transforms tbl s roots) tk).local_transform *
            ((update_world_transforms tbl s roots) atk).world_transform) ∧
      (∀ l1 B l2, s.ancestors n = l1 ++ B :: l2 →
        (∀ a ∈ l1, (s.get_component_links a).transform_key = none ∧
          (s.get_component_links a).layer_key = none) →
        (s.get_component_links B).transform_key = none →
        (s.get_component_links B).layer_key.isSome = true →
        ((update_world_transforms tbl s roots) tk).world_transform =
          ((update_world_transforms tbl s roots) tk).local_transform) ∧
      ((∀ a ∈ s.ancestors n, (s.get_component_links a).transform_key = none ∧
          (s.get_component_links a).layer_key = none) →
        ((update_world_transforms tbl s roots) tk).world_transform =
          ((update_world_transforms tbl s roots) tk).local_transform) := by
  intro n hn tk htk
  set L := (roots.map (fun r => (s.traverse r).map Prod.fst)).flatten with hLdef
  have hnN : n ∈ N := hsub n hn
  have Hinjx : ∀ m1 ∈ N, ∀ m2 ∈ N, ∀ k : Nat,
      (s.get_component_links m1).transform_key = some k →
      (s.get_component_links m2).transform_key = some k → m1 = m2 := by
    intro m1 h1 m2 h2 k hk1 hk2
    by_contra hne
    rcases Hinj m1 h1 m2 h2 hne with h | h
    · rw [hk1] at h
      cases h
    · exact h (hk1.trans hk2.symm)
  obtain ⟨L1, L2, hsplitL, hnL2⟩ := exists_last_occurrence L n hn
  have hanc2 : ∀ a ∈ s.ancestors n, a ∉ L2 := by
    intro A hA hAL2
    obtain ⟨X1, X2, hX⟩ := List.append_of_mem hAL2
    have hLsplit2 : L = (L1 ++ n :: X1) ++ A :: X2 := by
      rw [hsplitL, hX]
      simp
    obtain ⟨ls1, u, v, ls2, hrs, hm2⟩ := flatten_split _ _ _ _ hLsplit2
    have hblock : (u ++ A :: v) ∈ roots.map (fun r => (s.traverse r).map Prod.fst) := by
      rw [hrs]
      exact List.mem_append.mpr (Or.inr (List.mem_cons_self _ _))
    obtain ⟨r, hr, hfr⟩ := List.mem_map.mp hblock
    obtain ⟨hi, hg, hd⟩ := mem_drop_of_split u ((s.traverse r).map Prod.fst) A v hfr
    have hnv : n ∈ v := by
      have := Hdesc r hr u.length hi n hnN (by rw [hg]; exact hA)
      rw [hd] at this
      exact this
    have hnX2 : n ∈ X2 := by
      rw [hm2]
      exact List.mem_append.mpr (Or.inl hnv)
    have : n ∈ L2 := by
      rw [hX]
      exact List.mem_append.mpr (Or.inr (List.mem_cons_of_mem _ hnX2))
    exact hnL2 this
  have hsub2 : ∀ m ∈ L1 ++ n :: L2, m ∈ N := by
    intro m hm
    exact hsub m (by rw [hsplitL]; exact hm)
  have hmain := processList_world_last s N Hinjx Hnoanc HancN L1 L2 n tbl hsub2 hnL2
    hanc2 tk htk
  have hfold := update_world_transforms_eq_flatten s roots tbl
  rw [← hLdef, hsplitL] at hfold
  refine ⟨?_, ?_, ?_⟩
  · intro l1 A l2 atk hanc hclean hA
    have hk := ancestorTransformKey_prefix_trans s l1 A l2 atk hclean hA
    rw [hanc, hk] at hmain
    simp only [] at hmain
    rw [hfold, hmain]
  · intro l1 B l2 hanc hclean hBt hBl
    have hk := ancestorTransformKey_layer_none s l1 B l2 hclean hBt hBl
    rw [hanc, hk] at hmain
    simp only [] at hmain
    rw [hfold, hmain]
  · intro hclean
    have hk := ancestorTransformKey_clean_none s (s.ancestors n) hclean
    rw [hk] at hmain
    simp only [] at hmain
    rw [hfold, hmain]

/-- C2, witness: on the two-node scene with dirty root 0, child 1's world
transform composes as local(1) times the root's world transform, local
matrix on the left. -/
theorem C2_world_transform_composition_witness :
    exSceneT.ancestors 1 = [] ++ 0 :: [] ∧
    (exSceneT.get_component_links 0).transform_key = some 0 ∧
    (exSceneT.get_component_links 1).transform_key = some 1 ∧
    ((update_world_transforms exTblT exSceneT [0]) 1).world_transform =
      ((update_world_transforms exTblT exSceneT [0]) 1).local_transform *
        ((update_world_transforms exTblT exSceneT [0]) 0).world_transform := by
  refine ⟨by decide, by decide, by decide, ?_⟩
  exact ((C2_world_transform_composition exSceneT [0, 1] exTblT [0]
      (by decide) (by decide) (by decide) (by decide) (by decide))
      1 (by decide) 1 (by decide)).1 [] 0 [] 0 (by decide) (by decide) (by decide)
theorem chainEvents_of_chainNext {C : Type} (s : RSGScene C) (mk : RSGNodeKey → RSGEvent) :
    ∀ (cs : List RSGNodeKey) (fuel : Nat) (o : Option RSGNodeKey),
      cs.length ≤ fuel → chainNext s cs o →
      RSGScene.chainEvents_go s mk fuel o = cs.map mk := by
  intro cs
  induction cs with
  | nil =>
    intro fuel o _ hch
    have ho : o = none := hch
    subst ho
    cases fuel <;> rfl
  | cons c rest ih =>
    intro fuel o hlen hch
    obtain ⟨ho, hch2⟩ := hch
    subst ho
    cases fuel with
    | zero => simp at hlen
    | succ f =>
      simp only [RSGScene.chainEvents_go, List.map_cons]
      congr 1
      exact ih f (nextKeyOf s c) (by simpa using hlen) hch2

theorem remove_helper_false_spec {C : Type} (s : RSGScene C)
    (N P : RSGNodeKey) (ps_opt ns_opt : Option RSGNodeKey) (nodeN : RSGNode C)
    (hN : aGet s.arena N = some nodeN)
    (hNP : nodeN.parent_key = some P)
    (hNps : nodeN.prev_sibling_key = ps_opt)
    (hNns : nodeN.next_sibling_key = ns_opt)
    (hNPne : N ≠ P)
    (hpsN : ps_opt ≠ some N) (hnsN : ns_opt ≠ some N)
    (hpsP : ps_opt ≠ some P) (hnsP : ns_opt ≠ some P)
    (hpsns : ∀ x, ps_opt = some x → ns_opt ≠ some x) :
    (s.remove_helper N false).2.1 = [RSGEvent.SubtreeAboutToBeRemoved N] ∧
    (s.remove_helper N false).2.2 = some nodeN.comp_links ∧
    aGet (s.remove_helper N false).1.arena N = none ∧
    (∀ x, x ≠ N → x ≠ P → ps_opt ≠ some x → ns_opt ≠ some x →
      aGet (s.remove_helper N false).1.arena x = aGet s.arena x) ∧
    (∀ ps, ps_opt = some ps →
      aGet (s.remove_helper N false).1.arena ps =
        (aGet s.arena ps).map (fun n => { n with next_sibling_key := ns_opt })) ∧
    (∀ ns, ns_opt = some ns →
      aGet (s.remove_helper N false).1.arena ns =
        (aGet s.arena ns).map (fun n => { n with prev_sibling_key := ps_opt })) ∧
    aGet (s.remove_helper N false).1.arena P =
      (aGet s.arena P).map (fun n =>
        { n with
          first_child_key := if ps_opt = none then ns_opt else n.first_child_key
          last_child_key := if ns_opt = none then ps_opt else n.last_child_key }) := by
  have h1 : aGet (aModify s.arena N
      (fun n => { n with first_child_key := none, last_child_key := none })) N =
      some { nodeN with first_child_key := none, last_child_key := none } := by
    rw [aGet_aModify, if_pos rfl, hN]
    rfl
  cases ps_opt with
  | some ps =>
    cases ns_opt with
    | some ns =>
      have e1 : ¬ps = N := fun h => hpsN (congrArg some h)
      have e2 : ¬ns = N := fun h => hnsN (congrArg some h)
      have e3 : ¬ps = P := fun h => hpsP (congrArg some h)
      have e4 : ¬ns = P := fun h => hnsP (congrArg some h)
      have e5 : ¬ns = ps := fun h => hpsns ps rfl (congrArg some h)
      have e6 : ¬N = ns := fun h => e2 h.symm
      have e7 : ¬N = ps := fun h => e1 h.symm
      have e8 : ¬P = ns := fun h => e4 h.symm
      have e9 : ¬P = ps := fun h => e3 h.symm
      have e10 : ¬ps = ns := fun h => e5 h.symm
      simp only [RSGScene.remove_helper, Bool.false_eq_true, if_false, h1, hNP,
        hNps, hNns]
      refine ⟨by trivial, by trivial, ?_, ?_, ?_, ?_, ?_⟩
      · rw [aGet_aModify, if_neg e6, aGet_aModify, if_neg e7, aGet_aRemove, if_pos rfl]
      · intro x hxN hxP hxps hxns
        have ex1 : ¬x = ns := fun h => hxns (congrArg some h.symm)
        have ex2 : ¬x = ps := fun h => hxps (congrArg some h.symm)
        rw [aGet_aModify, if_neg ex1, aGet_aModify, if_neg ex2, aGet_aRemove,
          if_neg hxN, aGet_aModify, if_neg hxN]
      · intro p hp
        have hpp : ps = p := (Option.some.injEq _ _).mp hp
        cases hpp
        rw [aGet_aModify, if_neg e10, aGet_aModify, if_pos rfl, aGet_aRemove,
          if_neg e1, aGet_aModify, if_neg e1]
      · intro n hn
        have hnn : ns = n := (Option.some.injEq _ _).mp hn
        cases hnn
        rw [aGet_aModify, if_pos rfl, aGet_aModify, if_neg e5, aGet_aRemove,
          if_neg e2, aGet_aModify, if_neg e2]
      · rw [aGet_aModify, if_neg e8, aGet_aModify, if_neg e9, aGet_aRemove,
          if_neg hNPne.symm, aGet_aModify, if_neg hNPne.symm]
        cases aGet s.arena P with
        | none => rfl
        | some m => rfl
    | none =>
      have e1 : ¬ps = N := fun h => hpsN (congrArg some h)
      have e3 : ¬ps = P := fun h => hpsP (congrArg some h)
      have e7 : ¬N = ps := fun h => e1 h.symm
      have e9 : ¬P = ps := fun h => e3 h.symm
      simp only [RSGScene.remove_helper, Bool.false_eq_true, if_false, h1, hNP,
        hNps, hNns]
      refine ⟨by trivial, by trivial, ?_, ?_, ?_, ?_, ?_⟩
      · rw [aGet_aModify, if_neg e7, aGet_aModify, if_neg hNPne, aGet_aRemove, if_pos rfl]
      · intro x hxN hxP hxps _
        have ex2 : ¬x = ps := fun h => hxps (congrArg some h.symm)
        rw [aGet_aModify, if_neg ex2, aGet_aModify, if_neg hxP, aGet_aRemove,
          if_neg hxN, aGet_aModify, if_neg hxN]
      · intro p hp
        have hpp : ps = p := (Option.some.injEq _ _).mp hp
        cases hpp
        rw [aGet_aModify, if_pos rfl, aGet_aModify, if_neg e3, aGet_aRemove,
          if_neg e1, aGet_aModify, if_neg e1]
      · intro n hn
        exact Option.noConfusion hn
      · rw [aGet_aModify, if_neg e9, aGet_aModify, if_pos rfl, aGet_aRemove,
          if_neg hNPne.symm, aGet_aModify, if_neg hNPne.symm]
        cases aGet s.arena P with
        | none => rfl
        | some m => rfl
  | none =>
    cases ns_opt with
    | some ns =>
      have e2 : ¬ns = N := fun h => hnsN (congrArg some h)
      have e4 : ¬ns = P := fun h => hnsP (congrArg some h)
      have e6 : ¬N = ns := fun h => e2 h.symm
      have e8 : ¬P = ns := fun h => e4 h.symm
      simp only [RSGScene.remove_helper, Bool.false_eq_true, if_false, h1, hNP,
        hNps, hNns]
      refine ⟨by trivial, by trivial, ?_, ?_, ?_, ?_, ?_⟩
      · rw [aGet_aModify, if_neg e6, aGet_aModify, if_neg hNPne, aGet_aRemove, if_pos rfl]
      · intro x hxN hxP _ hxns
        have ex1 : ¬x = ns := fun h => hxns (congrArg some h.symm)
        rw [aGet_aModify, if_neg ex1, aGet_aModify, if_neg hxP, aGet_aRemove,
          if_neg hxN, aGet_aModify, if_neg hxN]
      · intro p hp
        exact Option.noConfusion hp
      · intro n hn
        have hnn : ns = n := (Option.some.injEq _ _).mp hn
        cases hnn
        rw [aGet_aModify, if_pos rfl, aGet_aModify, if_neg e4, aGet_aRemove,
          if_neg e2, aGet_aModify, if_neg e2]
      · rw [aGet_aModify, if_neg e8, aGet_aModify, if_pos rfl, aGet_aRemove,
          if_neg hNPne.symm, aGet_aModify, if_neg hNPne.symm]
        cases aGet s.arena P with
        | none => rfl
        | some m => rfl
    | none =>
      simp only [RSGScene.remove_helper, Bool.false_eq_true, if_false, h1, hNP,
        hNps, hNns]
      refine ⟨by trivial, by trivial, ?_, ?_, ?_, ?_, ?_⟩
      · rw [aGet_aModify, if_neg hNPne, aGet_aRemove, if_pos rfl]
      · intro x hxN hxP _ _
        rw [aGet_aModify, if_neg hxP, aGet_aRemove, if_neg hxN, aGet_aModify, if_neg hxN]
      · intro p hp
        exact Option.noConfusion hp
      · intro n hn
        exact Option.noConfusion hn
      · rw [aGet_aModify, if_pos rfl, aGet_aRemove, if_neg hNPne.symm,
          aGet_aModify, if_neg hNPne.symm]
        cases aGet s.arena P with
        | none => rfl
        | some m => rfl
theorem lastOr_cons {α : Type} (c : α) (rest : List α) (d : Option α) :
    ((c :: rest).getLast?).or d = (rest.getLast?).or (some c) := by
  cases rest with
  | nil => simp
  | cons r t =>
    rw [List.getLast?_cons_cons]
    cases hh : (r :: t).getLast? with
    | none =>
      rw [List.getLast?_eq_none_iff] at hh
      exact List.noConfusion hh
    | some p => rfl

theorem reinsert_before_spec {C : Type} (s0 : RSGScene C) (ns P : RSGNodeKey)
    (hnsPne : ns ≠ P) :
    ∀ (cs2 : List RSGNodeKey) (fuel : Nat) (s : RSGScene C) (o : Option RSGNodeKey)
      (prev_opt : Option RSGNodeKey) (nns : RSGNode C),
      cs2.length ≤ fuel → chainNext s0 cs2 o → cs2.Nodup →
      (∀ x ∈ cs2, aGet s.arena x = aGet s0.arena x) →
      ns ∉ cs2 → P ∉ cs2 →
      (∀ pv, prev_opt = some pv → pv ∉ cs2 ∧ pv ≠ ns ∧ pv ≠ P) →
      aGet s.arena ns = some nns →
      nns.parent_key = some P →
      nns.prev_sibling_key = prev_opt →
      (RSGScene.reinsert_go fuel s o (some ns) P).2 =
        cs2.map RSGEvent.SubtreeAddedOrReattached ∧
      (∀ x, x ∉ cs2 → x ≠ ns →
        (cs2 ≠ [] → prev_opt ≠ some x) →
        (cs2 ≠ [] → prev_opt = none → x ≠ P) →
        aGet (RSGScene.reinsert_go fuel s o (some ns) P).1.arena x = aGet s.arena x) ∧
      aGet (RSGScene.reinsert_go fuel s o (some ns) P).1.arena ns =
        some { nns with prev_sibling_key := (cs2.getLast?).or prev_opt } ∧
      (∀ pv c1x, prev_opt = some pv → cs2.head? = some c1x →
        aGet (RSGScene.reinsert_go fuel s o (some ns) P).1.arena pv =
          (aGet s.arena pv).map (fun n => { n with next_sibling_key := some c1x })) ∧
      (∀ c1x, prev_opt = none → cs2.head? = some c1x →
        aGet (RSGScene.reinsert_go fuel s o (some ns) P).1.arena P =
          (aGet s.arena P).map (fun n => { n with first_child_key := some c1x })) ∧
      (∀ l1 c l2, cs2 = l1 ++ c :: l2 →
        aGet (RSGScene.reinsert_go fuel s o (some ns) P).1.arena c =
          (aGet s0.arena c).map (fun n =>
            { n with
              key := some c
              parent_key := some P
              prev_sibling_key := (l1.getLast?).or prev_opt
              next_sibling_key := (l2.head?).or (some ns) })) := by
  intro cs2
  induction cs2 with
  | nil =>
    intro fuel s o prev_opt nns _ hch _ _ _ _ _ hnsget hnspar hnsprev
    have ho : o = none := hch
    subst ho
    have hres : RSGScene.reinsert_go fuel s none (some ns) P = (s, []) := by
      cases fuel <;> rfl
    rw [hres]
    refine ⟨rfl, fun x _ _ _ _ => rfl, ?_, ?_, ?_, ?_⟩
    · rw [hnsget, ← hnsprev]
      rfl
    · intro pv c1x _ hc
      exact Option.noConfusion hc
    · intro c1x _ hc
      exact Option.noConfusion hc
    · intro l1 c l2 h
      cases l1 with
      | nil => exact List.noConfusion h
      | cons a t => exact List.noConfusion h
  | cons c rest ih =>
    intro fuel s o prev_opt nns hlen hch hnd halign hnsmem hPmem hpv hnsget hnspar hnsprev
    obtain ⟨ho, hch2⟩ := hch
    subst ho
    cases fuel with
    | zero => simp at hlen
    | succ f =>
      have hc_mem : c ∈ c :: rest := List.mem_cons_self _ _
      have hcrest : c ∉ rest := (List.nodup_cons.mp hnd).1
      have hndr : rest.Nodup := (List.nodup_cons.mp hnd).2
      have hns1 : ns ≠ c := fun h => hnsmem (List.mem_cons.mpr (Or.inl h))
      have hns2 : ns ∉ rest := fun h => hnsmem (List.mem_cons_of_mem _ h)
      have hP1 : P ≠ c := fun h => hPmem (List.mem_cons.mpr (Or.inl h))
      have hP2 : P ∉ rest := fun h => hPmem (List.mem_cons_of_mem _ h)
      have hcns : c ≠ ns := fun h => hns1 h.symm
      have hcP : c ≠ P := fun h => hP1 h.symm
      have hnxt : (aGet s.arena c).bind (·.next_sibling_key) = nextKeyOf s0 c := by
        show (aGet s.arena c).bind (·.next_sibling_key) = _
        rw [halign c hc_mem]
        rfl
      have hstep : RSGScene.reinsert_go (f + 1) s (some c) (some ns) P =
          ((RSGScene.reinsert_go f (s.insert_before_impl ns c)
              ((aGet s.arena c).bind (·.next_sibling_key)) (some ns) P).1,
            RSGEvent.SubtreeAddedOrReattached c ::
              (RSGScene.reinsert_go f (s.insert_before_impl ns c)
                ((aGet s.arena c).bind (·.next_sibling_key)) (some ns) P).2) := rfl
      rw [hstep, hnxt]
      cases prev_opt with
      | some pv =>
        obtain ⟨hpv1, hpv2, hpv3⟩ := hpv pv rfl
        have d1 : ¬ns = pv := fun h => hpv2 h.symm
        have d3 : ¬c = pv := fun h => hpv1 (h ▸ hc_mem)
        have d4 : ¬pv = c := fun h => d3 h.symm
        have hs2 : (s.insert_before_impl ns c).arena =
            aModify (aModify (aModify s.arena ns
                (fun n => { n with prev_sibling_key := some c })) c
                (fun n =>
                  { n with
                      key := some c
                      parent_key := some P
                      prev_sibling_key := some pv
                      next_sibling_key := some ns })) pv
                (fun n => { n with next_sibling_key := some c }) := by
          simp only [RSGScene.insert_before_impl, hnsget, Option.bind, hnspar, hnsprev]
        have hi_ns : aGet (s.insert_before_impl ns c).arena ns =
            some { nns with prev_sibling_key := some c } := by
          rw [hs2, aGet_aModify, if_neg d1, aGet_aModify, if_neg hns1, aGet_aModify,
            if_pos rfl, hnsget]
          rfl
        have hi_c : aGet (s.insert_before_impl ns c).arena c =
            (aGet s0.arena c).map (fun n =>
              { n with
                  key := some c
                  parent_key := some P
                  prev_sibling_key := some pv
                  next_sibling_key := some ns }) := by
          rw [hs2, aGet_aModify, if_neg d3, aGet_aModify, if_pos rfl, aGet_aModify,
            if_neg hcns, halign c hc_mem]
        have hi_pv : aGet (s.insert_before_impl ns c).arena pv =
            (aGet s.arena pv).map (fun n => { n with next_sibling_key := some c }) := by
          rw [hs2, aGet_aModify, if_pos rfl, aGet_aModify, if_neg d4, aGet_aModify,
            if_neg hpv2]
        have hi_frame : ∀ x, x ≠ ns → x ≠ c → x ≠ pv →
            aGet (s.insert_before_impl ns c).arena x = aGet s.arena x := by
          intro x hx1 hx2 hx3
          rw [hs2, aGet_aModify, if_neg hx3, aGet_aModify, if_neg hx2, aGet_aModify,
            if_neg hx1]
        have halign2 : ∀ x ∈ rest,
            aGet (s.insert_before_impl ns c).arena x = aGet s0.arena x := by
          intro x hx
          rw [hi_frame x (fun h => hns2 (h ▸ hx)) (fun h => hcrest (h ▸ hx))
            (fun h => hpv1 (h ▸ List.mem_cons_of_mem _ hx))]
          exact halign x (List.mem_cons_of_mem _ hx)
        have hIH := ih f (s.insert_before_impl ns c) (nextKeyOf s0 c) (some c)
          { nns with prev_sibling_key := some c }
          (by simpa using hlen) hch2 hndr halign2 hns2 hP2
          (fun pv' hpv' => by
            cases (Option.some.injEq c pv').mp hpv'
            exact ⟨hcrest, hcns, hcP⟩)
          hi_ns hnspar rfl
        obtain ⟨ih1, ih2, ih3, ih4, ih5, ih6⟩ := hIH
        refine ⟨?_, ?_, ?_, ?_, ?_, ?_⟩
        · rw [ih1]
          rfl
        · intro x hx hxns hxpv _
          have hxc : x ≠ c := fun h => hx (h ▸ hc_mem)
          have hxrest : x ∉ rest := fun h => hx (List.mem_cons_of_mem _ h)
          have hxpv2 : some pv ≠ some x := hxpv (List.cons_ne_nil c rest)
          rw [ih2 x hxrest hxns
            (fun _ hcx => hxc ((Option.some.injEq _ _).mp hcx).symm)
            (fun _ h => Option.noConfusion h)]
          exact hi_frame x hxns hxc (fun h => hxpv2 (congrArg some h.symm))
        · rw [ih3, lastOr_cons]
        · intro pv' c1x hpv' hc1
          cases (Option.some.injEq pv pv').mp hpv'
          have hc1e : c = c1x := (Option.some.injEq c c1x).mp hc1
          cases hc1e
          have hpvrest : pv ∉ rest := fun h => hpv1 (List.mem_cons_of_mem _ h)
          rw [ih2 pv hpvrest hpv2
            (fun _ h => d3 ((Option.some.injEq _ _).mp h))
            (fun _ h => Option.noConfusion h)]
          exact hi_pv
        · intro c1x h _
          exact Option.noConfusion h
        · intro l1 c' l2 hsplit
          cases l1 with
          | nil =>
            have h1 : c = c' := (List.cons.injEq _ _ _ _).mp hsplit |>.1
            have h2 : rest = l2 := (List.cons.injEq _ _ _ _).mp hsplit |>.2
            cases h1
            cases h2
            cases rest with
            | nil =>
              rw [ih2 c hcrest hcns (fun hne _ => absurd rfl hne)
                (fun hne _ => absurd rfl hne)]
              rw [hi_c]
              cases aGet s0.arena c with
              | none => rfl
              | some n => rfl
            | cons r t =>
              rw [ih4 c r rfl rfl, hi_c, Option.map_map]
              cases aGet s0.arena c with
              | none => rfl
              | some n => rfl
          | cons a t1 =>
            have h1 : c = a := (List.cons.injEq _ _ _ _).mp hsplit |>.1
            have h2 : rest = t1 ++ c' :: l2 := (List.cons.injEq _ _ _ _).mp hsplit |>.2
            cases h1
            rw [ih6 t1 c' l2 h2, lastOr_cons c t1 (some pv)]
      | none =>
        have hs2 : (s.insert_before_impl ns c).arena =
            aModify (aModify (aModify s.arena ns
                (fun n => { n with prev_sibling_key := some c })) c
                (fun n =>
                  { n with
                      key := some c
                      parent_key := some P
                      prev_sibling_key := none
                      next_sibling_key := some ns })) P
                (fun n => { n with first_child_key := some c }) := by
          simp only [RSGScene.insert_before_impl, hnsget, Option.bind, hnspar, hnsprev]
        have hPns : ¬P = ns := fun h => hnsPne h.symm
        have hi_ns : aGet (s.insert_before_impl ns c).arena ns =
            some { nns with prev_sibling_key := some c } := by
          rw [hs2, aGet_aModify, if_neg hnsPne, aGet_aModify, if_neg hns1, aGet_aModify,
            if_pos rfl, hnsget]
          rfl
        have hi_c : aGet (s.insert_before_impl ns c).arena c =
            (aGet s0.arena c).map (fun n =>
              { n with
                  key := some c
                  parent_key := some P
                  prev_sibling_key := none
                  next_sibling_key := some ns }) := by
          rw [hs2, aGet_aModify, if_neg hcP, aGet_aModify, if_pos rfl, aGet_aModify,
            if_neg hcns, halign c hc_mem]
        have hi_P : aGet (s.insert_before_impl ns c).arena P =
            (aGet s.arena P).map (fun n => { n with first_child_key := some c }) := by
          rw [hs2, aGet_aModify, if_pos rfl, aGet_aModify, if_neg hP1, aGet_aModify,
            if_neg hPns]
        have hi_frame : ∀ x, x ≠ ns → x ≠ c → x ≠ P →
            aGet (s.insert_before_impl ns c).arena x = aGet s.arena x := by
          intro x hx1 hx2 hx3
          rw [hs2, aGet_aModify, if_neg hx3, aGet_aModify, if_neg hx2, aGet_aModify,
            if_neg hx1]
        have halign2 : ∀ x ∈ rest,
            aGet (s.insert_before_impl ns c).arena x = aGet s0.arena x := by
          intro x hx
          rw [hi_frame x (fun h => hns2 (h ▸ hx)) (fun h => hcrest (h ▸ hx))
            (fun h => hP2 (h ▸ hx))]
          exact halign x (List.mem_cons_of_mem _ hx)
        have hIH := ih f (s.insert_before_impl ns c) (nextKeyOf s0 c) (some c)
          { nns with prev_sibling_key := some c }
          (by have := hlen; simp [List.length_cons] at this; omega) hch2 hndr halign2
          hns2 hP2
          (fun pv' hpv' => by
            cases (Option.some.injEq c pv').mp hpv'
            exact ⟨hcrest, hcns, hcP⟩)
          hi_ns hnspar rfl
        obtain ⟨ih1, ih2, ih3, ih4, ih5, ih6⟩ := hIH
        refine ⟨?_, ?_, ?_, ?_, ?_, ?_⟩
        · rw [ih1]
          rfl
        · intro x hx hxns _ hxP'
          have hxc : x ≠ c := fun h => hx (h ▸ hc_mem)
          have hxrest : x ∉ rest := fun h => hx (List.mem_cons_of_mem _ h)
          have hxP : x ≠ P := hxP' (List.cons_ne_nil c rest) rfl
          rw [ih2 x hxrest hxns
            (fun _ hcx => hxc ((Option.some.injEq _ _).mp hcx).symm)
            (fun _ h => Option.noConfusion h)]
          exact hi_frame x hxns hxc hxP
        · rw [ih3, lastOr_cons]
        · intro pv' c1x h _
          exact Option.noConfusion h
        · intro c1x _ hc1
          have hc1e : c = c1x := (Option.some.injEq c c1x).mp hc1
          cases hc1e
          rw [ih2 P hP2 hPns
            (fun _ hcx => hP1 ((Option.some.injEq _ _).mp hcx).symm)
            (fun _ h => Option.noConfusion h)]
          exact hi_P
        · intro l1 c' l2 hsplit
          cases l1 with
          | nil =>
            have h1 : c = c' := (List.cons.injEq _ _ _ _).mp hsplit |>.1
            have h2 : rest = l2 := (List.cons.injEq _ _ _ _).mp hsplit |>.2
            cases h1
            cases h2
            cases rest with
            | nil =>
              rw [ih2 c hcrest hcns (fun hne _ => absurd rfl hne)
                (fun hne _ => absurd rfl hne)]
              rw [hi_c]
              cases aGet s0.arena c with
              | none => rfl
              | some n => rfl
            | cons r t =>
              rw [ih4 c r rfl rfl, hi_c, Option.map_map]
              cases aGet s0.arena c with
              | none => rfl
              | some n => rfl
          | cons a t1 =>
            have h1 : c = a := (List.cons.injEq _ _ _ _).mp hsplit |>.1
            have h2 : rest = t1 ++ c' :: l2 := (List.cons.injEq _ _ _ _).mp hsplit |>.2
            cases h1
            rw [ih6 t1 c' l2 h2, lastOr_cons c t1 none]
theorem reinsert_append_spec {C : Type} (s0 : RSGScene C) (P : RSGNodeKey) :
    ∀ (cs2 : List RSGNodeKey) (fuel : Nat) (s : RSGScene C) (o : Option RSGNodeKey)
      (nodeP : RSGNode C),
      cs2.length ≤ fuel → chainNext s0 cs2 o → cs2.Nodup →
      (∀ x ∈ cs2, aGet s.arena x = aGet s0.arena x) →
      P ∉ cs2 →
      (∀ ol, nodeP.last_child_key = some ol → ol ∉ cs2 ∧ ol ≠ P) →
      aGet s.arena P = some nodeP →
      (RSGScene.reinsert_go fuel s o none P).2 =
        cs2.map RSGEvent.SubtreeAddedOrReattached ∧
      (∀ x, x ∉ cs2 → x ≠ P →
        (cs2 ≠ [] → nodeP.last_child_key ≠ some x) →
        aGet (RSGScene.reinsert_go fuel s o none P).1.arena x = aGet s.arena x) ∧
      aGet (RSGScene.reinsert_go fuel s o none P).1.arena P =
        some { nodeP with
          first_child_key := (nodeP.first_child_key).or cs2.head?
          last_child_key := (cs2.getLast?).or nodeP.last_child_key } ∧
      (∀ ol c1x, nodeP.last_child_key = some ol → cs2.head? = some c1x →
        aGet (RSGScene.reinsert_go fuel s o none P).1.arena ol =
          (aGet s.arena ol).map (fun n => { n with next_sibling_key := some c1x })) ∧
      (∀ l1 c l2, cs2 = l1 ++ c :: l2 →
        aGet (RSGScene.reinsert_go fuel s o none P).1.arena c =
          (aGet s0.arena c).map (fun n =>
            { n with
                key := some c
                parent_key := some P
                prev_sibling_key := (l1.getLast?).or nodeP.last_child_key
                next_sibling_key := l2.head? })) := by
  intro cs2
  induction cs2 with
  | nil =>
    intro fuel s o nodeP _ hch _ _ _ _ hPget
    have ho : o = none := hch
    subst ho
    have hres : RSGScene.reinsert_go fuel s none none P = (s, []) := by
      cases fuel <;> rfl
    rw [hres]
    refine ⟨rfl, fun x _ _ _ => rfl, ?_, ?_, ?_⟩
    · rw [hPget]
      simp only [List.head?_nil, List.getLast?_nil, Option.or_none, Option.none_or]
    · intro ol c1x _ hc
      exact Option.noConfusion hc
    · intro l1 c l2 h
      cases l1 with
      | nil => exact List.noConfusion h
      | cons a t => exact List.noConfusion h
  | cons c rest ih =>
    intro fuel s o nodeP hlen hch hnd halign hPmem holh hPget
    obtain ⟨ho, hch2⟩ := hch
    subst ho
    cases fuel with
    | zero => simp at hlen
    | succ f =>
      have hc_mem : c ∈ c :: rest := List.mem_cons_self _ _
      have hcrest : c ∉ rest := (List.nodup_cons.mp hnd).1
      have hndr : rest.Nodup := (List.nodup_cons.mp hnd).2
      have hP1 : P ≠ c := fun h => hPmem (List.mem_cons.mpr (Or.inl h))
      have hP2 : P ∉ rest := fun h => hPmem (List.mem_cons_of_mem _ h)
      have hcP : c ≠ P := fun h => hP1 h.symm
      have hnxt : (aGet s.arena c).bind (·.next_sibling_key) = nextKeyOf s0 c := by
        show (aGet s.arena c).bind (·.next_sibling_key) = _
        rw [halign c hc_mem]
        rfl
      have hstep : RSGScene.reinsert_go (f + 1) s (some c) none P =
          ((RSGScene.reinsert_go f (s.append_impl P c)
              ((aGet s.arena c).bind (·.next_sibling_key)) none P).1,
            RSGEvent.SubtreeAddedOrReattached c ::
              (RSGScene.reinsert_go f (s.append_impl P c)
                ((aGet s.arena c).bind (·.next_sibling_key)) none P).2) := rfl
      rw [hstep, hnxt]
      cases hol : nodeP.last_child_key with
      | some ol =>
        obtain ⟨hol1, hol2⟩ := holh ol hol
        have holrest : ol ∉ rest := fun h => hol1 (List.mem_cons_of_mem _ h)
        have dPol : ¬P = ol := fun h => hol2 h.symm
        have dcol : ¬c = ol := fun h => hol1 (h ▸ hc_mem)
        have dolc : ¬ol = c := fun h => dcol h.symm
        have hs2 : (s.append_impl P c).arena =
            aModify (aModify (aModify s.arena P
                (fun p =>
                  { p with
                      first_child_key :=
                        if p.first_child_key = none then some c else p.first_child_key
                      last_child_key := some c })) c
                (fun n =>
                  { n with
                      key := some c
                      parent_key := some P
                      prev_sibling_key := some ol
                      next_sibling_key := none })) ol
                (fun n => { n with next_sibling_key := some c }) := by
          simp only [RSGScene.append_impl, hPget, Option.bind, hol]
        have hi_P : aGet (s.append_impl P c).arena P =
            some { nodeP with
              first_child_key :=
                if nodeP.first_child_key = none then some c else nodeP.first_child_key
              last_child_key := some c } := by
          rw [hs2, aGet_aModify, if_neg dPol, aGet_aModify, if_neg hP1, aGet_aModify,
            if_pos rfl, hPget]
          rfl
        have hi_c : aGet (s.append_impl P c).arena c =
            (aGet s0.arena c).map (fun n =>
              { n with
                  key := some c
                  parent_key := some P
                  prev_sibling_key := some ol
                  next_sibling_key := none }) := by
          rw [hs2, aGet_aModify, if_neg dcol, aGet_aModify, if_pos rfl, aGet_aModify,
            if_neg hcP, halign c hc_mem]
        have hi_ol : aGet (s.append_impl P c).arena ol =
            (aGet s.arena ol).map (fun n => { n with next_sibling_key := some c }) := by
          rw [hs2, aGet_aModify, if_pos rfl, aGet_aModify, if_neg dolc, aGet_aModify,
            if_neg hol2]
        have hi_frame : ∀ x, x ≠ ol → x ≠ c → x ≠ P →
            aGet (s.append_impl P c).arena x = aGet s.arena x := by
          intro x hx1 hx2 hx3
          rw [hs2, aGet_aModify, if_neg hx1, aGet_aModify, if_neg hx2, aGet_aModify,
            if_neg hx3]
        have halign2 : ∀ x ∈ rest,
            aGet (s.append_impl P c).arena x = aGet s0.arena x := by
          intro x hx
          rw [hi_frame x (fun h => hol1 (h ▸ List.mem_cons_of_mem _ hx))
            (fun h => hcrest (h ▸ hx)) (fun h => hP2 (h ▸ hx))]
          exact halign x (List.mem_cons_of_mem _ hx)
        have hIH := ih f (s.append_impl P c) (nextKeyOf s0 c)
          { nodeP with
            first_child_key :=
              if nodeP.first_child_key = none then some c else nodeP.first_child_key
            last_child_key := some c }
          (by have := hlen; simp [List.length_cons] at this; omega) hch2 hndr halign2 hP2
          (fun ol' hol' => by
            cases (Option.some.injEq c ol').mp hol'
            exact ⟨hcrest, hcP⟩)
          hi_P
        obtain ⟨ih1, ih2, ih3, ih4, ih5⟩ := hIH
        refine ⟨?_, ?_, ?_, ?_, ?_⟩
        · rw [ih1]
          rfl
        · intro x hx hxP hxol'
          have hxc : x ≠ c := fun h => hx (h ▸ hc_mem)
          have hxrest : x ∉ rest := fun h => hx (List.mem_cons_of_mem _ h)
          have hxol : ¬x = ol := fun h =>
            hxol' (List.cons_ne_nil c rest) (congrArg some h.symm)
          rw [ih2 x hxrest hxP
            (fun _ hcx => hxc ((Option.some.injEq _ _).mp hcx).symm)]
          exact hi_frame x hxol hxc hxP
        · rw [ih3, lastOr_cons c rest (some ol)]
          simp only [List.head?_cons]
          cases hf : nodeP.first_child_key <;> rfl
        · intro ol' c1x hol' hc1
          have hole : ol = ol' := (Option.some.injEq _ _).mp hol'
          cases hole
          have hc1e : c = c1x := (Option.some.injEq c c1x).mp hc1
          cases hc1e
          rw [ih2 ol holrest hol2
            (fun _ hcx => dcol ((Option.some.injEq _ _).mp hcx))]
          exact hi_ol
        · intro l1 c' l2 hsplit
          cases l1 with
          | nil =>
            have h1 : c = c' := (List.cons.injEq _ _ _ _).mp hsplit |>.1
            have h2 : rest = l2 := (List.cons.injEq _ _ _ _).mp hsplit |>.2
            cases h1
            cases h2
            cases rest with
            | nil =>
              rw [ih2 c hcrest hcP (fun hne _ => absurd rfl hne)]
              rw [hi_c]
              cases aGet s0.arena c with
              | none => rfl
              | some n => rfl
            | cons r t =>
              rw [ih4 c r rfl rfl, hi_c, Option.map_map]
              cases aGet s0.arena c with
              | none => rfl
              | some n => rfl
          | cons a t1 =>
            have h1 : c = a := (List.cons.injEq _ _ _ _).mp hsplit |>.1
            have h2 : rest = t1 ++ c' :: l2 := (List.cons.injEq _ _ _ _).mp hsplit |>.2
            cases h1
            rw [ih5 t1 c' l2 h2, lastOr_cons c t1 (some ol)]
      | none =>
        have hs2 : (s.append_impl P c).arena =
            aModify (aModify s.arena P
                (fun p =>
                  { p with
                      first_child_key :=
                        if p.first_child_key = none then some c else p.first_child_key
                      last_child_key := some c })) c
                (fun n =>
                  { n with
                      key := some c
                      parent_key := some P
                      prev_sibling_key := none
                      next_sibling_key := none }) := by
          simp only [RSGScene.append_impl, hPget, Option.bind, hol]
        have hi_P : aGet (s.append_impl P c).arena P =
            some { nodeP with
              first_child_key :=
                if nodeP.first_child_key = none then some c else nodeP.first_child_key
              last_child_key := some c } := by
          rw [hs2, aGet_aModify, if_neg hP1, aGet_aModify, if_pos rfl, hPget]
          rfl
        have hi_c : aGet (s.append_impl P c).arena c =
            (aGet s0.arena c).map (fun n =>
              { n with
                  key := some c
                  parent_key := some P
                  prev_sibling_key := none
                  next_sibling_key := none }) := by
          rw [hs2, aGet_aModify, if_pos rfl, aGet_aModify, if_neg hcP, halign c hc_mem]
        have hi_frame : ∀ x, x ≠ c → x ≠ P →
            aGet (s.append_impl P c).arena x = aGet s.arena x := by
          intro x hx2 hx3
          rw [hs2, aGet_aModify, if_neg hx2, aGet_aModify, if_neg hx3]
        have halign2 : ∀ x ∈ rest,
            aGet (s.append_impl P c).arena x = aGet s0.arena x := by
          intro x hx
          rw [hi_frame x (fun h => hcrest (h ▸ hx)) (fun h => hP2 (h ▸ hx))]
          exact halign x (List.mem_cons_of_mem _ hx)
        have hIH := ih f (s.append_impl P c) (nextKeyOf s0 c)
          { nodeP with
            first_child_key :=
              if nodeP.first_child_key = none then some c else nodeP.first_child_key
            last_child_key := some c }
          (by have := hlen; simp [List.length_cons] at this; omega) hch2 hndr halign2 hP2
          (fun ol' hol' => by
            cases (Option.some.injEq c ol').mp hol'
            exact ⟨hcrest, hcP⟩)
          hi_P
        obtain ⟨ih1, ih2, ih3, ih4, ih5⟩ := hIH
        refine ⟨?_, ?_, ?_, ?_, ?_⟩
        · rw [ih1]
          rfl
        · intro x hx hxP _
          have hxc : x ≠ c := fun h => hx (h ▸ hc_mem)
          have hxrest : x ∉ rest := fun h => hx (List.mem_cons_of_mem _ h)
          rw [ih2 x hxrest hxP
            (fun _ hcx => hxc ((Option.some.injEq _ _).mp hcx).symm)]
          exact hi_frame x hxc hxP
        · rw [ih3, lastOr_cons c rest none]
          simp only [List.head?_cons]
          cases hf : nodeP.first_child_key <;> rfl
        · intro ol' c1x hol' _
          exact Option.noConfusion hol'
        · intro l1 c' l2 hsplit
          cases l1 with
          | nil =>
            have h1 : c = c' := (List.cons.injEq _ _ _ _).mp hsplit |>.1
            have h2 : rest = l2 := (List.cons.injEq _ _ _ _).mp hsplit |>.2
            cases h1
            cases h2
            cases rest with
            | nil =>
              rw [ih2 c hcrest hcP (fun hne _ => absurd rfl hne)]
              rw [hi_c]
              cases aGet s0.arena c with
              | none => rfl
              | some n => rfl
            | cons r t =>
              rw [ih4 c r rfl rfl, hi_c, Option.map_map]
              cases aGet s0.arena c with
              | none => rfl
              | some n => rfl
          | cons a t1 =>
            have h1 : c = a := (List.cons.injEq _ _ _ _).mp hsplit |>.1
            have h2 : rest = t1 ++ c' :: l2 := (List.cons.injEq _ _ _ _).mp hsplit |>.2
            cases h1
            rw [ih5 t1 c' l2 h2, lastOr_cons c t1 none]
/-- C6: for a non-root valid node `N` with parent `P`, former siblings
`ps_opt`/`ns_opt` and children chain `cs`, `remove_without_children` removes
exactly `N`, re-inserts the children in their original order at `N`'s former
position (each before `N`'s former next sibling, or appended to `P` when `N`
had none), keeps each child's own subtree, and emits the detach events in
child order, then the removal event, then the re-attach events in child
order. -/
theorem C6_remove_without_children_spec {C : Type} (s : RSGScene C)
    (N P c1 cl : RSGNodeKey) (ps_opt ns_opt : Option RSGNodeKey)
    (cs : List RSGNodeKey) (nodeN : RSGNode C)
    (hN : aGet s.arena N = some nodeN)
    (hNP : nodeN.parent_key = some P)
    (hNps : nodeN.prev_sibling_key = ps_opt)
    (hNns : nodeN.next_sibling_key = ns_opt)
    (hchain : chainNext s cs nodeN.first_child_key)
    (hc1 : cs.head? = some c1) (hcl : cs.getLast? = some cl)
    (hnd : cs.Nodup) (hlen : cs.length ≤ s.arena.length)
    (hNPne : N ≠ P) (hNcs : N ∉ cs) (hPcs : P ∉ cs)
    (hpsN : ps_opt ≠ some N) (hnsN : ns_opt ≠ some N)
    (hpsP : ps_opt ≠ some P) (hnsP : ns_opt ≠ some P)
    (hpsns : ∀ x, ps_opt = some x → ns_opt ≠ some x)
    (hpscs : ∀ ps, ps_opt = some ps → ps ∉ cs)
    (hnscs : ∀ ns, ns_opt = some ns → ns ∉ cs)
    (hPpres : (aGet s.arena P).isSome = true)
    (hpspres : ∀ ps, ps_opt = some ps → (aGet s.arena ps).isSome = true)
    (hnspar : ∀ ns, ns_opt = some ns → (aGet s.arena ns).isSome = true ∧
      parentKeyOf s ns = some P)
    (hcspres : ∀ c ∈ cs, (aGet s.arena c).isSome = true) :
    (s.remove_without_children N).2.1 =
      cs.map RSGEvent.SubtreeAboutToBeTemporarilyDetached ++
        [RSGEvent.SubtreeAboutToBeRemoved N] ++
        cs.map RSGEvent.SubtreeAddedOrReattached ∧
    (s.remove_without_children N).2.2 = some nodeN.comp_links ∧
    aGet (s.remove_without_children N).1.arena N = none ∧
    (∀ x, x ≠ N → (aGet (s.remove_without_children N).1.arena x).isSome =
      (aGet s.arena x).isSome) ∧
    (∀ l1 c l2, cs = l1 ++ c :: l2 →
      parentKeyOf (s.remove_without_children N).1 c = some P ∧
      prevKeyOf (s.remove_without_children N).1 c = (l1.getLast?).or ps_opt ∧
      nextKeyOf (s.remove_without_children N).1 c = (l2.head?).or ns_opt ∧
      firstChildOf (s.remove_without_children N).1 c = firstChildOf s c ∧
      lastChildOf (s.remove_without_children N).1 c = lastChildOf s c) ∧
    (∀ ps, ps_opt = some ps → nextKeyOf (s.remove_without_children N).1 ps = some c1) ∧
    (ps_opt = none → firstChildOf (s.remove_without_children N).1 P = some c1) ∧
    (∀ ns, ns_opt = some ns → prevKeyOf (s.remove_without_children N).1 ns = some cl) ∧
    (ns_opt = none → lastChildOf (s.remove_without_children N).1 P = some cl) := by
  obtain ⟨hrm1, hrm2, hrm3, hrm4, hrm5, hrm6, hrm7⟩ :=
    remove_helper_false_spec s N P ps_opt ns_opt nodeN hN hNP hNps hNns hNPne hpsN hnsN
      hpsP hnsP hpsns
  have hmain : s.remove_without_children N =
      ((RSGScene.reinsert_go (s.arena.length + 1) (s.remove_helper N false).1
          nodeN.first_child_key ns_opt P).1,
        RSGScene.chainEvents_go s RSGEvent.SubtreeAboutToBeTemporarilyDetached
            (s.arena.length + 1) nodeN.first_child_key ++
          (s.remove_helper N false).2.1 ++
          (RSGScene.reinsert_go (s.arena.length + 1) (s.remove_helper N false).1
            nodeN.first_child_key ns_opt P).2,
        (s.remove_helper N false).2.2) := by
    simp only [RSGScene.remove_without_children, hN, Option.bind, hNP, hNns]
    rfl
  have hdetach : RSGScene.chainEvents_go s RSGEvent.SubtreeAboutToBeTemporarilyDetached
      (s.arena.length + 1) nodeN.first_child_key =
      cs.map RSGEvent.SubtreeAboutToBeTemporarilyDetached :=
    chainEvents_of_chainNext s _ cs (s.arena.length + 1) nodeN.first_child_key
      (le_trans hlen (Nat.le_succ _)) hchain
  cases ns_opt with
  | some ns =>
    obtain ⟨hnspres', hnsparent⟩ := hnspar ns rfl
    obtain ⟨nns0, hnns0⟩ := Option.isSome_iff_exists.mp hnspres'
    have hnsP' : ns ≠ P := fun h => hnsP (congrArg some h)
    have hnscs' : ns ∉ cs := hnscs ns rfl
    have hs1ns : aGet (s.remove_helper N false).1.arena ns =
        some { nns0 with prev_sibling_key := ps_opt } := by
      rw [hrm6 ns rfl, hnns0]
      rfl
    have hnns0par : ({ nns0 with prev_sibling_key := ps_opt } : RSGNode C).parent_key =
        some P := by
      have h := hnsparent
      simp only [parentKeyOf] at h
      rw [hnns0] at h
      exact h
    have halign1 : ∀ x ∈ cs,
        aGet (s.remove_helper N false).1.arena x = aGet s.arena x := by
      intro x hx
      exact hrm4 x (fun h => hNcs (h ▸ hx)) (fun h => hPcs (h ▸ hx))
        (fun h => hpscs x h hx) (fun h => hnscs x h hx)
    obtain ⟨hr1, hr2, hr3, hr4, hr5, hr6⟩ := reinsert_before_spec s ns P hnsP' cs
      (s.arena.length + 1) (s.remove_helper N false).1 nodeN.first_child_key ps_opt
      { nns0 with prev_sibling_key := ps_opt }
      (le_trans hlen (Nat.le_succ _)) hchain hnd halign1 hnscs' hPcs
      (fun pv hpv => ⟨hpscs pv hpv, fun h => hpsns pv hpv (congrArg some h.symm),
        fun h => hpsP (hpv.trans (congrArg some h))⟩)
      hs1ns hnns0par rfl
    rw [hmain]
    refine ⟨?_, hrm2, ?_, ?_, ?_, ?_, ?_, ?_, ?_⟩
    · rw [hdetach, hrm1, hr1]
    · rw [hr2 N hNcs (fun h => hnsN (congrArg some h.symm))
        (fun _ => hpsN) (fun _ _ => hNPne)]
      exact hrm3
    · intro x hxN
      by_cases hxcs : x ∈ cs
      · obtain ⟨l1, l2, hsplit⟩ := List.append_of_mem hxcs
        rw [hr6 l1 x l2 hsplit]
        cases aGet s.arena x with
        | none => rfl
        | some m => rfl
      · by_cases hxns : x = ns
        · subst hxns
          rw [hr3, hnns0]
          rfl
        · by_cases hxps : ps_opt = some x
          · rw [hr4 x c1 hxps hc1, hrm5 x hxps]
            cases aGet s.arena x with
            | none => rfl
            | some m => rfl
          · by_cases hxP : x = P
            · subst hxP
              by_cases hpsnone : ps_opt = none
              · rw [hr5 c1 hpsnone hc1, hrm7]
                cases aGet s.arena x with
                | none => rfl
                | some m => rfl
              · rw [hr2 x hPcs (fun h => hnsP' h.symm) (fun _ => hpsP)
                  (fun _ h => absurd h hpsnone), hrm7]
                cases aGet s.arena x with
                | none => rfl
                | some m => rfl
            · rw [hr2 x hxcs hxns (fun _ => hxps) (fun _ _ => hxP),
                hrm4 x hxN hxP hxps
                  (fun h => hxns ((Option.some.injEq _ _).mp h).symm)]
    · intro l1 c l2 hsplit
      have hcmem : c ∈ cs := by
        rw [hsplit]
        exact List.mem_append.mpr (Or.inr (List.mem_cons_self _ _))
      obtain ⟨nc, hnc⟩ := Option.isSome_iff_exists.mp (hcspres c hcmem)
      have hF := hr6 l1 c l2 hsplit
      refine ⟨?_, ?_, ?_, ?_, ?_⟩
      · simp only [parentKeyOf]
        rw [hF, hnc]
        rfl
      · simp only [prevKeyOf]
        rw [hF, hnc]
        rfl
      · simp only [nextKeyOf]
        rw [hF, hnc]
        rfl
      · simp only [firstChildOf]
        rw [hF, hnc]
        rfl
      · simp only [lastChildOf]
        rw [hF, hnc]
        rfl
    · intro ps hps
      obtain ⟨np, hnp⟩ := Option.isSome_iff_exists.mp (hpspres ps hps)
      simp only [nextKeyOf]
      rw [hr4 ps c1 hps hc1, hrm5 ps hps, hnp]
      rfl
    · intro hpsnone
      obtain ⟨nP0, hnP0⟩ := Option.isSome_iff_exists.mp hPpres
      simp only [firstChildOf]
      rw [hr5 c1 hpsnone hc1, hrm7, hnP0]
      rfl
    · intro ns' hns'
      have he : ns = ns' := (Option.some.injEq _ _).mp hns'
      cases he
      simp only [prevKeyOf]
      rw [hr3, hcl]
      rfl
    · intro h
      exact Option.noConfusion h
  | none =>
    obtain ⟨nP0, hnP0⟩ := Option.isSome_iff_exists.mp hPpres
    have hs1P : aGet (s.remove_helper N false).1.arena P =
        some { nP0 with
          first_child_key := if ps_opt = none then none else nP0.first_child_key
          last_child_key := ps_opt } := by
      rw [hrm7, hnP0]
      rfl
    have halign1 : ∀ x ∈ cs,
        aGet (s.remove_helper N false).1.arena x = aGet s.arena x := by
      intro x hx
      exact hrm4 x (fun h => hNcs (h ▸ hx)) (fun h => hPcs (h ▸ hx))
        (fun h => hpscs x h hx) (fun h => Option.noConfusion h)
    obtain ⟨hr1, hr2, hr3, hr4, hr5⟩ := reinsert_append_spec s P cs
      (s.arena.length + 1) (s.remove_helper N false).1 nodeN.first_child_key
      { nP0 with
        first_child_key := if ps_opt = none then none else nP0.first_child_key
        last_child_key := ps_opt }
      (le_trans hlen (Nat.le_succ _)) hchain hnd halign1 hPcs
      (fun ol hol => ⟨hpscs ol hol, fun h => hpsP (hol.trans (congrArg some h))⟩)
      hs1P
    rw [hmain]
    refine ⟨?_, hrm2, ?_, ?_, ?_, ?_, ?_, ?_, ?_⟩
    · rw [hdetach, hrm1, hr1]
    · rw [hr2 N hNcs hNPne (fun _ => hpsN)]
      exact hrm3
    · intro x hxN
      by_cases hxcs : x ∈ cs
      · obtain ⟨l1, l2, hsplit⟩ := List.append_of_mem hxcs
        rw [hr5 l1 x l2 hsplit]
        cases aGet s.arena x with
        | none => rfl
        | some m => rfl
      · by_cases hxps : ps_opt = some x
        · rw [hr4 x c1 hxps hc1, hrm5 x hxps]
          cases aGet s.arena x with
          | none => rfl
          | some m => rfl
        · by_cases hxP : x = P
          · subst hxP
            rw [hr3, hnP0]
            rfl
          · rw [hr2 x hxcs hxP (fun _ => hxps),
              hrm4 x hxN hxP hxps (fun h => Option.noConfusion h)]
    · intro l1 c l2 hsplit
      have hcmem : c ∈ cs := by
        rw [hsplit]
        exact List.mem_append.mpr (Or.inr (List.mem_cons_self _ _))
      obtain ⟨nc, hnc⟩ := Option.isSome_iff_exists.mp (hcspres c hcmem)
      have hF := hr5 l1 c l2 hsplit
      refine ⟨?_, ?_, ?_, ?_, ?_⟩
      · simp only [parentKeyOf]
        rw [hF, hnc]
        rfl
      · simp only [prevKeyOf]
        rw [hF, hnc]
        rfl
      · simp only [nextKeyOf]
        rw [hF, hnc, Option.or_none]
        rfl
      · simp only [firstChildOf]
        rw [hF, hnc]
        rfl
      · simp only [lastChildOf]
        rw [hF, hnc]
        rfl
    · intro ps hps
      obtain ⟨np, hnp⟩ := Option.isSome_iff_exists.mp (hpspres ps hps)
      simp only [nextKeyOf]
      rw [hr4 ps c1 hps hc1, hrm5 ps hps, hnp]
      rfl
    · intro hpsnone
      simp only [firstChildOf]
      rw [hr3, hc1]
      simp [hpsnone]
    · intro ns' h
      exact Option.noConfusion h
    · intro _
      simp only [lastChildOf]
      rw [hr3, hcl]
      rfl
/-- C6, witness: on the S4 tree `root(N1, N2(N21, N22(N221)), N3)`,
`remove_without_children(N2)` emits detach 4, detach 5, remove 2, add 4,
add 5 and leaves root's children `[1, 4, 5, 3]` with node 5 keeping its
child 6. -/
theorem C6_remove_without_children_spec_witness :
    (exSceneS4.remove_without_children 2).2.1 =
      [RSGEvent.SubtreeAboutToBeTemporarilyDetached 4,
       RSGEvent.SubtreeAboutToBeTemporarilyDetached 5,
       RSGEvent.SubtreeAboutToBeRemoved 2,
       RSGEvent.SubtreeAddedOrReattached 4,
       RSGEvent.SubtreeAddedOrReattached 5] ∧
    aGet (exSceneS4.remove_without_children 2).1.arena 2 = none ∧
    nextKeyOf (exSceneS4.remove_without_children 2).1 1 = some 4 ∧
    nextKeyOf (exSceneS4.remove_without_children 2).1 4 = some 5 ∧
    nextKeyOf (exSceneS4.remove_without_children 2).1 5 = some 3 ∧
    parentKeyOf (exSceneS4.remove_without_children 2).1 4 = some 0 ∧
    firstChildOf (exSceneS4.remove_without_children 2).1 5 = some 6 := by
  have h := C6_remove_without_children_spec exSceneS4 2 0 4 5 (some 1) (some 3) [4, 5]
    { key := some 2, parent_key := some 0, prev_sibling_key := some 1,
      next_sibling_key := some 3, first_child_key := some 4, last_child_key := some 5,
      comp_links := () }
    rfl rfl rfl rfl (by decide) rfl rfl (by decide) (by decide) (by decide) (by decide)
    (by decide) (by decide) (by decide) (by decide) (by decide)
    (fun x hx => by injection hx with h2; subst h2; decide)
    (fun ps hps => by injection hps with h2; subst h2; decide)
    (fun ns hns => by injection hns with h2; subst h2; decide)
    rfl
    (fun ps hps => by injection hps with h2; subst h2; rfl)
    (fun ns hns => by injection hns with h2; subst h2; exact ⟨rfl, rfl⟩)
    (by decide)
  refine ⟨h.1, h.2.2.1, (h.2.2.2.2.2.1) 1 rfl, ?_, ?_, ?_, ?_⟩
  · exact ((h.2.2.2.2.1) [] 4 [5] rfl).2.2.1
  · exact ((h.2.2.2.2.1) [4] 5 [] rfl).2.2.1
  · exact ((h.2.2.2.2.1) [] 4 [5] rfl).1
  · exact ((h.2.2.2.2.1) [4] 5 [] rfl).2.2.2.1
theorem aModify_map_fst {C : Type} (a : List (RSGNodeKey × RSGNode C)) (k : RSGNodeKey)
    (f : RSGNode C → RSGNode C) : (aModify a k f).map Prod.fst = a.map Prod.fst := by
  unfold aModify
  rw [List.map_map]
  apply List.map_congr_left
  intro p _
  by_cases h : p.1 = k <;> simp [Function.comp, h]

theorem mem_aModify {C : Type} {a : List (RSGNodeKey × RSGNode C)} {k : RSGNodeKey}
    {f : RSGNode C → RSGNode C} {q : RSGNodeKey × RSGNode C} (h : q ∈ aModify a k f) :
    ∃ p ∈ a, q = (if p.1 = k then (p.1, f p.2) else p) := by
  obtain ⟨p, hp, he⟩ := List.mem_map.mp h
  exact ⟨p, hp, he.symm⟩

theorem mem_aRemove {C : Type} {a : List (RSGNodeKey × RSGNode C)} {k : RSGNodeKey}
    {q : RSGNodeKey × RSGNode C} : q ∈ aRemove a k ↔ q ∈ a ∧ q.1 ≠ k := by
  unfold aRemove
  simp [List.mem_filter]

theorem aGet_some_mem {C : Type} {a : List (RSGNodeKey × RSGNode C)} {k : RSGNodeKey}
    {n : RSGNode C} (h : aGet a k = some n) : (k, n) ∈ a := by
  induction a with
  | nil => cases h
  | cons p rest ih =>
    obtain ⟨pk, pn⟩ := p
    simp only [aGet] at h
    by_cases hk : pk = k
    · rw [if_pos hk] at h
      subst hk
      cases h
      exact List.mem_cons_self _ _
    · rw [if_neg hk] at h
      exact List.mem_cons_of_mem _ (ih h)

theorem mem_aGet {C : Type} {a : List (RSGNodeKey × RSGNode C)} {k : RSGNodeKey}
    {n : RSGNode C} (h : (k, n) ∈ a) (hnd : (a.map Prod.fst).Nodup) :
    aGet a k = some n := by
  induction a with
  | nil => cases h
  | cons p rest ih =>
    obtain ⟨pk, pn⟩ := p
    simp only [List.map_cons, List.nodup_cons] at hnd
    rcases List.mem_cons.mp h with he | hm
    · cases he
      simp [aGet]
    · have hpk : pk ≠ k := by
        intro he
        subst he
        exact hnd.1 (List.mem_map.mpr ⟨(pk, n), hm, rfl⟩)
      simp only [aGet, if_neg hpk]
      exact ih hm hnd.2

theorem aGet_none_iff {C : Type} {a : List (RSGNodeKey × RSGNode C)} {k : RSGNodeKey} :
    aGet a k = none ↔ ∀ p ∈ a, p.1 ≠ k := by
  induction a with
  | nil => simp [aGet]
  | cons p rest ih =>
    obtain ⟨pk, pn⟩ := p
    simp only [aGet]
    by_cases hk : pk = k
    · subst hk
      simp
    · rw [if_neg hk]
      rw [ih]
      constructor
      · intro h q hq
        rcases List.mem_cons.mp hq with he | hm
        · cases he
          exact hk
        · exact h q hm
      · intro h q hq
        exact h q (List.mem_cons_of_mem _ hq)

theorem aModify_comm {C : Type} (a : List (RSGNodeKey × RSGNode C)) (k j : RSGNodeKey)
    (f g : RSGNode C → RSGNode C) (h : k ≠ j) :
    aModify (aModify a k f) j g = aModify (aModify a j g) k f := by
  unfold aModify
  rw [List.map_map, List.map_map]
  apply List.map_congr_left
  intro p _
  have hjk : j ≠ k := fun hh => h hh.symm
  by_cases hk : p.1 = k
  · have hj : p.1 ≠ j := fun hj => h (hk ▸ hj ▸ rfl)
    simp [Function.comp, hk, hj, h]
  · by_cases hj : p.1 = j
    · simp [Function.comp, hk, hj, hjk]
    · simp [Function.comp, hk, hj]

theorem aRemove_sublist {C : Type} (a : List (RSGNodeKey × RSGNode C)) (k : RSGNodeKey) :
    (aRemove a k).Sublist a := List.filter_sublist a

theorem aRemove_map_fst_nodup {C : Type} {a : List (RSGNodeKey × RSGNode C)} {k : RSGNodeKey}
    (h : (a.map Prod.fst).Nodup) : ((aRemove a k).map Prod.fst).Nodup :=
  List.Nodup.sublist (List.Sublist.map Prod.fst (aRemove_sublist a k)) h
theorem clean_nodeRefs {C : Type} {n : RSGNode C} (h : n.is_clean) : nodeRefs n = [] := by
  obtain ⟨_, h2, h3, h4, h5, h6⟩ := h
  unfold nodeRefs
  rw [h2, h3, h4, h5, h6]
  rfl

theorem clean_childSibRefs {C : Type} {n : RSGNode C} (h : n.is_clean) :
    childSibRefs n = [] := by
  obtain ⟨_, _, h3, h4, h5, h6⟩ := h
  unfold childSibRefs
  rw [h3, h4, h5, h6]
  rfl

theorem SceneInvX.modify {C : Type} {s : RSGScene C} {ts : List RSGSubtreeAddTransaction}
    {E : List RSGNodeKey} (inv : SceneInvX s ts E) (k : RSGNodeKey)
    (f : RSGNode C → RSGNode C)
    (hknp : k ∉ pendingKeys ts) (hkE : k ∉ E)
    (hkey : ∀ n, (f n).key = n.key)
    (hpar : ∀ n, (f n).parent_key = n.parent_key ∨ (f n).parent_key.isSome = true)
    (hrefs : ∀ n, aGet s.arena k = some n → ∀ t ∈ nodeRefs (f n),
      t < s.next ∧ t ∉ pendingKeys ts ∧ t ∉ E)
    (hcs : ∀ n, aGet s.arena k = some n → ∀ t ∈ childSibRefs (f n), s.root_key ≠ some t) :
    SceneInvX { s with arena := aModify s.arena k f } ts E := by
  have hget : ∀ q : RSGNodeKey × RSGNode C, q ∈ s.arena → q.1 = k →
      aGet s.arena k = some q.2 := by
    intro q hq he
    have : (k, q.2) ∈ s.arena := by
      obtain ⟨q1, q2⟩ := q
      cases he
      exact hq
    exact mem_aGet this inv.a_nodup
  constructor
  · show ((aModify s.arena k f).map Prod.fst).Nodup
    rw [aModify_map_fst]
    exact inv.a_nodup
  · intro p hp
    obtain ⟨q, hq, he⟩ := mem_aModify hp
    subst he
    by_cases h : q.1 = k
    · rw [if_pos h]
      exact inv.keys_lt q hq
    · rw [if_neg h]
      exact inv.keys_lt q hq
  · intro p hp t ht
    obtain ⟨q, hq, he⟩ := mem_aModify hp
    subst he
    by_cases h : q.1 = k
    · rw [if_pos h] at ht
      exact (hrefs q.2 (hget q hq h) t ht).1
    · rw [if_neg h] at ht
      exact inv.refs_lt q hq t ht
  · exact inv.root_lt
  · intro h
    show aModify s.arena k f = []
    rw [inv.root_empty h]
    rfl
  · intro p hp
    obtain ⟨q, hq, he⟩ := mem_aModify hp
    subst he
    by_cases h : q.1 = k
    · rw [if_pos h]
      rcases inv.classify q hq with ⟨hk1, hk2⟩ | ⟨hcl, hm⟩
      · left
        refine ⟨by rw [hkey]; exact hk1, ?_⟩
        rcases hpar q.2 with hp1 | hp2
        · rw [hp1]
          exact hk2
        · exact Or.inl hp2
      · exact absurd hm (by rw [h]; exact fun hh => hh.elim hknp hkE)
    · rw [if_neg h]
      exact inv.classify q hq
  · exact inv.pending_nodup
  · intro j hj
    obtain ⟨n, hn, hc⟩ := inv.pending_present j hj
    have hjk : j ≠ k := fun he => hknp (he ▸ hj)
    refine ⟨n, ?_, hc⟩
    show aGet (aModify s.arena k f) j = some n
    rw [aGet_aModify, if_neg hjk]
    exact hn
  · exact inv.root_not_pending
  · intro p hp t ht
    obtain ⟨q, hq, he⟩ := mem_aModify hp
    subst he
    by_cases h : q.1 = k
    · rw [if_pos h] at ht
      exact ⟨(hrefs q.2 (hget q hq h) t ht).2.1, (hrefs q.2 (hget q hq h) t ht).2.2⟩
    · rw [if_neg h] at ht
      exact inv.no_refs q hq t ht
  · intro p hp t ht
    obtain ⟨q, hq, he⟩ := mem_aModify hp
    subst he
    by_cases h : q.1 = k
    · rw [if_pos h] at ht
      exact hcs q.2 (hget q hq h) t ht
    · rw [if_neg h] at ht
      exact inv.root_unref q hq t ht
  · exact inv.parents_ok

theorem SceneInvX.link {C : Type} {s : RSGScene C} {ts : List RSGSubtreeAddTransaction}
    {E Ex : List RSGNodeKey} (inv : SceneInvX s ts E) (k : RSGNodeKey)
    (f : RSGNode C → RSGNode C)
    (hknp : k ∉ pendingKeys ts)
    (hE1 : ∀ x ∈ E, x ≠ k → x ∈ Ex) (hE2 : ∀ x ∈ Ex, x ∈ E)
    (hkeyf : ∀ n, (f n).key = some k)
    (hparf : ∀ n, (f n).parent_key.isSome = true)
    (hrefs : ∀ n, aGet s.arena k = some n → ∀ t ∈ nodeRefs (f n),
      t < s.next ∧ t ∉ pendingKeys ts ∧ t ∉ Ex)
    (hcs : ∀ n, aGet s.arena k = some n → ∀ t ∈ childSibRefs (f n), s.root_key ≠ some t) :
    SceneInvX { s with arena := aModify s.arena k f } ts Ex := by
  have hget : ∀ q : RSGNodeKey × RSGNode C, q ∈ s.arena → q.1 = k →
      aGet s.arena k = some q.2 := by
    intro q hq he
    have : (k, q.2) ∈ s.arena := by
      obtain ⟨q1, q2⟩ := q
      cases he
      exact hq
    exact mem_aGet this inv.a_nodup
  constructor
  · show ((aModify s.arena k f).map Prod.fst).Nodup
    rw [aModify_map_fst]
    exact inv.a_nodup
  · intro p hp
    obtain ⟨q, hq, he⟩ := mem_aModify hp
    subst he
    by_cases h : q.1 = k
    · rw [if_pos h]
      exact inv.keys_lt q hq
    · rw [if_neg h]
      exact inv.keys_lt q hq
  · intro p hp t ht
    obtain ⟨q, hq, he⟩ := mem_aModify hp
    subst he
    by_cases h : q.1 = k
    · rw [if_pos h] at ht
      exact (hrefs q.2 (hget q hq h) t ht).1
    · rw [if_neg h] at ht
      exact inv.refs_lt q hq t ht
  · exact inv.root_lt
  · intro h
    show aModify s.arena k f = []
    rw [inv.root_empty h]
    rfl
  · intro p hp
    obtain ⟨q, hq, he⟩ := mem_aModify hp
    subst he
    by_cases h : q.1 = k
    · rw [if_pos h]
      left
      constructor
      · rw [hkeyf, h]
      · exact Or.inl (hparf q.2)
    · rw [if_neg h]
      rcases inv.classify q hq with hl | ⟨hcl, hm⟩
      · exact Or.inl hl
      · refine Or.inr ⟨hcl, ?_⟩
        rcases hm with hm1 | hm2
        · exact Or.inl hm1
        · exact Or.inr (hE1 q.1 hm2 h)
  · exact inv.pending_nodup
  · intro j hj
    obtain ⟨n, hn, hc⟩ := inv.pending_present j hj
    have hjk : j ≠ k := fun he => hknp (he ▸ hj)
    refine ⟨n, ?_, hc⟩
    show aGet (aModify s.arena k f) j = some n
    rw [aGet_aModify, if_neg hjk]
    exact hn
  · intro r hr
    exact ⟨(inv.root_not_pending r hr).1,
      fun hrE => (inv.root_not_pending r hr).2 (hE2 r hrE)⟩
  · intro p hp t ht
    obtain ⟨q, hq, he⟩ := mem_aModify hp
    subst he
    by_cases h : q.1 = k
    · rw [if_pos h] at ht
      exact ⟨(hrefs q.2 (hget q hq h) t ht).2.1, (hrefs q.2 (hget q hq h) t ht).2.2⟩
    · rw [if_neg h] at ht
      exact ⟨(inv.no_refs q hq t ht).1, fun htE => (inv.no_refs q hq t ht).2 (hE2 t htE)⟩
  · intro p hp t ht
    obtain ⟨q, hq, he⟩ := mem_aModify hp
    subst he
    by_cases h : q.1 = k
    · rw [if_pos h] at ht
      exact hcs q.2 (hget q hq h) t ht
    · rw [if_neg h] at ht
      exact inv.root_unref q hq t ht
  · exact inv.parents_ok

theorem SceneInvX.removeKey {C : Type} {s : RSGScene C} {ts : List RSGSubtreeAddTransaction}
    {E Ex : List RSGNodeKey} (inv : SceneInvX s ts E) (k : RSGNodeKey)
    (hroot : s.root_key ≠ some k) (hknp : k ∉ pendingKeys ts)
    (hE1 : ∀ x ∈ E, x ≠ k → x ∈ Ex) (hE2 : ∀ x ∈ Ex, x ∈ E) :
    SceneInvX { s with arena := aRemove s.arena k } ts Ex := by
  constructor
  · show ((aRemove s.arena k).map Prod.fst).Nodup
    exact aRemove_map_fst_nodup inv.a_nodup
  · intro p hp
    exact inv.keys_lt p (mem_aRemove.mp hp).1
  · intro p hp
    exact inv.refs_lt p (mem_aRemove.mp hp).1
  · exact inv.root_lt
  · intro h
    show aRemove s.arena k = []
    rw [inv.root_empty h]
    rfl
  · intro p hp
    obtain ⟨hpa, hpk⟩ := mem_aRemove.mp hp
    rcases inv.classify p hpa with hl | ⟨hcl, hm⟩
    · exact Or.inl hl
    · refine Or.inr ⟨hcl, ?_⟩
      rcases hm with hm1 | hm2
      · exact Or.inl hm1
      · exact Or.inr (hE1 p.1 hm2 hpk)
  · exact inv.pending_nodup
  · intro j hj
    obtain ⟨n, hn, hc⟩ := inv.pending_present j hj
    have hjk : j ≠ k := fun he => hknp (he ▸ hj)
    refine ⟨n, ?_, hc⟩
    show aGet (aRemove s.arena k) j = some n
    rw [aGet_aRemove, if_neg hjk]
    exact hn
  · intro r hr
    exact ⟨(inv.root_not_pending r hr).1,
      fun hrE => (inv.root_not_pending r hr).2 (hE2 r hrE)⟩
  · intro p hp t ht
    have hpa := (mem_aRemove.mp hp).1
    exact ⟨(inv.no_refs p hpa t ht).1, fun htE => (inv.no_refs p hpa t ht).2 (hE2 t htE)⟩
  · intro p hp
    exact inv.root_unref p (mem_aRemove.mp hp).1
  · exact inv.parents_ok

theorem SceneInvX.stage {C : Type} {s : RSGScene C} {ts : List RSGSubtreeAddTransaction}
    {E : List RSGNodeKey} (inv : SceneInvX s ts E) (node : RSGNode C)
    (hclean : node.is_clean) (hroot : s.root_key.isSome = true) :
    SceneInvX { s with arena := s.arena ++ [(s.next, node)], next := s.next + 1 } ts
      (s.next :: E) := by
  constructor
  · show ((s.arena ++ [(s.next, node)]).map Prod.fst).Nodup
    rw [List.map_append]
    rw [List.nodup_append]
    refine ⟨inv.a_nodup, List.nodup_singleton _, ?_⟩
    intro x hx hx2
    simp only [List.map_cons, List.map_nil, List.mem_singleton] at hx2
    subst hx2
    obtain ⟨p, hp, he⟩ := List.mem_map.mp hx
    exact absurd he (Nat.ne_of_lt (inv.keys_lt p hp))
  · intro p hp
    rcases List.mem_append.mp hp with h1 | h2
    · exact Nat.lt_succ_of_lt (inv.keys_lt p h1)
    · simp only [List.mem_singleton] at h2
      subst h2
      exact Nat.lt_succ_self _
  · intro p hp t ht
    rcases List.mem_append.mp hp with h1 | h2
    · exact Nat.lt_succ_of_lt (inv.refs_lt p h1 t ht)
    · simp only [List.mem_singleton] at h2
      subst h2
      rw [clean_nodeRefs hclean] at ht
      cases ht
  · intro r hr
    exact Nat.lt_succ_of_lt (inv.root_lt r hr)
  · intro h
    rw [h] at hroot
    cases hroot
  · intro p hp
    rcases List.mem_append.mp hp with h1 | h2
    · rcases inv.classify p h1 with hl | ⟨hcl, hm⟩
      · exact Or.inl hl
      · refine Or.inr ⟨hcl, ?_⟩
        rcases hm with hm1 | hm2
        · exact Or.inl hm1
        · exact Or.inr (List.mem_cons_of_mem _ hm2)
    · simp only [List.mem_singleton] at h2
      subst h2
      exact Or.inr ⟨hclean, Or.inr (List.mem_cons_self _ _)⟩
  · exact inv.pending_nodup
  · intro j hj
    obtain ⟨n, hn, hc⟩ := inv.pending_present j hj
    refine ⟨n, ?_, hc⟩
    show aGet (s.arena ++ [(s.next, node)]) j = some n
    rw [aGet_appendEntry, hn]
  · intro r hr
    refine ⟨(inv.root_not_pending r hr).1, ?_⟩
    intro hrE
    rcases List.mem_cons.mp hrE with h1 | h2
    · exact absurd h1 (Nat.ne_of_lt (inv.root_lt r hr))
    · exact (inv.root_not_pending r hr).2 h2
  · intro p hp t ht
    rcases List.mem_append.mp hp with h1 | h2
    · refine ⟨(inv.no_refs p h1 t ht).1, ?_⟩
      intro htE
      rcases List.mem_cons.mp htE with hh | hh
      · exact absurd hh (Nat.ne_of_lt (inv.refs_lt p h1 t ht))
      · exact (inv.no_refs p h1 t ht).2 hh
    · simp only [List.mem_singleton] at h2
      subst h2
      rw [clean_nodeRefs hclean] at ht
      cases ht
  · intro p hp t ht
    rcases List.mem_append.mp hp with h1 | h2
    · exact inv.root_unref p h1 t ht
    · simp only [List.mem_singleton] at h2
      subst h2
      rw [clean_childSibRefs hclean] at ht
      cases ht
  · intro txn htxn pre e post hsplit
    obtain ⟨hor, hlt⟩ := inv.parents_ok txn htxn pre e post hsplit
    refine ⟨hor, ?_⟩
    exact Nat.lt_succ_of_lt hlt
theorem mem_nodeRefs {C : Type} {n : RSGNode C} {t : RSGNodeKey} :
    t ∈ nodeRefs n ↔ (n.parent_key = some t ∨ n.first_child_key = some t ∨
      n.last_child_key = some t ∨ n.prev_sibling_key = some t ∨
      n.next_sibling_key = some t) := by
  unfold nodeRefs
  rw [List.mem_filterMap]
  constructor
  · rintro ⟨o, ho, he⟩
    simp only [id] at he
    subst he
    simp only [List.mem_cons, List.mem_singleton] at ho
    rcases ho with h | h | h | h | h | h
    · exact Or.inl h.symm
    · exact Or.inr (Or.inl h.symm)
    · exact Or.inr (Or.inr (Or.inl h.symm))
    · exact Or.inr (Or.inr (Or.inr (Or.inl h.symm)))
    · exact Or.inr (Or.inr (Or.inr (Or.inr h.symm)))
    · cases h
  · intro h
    refine ⟨some t, ?_, rfl⟩
    rcases h with h | h | h | h | h <;> rw [← h] <;> simp

theorem mem_childSibRefs {C : Type} {n : RSGNode C} {t : RSGNodeKey} :
    t ∈ childSibRefs n ↔ (n.first_child_key = some t ∨
      n.last_child_key = some t ∨ n.prev_sibling_key = some t ∨
      n.next_sibling_key = some t) := by
  unfold childSibRefs
  rw [List.mem_filterMap]
  constructor
  · rintro ⟨o, ho, he⟩
    simp only [id] at he
    subst he
    simp only [List.mem_cons, List.mem_singleton] at ho
    rcases ho with h | h | h | h | h
    · exact Or.inl h.symm
    · exact Or.inr (Or.inl h.symm)
    · exact Or.inr (Or.inr (Or.inl h.symm))
    · exact Or.inr (Or.inr (Or.inr h.symm))
    · cases h
  · intro h
    refine ⟨some t, ?_, rfl⟩
    rcases h with h | h | h | h <;> rw [← h] <;> simp

theorem pendingKeys_lt {C : Type} {s : RSGScene C} {ts : List RSGSubtreeAddTransaction}
    {E : List RSGNodeKey} (inv : SceneInvX s ts E) :
    ∀ k ∈ pendingKeys ts, k < s.next := by
  intro k hk
  obtain ⟨n, hn, _⟩ := inv.pending_present k hk
  exact inv.keys_lt (k, n) (aGet_some_mem hn)

theorem is_valid_elim {C : Type} {s : RSGScene C} {k : RSGNodeKey}
    (hv : s.is_valid k = true) :
    ∃ n, aGet s.arena k = some n ∧
      (n.parent_key.isSome = true ∨ n.key = s.root_key) := by
  unfold RSGScene.is_valid at hv
  cases hg : aGet s.arena k with
  | none => rw [hg] at hv; cases hv
  | some n =>
    rw [hg] at hv
    refine ⟨n, rfl, ?_⟩
    simpa using hv

theorem valid_not_pending {C : Type} {s : RSGScene C} {ts : List RSGSubtreeAddTransaction}
    {E : List RSGNodeKey} (inv : SceneInvX s ts E) {k : RSGNodeKey}
    (hv : s.is_valid k = true) : k ∉ pendingKeys ts := by
  intro hk
  obtain ⟨n, hn, hc⟩ := inv.pending_present k hk
  unfold RSGScene.is_valid at hv
  rw [hn] at hv
  simp only [] at hv
  obtain ⟨h1, h2, _, _, _, _⟩ := hc
  rw [h2, h1] at hv
  simp only [Option.isSome_none, Bool.false_or, decide_eq_true_eq] at hv
  have hroot : s.root_key = none := hv.symm
  have harena := inv.root_empty hroot
  rw [harena] at hn
  cases hn

theorem SceneInvX.valid_linked {C : Type} {s : RSGScene C} {ts : List RSGSubtreeAddTransaction}
    (inv : SceneInvX s ts []) {k : RSGNodeKey} (hv : s.is_valid k = true) :
    ∃ n, aGet s.arena k = some n ∧ n.key = some k ∧
      (n.parent_key.isSome = true ∨ s.root_key = some k) := by
  obtain ⟨n, hn, _⟩ := is_valid_elim hv
  rcases inv.classify (k, n) (aGet_some_mem hn) with ⟨h1, h2⟩ | ⟨hcl, hm⟩
  · exact ⟨n, hn, h1, h2⟩
  · rcases hm with hm | hm
    · exact absurd hm (valid_not_pending inv hv)
    · cases hm

theorem SceneInvX.root_isSome {C : Type} {s : RSGScene C} {ts : List RSGSubtreeAddTransaction}
    {E : List RSGNodeKey} (inv : SceneInvX s ts E) {k : RSGNodeKey} {n : RSGNode C}
    (h : aGet s.arena k = some n) : s.root_key.isSome = true := by
  cases hr : s.root_key with
  | none =>
    rw [inv.root_empty hr] at h
    cases h
  | some r => rfl
theorem refs_set_next {C : Type} {n : RSGNode C} {v : Option RSGNodeKey} {t : RSGNodeKey}
    (ht : t ∈ nodeRefs { n with next_sibling_key := v }) : t ∈ nodeRefs n ∨ v = some t := by
  rcases mem_nodeRefs.mp ht with h | h | h | h | h
  · exact Or.inl (mem_nodeRefs.mpr (Or.inl h))
  · exact Or.inl (mem_nodeRefs.mpr (Or.inr (Or.inl h)))
  · exact Or.inl (mem_nodeRefs.mpr (Or.inr (Or.inr (Or.inl h))))
  · exact Or.inl (mem_nodeRefs.mpr (Or.inr (Or.inr (Or.inr (Or.inl h)))))
  · exact Or.inr h

theorem refs_set_prev {C : Type} {n : RSGNode C} {v : Option RSGNodeKey} {t : RSGNodeKey}
    (ht : t ∈ nodeRefs { n with prev_sibling_key := v }) : t ∈ nodeRefs n ∨ v = some t := by
  rcases mem_nodeRefs.mp ht with h | h | h | h | h
  · exact Or.inl (mem_nodeRefs.mpr (Or.inl h))
  · exact Or.inl (mem_nodeRefs.mpr (Or.inr (Or.inl h)))
  · exact Or.inl (mem_nodeRefs.mpr (Or.inr (Or.inr (Or.inl h))))
  · exact Or.inr h
  · exact Or.inl (mem_nodeRefs.mpr (Or.inr (Or.inr (Or.inr (Or.inr h)))))

theorem refs_set_first {C : Type} {n : RSGNode C} {v : Option RSGNodeKey} {t : RSGNodeKey}
    (ht : t ∈ nodeRefs { n with first_child_key := v }) : t ∈ nodeRefs n ∨ v = some t := by
  rcases mem_nodeRefs.mp ht with h | h | h | h | h
  · exact Or.inl (mem_nodeRefs.mpr (Or.inl h))
  · exact Or.inr h
  · exact Or.inl (mem_nodeRefs.mpr (Or.inr (Or.inr (Or.inl h))))
  · exact Or.inl (mem_nodeRefs.mpr (Or.inr (Or.inr (Or.inr (Or.inl h)))))
  · exact Or.inl (mem_nodeRefs.mpr (Or.inr (Or.inr (Or.inr (Or.inr h)))))

theorem refs_set_last {C : Type} {n : RSGNode C} {v : Option RSGNodeKey} {t : RSGNodeKey}
    (ht : t ∈ nodeRefs { n with last_child_key := v }) : t ∈ nodeRefs n ∨ v = some t := by
  rcases mem_nodeRefs.mp ht with h | h | h | h | h
  · exact Or.inl (mem_nodeRefs.mpr (Or.inl h))
  · exact Or.inl (mem_nodeRefs.mpr (Or.inr (Or.inl h)))
  · exact Or.inr h
  · exact Or.inl (mem_nodeRefs.mpr (Or.inr (Or.inr (Or.inr (Or.inl h)))))
  · exact Or.inl (mem_nodeRefs.mpr (Or.inr (Or.inr (Or.inr (Or.inr h)))))

theorem refs_set_parent {C : Type} {n : RSGNode C} {v : Option RSGNodeKey} {t : RSGNodeKey}
    (ht : t ∈ nodeRefs { n with parent_key := v }) : t ∈ nodeRefs n ∨ v = some t := by
  rcases mem_nodeRefs.mp ht with h | h | h | h | h
  · exact Or.inr h
  · exact Or.inl (mem_nodeRefs.mpr (Or.inr (Or.inl h)))
  · exact Or.inl (mem_nodeRefs.mpr (Or.inr (Or.inr (Or.inl h))))
  · exact Or.inl (mem_nodeRefs.mpr (Or.inr (Or.inr (Or.inr (Or.inl h)))))
  · exact Or.inl (mem_nodeRefs.mpr (Or.inr (Or.inr (Or.inr (Or.inr h)))))

theorem refs_set_first_last {C : Type} {n : RSGNode C} {v w : Option RSGNodeKey}
    {t : RSGNodeKey}
    (ht : t ∈ nodeRefs { n with first_child_key := v, last_child_key := w }) :
    t ∈ nodeRefs n ∨ v = some t ∨ w = some t := by
  rcases mem_nodeRefs.mp ht with h | h | h | h | h
  · exact Or.inl (mem_nodeRefs.mpr (Or.inl h))
  · exact Or.inr (Or.inl h)
  · exact Or.inr (Or.inr h)
  · exact Or.inl (mem_nodeRefs.mpr (Or.inr (Or.inr (Or.inr (Or.inl h)))))
  · exact Or.inl (mem_nodeRefs.mpr (Or.inr (Or.inr (Or.inr (Or.inr h)))))

theorem csrefs_set_next {C : Type} {n : RSGNode C} {v : Option RSGNodeKey} {t : RSGNodeKey}
    (ht : t ∈ childSibRefs { n with next_sibling_key := v }) :
    t ∈ childSibRefs n ∨ v = some t := by
  rcases mem_childSibRefs.mp ht with h | h | h | h
  · exact Or.inl (mem_childSibRefs.mpr (Or.inl h))
  · exact Or.inl (mem_childSibRefs.mpr (Or.inr (Or.inl h)))
  · exact Or.inl (mem_childSibRefs.mpr (Or.inr (Or.inr (Or.inl h))))
  · exact Or.inr h

theorem csrefs_set_prev {C : Type} {n : RSGNode C} {v : Option RSGNodeKey} {t : RSGNodeKey}
    (ht : t ∈ childSibRefs { n with prev_sibling_key := v }) :
    t ∈ childSibRefs n ∨ v = some t := by
  rcases mem_childSibRefs.mp ht with h | h | h | h
  · exact Or.inl (mem_childSibRefs.mpr (Or.inl h))
  · exact Or.inl (mem_childSibRefs.mpr (Or.inr (Or.inl h)))
  · exact Or.inr h
  · exact Or.inl (mem_childSibRefs.mpr (Or.inr (Or.inr (Or.inr h))))

theorem csrefs_set_first {C : Type} {n : RSGNode C} {v : Option RSGNodeKey} {t : RSGNodeKey}
    (ht : t ∈ childSibRefs { n with first_child_key := v }) :
    t ∈ childSibRefs n ∨ v = some t := by
  rcases mem_childSibRefs.mp ht with h | h | h | h
  · exact Or.inr h
  · exact Or.inl (mem_childSibRefs.mpr (Or.inr (Or.inl h)))
  · exact Or.inl (mem_childSibRefs.mpr (Or.inr (Or.inr (Or.inl h))))
  · exact Or.inl (mem_childSibRefs.mpr (Or.inr (Or.inr (Or.inr h))))

theorem csrefs_set_last {C : Type} {n : RSGNode C} {v : Option RSGNodeKey} {t : RSGNodeKey}
    (ht : t ∈ childSibRefs { n with last_child_key := v }) :
    t ∈ childSibRefs n ∨ v = some t := by
  rcases mem_childSibRefs.mp ht with h | h | h | h
  · exact Or.inl (mem_childSibRefs.mpr (Or.inl h))
  · exact Or.inr h
  · exact Or.inl (mem_childSibRefs.mpr (Or.inr (Or.inr (Or.inl h))))
  · exact Or.inl (mem_childSibRefs.mpr (Or.inr (Or.inr (Or.inr h))))

theorem csrefs_set_parent {C : Type} {n : RSGNode C} {v : Option RSGNodeKey} {t : RSGNodeKey}
    (ht : t ∈ childSibRefs { n with parent_key := v }) : t ∈ childSibRefs n := by
  rcases mem_childSibRefs.mp ht with h | h | h | h
  · exact mem_childSibRefs.mpr (Or.inl h)
  · exact mem_childSibRefs.mpr (Or.inr (Or.inl h))
  · exact mem_childSibRefs.mpr (Or.inr (Or.inr (Or.inl h)))
  · exact mem_childSibRefs.mpr (Or.inr (Or.inr (Or.inr h)))

theorem csrefs_set_first_last {C : Type} {n : RSGNode C} {v w : Option RSGNodeKey}
    {t : RSGNodeKey}
    (ht : t ∈ childSibRefs { n with first_child_key := v, last_child_key := w }) :
    t ∈ childSibRefs n ∨ v = some t ∨ w = some t := by
  rcases mem_childSibRefs.mp ht with h | h | h | h
  · exact Or.inr (Or.inl h)
  · exact Or.inr (Or.inr h)
  · exact Or.inl (mem_childSibRefs.mpr (Or.inr (Or.inr (Or.inl h))))
  · exact Or.inl (mem_childSibRefs.mpr (Or.inr (Or.inr (Or.inr h))))

theorem SceneInvX.modify_splice {C : Type} {s : RSGScene C}
    {ts : List RSGSubtreeAddTransaction} {E : List RSGNodeKey} (inv : SceneInvX s ts E)
    (k : RSGNodeKey) (f : RSGNode C → RSGNode C)
    (hknp : k ∉ pendingKeys ts) (hkE : k ∉ E)
    (hkey : ∀ n, (f n).key = n.key)
    (hpar : ∀ n, (f n).parent_key = n.parent_key ∨ (f n).parent_key.isSome = true)
    (hsub : ∀ n, ∀ t ∈ nodeRefs (f n), t ∈ nodeRefs n ∨
      (t < s.next ∧ t ∉ pendingKeys ts ∧ t ∉ E))
    (hsubcs : ∀ n, ∀ t ∈ childSibRefs (f n), t ∈ childSibRefs n ∨ s.root_key ≠ some t) :
    SceneInvX { s with arena := aModify s.arena k f } ts E := by
  refine inv.modify k f hknp hkE hkey hpar ?_ ?_
  · intro n hg t ht
    rcases hsub n t ht with hold | hnew
    · have hm := aGet_some_mem hg
      exact ⟨inv.refs_lt (k, n) hm t hold, (inv.no_refs (k, n) hm t hold).1,
        (inv.no_refs (k, n) hm t hold).2⟩
    · exact hnew
  · intro n hg t ht
    rcases hsubcs n t ht with hold | hnew
    · exact inv.root_unref (k, n) (aGet_some_mem hg) t hold
    · exact hnew

theorem pendingKeys_cons (t : RSGSubtreeAddTransaction) (ts : List RSGSubtreeAddTransaction) :
    pendingKeys (t :: ts) = t.stagedKeys ++ pendingKeys ts := rfl

theorem append_impl_invE {C : Type} {s : RSGScene C} {ts : List RSGSubtreeAddTransaction}
    {E Ex : List RSGNodeKey} (inv : SceneInvX s ts E) (p k : RSGNodeKey)
    (hE1 : ∀ x ∈ E, x ≠ k → x ∈ Ex) (hE2 : ∀ x ∈ Ex, x ∈ E)
    (hknp : k ∉ pendingKeys ts) (hklt : k < s.next)
    (hkroot : s.root_key ≠ some k) (hkEx : k ∉ Ex)
    (hpnp : p ∉ pendingKeys ts) (hpEx : p ∉ Ex)
    (hplt : p < s.next) (hpk : p ≠ k) :
    SceneInvX (s.append_impl p k) ts Ex := by
  have olF : ∀ o, (aGet s.arena p).bind (·.last_child_key) = some o →
      o < s.next ∧ o ∉ pendingKeys ts ∧ o ∉ E ∧ s.root_key ≠ some o := by
    intro o ho
    cases hgp : aGet s.arena p with
    | none =>
      rw [hgp] at ho
      cases ho
    | some pn =>
      rw [hgp] at ho
      have hmem : o ∈ nodeRefs pn := mem_nodeRefs.mpr (Or.inr (Or.inr (Or.inl ho)))
      have hcs : o ∈ childSibRefs pn := mem_childSibRefs.mpr (Or.inr (Or.inl ho))
      have hm := aGet_some_mem hgp
      exact ⟨inv.refs_lt (p, pn) hm o hmem, (inv.no_refs (p, pn) hm o hmem).1,
        (inv.no_refs (p, pn) hm o hmem).2, inv.root_unref (p, pn) hm o hcs⟩
  simp only [RSGScene.append_impl]
  cases holv : (aGet s.arena p).bind (·.last_child_key) with
  | none =>
    rw [aModify_comm s.arena p k _ _ hpk]
    have inv1 := inv.link k
      (fun n =>
        { n with
            key := some k
            parent_key := some p
            prev_sibling_key := none
            next_sibling_key := none })
      hknp hE1 hE2 (fun n => rfl) (fun n => rfl)
      (by
        intro n hg t ht
        have hm := aGet_some_mem hg
        rcases mem_nodeRefs.mp ht with h | h | h | h | h
        · injection h with h
          subst h
          exact ⟨hplt, hpnp, hpEx⟩
        · have hold : t ∈ nodeRefs n := mem_nodeRefs.mpr (Or.inr (Or.inl h))
          exact ⟨inv.refs_lt (k, n) hm t hold, (inv.no_refs (k, n) hm t hold).1,
            fun hx => (inv.no_refs (k, n) hm t hold).2 (hE2 t hx)⟩
        · have hold : t ∈ nodeRefs n := mem_nodeRefs.mpr (Or.inr (Or.inr (Or.inl h)))
          exact ⟨inv.refs_lt (k, n) hm t hold, (inv.no_refs (k, n) hm t hold).1,
            fun hx => (inv.no_refs (k, n) hm t hold).2 (hE2 t hx)⟩
        · cases h
        · cases h)
      (by
        intro n hg t ht
        have hm := aGet_some_mem hg
        rcases mem_childSibRefs.mp ht with h | h | h | h
        · exact inv.root_unref (k, n) hm t (mem_childSibRefs.mpr (Or.inl h))
        · exact inv.root_unref (k, n) hm t (mem_childSibRefs.mpr (Or.inr (Or.inl h)))
        · cases h
        · cases h)
    exact inv1.modify_splice p
      (fun q => { q with
        first_child_key := if q.first_child_key = none then some k else q.first_child_key
        last_child_key := some k })
      hpnp hpEx (fun n => rfl) (fun n => Or.inl rfl)
      (by
        intro n t ht
        rcases refs_set_first_last ht with hold | h | h
        · exact Or.inl hold
        · by_cases hf : n.first_child_key = none
          · rw [if_pos hf] at h
            injection h with h
            subst h
            exact Or.inr ⟨hklt, hknp, hkEx⟩
          · rw [if_neg hf] at h
            exact Or.inl (mem_nodeRefs.mpr (Or.inr (Or.inl h)))
        · injection h with h
          subst h
          exact Or.inr ⟨hklt, hknp, hkEx⟩)
      (by
        intro n t ht
        rcases csrefs_set_first_last ht with hold | h | h
        · exact Or.inl hold
        · by_cases hf : n.first_child_key = none
          · rw [if_pos hf] at h
            injection h with h
            subst h
            exact Or.inr hkroot
          · rw [if_neg hf] at h
            exact Or.inl (mem_childSibRefs.mpr (Or.inl h))
        · injection h with h
          subst h
          exact Or.inr hkroot)
  | some ol =>
    obtain ⟨holt, holnp, holE, holroot⟩ := olF ol holv
    rw [aModify_comm s.arena p k _ _ hpk]
    have inv1 := inv.link k
      (fun n =>
        { n with
            key := some k
            parent_key := some p
            prev_sibling_key := some ol
            next_sibling_key := none })
      hknp hE1 hE2 (fun n => rfl) (fun n => rfl)
      (by
        intro n hg t ht
        have hm := aGet_some_mem hg
        rcases mem_nodeRefs.mp ht with h | h | h | h | h
        · injection h with h
          subst h
          exact ⟨hplt, hpnp, hpEx⟩
        · have hold : t ∈ nodeRefs n := mem_nodeRefs.mpr (Or.inr (Or.inl h))
          exact ⟨inv.refs_lt (k, n) hm t hold, (inv.no_refs (k, n) hm t hold).1,
            fun hx => (inv.no_refs (k, n) hm t hold).2 (hE2 t hx)⟩
        · have hold : t ∈ nodeRefs n := mem_nodeRefs.mpr (Or.inr (Or.inr (Or.inl h)))
          exact ⟨inv.refs_lt (k, n) hm t hold, (inv.no_refs (k, n) hm t hold).1,
            fun hx => (inv.no_refs (k, n) hm t hold).2 (hE2 t hx)⟩
        · injection h with h
          subst h
          exact ⟨holt, holnp, fun hx => holE (hE2 _ hx)⟩
        · cases h)
      (by
        intro n hg t ht
        have hm := aGet_some_mem hg
        rcases mem_childSibRefs.mp ht with h | h | h | h
        · exact inv.root_unref (k, n) hm t (mem_childSibRefs.mpr (Or.inl h))
        · exact inv.root_unref (k, n) hm t (mem_childSibRefs.mpr (Or.inr (Or.inl h)))
        · injection h with h
          subst h
          exact holroot
        · cases h)
    have inv2 := inv1.modify_splice p
      (fun q => { q with
        first_child_key := if q.first_child_key = none then some k else q.first_child_key
        last_child_key := some k })
      hpnp hpEx (fun n => rfl) (fun n => Or.inl rfl)
      (by
        intro n t ht
        rcases refs_set_first_last ht with hold | h | h
        · exact Or.inl hold
        · by_cases hf : n.first_child_key = none
          · rw [if_pos hf] at h
            injection h with h
            subst h
            exact Or.inr ⟨hklt, hknp, hkEx⟩
          · rw [if_neg hf] at h
            exact Or.inl (mem_nodeRefs.mpr (Or.inr (Or.inl h)))
        · injection h with h
          subst h
          exact Or.inr ⟨hklt, hknp, hkEx⟩)
      (by
        intro n t ht
        rcases csrefs_set_first_last ht with hold | h | h
        · exact Or.inl hold
        · by_cases hf : n.first_child_key = none
          · rw [if_pos hf] at h
            injection h with h
            subst h
            exact Or.inr hkroot
          · rw [if_neg hf] at h
            exact Or.inl (mem_childSibRefs.mpr (Or.inl h))
        · injection h with h
          subst h
          exact Or.inr hkroot)
    exact inv2.modify_splice ol
      (fun n => { n with next_sibling_key := some k })
      holnp (fun hx => holE (hE2 ol hx)) (fun n => rfl) (fun n => Or.inl rfl)
      (by
        intro n t ht
        rcases refs_set_next ht with hold | h
        · exact Or.inl hold
        · injection h with h
          subst h
          exact Or.inr ⟨hklt, hknp, hkEx⟩)
      (by
        intro n t ht
        rcases csrefs_set_next ht with hold | h
        · exact Or.inl hold
        · injection h with h
          subst h
          exact Or.inr hkroot)
theorem prepend_impl_invE {C : Type} {s : RSGScene C} {ts : List RSGSubtreeAddTransaction}
    {E Ex : List RSGNodeKey} (inv : SceneInvX s ts E) (p k : RSGNodeKey)
    (hE1 : ∀ x ∈ E, x ≠ k → x ∈ Ex) (hE2 : ∀ x ∈ Ex, x ∈ E)
    (hknp : k ∉ pendingKeys ts) (hklt : k < s.next)
    (hkroot : s.root_key ≠ some k) (hkEx : k ∉ Ex)
    (hpnp : p ∉ pendingKeys ts) (hpEx : p ∉ Ex)
    (hplt : p < s.next) (hpk : p ≠ k) :
    SceneInvX (s.prepend_impl p k) ts Ex := by
  have ofF : ∀ o, (aGet s.arena p).bind (·.first_child_key) = some o →
      o < s.next ∧ o ∉ pendingKeys ts ∧ o ∉ E ∧ s.root_key ≠ some o := by
    intro o ho
    cases hgp : aGet s.arena p with
    | none =>
      rw [hgp] at ho
      cases ho
    | some pn =>
      rw [hgp] at ho
      have hmem : o ∈ nodeRefs pn := mem_nodeRefs.mpr (Or.inr (Or.inl ho))
      have hcs : o ∈ childSibRefs pn := mem_childSibRefs.mpr (Or.inl ho)
      have hm := aGet_some_mem hgp
      exact ⟨inv.refs_lt (p, pn) hm o hmem, (inv.no_refs (p, pn) hm o hmem).1,
        (inv.no_refs (p, pn) hm o hmem).2, inv.root_unref (p, pn) hm o hcs⟩
  simp only [RSGScene.prepend_impl]
  cases hofv : (aGet s.arena p).bind (·.first_child_key) with
  | none =>
    rw [aModify_comm s.arena p k _ _ hpk]
    have inv1 := inv.link k
      (fun n =>
        { n with
            key := some k
            parent_key := some p
            prev_sibling_key := none
            next_sibling_key := none })
      hknp hE1 hE2 (fun n => rfl) (fun n => rfl)
      (by
        intro n hg t ht
        have hm := aGet_some_mem hg
        rcases mem_nodeRefs.mp ht with h | h | h | h | h
        · injection h with h
          subst h
          exact ⟨hplt, hpnp, hpEx⟩
        · have hold : t ∈ nodeRefs n := mem_nodeRefs.mpr (Or.inr (Or.inl h))
          exact ⟨inv.refs_lt (k, n) hm t hold, (inv.no_refs (k, n) hm t hold).1,
            fun hx => (inv.no_refs (k, n) hm t hold).2 (hE2 t hx)⟩
        · have hold : t ∈ nodeRefs n := mem_nodeRefs.mpr (Or.inr (Or.inr (Or.inl h)))
          exact ⟨inv.refs_lt (k, n) hm t hold, (inv.no_refs (k, n) hm t hold).1,
            fun hx => (inv.no_refs (k, n) hm t hold).2 (hE2 t hx)⟩
        · cases h
        · cases h)
      (by
        intro n hg t ht
        have hm := aGet_some_mem hg
        rcases mem_childSibRefs.mp ht with h | h | h | h
        · exact inv.root_unref (k, n) hm t (mem_childSibRefs.mpr (Or.inl h))
        · exact inv.root_unref (k, n) hm t (mem_childSibRefs.mpr (Or.inr (Or.inl h)))
        · cases h
        · cases h)
    exact inv1.modify_splice p
      (fun q => { q with
        first_child_key := some k
        last_child_key := if q.last_child_key = none then some k else q.last_child_key })
      hpnp hpEx (fun n => rfl) (fun n => Or.inl rfl)
      (by
        intro n t ht
        rcases refs_set_first_last ht with hold | h | h
        · exact Or.inl hold
        · injection h with h
          subst h
          exact Or.inr ⟨hklt, hknp, hkEx⟩
        · by_cases hf : n.last_child_key = none
          · rw [if_pos hf] at h
            injection h with h
            subst h
            exact Or.inr ⟨hklt, hknp, hkEx⟩
          · rw [if_neg hf] at h
            exact Or.inl (mem_nodeRefs.mpr (Or.inr (Or.inr (Or.inl h)))))
      (by
        intro n t ht
        rcases csrefs_set_first_last ht with hold | h | h
        · exact Or.inl hold
        · injection h with h
          subst h
          exact Or.inr hkroot
        · by_cases hf : n.last_child_key = none
          · rw [if_pos hf] at h
            injection h with h
            subst h
            exact Or.inr hkroot
          · rw [if_neg hf] at h
            exact Or.inl (mem_childSibRefs.mpr (Or.inr (Or.inl h))))
  | some f0 =>
    obtain ⟨hf0t, hf0np, hf0E, hf0root⟩ := ofF f0 hofv
    rw [aModify_comm s.arena p k _ _ hpk]
    have inv1 := inv.link k
      (fun n =>
        { n with
            key := some k
            parent_key := some p
            prev_sibling_key := none
            next_sibling_key := some f0 })
      hknp hE1 hE2 (fun n => rfl) (fun n => rfl)
      (by
        intro n hg t ht
        have hm := aGet_some_mem hg
        rcases mem_nodeRefs.mp ht with h | h | h | h | h
        · injection h with h
          subst h
          exact ⟨hplt, hpnp, hpEx⟩
        · have hold : t ∈ nodeRefs n := mem_nodeRefs.mpr (Or.inr (Or.inl h))
          exact ⟨inv.refs_lt (k, n) hm t hold, (inv.no_refs (k, n) hm t hold).1,
            fun hx => (inv.no_refs (k, n) hm t hold).2 (hE2 t hx)⟩
        · have hold : t ∈ nodeRefs n := mem_nodeRefs.mpr (Or.inr (Or.inr (Or.inl h)))
          exact ⟨inv.refs_lt (k, n) hm t hold, (inv.no_refs (k, n) hm t hold).1,
            fun hx => (inv.no_refs (k, n) hm t hold).2 (hE2 t hx)⟩
        · cases h
        · injection h with h
          subst h
          exact ⟨hf0t, hf0np, fun hx => hf0E (hE2 _ hx)⟩)
      (by
        intro n hg t ht
        have hm := aGet_some_mem hg
        rcases mem_childSibRefs.mp ht with h | h | h | h
        · exact inv.root_unref (k, n) hm t (mem_childSibRefs.mpr (Or.inl h))
        · exact inv.root_unref (k, n) hm t (mem_childSibRefs.mpr (Or.inr (Or.inl h)))
        · cases h
        · injection h with h
          subst h
          exact hf0root)
    have inv2 := inv1.modify_splice p
      (fun q => { q with
        first_child_key := some k
        last_child_key := if q.last_child_key = none then some k else q.last_child_key })
      hpnp hpEx (fun n => rfl) (fun n => Or.inl rfl)
      (by
        intro n t ht
        rcases refs_set_first_last ht with hold | h | h
        · exact Or.inl hold
        · injection h with h
          subst h
          exact Or.inr ⟨hklt, hknp, hkEx⟩
        · by_cases hf : n.last_child_key = none
          · rw [if_pos hf] at h
            injection h with h
            subst h
            exact Or.inr ⟨hklt, hknp, hkEx⟩
          · rw [if_neg hf] at h
            exact Or.inl (mem_nodeRefs.mpr (Or.inr (Or.inr (Or.inl h)))))
      (by
        intro n t ht
        rcases csrefs_set_first_last ht with hold | h | h
        · exact Or.inl hold
        · injection h with h
          subst h
          exact Or.inr hkroot
        · by_cases hf : n.last_child_key = none
          · rw [if_pos hf] at h
            injection h with h
            subst h
            exact Or.inr hkroot
          · rw [if_neg hf] at h
            exact Or.inl (mem_childSibRefs.mpr (Or.inr (Or.inl h))))
    exact inv2.modify_splice f0
      (fun n => { n with prev_sibling_key := some k })
      hf0np (fun hx => hf0E (hE2 f0 hx)) (fun n => rfl) (fun n => Or.inl rfl)
      (by
        intro n t ht
        rcases refs_set_prev ht with hold | h
        · exact Or.inl hold
        · injection h with h
          subst h
          exact Or.inr ⟨hklt, hknp, hkEx⟩)
      (by
        intro n t ht
        rcases csrefs_set_prev ht with hold | h
        · exact Or.inl hold
        · injection h with h
          subst h
          exact Or.inr hkroot)
theorem append_inv {C : Type} {s : RSGScene C} {ts : List RSGSubtreeAddTransaction}
    (inv : SceneInv s ts) (p : RSGNodeKey) (node : RSGNode C)
    (hclean : node.is_clean) (hv : s.is_valid p = true) :
    SceneInv (s.append p node).1 ts := by
  obtain ⟨pn, hpn, _, _⟩ := inv.valid_linked hv
  have hroot : s.root_key.isSome = true := inv.root_isSome hpn
  have hps := inv.stage node hclean hroot
  have hplt : p < s.next := inv.keys_lt (p, pn) (aGet_some_mem hpn)
  have heq : (s.append p node).1 =
      ({ s with arena := s.arena ++ [(s.next, node)], next := s.next + 1 } :
        RSGScene C).append_impl p s.next := rfl
  rw [heq]
  exact append_impl_invE hps p s.next
    (fun x hx hne => absurd (List.mem_singleton.mp hx) hne)
    (fun x hx => absurd hx (List.not_mem_nil x))
    (fun h => Nat.lt_irrefl _ (pendingKeys_lt inv _ h))
    (Nat.lt_succ_self _)
    (fun he => Nat.lt_irrefl _ (inv.root_lt s.next he))
    (List.not_mem_nil _)
    (valid_not_pending inv hv)
    (List.not_mem_nil _)
    (Nat.lt_succ_of_lt hplt)
    (Nat.ne_of_lt hplt)

theorem prepend_inv {C : Type} {s : RSGScene C} {ts : List RSGSubtreeAddTransaction}
    (inv : SceneInv s ts) (p : RSGNodeKey) (node : RSGNode C)
    (hclean : node.is_clean) (hv : s.is_valid p = true) :
    SceneInv (s.prepend p node).1 ts := by
  obtain ⟨pn, hpn, _, _⟩ := inv.valid_linked hv
  have hroot : s.root_key.isSome = true := inv.root_isSome hpn
  have hps := inv.stage node hclean hroot
  have hplt : p < s.next := inv.keys_lt (p, pn) (aGet_some_mem hpn)
  have heq : (s.prepend p node).1 =
      ({ s with arena := s.arena ++ [(s.next, node)], next := s.next + 1 } :
        RSGScene C).prepend_impl p s.next := rfl
  rw [heq]
  exact prepend_impl_invE hps p s.next
    (fun x hx hne => absurd (List.mem_singleton.mp hx) hne)
    (fun x hx => absurd hx (List.not_mem_nil x))
    (fun h => Nat.lt_irrefl _ (pendingKeys_lt inv _ h))
    (Nat.lt_succ_self _)
    (fun he => Nat.lt_irrefl _ (inv.root_lt s.next he))
    (List.not_mem_nil _)
    (valid_not_pending inv hv)
    (List.not_mem_nil _)
    (Nat.lt_succ_of_lt hplt)
    (Nat.ne_of_lt hplt)
theorem insert_before_impl_invE {C : Type} {s : RSGScene C}
    {ts : List RSGSubtreeAddTransaction} {E Ex : List RSGNodeKey}
    (inv : SceneInvX s ts E) (b k : RSGNodeKey)
    (hE1 : ∀ x ∈ E, x ≠ k → x ∈ Ex) (hE2 : ∀ x ∈ Ex, x ∈ E)
    (hknp : k ∉ pendingKeys ts) (hklt : k < s.next)
    (hkroot : s.root_key ≠ some k) (hkEx : k ∉ Ex)
    (hbnp : b ∉ pendingKeys ts) (hbEx : b ∉ Ex)
    (hblt : b < s.next) (hbk : b ≠ k) (hbroot : s.root_key ≠ some b)
    (hbparent : ((aGet s.arena b).bind (·.parent_key)).isSome = true) :
    SceneInvX (s.insert_before_impl b k) ts Ex := by
  cases hgb : aGet s.arena b with
  | none =>
    rw [hgb] at hbparent
    cases hbparent
  | some bn =>
    have hmb := aGet_some_mem hgb
    obtain ⟨par, hpar⟩ := Option.isSome_iff_exists.mp hbparent
    rw [hgb] at hpar
    have hparv : (aGet s.arena b).bind (·.parent_key) = some par := by
      rw [hgb]
      exact hpar
    have hparlt : par < s.next := inv.refs_lt (b, bn) hmb par
      (mem_nodeRefs.mpr (Or.inl hpar))
    have hparnp : par ∉ pendingKeys ts :=
      (inv.no_refs (b, bn) hmb par (mem_nodeRefs.mpr (Or.inl hpar))).1
    have hparE : par ∉ E :=
      (inv.no_refs (b, bn) hmb par (mem_nodeRefs.mpr (Or.inl hpar))).2
    simp only [RSGScene.insert_before_impl]
    rw [hparv]
    have hlink : ∀ (pv : Option RSGNodeKey),
        (∀ o, pv = some o → o < s.next ∧ o ∉ pendingKeys ts ∧ o ∉ E ∧
          s.root_key ≠ some o) →
        SceneInvX { s with arena := aModify s.arena k (fun n =>
          { n with
              key := some k
              parent_key := some par
              prev_sibling_key := pv
              next_sibling_key := some b }) } ts Ex := by
      intro pv hpv
      refine inv.link k _ hknp hE1 hE2 (fun n => rfl) (fun n => rfl) ?_ ?_
      · intro n hg t ht
        have hm := aGet_some_mem hg
        rcases mem_nodeRefs.mp ht with h | h | h | h | h
        · injection h with h
          subst h
          exact ⟨hparlt, hparnp, fun hx => hparE (hE2 _ hx)⟩
        · have hold : t ∈ nodeRefs n := mem_nodeRefs.mpr (Or.inr (Or.inl h))
          exact ⟨inv.refs_lt (k, n) hm t hold, (inv.no_refs (k, n) hm t hold).1,
            fun hx => (inv.no_refs (k, n) hm t hold).2 (hE2 t hx)⟩
        · have hold : t ∈ nodeRefs n := mem_nodeRefs.mpr (Or.inr (Or.inr (Or.inl h)))
          exact ⟨inv.refs_lt (k, n) hm t hold, (inv.no_refs (k, n) hm t hold).1,
            fun hx => (inv.no_refs (k, n) hm t hold).2 (hE2 t hx)⟩
        · obtain ⟨h1, h2, h3, h4⟩ := hpv t h
          exact ⟨h1, h2, fun hx => h3 (hE2 t hx)⟩
        · injection h with h
          subst h
          exact ⟨hblt, hbnp, hbEx⟩
      · intro n hg t ht
        have hm := aGet_some_mem hg
        rcases mem_childSibRefs.mp ht with h | h | h | h
        · exact inv.root_unref (k, n) hm t (mem_childSibRefs.mpr (Or.inl h))
        · exact inv.root_unref (k, n) hm t (mem_childSibRefs.mpr (Or.inr (Or.inl h)))
        · obtain ⟨_, _, _, h4⟩ := hpv t h
          exact h4
        · injection h with h
          subst h
          exact hbroot
    have hmodb : ∀ (s1 : RSGScene C), SceneInvX s1 ts Ex → s1.next = s.next →
        s1.root_key = s.root_key →
        SceneInvX { s1 with arena := aModify s1.arena b (fun n =>
          { n with prev_sibling_key := some k }) } ts Ex := by
      intro s1 inv1 hn hr
      refine inv1.modify_splice b _ hbnp hbEx (fun n => rfl) (fun n => Or.inl rfl) ?_ ?_
      · intro n t ht
        rcases refs_set_prev ht with hold | h
        · exact Or.inl hold
        · injection h with h
          subst h
          rw [hn]
          exact Or.inr ⟨hklt, hknp, hkEx⟩
      · intro n t ht
        rcases csrefs_set_prev ht with hold | h
        · exact Or.inl hold
        · injection h with h
          subst h
          rw [hr]
          exact Or.inr hkroot
    cases hop : (aGet s.arena b).bind (·.prev_sibling_key) with
    | some op2 =>
      have hopfacts : op2 < s.next ∧ op2 ∉ pendingKeys ts ∧ op2 ∉ E ∧
          s.root_key ≠ some op2 := by
        rw [hgb] at hop
        refine ⟨inv.refs_lt (b, bn) hmb op2 (mem_nodeRefs.mpr
          (Or.inr (Or.inr (Or.inr (Or.inl hop))))), (inv.no_refs (b, bn) hmb op2
          (mem_nodeRefs.mpr (Or.inr (Or.inr (Or.inr (Or.inl hop)))))).1,
          (inv.no_refs (b, bn) hmb op2 (mem_nodeRefs.mpr
          (Or.inr (Or.inr (Or.inr (Or.inl hop)))))).2,
          inv.root_unref (b, bn) hmb op2 (mem_childSibRefs.mpr
          (Or.inr (Or.inr (Or.inl hop))))⟩
      rw [aModify_comm s.arena b k _ _ hbk]
      have inv1 := hlink (some op2) (fun o ho => by
        injection ho with ho
        subst ho
        exact hopfacts)
      have inv2 := hmodb _ inv1 rfl rfl
      refine inv2.modify_splice op2 (fun n => { n with next_sibling_key := some k })
        hopfacts.2.1 (fun hx => hopfacts.2.2.1 (hE2 op2 hx)) (fun n => rfl)
        (fun n => Or.inl rfl) ?_ ?_
      · intro n t ht
        rcases refs_set_next ht with hold | h
        · exact Or.inl hold
        · injection h with h
          subst h
          exact Or.inr ⟨hklt, hknp, hkEx⟩
      · intro n t ht
        rcases csrefs_set_next ht with hold | h
        · exact Or.inl hold
        · injection h with h
          subst h
          exact Or.inr hkroot
    | none =>
      rw [aModify_comm s.arena b k _ _ hbk]
      have inv1 := hlink none (fun o ho => by cases ho)
      have inv2 := hmodb _ inv1 rfl rfl
      refine inv2.modify_splice par (fun n => { n with first_child_key := some k })
        hparnp (fun hx => hparE (hE2 par hx)) (fun n => rfl)
        (fun n => Or.inl rfl) ?_ ?_
      · intro n t ht
        rcases refs_set_first ht with hold | h
        · exact Or.inl hold
        · injection h with h
          subst h
          exact Or.inr ⟨hklt, hknp, hkEx⟩
      · intro n t ht
        rcases csrefs_set_first ht with hold | h
        · exact Or.inl hold
        · injection h with h
          subst h
          exact Or.inr hkroot
theorem insert_after_impl_invE {C : Type} {s : RSGScene C}
    {ts : List RSGSubtreeAddTransaction} {E Ex : List RSGNodeKey}
    (inv : SceneInvX s ts E) (b k : RSGNodeKey)
    (hE1 : ∀ x ∈ E, x ≠ k → x ∈ Ex) (hE2 : ∀ x ∈ Ex, x ∈ E)
    (hknp : k ∉ pendingKeys ts) (hklt : k < s.next)
    (hkroot : s.root_key ≠ some k) (hkEx : k ∉ Ex)
    (hbnp : b ∉ pendingKeys ts) (hbEx : b ∉ Ex)
    (hblt : b < s.next) (hbk : b ≠ k) (hbroot : s.root_key ≠ some b)
    (hbparent : ((aGet s.arena b).bind (·.parent_key)).isSome = true) :
    SceneInvX (s.insert_after_impl b k) ts Ex := by
  cases hgb : aGet s.arena b with
  | none =>
    rw [hgb] at hbparent
    cases hbparent
  | some bn =>
    have hmb := aGet_some_mem hgb
    obtain ⟨par, hpar⟩ := Option.isSome_iff_exists.mp hbparent
    rw [hgb] at hpar
    have hparv : (aGet s.arena b).bind (·.parent_key) = some par := by
      rw [hgb]
      exact hpar
    have hparlt : par < s.next := inv.refs_lt (b, bn) hmb par
      (mem_nodeRefs.mpr (Or.inl hpar))
    have hparnp : par ∉ pendingKeys ts :=
      (inv.no_refs (b, bn) hmb par (mem_nodeRefs.mpr (Or.inl hpar))).1
    have hparE : par ∉ E :=
      (inv.no_refs (b, bn) hmb par (mem_nodeRefs.mpr (Or.inl hpar))).2
    simp only [RSGScene.insert_after_impl]
    rw [hparv]
    have hlink : ∀ (nv : Option RSGNodeKey),
        (∀ o, nv = some o → o < s.next ∧ o ∉ pendingKeys ts ∧ o ∉ E ∧
          s.root_key ≠ some o) →
        SceneInvX { s with arena := aModify s.arena k (fun n =>
          { n with
              key := some k
              parent_key := some par
              prev_sibling_key := some b
              next_sibling_key := nv }) } ts Ex := by
      intro nv hnv
      refine inv.link k _ hknp hE1 hE2 (fun n => rfl) (fun n => rfl) ?_ ?_
      · intro n hg t ht
        have hm := aGet_some_mem hg
        rcases mem_nodeRefs.mp ht with h | h | h | h | h
        · injection h with h
          subst h
          exact ⟨hparlt, hparnp, fun hx => hparE (hE2 _ hx)⟩
        · have hold : t ∈ nodeRefs n := mem_nodeRefs.mpr (Or.inr (Or.inl h))
          exact ⟨inv.refs_lt (k, n) hm t hold, (inv.no_refs (k, n) hm t hold).1,
            fun hx => (inv.no_refs (k, n) hm t hold).2 (hE2 t hx)⟩
        · have hold : t ∈ nodeRefs n := mem_nodeRefs.mpr (Or.inr (Or.inr (Or.inl h)))
          exact ⟨inv.refs_lt (k, n) hm t hold, (inv.no_refs (k, n) hm t hold).1,
            fun hx => (inv.no_refs (k, n) hm t hold).2 (hE2 t hx)⟩
        · injection h with h
          subst h
          exact ⟨hblt, hbnp, hbEx⟩
        · obtain ⟨h1, h2, h3, h4⟩ := hnv t h
          exact ⟨h1, h2, fun hx => h3 (hE2 t hx)⟩
      · intro n hg t ht
        have hm := aGet_some_mem hg
        rcases mem_childSibRefs.mp ht with h | h | h | h
        · exact inv.root_unref (k, n) hm t (mem_childSibRefs.mpr (Or.inl h))
        · exact inv.root_unref (k, n) hm t (mem_childSibRefs.mpr (Or.inr (Or.inl h)))
        · injection h with h
          subst h
          exact hbroot
        · obtain ⟨_, _, _, h4⟩ := hnv t h
          exact h4
    have hmodb : ∀ (s1 : RSGScene C), SceneInvX s1 ts Ex → s1.next = s.next →
        s1.root_key = s.root_key →
        SceneInvX { s1 with arena := aModify s1.arena b (fun n =>
          { n with next_sibling_key := some k }) } ts Ex := by
      intro s1 inv1 hn hr
      refine inv1.modify_splice b _ hbnp hbEx (fun n => rfl) (fun n => Or.inl rfl) ?_ ?_
      · intro n t ht
        rcases refs_set_next ht with hold | h
        · exact Or.inl hold
        · injection h with h
          subst h
          rw [hn]
          exact Or.inr ⟨hklt, hknp, hkEx⟩
      · intro n t ht
        rcases csrefs_set_next ht with hold | h
        · exact Or.inl hold
        · injection h with h
          subst h
          rw [hr]
          exact Or.inr hkroot
    cases hop : (aGet s.arena b).bind (·.next_sibling_key) with
    | some onk =>
      have hopfacts : onk < s.next ∧ onk ∉ pendingKeys ts ∧ onk ∉ E ∧
          s.root_key ≠ some onk := by
        rw [hgb] at hop
        refine ⟨inv.refs_lt (b, bn) hmb onk (mem_nodeRefs.mpr
          (Or.inr (Or.inr (Or.inr (Or.inr hop))))), (inv.no_refs (b, bn) hmb onk
          (mem_nodeRefs.mpr (Or.inr (Or.inr (Or.inr (Or.inr hop)))))).1,
          (inv.no_refs (b, bn) hmb onk (mem_nodeRefs.mpr
          (Or.inr (Or.inr (Or.inr (Or.inr hop)))))).2,
          inv.root_unref (b, bn) hmb onk (mem_childSibRefs.mpr
          (Or.inr (Or.inr (Or.inr hop))))⟩
      rw [aModify_comm s.arena b k _ _ hbk]
      have inv1 := hlink (some onk) (fun o ho => by
        injection ho with ho
        subst ho
        exact hopfacts)
      have inv2 := hmodb _ inv1 rfl rfl
      refine inv2.modify_splice onk (fun n => { n with prev_sibling_key := some k })
        hopfacts.2.1 (fun hx => hopfacts.2.2.1 (hE2 onk hx)) (fun n => rfl)
        (fun n => Or.inl rfl) ?_ ?_
      · intro n t ht
        rcases refs_set_prev ht with hold | h
        · exact Or.inl hold
        · injection h with h
          subst h
          exact Or.inr ⟨hklt, hknp, hkEx⟩
      · intro n t ht
        rcases csrefs_set_prev ht with hold | h
        · exact Or.inl hold
        · injection h with h
          subst h
          exact Or.inr hkroot
    | none =>
      rw [aModify_comm s.arena b k _ _ hbk]
      have inv1 := hlink none (fun o ho => by cases ho)
      have inv2 := hmodb _ inv1 rfl rfl
      refine inv2.modify_splice par (fun n => { n with last_child_key := some k })
        hparnp (fun hx => hparE (hE2 par hx)) (fun n => rfl)
        (fun n => Or.inl rfl) ?_ ?_
      · intro n t ht
        rcases refs_set_last ht with hold | h
        · exact Or.inl hold
        · injection h with h
          subst h
          exact Or.inr ⟨hklt, hknp, hkEx⟩
      · intro n t ht
        rcases csrefs_set_last ht with hold | h
        · exact Or.inl hold
        · injection h with h
          subst h
          exact Or.inr hkroot
theorem insert_before_inv {C : Type} {s : RSGScene C} {ts : List RSGSubtreeAddTransaction}
    (inv : SceneInv s ts) (b : RSGNodeKey) (node : RSGNode C)
    (hclean : node.is_clean) (hv : s.is_valid b = true) {r : RSGNodeKey}
    (hr : s.root_key = some r) (hbr : b ≠ r) :
    SceneInv (s.insert_before b node).1 ts := by
  obtain ⟨bn, hbn, hbkey, hbor⟩ := inv.valid_linked hv
  have hbroot : s.root_key ≠ some b := by
    rw [hr]
    intro he
    injection he with he
    exact hbr he.symm
  have hbpar : bn.parent_key.isSome = true := by
    rcases hbor with h | h
    · exact h
    · exact absurd h hbroot
  have hroot : s.root_key.isSome = true := inv.root_isSome hbn
  have hps := inv.stage node hclean hroot
  have hblt : b < s.next := inv.keys_lt (b, bn) (aGet_some_mem hbn)
  have heq : (s.insert_before b node).1 =
      ({ s with arena := s.arena ++ [(s.next, node)], next := s.next + 1 } :
        RSGScene C).insert_before_impl b s.next := rfl
  rw [heq]
  have hgb : aGet (s.arena ++ [(s.next, node)]) b = some bn := by
    rw [aGet_appendEntry, hbn]
  refine insert_before_impl_invE hps b s.next
    (fun x hx hne => absurd (List.mem_singleton.mp hx) hne)
    (fun x hx => absurd hx (List.not_mem_nil x))
    (fun h => Nat.lt_irrefl _ (pendingKeys_lt inv _ h))
    (Nat.lt_succ_self _)
    (fun he => Nat.lt_irrefl _ (inv.root_lt s.next he))
    (List.not_mem_nil _)
    (valid_not_pending inv hv)
    (List.not_mem_nil _)
    (Nat.lt_succ_of_lt hblt)
    (Nat.ne_of_lt hblt)
    hbroot
    (by rw [hgb]; exact hbpar)

theorem insert_after_inv {C : Type} {s : RSGScene C} {ts : List RSGSubtreeAddTransaction}
    (inv : SceneInv s ts) (b : RSGNodeKey) (node : RSGNode C)
    (hclean : node.is_clean) (hv : s.is_valid b = true) {r : RSGNodeKey}
    (hr : s.root_key = some r) (hbr : b ≠ r) :
    SceneInv (s.insert_after b node).1 ts := by
  obtain ⟨bn, hbn, hbkey, hbor⟩ := inv.valid_linked hv
  have hbroot : s.root_key ≠ some b := by
    rw [hr]
    intro he
    injection he with he
    exact hbr he.symm
  have hbpar : bn.parent_key.isSome = true := by
    rcases hbor with h | h
    · exact h
    · exact absurd h hbroot
  have hroot : s.root_key.isSome = true := inv.root_isSome hbn
  have hps := inv.stage node hclean hroot
  have hblt : b < s.next := inv.keys_lt (b, bn) (aGet_some_mem hbn)
  have heq : (s.insert_after b node).1 =
      ({ s with arena := s.arena ++ [(s.next, node)], next := s.next + 1 } :
        RSGScene C).insert_after_impl b s.next := rfl
  rw [heq]
  have hgb : aGet (s.arena ++ [(s.next, node)]) b = some bn := by
    rw [aGet_appendEntry, hbn]
  refine insert_after_impl_invE hps b s.next
    (fun x hx hne => absurd (List.mem_singleton.mp hx) hne)
    (fun x hx => absurd hx (List.not_mem_nil x))
    (fun h => Nat.lt_irrefl _ (pendingKeys_lt inv _ h))
    (Nat.lt_succ_self _)
    (fun he => Nat.lt_irrefl _ (inv.root_lt s.next he))
    (List.not_mem_nil _)
    (valid_not_pending inv hv)
    (List.not_mem_nil _)
    (Nat.lt_succ_of_lt hblt)
    (Nat.ne_of_lt hblt)
    hbroot
    (by rw [hgb]; exact hbpar)

theorem reparent_go_inv {C : Type} {ts : List RSGSubtreeAddTransaction} (k : RSGNodeKey) :
    ∀ (fuel : Nat) (s : RSGScene C) (o : Option RSGNodeKey),
      SceneInvX s ts [] →
      (∀ x, o = some x → x ∉ pendingKeys ts) →
      k < s.next → k ∉ pendingKeys ts →
      SceneInvX (RSGScene.reparent_go fuel s o k) ts [] ∧
      (RSGScene.reparent_go fuel s o k).next = s.next ∧
      (RSGScene.reparent_go fuel s o k).root_key = s.root_key := by
  intro fuel
  induction fuel with
  | zero =>
    intro s o inv _ _ _
    exact ⟨inv, rfl, rfl⟩
  | succ f ih =>
    intro s o inv ho hklt hknp
    cases o with
    | none => exact ⟨inv, rfl, rfl⟩
    | some x =>
      simp only [RSGScene.reparent_go]
      have inv1 := inv.modify_splice x (fun n => { n with parent_key := some k })
        (ho x rfl) (List.not_mem_nil x) (fun n => rfl) (fun n => Or.inr rfl)
        (by
          intro n t ht
          rcases refs_set_parent ht with hold | h
          · exact Or.inl hold
          · injection h with h
            subst h
            exact Or.inr ⟨hklt, hknp, List.not_mem_nil _⟩)
        (by
          intro n t ht
          exact Or.inl (csrefs_set_parent ht))
      have ho2 : ∀ y, (aGet (aModify s.arena x
          (fun n => { n with parent_key := some k })) x).bind (·.next_sibling_key) =
          some y → y ∉ pendingKeys ts := by
        intro y hy
        rw [aGet_aModify, if_pos rfl] at hy
        cases hgx : aGet s.arena x with
        | none =>
          rw [hgx] at hy
          cases hy
        | some xn =>
          rw [hgx] at hy
          have : xn.next_sibling_key = some y := hy
          exact (inv.no_refs (x, xn) (aGet_some_mem hgx) y
            (mem_nodeRefs.mpr (Or.inr (Or.inr (Or.inr (Or.inr this)))))).1
      exact ih _ _ inv1 ho2 hklt hknp

theorem insert_under_inv {C : Type} {s : RSGScene C} {ts : List RSGSubtreeAddTransaction}
    (inv : SceneInv s ts) (p : RSGNodeKey) (node : RSGNode C)
    (hclean : node.is_clean) (hv : s.is_valid p = true) :
    SceneInv (s.insert_under p node).1 ts := by
  obtain ⟨pn, hpn, _, _⟩ := inv.valid_linked hv
  have hroot : s.root_key.isSome = true := inv.root_isSome hpn
  have hps := inv.stage node hclean hroot
  have hplt : p < s.next := inv.keys_lt (p, pn) (aGet_some_mem hpn)
  have hpnp : p ∉ pendingKeys ts := valid_not_pending inv hv
  have hgp : aGet (s.arena ++ [(s.next, node)]) p = some pn := by
    rw [aGet_appendEntry, hpn]
  have hm := aGet_some_mem hpn
  have hknp : s.next ∉ pendingKeys ts :=
    fun h => Nat.lt_irrefl _ (pendingKeys_lt inv _ h)
  have hkroot : s.root_key ≠ some s.next :=
    fun he => Nat.lt_irrefl _ (inv.root_lt s.next he)
  simp only [RSGScene.insert_under, RSGScene.insertNode]
  rw [hgp, hpn]
  rw [aModify_comm _ p s.next _ _ (Nat.ne_of_lt hplt)]
  have inv1 := hps.link s.next
    (fun n =>
      { n with
          key := some s.next
          parent_key := some p
          first_child_key := pn.first_child_key
          last_child_key := pn.last_child_key })
    hknp
    (fun x hx hne => absurd (List.mem_singleton.mp hx) hne)
    (fun x hx => absurd hx (List.not_mem_nil x))
    (fun n => rfl) (fun n => rfl)
    (by
      intro n hg t ht
      have hmn := aGet_some_mem hg
      rcases mem_nodeRefs.mp ht with h | h | h | h | h
      · injection h with h
        subst h
        exact ⟨Nat.lt_succ_of_lt hplt, hpnp, List.not_mem_nil _⟩
      · have hold : t ∈ nodeRefs pn := mem_nodeRefs.mpr (Or.inr (Or.inl h))
        exact ⟨Nat.lt_succ_of_lt (inv.refs_lt (p, pn) hm t hold),
          (inv.no_refs (p, pn) hm t hold).1, List.not_mem_nil _⟩
      · have hold : t ∈ nodeRefs pn := mem_nodeRefs.mpr (Or.inr (Or.inr (Or.inl h)))
        exact ⟨Nat.lt_succ_of_lt (inv.refs_lt (p, pn) hm t hold),
          (inv.no_refs (p, pn) hm t hold).1, List.not_mem_nil _⟩
      · have hold : t ∈ nodeRefs n := mem_nodeRefs.mpr (Or.inr (Or.inr (Or.inr (Or.inl h))))
        exact ⟨hps.refs_lt (s.next, n) hmn t hold, (hps.no_refs (s.next, n) hmn t hold).1,
          List.not_mem_nil _⟩
      · have hold : t ∈ nodeRefs n := mem_nodeRefs.mpr (Or.inr (Or.inr (Or.inr (Or.inr h))))
        exact ⟨hps.refs_lt (s.next, n) hmn t hold, (hps.no_refs (s.next, n) hmn t hold).1,
          List.not_mem_nil _⟩)
    (by
      intro n hg t ht
      have hmn := aGet_some_mem hg
      rcases mem_childSibRefs.mp ht with h | h | h | h
      · exact inv.root_unref (p, pn) hm t (mem_childSibRefs.mpr (Or.inl h))
      · exact inv.root_unref (p, pn) hm t (mem_childSibRefs.mpr (Or.inr (Or.inl h)))
      · exact hps.root_unref (s.next, n) hmn t
          (mem_childSibRefs.mpr (Or.inr (Or.inr (Or.inl h))))
      · exact hps.root_unref (s.next, n) hmn t
          (mem_childSibRefs.mpr (Or.inr (Or.inr (Or.inr h)))))
  have inv2 := inv1.modify_splice p
    (fun q => { q with first_child_key := some s.next, last_child_key := some s.next })
    hpnp (List.not_mem_nil p) (fun n => rfl) (fun n => Or.inl rfl)
    (by
      intro n t ht
      rcases refs_set_first_last ht with hold | h | h
      · exact Or.inl hold
      · injection h with h
        subst h
        exact Or.inr ⟨Nat.lt_succ_self _, hknp, List.not_mem_nil _⟩
      · injection h with h
        subst h
        exact Or.inr ⟨Nat.lt_succ_self _, hknp, List.not_mem_nil _⟩)
    (by
      intro n t ht
      rcases csrefs_set_first_last ht with hold | h | h
      · exact Or.inl hold
      · injection h with h
        subst h
        exact Or.inr hkroot
      · injection h with h
        subst h
        exact Or.inr hkroot)
  have hchildnp : ∀ x, pn.first_child_key = some x → x ∉ pendingKeys ts := by
    intro x hx
    exact (inv.no_refs (p, pn) hm x (mem_nodeRefs.mpr (Or.inr (Or.inl hx)))).1
  refine (reparent_go_inv s.next _ _ pn.first_child_key inv2 ?_ (Nat.lt_succ_self _) hknp).1
  intro x hx
  exact hchildnp x hx
theorem pendingKeys_append (l1 l2 : List RSGSubtreeAddTransaction) :
    pendingKeys (l1 ++ l2) = pendingKeys l1 ++ pendingKeys l2 := by
  unfold pendingKeys
  rw [List.map_append, List.flatten_append]

theorem append_impl_next {C : Type} (s : RSGScene C) (p k : RSGNodeKey) :
    (s.append_impl p k).next = s.next := by
  unfold RSGScene.append_impl
  cases hol : (aGet s.arena p).bind (fun n => n.last_child_key) <;> simp [hol]

theorem append_impl_root {C : Type} (s : RSGScene C) (p k : RSGNodeKey) :
    (s.append_impl p k).root_key = s.root_key := by
  unfold RSGScene.append_impl
  cases hol : (aGet s.arena p).bind (fun n => n.last_child_key) <;> simp [hol]

theorem prepend_impl_next {C : Type} (s : RSGScene C) (p k : RSGNodeKey) :
    (s.prepend_impl p k).next = s.next := by
  unfold RSGScene.prepend_impl
  cases hol : (aGet s.arena p).bind (fun n => n.first_child_key) <;> simp [hol]

theorem prepend_impl_root {C : Type} (s : RSGScene C) (p k : RSGNodeKey) :
    (s.prepend_impl p k).root_key = s.root_key := by
  unfold RSGScene.prepend_impl
  cases hol : (aGet s.arena p).bind (fun n => n.first_child_key) <;> simp [hol]

theorem commit_setup {C : Type} {s : RSGScene C} {ts1 ts2 : List RSGSubtreeAddTransaction}
    {txn : RSGSubtreeAddTransaction} (inv : SceneInv s (ts1 ++ txn :: ts2)) :
    SceneInvX s (ts1 ++ ts2) txn.stagedKeys := by
  have hP : pendingKeys (ts1 ++ txn :: ts2) =
      pendingKeys ts1 ++ (txn.stagedKeys ++ pendingKeys ts2) := by
    rw [pendingKeys_append, pendingKeys_cons]
  have hP2 : pendingKeys (ts1 ++ ts2) = pendingKeys ts1 ++ pendingKeys ts2 :=
    pendingKeys_append ts1 ts2
  have hnd := inv.pending_nodup
  rw [hP, List.nodup_append] at hnd
  obtain ⟨hA, hSB, hdisj⟩ := hnd
  rw [List.nodup_append] at hSB
  obtain ⟨hS, hB, hdisjSB⟩ := hSB
  have holdmem : ∀ x, x ∈ pendingKeys (ts1 ++ txn :: ts2) ↔
      (x ∈ pendingKeys ts1 ∨ x ∈ txn.stagedKeys ∨ x ∈ pendingKeys ts2) := by
    intro x
    rw [hP]
    simp [List.mem_append]
  have hnewmem : ∀ x, x ∈ pendingKeys (ts1 ++ ts2) ↔
      (x ∈ pendingKeys ts1 ∨ x ∈ pendingKeys ts2) := by
    intro x
    rw [hP2]
    exact List.mem_append
  have hsub : ∀ x, x ∈ pendingKeys (ts1 ++ ts2) → x ∈ pendingKeys (ts1 ++ txn :: ts2) := by
    intro x hx
    rcases (hnewmem x).mp hx with h | h
    · exact (holdmem x).mpr (Or.inl h)
    · exact (holdmem x).mpr (Or.inr (Or.inr h))
  have hSsub : ∀ x ∈ txn.stagedKeys, x ∈ pendingKeys (ts1 ++ txn :: ts2) := by
    intro x hx
    exact (holdmem x).mpr (Or.inr (Or.inl hx))
  constructor
  · exact inv.a_nodup
  · exact inv.keys_lt
  · exact inv.refs_lt
  · exact inv.root_lt
  · exact inv.root_empty
  · intro p hp
    rcases inv.classify p hp with hl | ⟨hcl, hm⟩
    · exact Or.inl hl
    · refine Or.inr ⟨hcl, ?_⟩
      rcases hm with hm | hm
      · rcases (holdmem p.1).mp hm with h | h | h
        · exact Or.inl ((hnewmem p.1).mpr (Or.inl h))
        · exact Or.inr h
        · exact Or.inl ((hnewmem p.1).mpr (Or.inr h))
      · cases hm
  · rw [hP2, List.nodup_append]
    refine ⟨hA, hB, ?_⟩
    intro x hx hx2
    exact hdisj hx (List.mem_append.mpr (Or.inr hx2))
  · intro j hj
    exact inv.pending_present j (hsub j hj)
  · intro r hr
    have h := (inv.root_not_pending r hr).1
    constructor
    · intro hc
      exact h (hsub r hc)
    · intro hc
      exact h (hSsub r hc)
  · intro q hq t ht
    have h := (inv.no_refs q hq t ht).1
    constructor
    · intro hc
      exact h (hsub t hc)
    · intro hc
      exact h (hSsub t hc)
  · exact inv.root_unref
  · intro txn2 htxn2 pre e post hsplit
    have hmem : txn2 ∈ ts1 ++ txn :: ts2 := by
      rcases List.mem_append.mp htxn2 with h | h
      · exact List.mem_append.mpr (Or.inl h)
      · exact List.mem_append.mpr (Or.inr (List.mem_cons_of_mem _ h))
    obtain ⟨hor, hlt⟩ := inv.parents_ok txn2 hmem pre e post hsplit
    refine ⟨?_, hlt⟩
    rcases hor with hor | hor
    · exact Or.inl hor
    · exact Or.inr (fun hc => hor (hsub e.1 hc))

theorem commit_fold_invE {C : Type}
    (entries : List (RSGNodeKey × RSGNodeKey × RSGSubtreeAddOp)) :
    ∀ (s : RSGScene C) (ts : List RSGSubtreeAddTransaction) (done : List RSGNodeKey),
    SceneInvX s ts (entries.map (fun e => e.2.1)) →
    (done ++ entries.map (fun e => e.2.1)).Nodup →
    (∀ x ∈ done ++ entries.map (fun e => e.2.1),
      x ∉ pendingKeys ts ∧ x < s.next ∧ s.root_key ≠ some x) →
    (∀ pre e post, entries = pre ++ e :: post →
      e.1 ∈ done ++ pre.map (fun x => x.2.1) ∨
        (e.1 ∉ pendingKeys ts ∧ e.1 ∉ done ++ entries.map (fun x => x.2.1) ∧ e.1 < s.next)) →
    SceneInvX (entries.foldl (fun s e =>
      match e.2.2 with
      | RSGSubtreeAddOp.Append => s.append_impl e.1 e.2.1
      | RSGSubtreeAddOp.Prepend => s.prepend_impl e.1 e.2.1) s) ts [] := by
  induction entries with
  | nil =>
    intro s ts done inv _ _ _
    exact inv
  | cons e rest ih =>
    intro s ts done inv hnodup hfacts hparents
    have hmid : (e.2.1 :: (done ++ rest.map (fun e => e.2.1))).Nodup := by
      rw [← List.nodup_middle]
      exact hnodup
    have hknotin : e.2.1 ∉ done ++ rest.map (fun e => e.2.1) :=
      (List.nodup_cons.mp hmid).1
    have hrest_nodup : (done ++ rest.map (fun e => e.2.1)).Nodup :=
      (List.nodup_cons.mp hmid).2
    obtain ⟨hknp, hklt, hkroot⟩ := hfacts e.2.1
      (List.mem_append.mpr (Or.inr (List.mem_cons_self _ _)))
    have hpcase := hparents [] e rest rfl
    rw [List.map_nil, List.append_nil] at hpcase
    have hpnp : e.1 ∉ pendingKeys ts := by
      rcases hpcase with h | ⟨h, _, _⟩
      · exact (hfacts e.1 (List.mem_append.mpr (Or.inl h))).1
      · exact h
    have hpEx : e.1 ∉ rest.map (fun e => e.2.1) := by
      rcases hpcase with h | ⟨_, h, _⟩
      · intro hc
        exact (List.nodup_append.mp hrest_nodup).2.2 h hc
      · intro hc
        exact h (List.mem_append.mpr (Or.inr (List.mem_cons_of_mem _ hc)))
    have hplt : e.1 < s.next := by
      rcases hpcase with h | ⟨_, _, h⟩
      · exact (hfacts e.1 (List.mem_append.mpr (Or.inl h))).2.1
      · exact h
    have hpk : e.1 ≠ e.2.1 := by
      rcases hpcase with h | ⟨_, h, _⟩
      · intro hc
        exact hknotin (List.mem_append.mpr (Or.inl (hc ▸ h)))
      · intro hc
        exact h (List.mem_append.mpr (Or.inr (hc ▸ List.mem_cons_self _ _)))
    have hE1 : ∀ x ∈ (e :: rest).map (fun e => e.2.1), x ≠ e.2.1 →
        x ∈ rest.map (fun e => e.2.1) := by
      intro x hx hxk
      rcases List.mem_cons.mp hx with h | h
      · exact absurd h hxk
      · exact h
    have hE2 : ∀ x ∈ rest.map (fun e => e.2.1), x ∈ (e :: rest).map (fun e => e.2.1) := by
      intro x hx
      exact List.mem_cons_of_mem _ hx
    have hkEx : e.2.1 ∉ rest.map (fun e => e.2.1) := by
      intro hc
      exact hknotin (List.mem_append.mpr (Or.inr hc))
    simp only [List.foldl_cons]
    cases hop : e.2.2 with
    | Append =>
      have inv' : SceneInvX (s.append_impl e.1 e.2.1) ts (rest.map (fun e => e.2.1)) :=
        append_impl_invE inv e.1 e.2.1 hE1 hE2 hknp hklt hkroot hkEx hpnp hpEx hplt hpk
      refine ih (s.append_impl e.1 e.2.1) ts (done ++ [e.2.1]) inv' ?_ ?_ ?_
      · rw [List.append_assoc]
        exact hnodup
      · intro x hx
        rw [List.append_assoc] at hx
        obtain ⟨h1, h2, h3⟩ := hfacts x hx
        refine ⟨h1, ?_, ?_⟩
        · rw [append_impl_next]
          exact h2
        · rw [append_impl_root]
          exact h3
      · intro pre2 e2 post2 hsplit
        have := hparents (e :: pre2) e2 post2 (by rw [hsplit]; rfl)
        rcases this with h | ⟨h1, h2, h3⟩
        · refine Or.inl ?_
          rw [List.append_assoc]
          exact h
        · refine Or.inr ⟨h1, ?_, ?_⟩
          · rw [List.append_assoc]
            exact h2
          · rw [append_impl_next]
            exact h3
    | Prepend =>
      have inv' : SceneInvX (s.prepend_impl e.1 e.2.1) ts (rest.map (fun e => e.2.1)) :=
        prepend_impl_invE inv e.1 e.2.1 hE1 hE2 hknp hklt hkroot hkEx hpnp hpEx hplt hpk
      refine ih (s.prepend_impl e.1 e.2.1) ts (done ++ [e.2.1]) inv' ?_ ?_ ?_
      · rw [List.append_assoc]
        exact hnodup
      · intro x hx
        rw [List.append_assoc] at hx
        obtain ⟨h1, h2, h3⟩ := hfacts x hx
        refine ⟨h1, ?_, ?_⟩
        · rw [prepend_impl_next]
          exact h2
        · rw [prepend_impl_root]
          exact h3
      · intro pre2 e2 post2 hsplit
        have := hparents (e :: pre2) e2 post2 (by rw [hsplit]; rfl)
        rcases this with h | ⟨h1, h2, h3⟩
        · refine Or.inl ?_
          rw [List.append_assoc]
          exact h
        · refine Or.inr ⟨h1, ?_, ?_⟩
          · rw [List.append_assoc]
            exact h2
          · rw [prepend_impl_next]
            exact h3

theorem commit_inv {C : Type} {s : RSGScene C} {ts1 ts2 : List RSGSubtreeAddTransaction}
    {txn : RSGSubtreeAddTransaction} (inv : SceneInv s (ts1 ++ txn :: ts2)) :
    SceneInv (s.commit txn).1 (ts1 ++ ts2) := by
  have hc1 : (s.commit txn).1 = txn.entries.foldl (fun s e =>
      match e.2.2 with
      | RSGSubtreeAddOp.Append => s.append_impl e.1 e.2.1
      | RSGSubtreeAddOp.Prepend => s.prepend_impl e.1 e.2.1) s := by
    unfold RSGScene.commit
    cases txn.entries.head? <;> rfl
  rw [hc1]
  have htxnmem : txn ∈ ts1 ++ txn :: ts2 :=
    List.mem_append.mpr (Or.inr (List.mem_cons_self _ _))
  have hP : pendingKeys (ts1 ++ txn :: ts2) =
      pendingKeys ts1 ++ (txn.stagedKeys ++ pendingKeys ts2) := by
    rw [pendingKeys_append, pendingKeys_cons]
  have hSold : ∀ x ∈ txn.stagedKeys, x ∈ pendingKeys (ts1 ++ txn :: ts2) := by
    intro x hx
    rw [hP]
    exact List.mem_append.mpr (Or.inr (List.mem_append.mpr (Or.inl hx)))
  have hnd := inv.pending_nodup
  rw [hP, List.nodup_append] at hnd
  obtain ⟨hA, hSB, hdisj⟩ := hnd
  rw [List.nodup_append] at hSB
  obtain ⟨hS, hB, hdisjSB⟩ := hSB
  have hSnotnew : ∀ x ∈ txn.stagedKeys, x ∉ pendingKeys (ts1 ++ ts2) := by
    intro x hx hc
    rw [pendingKeys_append] at hc
    rcases List.mem_append.mp hc with h | h
    · exact hdisj h (List.mem_append.mpr (Or.inl hx))
    · exact hdisjSB hx h
  have hnewsub : ∀ x, x ∈ pendingKeys (ts1 ++ ts2) → x ∈ pendingKeys (ts1 ++ txn :: ts2) := by
    intro x hx
    rw [pendingKeys_append] at hx
    rw [hP]
    rcases List.mem_append.mp hx with h | h
    · exact List.mem_append.mpr (Or.inl h)
    · exact List.mem_append.mpr (Or.inr (List.mem_append.mpr (Or.inr h)))
  refine commit_fold_invE txn.entries s (ts1 ++ ts2) [] (commit_setup inv) hS ?_ ?_
  · intro x hx
    have hxS : x ∈ txn.stagedKeys := hx
    refine ⟨hSnotnew x hxS, pendingKeys_lt inv x (hSold x hxS), ?_⟩
    intro hc
    exact (inv.root_not_pending x hc).1 (hSold x hxS)
  · intro pre e post hsplit
    obtain ⟨hor, hlt⟩ := inv.parents_ok txn htxnmem pre e post hsplit
    rcases hor with hor | hor
    · exact Or.inl hor
    · refine Or.inr ⟨?_, ?_, hlt⟩
      · intro hc
        exact hor (hnewsub e.1 hc)
      · intro hc
        exact hor (hSold e.1 hc)

theorem rollback_fold_inv {C : Type}
    (entries : List (RSGNodeKey × RSGNodeKey × RSGSubtreeAddOp)) :
    ∀ (s : RSGScene C) (ts : List RSGSubtreeAddTransaction),
    SceneInvX s ts (entries.map (fun e => e.2.1)) →
    (∀ x ∈ entries.map (fun e => e.2.1), x ∉ pendingKeys ts ∧ s.root_key ≠ some x) →
    SceneInvX (entries.foldl (fun s e => { s with arena := aRemove s.arena e.2.1 }) s) ts [] := by
  induction entries with
  | nil =>
    intro s ts inv _
    exact inv
  | cons e rest ih =>
    intro s ts inv hfacts
    obtain ⟨hknp, hkroot⟩ := hfacts e.2.1 (List.mem_cons_self _ _)
    simp only [List.foldl_cons]
    refine ih _ ts ?_ ?_
    · refine SceneInvX.removeKey inv e.2.1 hkroot hknp ?_ ?_
      · intro x hx hxk
        rcases List.mem_cons.mp hx with h | h
        · exact absurd h hxk
        · exact h
      · intro x hx
        exact List.mem_cons_of_mem _ hx
    · intro x hx
      exact hfacts x (List.mem_cons_of_mem _ hx)

theorem rollback_inv {C : Type} {s : RSGScene C} {ts1 ts2 : List RSGSubtreeAddTransaction}
    {txn : RSGSubtreeAddTransaction} (inv : SceneInv s (ts1 ++ txn :: ts2)) :
    SceneInv (s.rollback txn).1 (ts1 ++ ts2) := by
  have hP : pendingKeys (ts1 ++ txn :: ts2) =
      pendingKeys ts1 ++ (txn.stagedKeys ++ pendingKeys ts2) := by
    rw [pendingKeys_append, pendingKeys_cons]
  have hSold : ∀ x ∈ txn.stagedKeys, x ∈ pendingKeys (ts1 ++ txn :: ts2) := by
    intro x hx
    rw [hP]
    exact List.mem_append.mpr (Or.inr (List.mem_append.mpr (Or.inl hx)))
  have hnd := inv.pending_nodup
  rw [hP, List.nodup_append] at hnd
  obtain ⟨hA, hSB, hdisj⟩ := hnd
  rw [List.nodup_append] at hSB
  obtain ⟨hS, hB, hdisjSB⟩ := hSB
  have hSnotnew : ∀ x ∈ txn.stagedKeys, x ∉ pendingKeys (ts1 ++ ts2) := by
    intro x hx hc
    rw [pendingKeys_append] at hc
    rcases List.mem_append.mp hc with h | h
    · exact hdisj h (List.mem_append.mpr (Or.inl hx))
    · exact hdisjSB hx h
  refine rollback_fold_inv txn.entries s (ts1 ++ ts2) (commit_setup inv) ?_
  intro x hx
  refine ⟨hSnotnew x hx, ?_⟩
  intro hc
  exact (inv.root_not_pending x hc).1 (hSold x hx)
theorem remove_from_arena_go_inv {C : Type} (fuel : Nat) :
    ∀ (s : RSGScene C) (ts : List RSGSubtreeAddTransaction) (stk : List RSGNodeKey),
    SceneInvX s ts [] →
    (∀ x ∈ stk, x ∉ pendingKeys ts ∧ s.root_key ≠ some x) →
    SceneInvX (RSGScene.remove_from_arena_go fuel s stk) ts [] ∧
    (RSGScene.remove_from_arena_go fuel s stk).root_key = s.root_key ∧
    (RSGScene.remove_from_arena_go fuel s stk).next = s.next := by
  induction fuel with
  | zero =>
    intro s ts stk inv _
    exact ⟨inv, rfl, rfl⟩
  | succ fuel ih =>
    intro s ts stk inv hstk
    cases stk with
    | nil => exact ⟨inv, rfl, rfl⟩
    | cons k stk =>
      obtain ⟨hknp, hkroot⟩ := hstk k (List.mem_cons_self _ _)
      have hstk' : ∀ x ∈ stk, x ∉ pendingKeys ts ∧ s.root_key ≠ some x :=
        fun x hx => hstk x (List.mem_cons_of_mem _ hx)
      cases hg : aGet s.arena k with
      | none =>
        simp only [RSGScene.remove_from_arena_go, hg]
        exact ih s ts stk inv hstk'
      | some child =>
        have hmem := aGet_some_mem hg
        have inv1 : SceneInvX { s with arena := aRemove s.arena k } ts [] :=
          inv.removeKey k hkroot hknp (fun x hx _ => hx) (fun x hx => hx)
        have hcf : ∀ t, child.first_child_key = some t →
            t ∉ pendingKeys ts ∧ s.root_key ≠ some t := by
          intro t ht
          have hcs : t ∈ childSibRefs child := mem_childSibRefs.mpr (Or.inl ht)
          have hr : t ∈ nodeRefs child := mem_nodeRefs.mpr (Or.inr (Or.inl ht))
          exact ⟨(inv.no_refs (k, child) hmem t hr).1, inv.root_unref (k, child) hmem t hcs⟩
        have hcn : ∀ t, child.next_sibling_key = some t →
            t ∉ pendingKeys ts ∧ s.root_key ≠ some t := by
          intro t ht
          have hcs : t ∈ childSibRefs child :=
            mem_childSibRefs.mpr (Or.inr (Or.inr (Or.inr ht)))
          have hr : t ∈ nodeRefs child :=
            mem_nodeRefs.mpr (Or.inr (Or.inr (Or.inr (Or.inr ht))))
          exact ⟨(inv.no_refs (k, child) hmem t hr).1, inv.root_unref (k, child) hmem t hcs⟩
        cases hfc : child.first_child_key with
        | none =>
          cases hns : child.next_sibling_key with
          | none =>
            simp only [RSGScene.remove_from_arena_go, hg, hfc, hns]
            exact ih _ ts stk inv1 hstk'
          | some sib =>
            simp only [RSGScene.remove_from_arena_go, hg, hfc, hns]
            refine ih _ ts (sib :: stk) inv1 ?_
            intro x hx
            rcases List.mem_cons.mp hx with h | h
            · subst h
              exact hcn x hns
            · exact hstk' x h
        | some fc =>
          cases hns : child.next_sibling_key with
          | none =>
            simp only [RSGScene.remove_from_arena_go, hg, hfc, hns]
            refine ih _ ts (fc :: stk) inv1 ?_
            intro x hx
            rcases List.mem_cons.mp hx with h | h
            · subst h
              exact hcf x hfc
            · exact hstk' x h
          | some sib =>
            simp only [RSGScene.remove_from_arena_go, hg, hfc, hns]
            refine ih _ ts (sib :: fc :: stk) inv1 ?_
            intro x hx
            rcases List.mem_cons.mp hx with h | h
            · subst h
              exact hcn x hns
            · rcases List.mem_cons.mp h with h2 | h2
              · subst h2
                exact hcf x hfc
              · exact hstk' x h2

theorem remove_from_arena_inv {C : Type} {s : RSGScene C}
    {ts : List RSGSubtreeAddTransaction} (inv : SceneInvX s ts [])
    (o : Option RSGNodeKey)
    (ho : ∀ x, o = some x → x ∉ pendingKeys ts ∧ s.root_key ≠ some x) :
    SceneInvX (s.remove_from_arena o) ts [] ∧
    (s.remove_from_arena o).root_key = s.root_key ∧
    (s.remove_from_arena o).next = s.next := by
  cases o with
  | none => exact ⟨inv, rfl, rfl⟩
  | some fc =>
    simp only [RSGScene.remove_from_arena]
    refine remove_from_arena_go_inv _ s ts [fc] inv ?_
    intro x hx
    rcases List.mem_singleton.mp hx with h
    subst h
    exact ho x rfl
theorem remove_helper_inv {C : Type} {s : RSGScene C} {ts : List RSGSubtreeAddTransaction}
    (inv : SceneInvX s ts []) (node_key : RSGNodeKey) (wc : Bool)
    (hknp : node_key ∉ pendingKeys ts) (hkroot : s.root_key ≠ some node_key) :
    SceneInvX (s.remove_helper node_key wc).1 ts [] ∧
    (s.remove_helper node_key wc).1.root_key = s.root_key ∧
    (s.remove_helper node_key wc).1.next = s.next := by
  cases hgOuter : aGet s.arena node_key with
  | none =>
    cases wc with
    | true =>
      simp only [RSGScene.remove_helper, eq_self_iff_true, if_true, hgOuter]
      exact ⟨inv, trivial, trivial⟩
    | false =>
      have inv0 : SceneInvX { s with arena := aModify s.arena node_key (fun n =>
          { n with first_child_key := none, last_child_key := none }) } ts [] := by
        refine inv.modify_splice node_key _ hknp (List.not_mem_nil _)
          (fun n => rfl) (fun n => Or.inl rfl) ?_ ?_
        · intro n t ht
          rcases refs_set_first_last ht with hold | h | h
          · exact Or.inl hold
          · cases h
          · cases h
        · intro n t ht
          rcases csrefs_set_first_last ht with hold | h | h
          · exact Or.inl hold
          · cases h
          · cases h
      have h1 : aGet (aModify s.arena node_key (fun n =>
          { n with first_child_key := none, last_child_key := none })) node_key = none := by
        rw [aGet_aModify, if_pos rfl, hgOuter]
        rfl
      simp only [RSGScene.remove_helper, Bool.false_eq_true, if_false, h1]
      exact ⟨inv0, trivial, trivial⟩
  | some node =>
    have hmemS := aGet_some_mem hgOuter
    have hrefF : ∀ x, (node.parent_key = some x ∨ node.first_child_key = some x ∨
        node.last_child_key = some x ∨ node.prev_sibling_key = some x ∨
        node.next_sibling_key = some x) → x < s.next ∧ x ∉ pendingKeys ts := by
      intro x hx
      have h := mem_nodeRefs.mpr hx
      exact ⟨inv.refs_lt (node_key, node) hmemS x h,
        (inv.no_refs (node_key, node) hmemS x h).1⟩
    have hcsF : ∀ x, (node.first_child_key = some x ∨ node.last_child_key = some x ∨
        node.prev_sibling_key = some x ∨ node.next_sibling_key = some x) →
        s.root_key ≠ some x := by
      intro x hx
      exact inv.root_unref (node_key, node) hmemS x (mem_childSibRefs.mpr hx)
    cases wc with
    | true =>
      have inv1 : SceneInvX { s with arena := aRemove s.arena node_key } ts [] :=
        inv.removeKey node_key hkroot hknp (fun x hx _ => hx) (fun x hx => hx)
      have hfcF : ∀ x, node.first_child_key = some x →
          x ∉ pendingKeys ts ∧ s.root_key ≠ some x := by
        intro x hx
        exact ⟨(hrefF x (Or.inr (Or.inl hx))).2, hcsF x (Or.inl hx)⟩
      simp only [RSGScene.remove_helper, eq_self_iff_true, if_true, hgOuter]
      cases hp : node.parent_key with
      | none =>
        exact ⟨inv1, rfl, rfl⟩
      | some pk =>
        have hpknp : pk ∉ pendingKeys ts := (hrefF pk (Or.inl hp)).2
        cases hprev : node.prev_sibling_key with
        | some ps =>
          obtain ⟨hpslt, hpsnp⟩ := hrefF ps (Or.inr (Or.inr (Or.inr (Or.inl hprev))))
          have hpsroot := hcsF ps (Or.inr (Or.inr (Or.inl hprev)))
          cases hnext : node.next_sibling_key with
          | some ns =>
            obtain ⟨hnslt, hnsnp⟩ :=
              hrefF ns (Or.inr (Or.inr (Or.inr (Or.inr hnext))))
            have hnsroot := hcsF ns (Or.inr (Or.inr (Or.inr hnext)))
            have invA := inv1.modify_splice ps
              (fun n => { n with next_sibling_key := some ns })
              hpsnp (List.not_mem_nil _) (fun n => rfl) (fun n => Or.inl rfl)
              (by
                intro n t ht
                rcases refs_set_next ht with hold | h
                · exact Or.inl hold
                · injection h with h
                  subst h
                  exact Or.inr ⟨hnslt, hnsnp, List.not_mem_nil _⟩)
              (by
                intro n t ht
                rcases csrefs_set_next ht with hold | h
                · exact Or.inl hold
                · injection h with h
                  subst h
                  exact Or.inr hnsroot)
            have invB := invA.modify_splice ns
              (fun n => { n with prev_sibling_key := some ps })
              hnsnp (List.not_mem_nil _) (fun n => rfl) (fun n => Or.inl rfl)
              (by
                intro n t ht
                rcases refs_set_prev ht with hold | h
                · exact Or.inl hold
                · injection h with h
                  subst h
                  exact Or.inr ⟨hpslt, hpsnp, List.not_mem_nil _⟩)
              (by
                intro n t ht
                rcases csrefs_set_prev ht with hold | h
                · exact Or.inl hold
                · injection h with h
                  subst h
                  exact Or.inr hpsroot)
            exact remove_from_arena_inv invB node.first_child_key
              (fun x hx => hfcF x hx)
          | none =>
            have invA := inv1.modify_splice pk
              (fun n => { n with last_child_key := some ps })
              hpknp (List.not_mem_nil _) (fun n => rfl) (fun n => Or.inl rfl)
              (by
                intro n t ht
                rcases refs_set_last ht with hold | h
                · exact Or.inl hold
                · injection h with h
                  subst h
                  exact Or.inr ⟨hpslt, hpsnp, List.not_mem_nil _⟩)
              (by
                intro n t ht
                rcases csrefs_set_last ht with hold | h
                · exact Or.inl hold
                · injection h with h
                  subst h
                  exact Or.inr hpsroot)
            have invB := invA.modify_splice ps
              (fun n => { n with next_sibling_key := none })
              hpsnp (List.not_mem_nil _) (fun n => rfl) (fun n => Or.inl rfl)
              (by
                intro n t ht
                rcases refs_set_next ht with hold | h
                · exact Or.inl hold
                · cases h)
              (by
                intro n t ht
                rcases csrefs_set_next ht with hold | h
                · exact Or.inl hold
                · cases h)
            exact remove_from_arena_inv invB node.first_child_key
              (fun x hx => hfcF x hx)
        | none =>
          cases hnext : node.next_sibling_key with
          | some ns =>
            obtain ⟨hnslt, hnsnp⟩ :=
              hrefF ns (Or.inr (Or.inr (Or.inr (Or.inr hnext))))
            have hnsroot := hcsF ns (Or.inr (Or.inr (Or.inr hnext)))
            have invA := inv1.modify_splice pk
              (fun n => { n with first_child_key := some ns })
              hpknp (List.not_mem_nil _) (fun n => rfl) (fun n => Or.inl rfl)
              (by
                intro n t ht
                rcases refs_set_first ht with hold | h
                · exact Or.inl hold
                · injection h with h
                  subst h
                  exact Or.inr ⟨hnslt, hnsnp, List.not_mem_nil _⟩)
              (by
                intro n t ht
                rcases csrefs_set_first ht with hold | h
                · exact Or.inl hold
                · injection h with h
                  subst h
                  exact Or.inr hnsroot)
            have invB := invA.modify_splice ns
              (fun n => { n with prev_sibling_key := none })
              hnsnp (List.not_mem_nil _) (fun n => rfl) (fun n => Or.inl rfl)
              (by
                intro n t ht
                rcases refs_set_prev ht with hold | h
                · exact Or.inl hold
                · cases h)
              (by
                intro n t ht
                rcases csrefs_set_prev ht with hold | h
                · exact Or.inl hold
                · cases h)
            exact remove_from_arena_inv invB node.first_child_key
              (fun x hx => hfcF x hx)
          | none =>
            have invA := inv1.modify_splice pk
              (fun n => { n with first_child_key := none, last_child_key := none })
              hpknp (List.not_mem_nil _) (fun n => rfl) (fun n => Or.inl rfl)
              (by
                intro n t ht
                rcases refs_set_first_last ht with hold | h | h
                · exact Or.inl hold
                · cases h
                · cases h)
              (by
                intro n t ht
                rcases csrefs_set_first_last ht with hold | h | h
                · exact Or.inl hold
                · cases h
                · cases h)
            exact remove_from_arena_inv invA node.first_child_key
              (fun x hx => hfcF x hx)
    | false =>
      have inv0 : SceneInvX { s with arena := aModify s.arena node_key (fun n =>
          { n with first_child_key := none, last_child_key := none }) } ts [] := by
        refine inv.modify_splice node_key _ hknp (List.not_mem_nil _)
          (fun n => rfl) (fun n => Or.inl rfl) ?_ ?_
        · intro n t ht
          rcases refs_set_first_last ht with hold | h | h
          · exact Or.inl hold
          · cases h
          · cases h
        · intro n t ht
          rcases csrefs_set_first_last ht with hold | h | h
          · exact Or.inl hold
          · cases h
          · cases h
      have h1 : aGet (aModify s.arena node_key (fun n =>
          { n with first_child_key := none, last_child_key := none })) node_key =
          some { node with first_child_key := none, last_child_key := none } := by
        rw [aGet_aModify, if_pos rfl, hgOuter]
        rfl
      have inv1 : SceneInvX { { s with arena := aModify s.arena node_key (fun n =>
          { n with first_child_key := none, last_child_key := none }) } with
            arena := aRemove (aModify s.arena node_key (fun n =>
          { n with first_child_key := none, last_child_key := none })) node_key } ts [] :=
        inv0.removeKey node_key hkroot hknp (fun x hx _ => hx) (fun x hx => hx)
      simp only [RSGScene.remove_helper, Bool.false_eq_true, if_false, h1]
      cases hp : node.parent_key with
      | none =>
        simp only []
        exact ⟨inv1, trivial, trivial⟩
      | some pk =>
        have hpknp : pk ∉ pendingKeys ts := (hrefF pk (Or.inl hp)).2
        simp only []
        cases hprev : node.prev_sibling_key with
        | some ps =>
          obtain ⟨hpslt, hpsnp⟩ := hrefF ps (Or.inr (Or.inr (Or.inr (Or.inl hprev))))
          have hpsroot := hcsF ps (Or.inr (Or.inr (Or.inl hprev)))
          cases hnext : node.next_sibling_key with
          | some ns =>
            obtain ⟨hnslt, hnsnp⟩ :=
              hrefF ns (Or.inr (Or.inr (Or.inr (Or.inr hnext))))
            have hnsroot := hcsF ns (Or.inr (Or.inr (Or.inr hnext)))
            have invA := inv1.modify_splice ps
              (fun n => { n with next_sibling_key := some ns })
              hpsnp (List.not_mem_nil _) (fun n => rfl) (fun n => Or.inl rfl)
              (by
                intro n t ht
                rcases refs_set_next ht with hold | h
                · exact Or.inl hold
                · injection h with h
                  subst h
                  exact Or.inr ⟨hnslt, hnsnp, List.not_mem_nil _⟩)
              (by
                intro n t ht
                rcases csrefs_set_next ht with hold | h
                · exact Or.inl hold
                · injection h with h
                  subst h
                  exact Or.inr hnsroot)
            have invB := invA.modify_splice ns
              (fun n => { n with prev_sibling_key := some ps })
              hnsnp (List.not_mem_nil _) (fun n => rfl) (fun n => Or.inl rfl)
              (by
                intro n t ht
                rcases refs_set_prev ht with hold | h
                · exact Or.inl hold
                · injection h with h
                  subst h
                  exact Or.inr ⟨hpslt, hpsnp, List.not_mem_nil _⟩)
              (by
                intro n t ht
                rcases csrefs_set_prev ht with hold | h
                · exact Or.inl hold
                · injection h with h
                  subst h
                  exact Or.inr hpsroot)
            exact ⟨invB, rfl, rfl⟩
          | none =>
            have invA := inv1.modify_splice pk
              (fun n => { n with last_child_key := some ps })
              hpknp (List.not_mem_nil _) (fun n => rfl) (fun n => Or.inl rfl)
              (by
                intro n t ht
                rcases refs_set_last ht with hold | h
                · exact Or.inl hold
                · injection h with h
                  subst h
                  exact Or.inr ⟨hpslt, hpsnp, List.not_mem_nil _⟩)
              (by
                intro n t ht
                rcases csrefs_set_last ht with hold | h
                · exact Or.inl hold
                · injection h with h
                  subst h
                  exact Or.inr hpsroot)
            have invB := invA.modify_splice ps
              (fun n => { n with next_sibling_key := none })
              hpsnp (List.not_mem_nil _) (fun n => rfl) (fun n => Or.inl rfl)
              (by
                intro n t ht
                rcases refs_set_next ht with hold | h
                · exact Or.inl hold
                · cases h)
              (by
                intro n t ht
                rcases csrefs_set_next ht with hold | h
                · exact Or.inl hold
                · cases h)
            exact ⟨invB, rfl, rfl⟩
        | none =>
          cases hnext : node.next_sibling_key with
          | some ns =>
            obtain ⟨hnslt, hnsnp⟩ :=
              hrefF ns (Or.inr (Or.inr (Or.inr (Or.inr hnext))))
            have hnsroot := hcsF ns (Or.inr (Or.inr (Or.inr hnext)))
            have invA := inv1.modify_splice pk
              (fun n => { n with first_child_key := some ns })
              hpknp (List.not_mem_nil _) (fun n => rfl) (fun n => Or.inl rfl)
              (by
                intro n t ht
                rcases refs_set_first ht with hold | h
                · exact Or.inl hold
                · injection h with h
                  subst h
                  exact Or.inr ⟨hnslt, hnsnp, List.not_mem_nil _⟩)
              (by
                intro n t ht
                rcases csrefs_set_first ht with hold | h
                · exact Or.inl hold
                · injection h with h
                  subst h
                  exact Or.inr hnsroot)
            have invB := invA.modify_splice ns
              (fun n => { n with prev_sibling_key := none })
              hnsnp (List.not_mem_nil _) (fun n => rfl) (fun n => Or.inl rfl)
              (by
                intro n t ht
                rcases refs_set_prev ht with hold | h
                · exact Or.inl hold
                · cases h)
              (by
                intro n t ht
                rcases csrefs_set_prev ht with hold | h
                · exact Or.inl hold
                · cases h)
            exact ⟨invB, rfl, rfl⟩
          | none =>
            have invA := inv1.modify_splice pk
              (fun n => { n with first_child_key := none, last_child_key := none })
              hpknp (List.not_mem_nil _) (fun n => rfl) (fun n => Or.inl rfl)
              (by
                intro n t ht
                rcases refs_set_first_last ht with hold | h | h
                · exact Or.inl hold
                · cases h
                · cases h)
              (by
                intro n t ht
                rcases csrefs_set_first_last ht with hold | h | h
                · exact Or.inl hold
                · cases h
                · cases h)
            exact ⟨invA, rfl, rfl⟩
theorem remove_op_inv {C : Type} {s : RSGScene C} {ts : List RSGSubtreeAddTransaction}
    (inv : SceneInv s ts) {node_key r : RSGNodeKey}
    (hr : s.root_key = some r) (hne : node_key ≠ r) (hv : s.is_valid node_key = true) :
    SceneInv (s.remove node_key).1 ts := by
  have hkroot : s.root_key ≠ some node_key := by
    rw [hr]
    intro h
    injection h with h
    exact hne h.symm
  exact (remove_helper_inv inv node_key true (valid_not_pending inv hv) hkroot).1

theorem remove_children_go_inv {C : Type} (fuel : Nat) :
    ∀ (s : RSGScene C) (ts : List RSGSubtreeAddTransaction) (o : Option RSGNodeKey),
    SceneInvX s ts [] →
    (∀ x, o = some x → x ∉ pendingKeys ts ∧ s.root_key ≠ some x) →
    SceneInvX (RSGScene.remove_children_go fuel s o).1 ts [] ∧
    (RSGScene.remove_children_go fuel s o).1.root_key = s.root_key ∧
    (RSGScene.remove_children_go fuel s o).1.next = s.next := by
  induction fuel with
  | zero =>
    intro s ts o inv _
    exact ⟨inv, rfl, rfl⟩
  | succ fuel ih =>
    intro s ts o inv ho
    cases o with
    | none => exact ⟨inv, rfl, rfl⟩
    | some key =>
      obtain ⟨hknp, hkroot⟩ := ho key rfl
      have hnxt : ∀ x, (aGet s.arena key).bind (·.next_sibling_key) = some x →
          x ∉ pendingKeys ts ∧ s.root_key ≠ some x := by
        intro x hx
        cases hg : aGet s.arena key with
        | none =>
          rw [hg] at hx
          cases hx
        | some n =>
          rw [hg] at hx
          have hm := aGet_some_mem hg
          refine ⟨(inv.no_refs (key, n) hm x ?_).1, inv.root_unref (key, n) hm x ?_⟩
          · exact mem_nodeRefs.mpr (Or.inr (Or.inr (Or.inr (Or.inr hx))))
          · exact mem_childSibRefs.mpr (Or.inr (Or.inr (Or.inr hx)))
      have hrem := remove_helper_inv inv key true hknp hkroot
      have hrec := ih (s.remove key).1 ts ((aGet s.arena key).bind (·.next_sibling_key))
        hrem.1 (by
          intro x hx
          obtain ⟨h1, h2⟩ := hnxt x hx
          refine ⟨h1, ?_⟩
          show (s.remove_helper key true).1.root_key ≠ some x
          rw [hrem.2.1]
          exact h2)
      simp only [RSGScene.remove_children_go]
      exact ⟨hrec.1, hrec.2.1.trans hrem.2.1, hrec.2.2.trans hrem.2.2⟩

theorem remove_children_inv {C : Type} {s : RSGScene C} {ts : List RSGSubtreeAddTransaction}
    (inv : SceneInv s ts) (node_key : RSGNodeKey) :
    SceneInv (s.remove_children node_key).1 ts := by
  unfold RSGScene.remove_children
  refine (remove_children_go_inv _ s ts _ inv ?_).1
  intro x hx
  cases hg : aGet s.arena node_key with
  | none =>
    rw [hg] at hx
    cases hx
  | some n =>
    rw [hg] at hx
    have hm := aGet_some_mem hg
    refine ⟨(inv.no_refs (node_key, n) hm x ?_).1, inv.root_unref (node_key, n) hm x ?_⟩
    · exact mem_nodeRefs.mpr (Or.inr (Or.inl hx))
    · exact mem_childSibRefs.mpr (Or.inl hx)

theorem clear_inv {C : Type} {s : RSGScene C} {ts : List RSGSubtreeAddTransaction}
    (inv : SceneInv s ts) : SceneInv s.clear.1 ts := by
  unfold RSGScene.clear
  cases hr : s.root_key with
  | none => exact inv
  | some key => exact remove_children_inv inv key

theorem aGet_append_keep {C : Type} {a : List (RSGNodeKey × RSGNode C)} {k j : RSGNodeKey}
    {n0 n : RSGNode C} (h : aGet a j = some n) : aGet (a ++ [(k, n0)]) j = some n := by
  rw [aGet_appendEntry, h]

theorem aGet_append_cases {C : Type} {a : List (RSGNodeKey × RSGNode C)} {k j : RSGNodeKey}
    {n0 n : RSGNode C} (h : aGet (a ++ [(k, n0)]) j = some n) :
    aGet a j = some n ∨ (aGet a j = none ∧ k = j ∧ n0 = n) := by
  rw [aGet_appendEntry] at h
  cases haj : aGet a j with
  | some m =>
    rw [haj] at h
    simp only [] at h
    exact Or.inl h
  | none =>
    rw [haj] at h
    simp only [] at h
    by_cases hkj : k = j
    · rw [if_pos hkj] at h
      injection h with h
      exact Or.inr ⟨rfl, hkj, h⟩
    · rw [if_neg hkj] at h
      cases h

theorem ArenaCoh.nil {C : Type} : ArenaCoh ([] : List (RSGNodeKey × RSGNode C))
    (fun _ => 0) (fun _ => 0) := by
  constructor <;> intro j n hget <;> cases hget

theorem ArenaCoh.insertClean {C : Type} {a : List (RSGNodeKey × RSGNode C)}
    {f g : RSGNodeKey → ℚ} (co : ArenaCoh a f g) (k : RSGNodeKey) (n0 : RSGNode C)
    (hnr : ∀ j n, aGet a j = some n → ∀ t, t ∈ nodeRefs n → t ≠ k)
    (hcl : n0.is_clean) :
    ArenaCoh (a ++ [(k, n0)]) f g := by
  obtain ⟨hc1, hc2, hc3, hc4, hc5, hc6⟩ := hcl
  have hsrc : ∀ j n, aGet (a ++ [(k, n0)]) j = some n → aGet a j = some n ∨ n = n0 := by
    intro j n h
    rcases aGet_append_cases h with h | ⟨_, _, h⟩
    · exact Or.inl h
    · exact Or.inr h.symm
  have htgt : ∀ {j n t}, aGet a j = some n → t ∈ nodeRefs n →
      ∀ {m}, aGet a t = some m → aGet (a ++ [(k, n0)]) t = some m := by
    intro j n t hj ht m hm
    exact aGet_append_keep hm
  constructor
  · intro j n hget t ht
    rcases hsrc j n hget with hj | he
    · obtain ⟨m, hm, h1, h2⟩ := co.next_coh j n hj t ht
      exact ⟨m, htgt hj (mem_nodeRefs.mpr (Or.inr (Or.inr (Or.inr (Or.inr ht))))) hm, h1, h2⟩
    · rw [he, hc6] at ht
      cases ht
  · intro j n hget t ht
    rcases hsrc j n hget with hj | he
    · obtain ⟨m, hm, h1, h2⟩ := co.prev_coh j n hj t ht
      exact ⟨m, htgt hj (mem_nodeRefs.mpr (Or.inr (Or.inr (Or.inr (Or.inl ht))))) hm, h1, h2⟩
    · rw [he, hc5] at ht
      cases ht
  · intro j n hget t ht
    rcases hsrc j n hget with hj | he
    · obtain ⟨m, hm, h1, h2⟩ := co.first_coh j n hj t ht
      exact ⟨m, htgt hj (mem_nodeRefs.mpr (Or.inr (Or.inl ht))) hm, h1, h2⟩
    · rw [he, hc3] at ht
      cases ht
  · intro j n hget t ht
    rcases hsrc j n hget with hj | he
    · obtain ⟨m, hm, h1, h2⟩ := co.last_coh j n hj t ht
      exact ⟨m, htgt hj (mem_nodeRefs.mpr (Or.inr (Or.inr (Or.inl ht)))) hm, h1, h2⟩
    · rw [he, hc4] at ht
      cases ht
  · intro j n hget
    rcases hsrc j n hget with hj | he
    · exact co.fl_coh j n hj
    · rw [he, hc3, hc4]
  · intro j n hget hprev q hq m hmq
    rcases hsrc j n hget with hj | he
    · have hqk : q ≠ k := hnr j n hj q (mem_nodeRefs.mpr (Or.inl hq))
      have hq2 : aGet a q = some m := by
        rcases aGet_append_cases hmq with h | ⟨_, hkq, _⟩
        · exact h
        · exact absurd hkq.symm hqk
      exact co.fst_bl j n hj hprev q hq m hq2
    · rw [he, hc2] at hq
      cases hq
  · intro j n hget hnext q hq m hmq
    rcases hsrc j n hget with hj | he
    · have hqk : q ≠ k := hnr j n hj q (mem_nodeRefs.mpr (Or.inl hq))
      have hq2 : aGet a q = some m := by
        rcases aGet_append_cases hmq with h | ⟨_, hkq, _⟩
        · exact h
        · exact absurd hkq.symm hqk
      exact co.lst_bl j n hj hnext q hq m hq2
    · rw [he, hc2] at hq
      cases hq
  · intro j n hget t ht
    rcases hsrc j n hget with hj | he
    · exact co.rank_par j n hj t ht
    · rw [he, hc2] at ht
      cases ht
  · intro j n hget t ht
    rcases hsrc j n hget with hj | he
    · exact co.rank_sib j n hj t ht
    · rw [he, hc6] at ht
      cases ht

theorem ArenaCoh.modifyLinksEq {C : Type} {a : List (RSGNodeKey × RSGNode C)}
    {f g : RSGNodeKey → ℚ} (co : ArenaCoh a f g) (k : RSGNodeKey)
    (f0 : RSGNode C → RSGNode C)
    (hpar : ∀ n, (f0 n).parent_key = n.parent_key)
    (hfst : ∀ n, (f0 n).first_child_key = n.first_child_key)
    (hlst : ∀ n, (f0 n).last_child_key = n.last_child_key)
    (hprv : ∀ n, (f0 n).prev_sibling_key = n.prev_sibling_key)
    (hnxt : ∀ n, (f0 n).next_sibling_key = n.next_sibling_key) :
    ArenaCoh (aModify a k f0) f g := by
  have hsrc : ∀ j n, aGet (aModify a k f0) j = some n → ∃ n', aGet a j = some n' ∧
      n.parent_key = n'.parent_key ∧ n.first_child_key = n'.first_child_key ∧
      n.last_child_key = n'.last_child_key ∧ n.prev_sibling_key = n'.prev_sibling_key ∧
      n.next_sibling_key = n'.next_sibling_key := by
    intro j n h
    rw [aGet_aModify] at h
    by_cases hjk : j = k
    · rw [if_pos hjk] at h
      cases haj : aGet a k with
      | none =>
        rw [haj] at h
        cases h
      | some n' =>
        rw [haj] at h
        injection h with h
        subst h
        subst hjk
        exact ⟨n', haj, hpar n', hfst n', hlst n', hprv n', hnxt n'⟩
    · rw [if_neg hjk] at h
      exact ⟨n, h, rfl, rfl, rfl, rfl, rfl⟩
  have htgt : ∀ t m, aGet a t = some m → ∃ m2, aGet (aModify a k f0) t = some m2 ∧
      m2.parent_key = m.parent_key ∧ m2.first_child_key = m.first_child_key ∧
      m2.last_child_key = m.last_child_key ∧ m2.prev_sibling_key = m.prev_sibling_key ∧
      m2.next_sibling_key = m.next_sibling_key := by
    intro t m hm
    rw [aGet_aModify]
    by_cases htk : t = k
    · subst htk
      rw [if_pos rfl, hm]
      exact ⟨f0 m, rfl, hpar m, hfst m, hlst m, hprv m, hnxt m⟩
    · rw [if_neg htk]
      exact ⟨m, hm, rfl, rfl, rfl, rfl, rfl⟩
  constructor
  · intro j n hget t ht
    obtain ⟨n', hj, e1, e2, e3, e4, e5⟩ := hsrc j n hget
    obtain ⟨m, hm, h1, h2⟩ := co.next_coh j n' hj t (e5 ▸ ht)
    obtain ⟨m2, hm2, f1, f2, f3, f4, f5⟩ := htgt t m hm
    exact ⟨m2, hm2, f4.trans h1, (f1.trans h2).trans e1.symm⟩
  · intro j n hget t ht
    obtain ⟨n', hj, e1, e2, e3, e4, e5⟩ := hsrc j n hget
    obtain ⟨m, hm, h1, h2⟩ := co.prev_coh j n' hj t (e4 ▸ ht)
    obtain ⟨m2, hm2, f1, f2, f3, f4, f5⟩ := htgt t m hm
    exact ⟨m2, hm2, f5.trans h1, (f1.trans h2).trans e1.symm⟩
  · intro j n hget t ht
    obtain ⟨n', hj, e1, e2, e3, e4, e5⟩ := hsrc j n hget
    obtain ⟨m, hm, h1, h2⟩ := co.first_coh j n' hj t (e2 ▸ ht)
    obtain ⟨m2, hm2, f1, f2, f3, f4, f5⟩ := htgt t m hm
    exact ⟨m2, hm2, f4.trans h1, f1.trans h2⟩
  · intro j n hget t ht
    obtain ⟨n', hj, e1, e2, e3, e4, e5⟩ := hsrc j n hget
    obtain ⟨m, hm, h1, h2⟩ := co.last_coh j n' hj t (e3 ▸ ht)
    obtain ⟨m2, hm2, f1, f2, f3, f4, f5⟩ := htgt t m hm
    exact ⟨m2, hm2, f5.trans h1, f1.trans h2⟩
  · intro j n hget
    obtain ⟨n', hj, e1, e2, e3, e4, e5⟩ := hsrc j n hget
    rw [e2, e3]
    exact co.fl_coh j n' hj
  · intro j n hget hprev q hq m hmq
    obtain ⟨n', hj, e1, e2, e3, e4, e5⟩ := hsrc j n hget
    obtain ⟨m', hm', g1, g2, g3, g4, g5⟩ := hsrc q m hmq
    rw [g2]
    exact co.fst_bl j n' hj (e4 ▸ hprev) q (e1 ▸ hq) m' hm'
  · intro j n hget hnext q hq m hmq
    obtain ⟨n', hj, e1, e2, e3, e4, e5⟩ := hsrc j n hget
    obtain ⟨m', hm', g1, g2, g3, g4, g5⟩ := hsrc q m hmq
    rw [g3]
    exact co.lst_bl j n' hj (e5 ▸ hnext) q (e1 ▸ hq) m' hm'
  · intro j n hget t ht
    obtain ⟨n', hj, e1, e2, e3, e4, e5⟩ := hsrc j n hget
    exact co.rank_par j n' hj t (e1 ▸ ht)
  · intro j n hget t ht
    obtain ⟨n', hj, e1, e2, e3, e4, e5⟩ := hsrc j n hget
    exact co.rank_sib j n' hj t (e5 ▸ ht)

theorem ArenaCoh.removeUnref {C : Type} {a : List (RSGNodeKey × RSGNode C)}
    {f g : RSGNodeKey → ℚ} (co : ArenaCoh a f g) (k : RSGNodeKey)
    (hnr : ∀ j n, aGet a j = some n → j ≠ k → ∀ t, t ∈ nodeRefs n → t ≠ k) :
    ArenaCoh (aRemove a k) f g := by
  have hsrc : ∀ j n, aGet (aRemove a k) j = some n → aGet a j = some n ∧ j ≠ k := by
    intro j n h
    rw [aGet_aRemove] at h
    by_cases hjk : j = k
    · rw [if_pos hjk] at h
      cases h
    · rw [if_neg hjk] at h
      exact ⟨h, hjk⟩
  have htgt : ∀ t m, aGet a t = some m → t ≠ k → aGet (aRemove a k) t = some m := by
    intro t m hm htk
    rw [aGet_aRemove, if_neg htk]
    exact hm
  constructor
  · intro j n hget t ht
    obtain ⟨hj, hjk⟩ := hsrc j n hget
    have htk := hnr j n hj hjk t (mem_nodeRefs.mpr (Or.inr (Or.inr (Or.inr (Or.inr ht)))))
    obtain ⟨m, hm, h1, h2⟩ := co.next_coh j n hj t ht
    exact ⟨m, htgt t m hm htk, h1, h2⟩
  · intro j n hget t ht
    obtain ⟨hj, hjk⟩ := hsrc j n hget
    have htk := hnr j n hj hjk t (mem_nodeRefs.mpr (Or.inr (Or.inr (Or.inr (Or.inl ht)))))
    obtain ⟨m, hm, h1, h2⟩ := co.prev_coh j n hj t ht
    exact ⟨m, htgt t m hm htk, h1, h2⟩
  · intro j n hget t ht
    obtain ⟨hj, hjk⟩ := hsrc j n hget
    have htk := hnr j n hj hjk t (mem_nodeRefs.mpr (Or.inr (Or.inl ht)))
    obtain ⟨m, hm, h1, h2⟩ := co.first_coh j n hj t ht
    exact ⟨m, htgt t m hm htk, h1, h2⟩
  · intro j n hget t ht
    obtain ⟨hj, hjk⟩ := hsrc j n hget
    have htk := hnr j n hj hjk t (mem_nodeRefs.mpr (Or.inr (Or.inr (Or.inl ht))))
    obtain ⟨m, hm, h1, h2⟩ := co.last_coh j n hj t ht
    exact ⟨m, htgt t m hm htk, h1, h2⟩
  · intro j n hget
    exact co.fl_coh j n (hsrc j n hget).1
  · intro j n hget hprev q hq m hmq
    obtain ⟨hj, hjk⟩ := hsrc j n hget
    exact co.fst_bl j n hj hprev q hq m (hsrc q m hmq).1
  · intro j n hget hnext q hq m hmq
    obtain ⟨hj, hjk⟩ := hsrc j n hget
    exact co.lst_bl j n hj hnext q hq m (hsrc q m hmq).1
  · intro j n hget t ht
    exact co.rank_par j n (hsrc j n hget).1 t ht
  · intro j n hget t ht
    exact co.rank_sib j n (hsrc j n hget).1 t ht

theorem ArenaCohIns.toCoh {C : Type} {a : List (RSGNodeKey × RSGNode C)}
    {f g : RSGNodeKey → ℚ} (co : ArenaCohIns a f g none) : ArenaCoh a f g := by
  refine ⟨co.next_coh, ?_, co.first_coh, co.last_coh, co.fl_coh, co.fst_bl, co.lst_bl,
    co.rank_par, co.rank_sib⟩
  intro j n hget t ht
  rcases co.prev_coh j n hget t ht with h | h
  · exact h
  · cases h

theorem ArenaCoh.toIns {C : Type} {a : List (RSGNodeKey × RSGNode C)}
    {f g : RSGNodeKey → ℚ} (co : ArenaCoh a f g) (o : Option RSGNodeKey) :
    ArenaCohIns a f g o := by
  exact ⟨co.next_coh, fun j n hget t ht => Or.inl (co.prev_coh j n hget t ht),
    co.first_coh, co.last_coh, co.fl_coh, co.fst_bl, co.lst_bl, co.rank_par, co.rank_sib⟩


theorem new_coh (C : Type) : Coh (RSGScene.new C) :=
  ⟨fun _ => 0, fun _ => 0, ArenaCoh.nil⟩

theorem set_root_coh {C : Type} {s : RSGScene C} {ts : List RSGSubtreeAddTransaction}
    (inv : SceneInv s ts) (hroot : s.root_key = none) (node : RSGNode C)
    (hclean : node.is_clean) : Coh (s.set_root node).1 := by
  have harena := inv.root_empty hroot
  have heq : (s.set_root node).1 =
      { arena := [(s.next, { node with key := some s.next })], next := s.next + 1,
        root_key := some s.next } := by
    simp [RSGScene.set_root, RSGScene.insertNode, harena, aModify]
  rw [heq]
  obtain ⟨_, hc2, hc3, hc4, hc5, hc6⟩ := hclean
  refine ⟨fun _ => 0, fun _ => 0, ?_⟩
  have hget : ∀ j (n : RSGNode C),
      aGet [(s.next, { node with key := some s.next })] j = some n →
      n.parent_key = none ∧ n.first_child_key = none ∧ n.last_child_key = none ∧
      n.prev_sibling_key = none ∧ n.next_sibling_key = none := by
    intro j n h
    simp only [aGet] at h
    by_cases hj : s.next = j
    · rw [if_pos hj] at h
      injection h with h
      subst h
      exact ⟨hc2, hc3, hc4, hc5, hc6⟩
    · rw [if_neg hj] at h
      cases h
  constructor
  · intro j n hg t ht
    rw [(hget j n hg).2.2.2.2] at ht
    cases ht
  · intro j n hg t ht
    rw [(hget j n hg).2.2.2.1] at ht
    cases ht
  · intro j n hg t ht
    rw [(hget j n hg).2.1] at ht
    cases ht
  · intro j n hg t ht
    rw [(hget j n hg).2.2.1] at ht
    cases ht
  · intro j n hg
    rw [(hget j n hg).2.1, (hget j n hg).2.2.1]
  · intro j n hg hprev q hq
    rw [(hget j n hg).1] at hq
    cases hq
  · intro j n hg hnext q hq
    rw [(hget j n hg).1] at hq
    cases hq
  · intro j n hg t ht
    rw [(hget j n hg).1] at ht
    cases ht
  · intro j n hg t ht
    rw [(hget j n hg).2.2.2.2] at ht
    cases ht

theorem record_add_coh {C : Type} {s : RSGScene C} {ts : List RSGSubtreeAddTransaction}
    {E : List RSGNodeKey} (inv : SceneInvX s ts E) (co : Coh s)
    (op : RSGSubtreeAddOp) (parent_key : RSGNodeKey) (node : RSGNode C)
    (txn : RSGSubtreeAddTransaction) (hclean : node.is_clean) :
    Coh (s.record_add_transaction op parent_key node txn).1 := by
  obtain ⟨f, g, co⟩ := co
  refine ⟨f, g, ?_⟩
  show ArenaCoh (s.arena ++ [(s.next, node)]) f g
  refine co.insertClean s.next node ?_ hclean
  intro j n hg t ht
  have hlt := inv.refs_lt (j, n) (aGet_some_mem hg) t ht
  exact Nat.ne_of_lt hlt

theorem rollback_fold_coh {C : Type} :
    ∀ (entries : List (RSGNodeKey × RSGNodeKey × RSGSubtreeAddOp)) (s : RSGScene C)
      (f g : RSGNodeKey → ℚ), ArenaCoh s.arena f g →
    (∀ j n, aGet s.arena j = some n → ∀ t, t ∈ nodeRefs n →
      t ∉ entries.map (fun e => e.2.1)) →
    ArenaCoh ((entries.foldl (fun s e => { s with arena := aRemove s.arena e.2.1 }) s).arena)
      f g := by
  intro entries
  induction entries with
  | nil =>
    intro s f g co _
    exact co
  | cons e rest ih =>
    intro s f g co hnr
    rw [List.foldl_cons]
    refine ih { s with arena := aRemove s.arena e.2.1 } f g ?_ ?_
    · refine co.removeUnref e.2.1 ?_
      intro j n hg _ t ht
      intro hte
      exact hnr j n hg t ht (hte ▸ List.mem_map.mpr ⟨e, List.mem_cons_self _ _, rfl⟩)
    · intro j n hg t ht htr
      have hg2 : aGet s.arena j = some n := by
        rw [aGet_aRemove] at hg
        by_cases hjk : j = e.2.1
        · rw [if_pos hjk] at hg
          cases hg
        · rw [if_neg hjk] at hg
          exact hg
      obtain ⟨e2, he2, hee⟩ := List.mem_map.mp htr
      exact hnr j n hg2 t ht
        (hee ▸ List.mem_map.mpr ⟨e2, List.mem_cons_of_mem _ he2, rfl⟩)

theorem rollback_coh {C : Type} {s : RSGScene C}
    {ts1 ts2 : List RSGSubtreeAddTransaction} {txn : RSGSubtreeAddTransaction}
    (inv : SceneInvX s (ts1 ++ txn :: ts2) []) (co : Coh s) :
    Coh (s.rollback txn).1 := by
  obtain ⟨f, g, co⟩ := co
  refine ⟨f, g, ?_⟩
  show ArenaCoh ((txn.entries.foldl
    (fun s e => { s with arena := aRemove s.arena e.2.1 }) s).arena) f g
  refine rollback_fold_coh txn.entries s f g co ?_
  intro j n hg t ht htm
  refine (inv.no_refs (j, n) (aGet_some_mem hg) t ht).1 ?_
  show t ∈ pendingKeys (ts1 ++ txn :: ts2)
  unfold pendingKeys
  rw [List.map_append, List.map_cons, List.flatten_append, List.flatten_cons]
  refine List.mem_append.mpr (Or.inr (List.mem_append.mpr (Or.inl ?_)))
  exact htm


theorem coh_append_shape_some {C : Type} {a aF : List (RSGNodeKey × RSGNode C)}
    {f g : RSGNodeKey → ℚ} (co : ArenaCoh a f g) (p k o : RSGNodeKey)
    {np nk no : RSGNode C}
    (hgp : aGet a p = some np) (hk : aGet a k = some nk) (hgo : aGet a o = some no)
    (hkcl : nk.is_clean) (hob : np.last_child_key = some o)
    (hono : no.next_sibling_key = none) (hopar : no.parent_key = some p)
    (hunref : ∀ j n, aGet a j = some n → ∀ t, t ∈ nodeRefs n → t ≠ k)
    (hpk : p ≠ k) (hok : o ≠ k) (hop : o ≠ p)
    (hgetF : ∀ x, aGet aF x =
      if x = o then some { no with next_sibling_key := some k }
      else if x = k then some { nk with key := some k, parent_key := some p, prev_sibling_key := some o, next_sibling_key := none }
      else if x = p then some { np with last_child_key := some k }
      else aGet a x) :
    ArenaCoh aF (fun x => if x = k then f p + 1 else f x)
      (fun x => if x = k then g o + 1 else g x) := by
  obtain ⟨hk1, hk2, hk3, hk4, hk5, hk6⟩ := hkcl
  have hfpo : f p < f o := co.rank_par o no hgo p hopar
  have hGo : aGet aF o = some { no with next_sibling_key := some k } := by
    rw [hgetF o, if_pos rfl]
  have hGk : aGet aF k = some { nk with key := some k, parent_key := some p, prev_sibling_key := some o, next_sibling_key := none } := by
    rw [hgetF k, if_neg (Ne.symm hok), if_pos rfl]
  have hGp : aGet aF p = some { np with last_child_key := some k } := by
    rw [hgetF p, if_neg (Ne.symm hop), if_neg hpk, if_pos rfl]
  have hGx : ∀ x, x ≠ o → x ≠ k → x ≠ p → aGet aF x = aGet a x := by
    intro x h1 h2 h3
    rw [hgetF x, if_neg h1, if_neg h2, if_neg h3]
  have hnp_no_p : ¬ np.parent_key = some p :=
    fun h => absurd (co.rank_par p np hgp p h) (lt_irrefl _)
  have hnp_no_o : ¬ np.parent_key = some o :=
    fun h => absurd hfpo (lt_asymm (co.rank_par p np hgp o h))
  -- helper: the final node at a target t ∉ {o, k, p} is the old node; at o and p
  -- the prev/parent fields are the old ones.
  have hsrc : ∀ j n, aGet aF j = some n →
      (o = j ∧ n = { no with next_sibling_key := some k }) ∨
      (k = j ∧ n = { nk with key := some k, parent_key := some p, prev_sibling_key := some o, next_sibling_key := none }) ∨
      (p = j ∧ n = { np with last_child_key := some k }) ∨
      (j ≠ o ∧ j ≠ k ∧ j ≠ p ∧ aGet a j = some n) := by
    intro j n hg
    rw [hgetF j] at hg
    by_cases hjo : j = o
    · rw [if_pos hjo] at hg
      injection hg with hg
      exact Or.inl ⟨hjo.symm, hg.symm⟩
    · rw [if_neg hjo] at hg
      by_cases hjk : j = k
      · rw [if_pos hjk] at hg
        injection hg with hg
        exact Or.inr (Or.inl ⟨hjk.symm, hg.symm⟩)
      · rw [if_neg hjk] at hg
        by_cases hjp : j = p
        · rw [if_pos hjp] at hg
          injection hg with hg
          exact Or.inr (Or.inr (Or.inl ⟨hjp.symm, hg.symm⟩))
        · rw [if_neg hjp] at hg
          exact Or.inr (Or.inr (Or.inr ⟨hjo, hjk, hjp, hg⟩))
  constructor
  · -- next_coh
    intro j n hg t ht
    rcases hsrc j n hg with ⟨hj, hn⟩ | ⟨hj, hn⟩ | ⟨hj, hn⟩ | ⟨hjo, hjk, hjp, hj⟩
    · -- j = o: next := some k
      subst hj
      subst hn
      have ht2 : some k = some t := ht
      injection ht2 with ht2
      subst ht2
      refine ⟨_, hGk, rfl, ?_⟩
      show some p = ({ no with next_sibling_key := some k } : RSGNode C).parent_key
      show some p = no.parent_key
      exact hopar.symm
    · subst hj
      subst hn
      have ht2 : (none : Option RSGNodeKey) = some t := ht
      cases ht2
    · -- j = p
      subst hj
      subst hn
      have ht2 : np.next_sibling_key = some t := ht
      have htk : t ≠ k := hunref p np hgp t
        (mem_nodeRefs.mpr (Or.inr (Or.inr (Or.inr (Or.inr ht2)))))
      obtain ⟨m, hm, h1, h2⟩ := co.next_coh p np hgp t ht2
      have hto : t ≠ o := by
        intro h
        rw [h, hgo] at hm
        injection hm with hm
        have : no.parent_key = np.parent_key := by rw [hm]; exact h2
        exact hnp_no_p (by rw [← this]; exact hopar)
      have htp : t ≠ p := by
        intro h
        exact absurd (co.rank_sib p np hgp p (h ▸ ht2)) (lt_irrefl _)
      refine ⟨m, ?_, h1, h2⟩
      rw [hGx t hto htk htp]
      exact hm
    · -- j elsewhere
      obtain ⟨m, hm, h1, h2⟩ := co.next_coh j n hj t ht
      have htk : t ≠ k := hunref j n hj t
        (mem_nodeRefs.mpr (Or.inr (Or.inr (Or.inr (Or.inr ht)))))
      by_cases hto : t = o
      · subst hto
        rw [hgo] at hm
        injection hm with hm
        subst hm
        refine ⟨_, hGo, ?_, ?_⟩
        · show no.prev_sibling_key = some j
          exact h1
        · show no.parent_key = n.parent_key
          exact h2
      · by_cases htp : t = p
        · subst htp
          rw [hgp] at hm
          injection hm with hm
          subst hm
          refine ⟨_, hGp, ?_, ?_⟩
          · show np.prev_sibling_key = some j
            exact h1
          · show np.parent_key = n.parent_key
            exact h2
        · refine ⟨m, ?_, h1, h2⟩
          rw [hGx t hto htk htp]
          exact hm
  · -- prev_coh
    intro j n hg t ht
    rcases hsrc j n hg with ⟨hj, hn⟩ | ⟨hj, hn⟩ | ⟨hj, hn⟩ | ⟨hjo, hjk, hjp, hj⟩
    · -- j = o: prev unchanged
      subst hj
      subst hn
      have ht2 : no.prev_sibling_key = some t := ht
      have htk : t ≠ k := hunref o no hgo t
        (mem_nodeRefs.mpr (Or.inr (Or.inr (Or.inr (Or.inl ht2)))))
      obtain ⟨m, hm, h1, h2⟩ := co.prev_coh o no hgo t ht2
      have hto : t ≠ o := by
        intro h
        rw [h, hgo] at hm
        injection hm with hm
        rw [← hm, hono] at h1
        cases h1
      have htp : t ≠ p := by
        intro h
        rw [h, hgp] at hm
        injection hm with hm
        have h2' : np.parent_key = no.parent_key := by rw [hm]; exact h2
        exact hnp_no_p (by rw [h2']; exact hopar)
      refine ⟨m, ?_, h1, ?_⟩
      · rw [hGx t hto htk htp]
        exact hm
      · show m.parent_key = ({ no with next_sibling_key := some k } : RSGNode C).parent_key
        exact h2
    · -- j = k: prev = some o
      subst hj
      subst hn
      have ht2 : some o = some t := ht
      injection ht2 with ht2
      subst ht2
      refine ⟨_, hGo, rfl, ?_⟩
      show no.parent_key = some p
      exact hopar
    · -- j = p
      subst hj
      subst hn
      have ht2 : np.prev_sibling_key = some t := ht
      have htk : t ≠ k := hunref p np hgp t
        (mem_nodeRefs.mpr (Or.inr (Or.inr (Or.inr (Or.inl ht2)))))
      obtain ⟨m, hm, h1, h2⟩ := co.prev_coh p np hgp t ht2
      have hto : t ≠ o := by
        intro h
        rw [h, hgo] at hm
        injection hm with hm
        rw [← hm, hono] at h1
        cases h1
      have htp : t ≠ p := by
        intro h
        rw [h, hgp] at hm
        injection hm with hm
        rw [← hm] at h1
        exact absurd (co.rank_sib p np hgp p h1) (lt_irrefl _)
      refine ⟨m, ?_, h1, h2⟩
      rw [hGx t hto htk htp]
      exact hm
    · -- j elsewhere
      obtain ⟨m, hm, h1, h2⟩ := co.prev_coh j n hj t ht
      have htk : t ≠ k := hunref j n hj t
        (mem_nodeRefs.mpr (Or.inr (Or.inr (Or.inr (Or.inl ht)))))
      by_cases hto : t = o
      · subst hto
        rw [hgo] at hm
        injection hm with hm
        rw [← hm, hono] at h1
        cases h1
      · by_cases htp : t = p
        · subst htp
          rw [hgp] at hm
          injection hm with hm
          subst hm
          refine ⟨_, hGp, ?_, ?_⟩
          · show np.next_sibling_key = some j
            exact h1
          · show np.parent_key = n.parent_key
            exact h2
        · refine ⟨m, ?_, h1, h2⟩
          rw [hGx t hto htk htp]
          exact hm
  · -- first_coh
    intro j n hg t ht
    rcases hsrc j n hg with ⟨hj, hn⟩ | ⟨hj, hn⟩ | ⟨hj, hn⟩ | ⟨hjo, hjk, hjp, hj⟩
    · subst hj
      subst hn
      have ht2 : no.first_child_key = some t := ht
      have htk : t ≠ k := hunref o no hgo t (mem_nodeRefs.mpr (Or.inr (Or.inl ht2)))
      obtain ⟨m, hm, h1, h2⟩ := co.first_coh o no hgo t ht2
      have hto : t ≠ o := by
        intro h
        rw [h, hgo] at hm
        injection hm with hm
        rw [← hm] at h2
        exact absurd (co.rank_par o no hgo o h2) (lt_irrefl _)
      have htp : t ≠ p := by
        intro h
        rw [h, hgp] at hm
        injection hm with hm
        rw [← hm] at h2
        exact hnp_no_o h2
      refine ⟨m, ?_, h1, h2⟩
      rw [hGx t hto htk htp]
      exact hm
    · subst hj
      subst hn
      have ht2 : nk.first_child_key = some t := ht
      rw [hk3] at ht2
      cases ht2
    · subst hj
      subst hn
      have ht2 : np.first_child_key = some t := ht
      have htk : t ≠ k := hunref p np hgp t (mem_nodeRefs.mpr (Or.inr (Or.inl ht2)))
      obtain ⟨m, hm, h1, h2⟩ := co.first_coh p np hgp t ht2
      have htp : t ≠ p := by
        intro h
        rw [h, hgp] at hm
        injection hm with hm
        rw [← hm] at h2
        exact hnp_no_p h2
      by_cases hto : t = o
      · subst hto
        rw [hgo] at hm
        injection hm with hm
        subst hm
        refine ⟨_, hGo, ?_, ?_⟩
        · show no.prev_sibling_key = none
          exact h1
        · show no.parent_key = some p
          exact h2
      · refine ⟨m, ?_, h1, h2⟩
        rw [hGx t hto htk htp]
        exact hm
    · obtain ⟨m, hm, h1, h2⟩ := co.first_coh j n hj t ht
      have htk : t ≠ k := hunref j n hj t (mem_nodeRefs.mpr (Or.inr (Or.inl ht)))
      by_cases hto : t = o
      · subst hto
        rw [hgo] at hm
        injection hm with hm
        subst hm
        refine ⟨_, hGo, ?_, ?_⟩
        · show no.prev_sibling_key = none
          exact h1
        · show no.parent_key = some j
          exact h2
      · by_cases htp : t = p
        · subst htp
          rw [hgp] at hm
          injection hm with hm
          subst hm
          refine ⟨_, hGp, ?_, ?_⟩
          · show np.prev_sibling_key = none
            exact h1
          · show np.parent_key = some j
            exact h2
        · refine ⟨m, ?_, h1, h2⟩
          rw [hGx t hto htk htp]
          exact hm
  · -- last_coh
    intro j n hg t ht
    rcases hsrc j n hg with ⟨hj, hn⟩ | ⟨hj, hn⟩ | ⟨hj, hn⟩ | ⟨hjo, hjk, hjp, hj⟩
    · subst hj
      subst hn
      have ht2 : no.last_child_key = some t := ht
      have htk : t ≠ k := hunref o no hgo t
        (mem_nodeRefs.mpr (Or.inr (Or.inr (Or.inl ht2))))
      obtain ⟨m, hm, h1, h2⟩ := co.last_coh o no hgo t ht2
      have hto : t ≠ o := by
        intro h
        rw [h, hgo] at hm
        injection hm with hm
        rw [← hm] at h2
        exact absurd (co.rank_par o no hgo o h2) (lt_irrefl _)
      have htp : t ≠ p := by
        intro h
        rw [h, hgp] at hm
        injection hm with hm
        rw [← hm] at h2
        exact hnp_no_o h2
      refine ⟨m, ?_, h1, h2⟩
      rw [hGx t hto htk htp]
      exact hm
    · subst hj
      subst hn
      have ht2 : nk.last_child_key = some t := ht
      rw [hk4] at ht2
      cases ht2
    · subst hj
      subst hn
      have ht2 : some k = some t := ht
      injection ht2 with ht2
      subst ht2
      refine ⟨_, hGk, rfl, rfl⟩
    · obtain ⟨m, hm, h1, h2⟩ := co.last_coh j n hj t ht
      have htk : t ≠ k := hunref j n hj t
        (mem_nodeRefs.mpr (Or.inr (Or.inr (Or.inl ht))))
      by_cases hto : t = o
      · subst hto
        rw [hgo] at hm
        injection hm with hm
        rw [← hm] at h2
        rw [hopar] at h2
        injection h2 with h2
        exact absurd h2 (Ne.symm hjp)
      · by_cases htp : t = p
        · subst htp
          rw [hgp] at hm
          injection hm with hm
          subst hm
          refine ⟨_, hGp, ?_, ?_⟩
          · show np.next_sibling_key = none
            exact h1
          · show np.parent_key = some j
            exact h2
        · refine ⟨m, ?_, h1, h2⟩
          rw [hGx t hto htk htp]
          exact hm
  · -- fl_coh
    intro j n hg
    rcases hsrc j n hg with ⟨hj, hn⟩ | ⟨hj, hn⟩ | ⟨hj, hn⟩ | ⟨hjo, hjk, hjp, hj⟩
    · subst hn
      exact co.fl_coh o no (hj ▸ hgo)
    · subst hn
      show nk.first_child_key = none ↔ nk.last_child_key = none
      rw [hk3, hk4]
    · subst hn
      show np.first_child_key = none ↔ (some k : Option RSGNodeKey) = none
      constructor
      · intro h
        have := (co.fl_coh p np hgp).mp h
        rw [this] at hob
        cases hob
      · intro h
        cases h
    · exact co.fl_coh j n hj
  · -- fst_bl
    intro j n hg hprev q hq m hmq
    rcases hsrc j n hg with ⟨hj, hn⟩ | ⟨hj, hn⟩ | ⟨hj, hn⟩ | ⟨hjo, hjk, hjp, hj⟩
    · -- j = o
      subst hj
      subst hn
      have hprev2 : no.prev_sibling_key = none := hprev
      have hq2 : no.parent_key = some q := hq
      have hqp : p = q := by
        rw [hopar] at hq2
        injection hq2 with h
      subst hqp
      rw [hGp] at hmq
      injection hmq with hmq
      subst hmq
      show np.first_child_key = some o
      exact co.fst_bl o no hgo hprev2 p hopar np hgp
    · -- j = k: prev = some o
      subst hj
      subst hn
      have hprev2 : some o = (none : Option RSGNodeKey) := hprev
      cases hprev2
    · -- j = p
      subst hj
      subst hn
      have hprev2 : np.prev_sibling_key = none := hprev
      have hq2 : np.parent_key = some q := hq
      have hqk : q ≠ k := hunref p np hgp q (mem_nodeRefs.mpr (Or.inl hq2))
      have hqp : q ≠ p := fun h => hnp_no_p (h ▸ hq2)
      have hqo : q ≠ o := fun h => hnp_no_o (h ▸ hq2)
      rw [hGx q hqo hqk hqp] at hmq
      exact co.fst_bl p np hgp hprev2 q hq2 m hmq
    · have hqk : q ≠ k := hunref j n hj q (mem_nodeRefs.mpr (Or.inl hq))
      by_cases hqo : q = o
      · subst hqo
        rw [hGo] at hmq
        injection hmq with hmq
        subst hmq
        show no.first_child_key = some j
        exact co.fst_bl j n hj hprev q hq no hgo
      · by_cases hqp : q = p
        · subst hqp
          rw [hGp] at hmq
          injection hmq with hmq
          subst hmq
          show np.first_child_key = some j
          exact co.fst_bl j n hj hprev q hq np hgp
        · rw [hGx q hqo hqk hqp] at hmq
          exact co.fst_bl j n hj hprev q hq m hmq
  · -- lst_bl
    intro j n hg hnext q hq m hmq
    rcases hsrc j n hg with ⟨hj, hn⟩ | ⟨hj, hn⟩ | ⟨hj, hn⟩ | ⟨hjo, hjk, hjp, hj⟩
    · subst hj
      subst hn
      have hnext2 : some k = (none : Option RSGNodeKey) := hnext
      cases hnext2
    · -- j = k: next = none, parent = some p
      subst hj
      subst hn
      have hq2 : some p = some q := hq
      injection hq2 with hq2
      subst hq2
      rw [hGp] at hmq
      injection hmq with hmq
      subst hmq
      rfl
    · -- j = p
      subst hj
      subst hn
      have hnext2 : np.next_sibling_key = none := hnext
      have hq2 : np.parent_key = some q := hq
      have hqk : q ≠ k := hunref p np hgp q (mem_nodeRefs.mpr (Or.inl hq2))
      have hqp : q ≠ p := fun h => hnp_no_p (h ▸ hq2)
      have hqo : q ≠ o := fun h => hnp_no_o (h ▸ hq2)
      rw [hGx q hqo hqk hqp] at hmq
      exact co.lst_bl p np hgp hnext2 q hq2 m hmq
    · have hqk : q ≠ k := hunref j n hj q (mem_nodeRefs.mpr (Or.inl hq))
      by_cases hqo : q = o
      · subst hqo
        rw [hGo] at hmq
        injection hmq with hmq
        subst hmq
        show no.last_child_key = some j
        exact co.lst_bl j n hj hnext q hq no hgo
      · by_cases hqp : q = p
        · subst hqp
          rw [hGp] at hmq
          injection hmq with hmq
          subst hmq
          have := co.lst_bl j n hj hnext q hq np hgp
          rw [hob] at this
          injection this with this
          exact absurd this.symm hjo
        · rw [hGx q hqo hqk hqp] at hmq
          exact co.lst_bl j n hj hnext q hq m hmq
  · -- rank_par
    intro j n hg t ht
    rcases hsrc j n hg with ⟨hj, hn⟩ | ⟨hj, hn⟩ | ⟨hj, hn⟩ | ⟨hjo, hjk, hjp, hj⟩
    · subst hj
      subst hn
      have ht2 : no.parent_key = some t := ht
      have htk : t ≠ k := hunref o no hgo t (mem_nodeRefs.mpr (Or.inl ht2))
      show (if t = k then f p + 1 else f t) < (if o = k then f p + 1 else f o)
      rw [if_neg htk, if_neg hok]
      exact co.rank_par o no hgo t ht2
    · subst hj
      subst hn
      have ht2 : some p = some t := ht
      injection ht2 with ht2
      subst ht2
      show (if p = k then f p + 1 else f p) < (if k = k then f p + 1 else f k)
      rw [if_neg hpk, if_pos rfl]
      exact lt_add_of_pos_right _ one_pos
    · subst hj
      subst hn
      have ht2 : np.parent_key = some t := ht
      have htk : t ≠ k := hunref p np hgp t (mem_nodeRefs.mpr (Or.inl ht2))
      show (if t = k then f p + 1 else f t) < (if p = k then f p + 1 else f p)
      rw [if_neg htk, if_neg hpk]
      exact co.rank_par p np hgp t ht2
    · have htk : t ≠ k := hunref j n hj t (mem_nodeRefs.mpr (Or.inl ht))
      show (if t = k then f p + 1 else f t) < (if j = k then f p + 1 else f j)
      rw [if_neg htk, if_neg hjk]
      exact co.rank_par j n hj t ht
  · -- rank_sib
    intro j n hg t ht
    rcases hsrc j n hg with ⟨hj, hn⟩ | ⟨hj, hn⟩ | ⟨hj, hn⟩ | ⟨hjo, hjk, hjp, hj⟩
    · subst hj
      subst hn
      have ht2 : some k = some t := ht
      injection ht2 with ht2
      subst ht2
      show (if o = k then g o + 1 else g o) < (if k = k then g o + 1 else g k)
      rw [if_neg hok, if_pos rfl]
      exact lt_add_of_pos_right _ one_pos
    · subst hj
      subst hn
      have ht2 : (none : Option RSGNodeKey) = some t := ht
      cases ht2
    · subst hj
      subst hn
      have ht2 : np.next_sibling_key = some t := ht
      have htk : t ≠ k := hunref p np hgp t
        (mem_nodeRefs.mpr (Or.inr (Or.inr (Or.inr (Or.inr ht2)))))
      show (if p = k then g o + 1 else g p) < (if t = k then g o + 1 else g t)
      rw [if_neg hpk, if_neg htk]
      exact co.rank_sib p np hgp t ht2
    · have htk : t ≠ k := hunref j n hj t
        (mem_nodeRefs.mpr (Or.inr (Or.inr (Or.inr (Or.inr ht)))))
      show (if j = k then g o + 1 else g j) < (if t = k then g o + 1 else g t)
      rw [if_neg hjk, if_neg htk]
      exact co.rank_sib j n hj t ht


theorem coh_append_shape_none {C : Type} {a aF : List (RSGNodeKey × RSGNode C)}
    {f g : RSGNodeKey → ℚ} (co : ArenaCoh a f g) (p k : RSGNodeKey)
    {np nk : RSGNode C}
    (hgp : aGet a p = some np) (hk : aGet a k = some nk)
    (hkcl : nk.is_clean) (hob : np.last_child_key = none)
    (hunref : ∀ j n, aGet a j = some n → ∀ t, t ∈ nodeRefs n → t ≠ k)
    (hpk : p ≠ k)
    (hgetF : ∀ x, aGet aF x =
      if x = k then some { nk with key := some k, parent_key := some p, prev_sibling_key := none, next_sibling_key := none }
      else if x = p then some { np with first_child_key := some k, last_child_key := some k }
      else aGet a x) :
    ArenaCoh aF (fun x => if x = k then f p + 1 else f x) g := by
  obtain ⟨hk1, hk2, hk3, hk4, hk5, hk6⟩ := hkcl
  have hfone : np.first_child_key = none := (co.fl_coh p np hgp).mpr hob
  have hGk : aGet aF k = some { nk with key := some k, parent_key := some p, prev_sibling_key := none, next_sibling_key := none } := by
    rw [hgetF k, if_pos rfl]
  have hGp : aGet aF p = some { np with first_child_key := some k, last_child_key := some k } := by
    rw [hgetF p, if_neg hpk, if_pos rfl]
  have hGx : ∀ x, x ≠ k → x ≠ p → aGet aF x = aGet a x := by
    intro x h1 h2
    rw [hgetF x, if_neg h1, if_neg h2]
  have hnp_no_p : ¬ np.parent_key = some p :=
    fun h => absurd (co.rank_par p np hgp p h) (lt_irrefl _)
  have hsrc : ∀ j n, aGet aF j = some n →
      (k = j ∧ n = { nk with key := some k, parent_key := some p, prev_sibling_key := none, next_sibling_key := none }) ∨
      (p = j ∧ n = { np with first_child_key := some k, last_child_key := some k }) ∨
      (j ≠ k ∧ j ≠ p ∧ aGet a j = some n) := by
    intro j n hg
    rw [hgetF j] at hg
    by_cases hjk : j = k
    · rw [if_pos hjk] at hg
      injection hg with hg
      exact Or.inl ⟨hjk.symm, hg.symm⟩
    · rw [if_neg hjk] at hg
      by_cases hjp : j = p
      · rw [if_pos hjp] at hg
        injection hg with hg
        exact Or.inr (Or.inl ⟨hjp.symm, hg.symm⟩)
      · rw [if_neg hjp] at hg
        exact Or.inr (Or.inr ⟨hjk, hjp, hg⟩)
  constructor
  · -- next_coh
    intro j n hg t ht
    rcases hsrc j n hg with ⟨hj, hn⟩ | ⟨hj, hn⟩ | ⟨hjk, hjp, hj⟩
    · subst hj
      subst hn
      have ht2 : (none : Option RSGNodeKey) = some t := ht
      cases ht2
    · subst hj
      subst hn
      have ht2 : np.next_sibling_key = some t := ht
      have htk : t ≠ k := hunref p np hgp t
        (mem_nodeRefs.mpr (Or.inr (Or.inr (Or.inr (Or.inr ht2)))))
      obtain ⟨m, hm, h1, h2⟩ := co.next_coh p np hgp t ht2
      have htp : t ≠ p := by
        intro h
        exact absurd (co.rank_sib p np hgp p (h ▸ ht2)) (lt_irrefl _)
      refine ⟨m, ?_, h1, h2⟩
      rw [hGx t htk htp]
      exact hm
    · obtain ⟨m, hm, h1, h2⟩ := co.next_coh j n hj t ht
      have htk : t ≠ k := hunref j n hj t
        (mem_nodeRefs.mpr (Or.inr (Or.inr (Or.inr (Or.inr ht)))))
      by_cases htp : t = p
      · subst htp
        rw [hgp] at hm
        injection hm with hm
        subst hm
        refine ⟨_, hGp, ?_, ?_⟩
        · show np.prev_sibling_key = some j
          exact h1
        · show np.parent_key = n.parent_key
          exact h2
      · refine ⟨m, ?_, h1, h2⟩
        rw [hGx t htk htp]
        exact hm
  · -- prev_coh
    intro j n hg t ht
    rcases hsrc j n hg with ⟨hj, hn⟩ | ⟨hj, hn⟩ | ⟨hjk, hjp, hj⟩
    · subst hj
      subst hn
      have ht2 : (none : Option RSGNodeKey) = some t := ht
      cases ht2
    · subst hj
      subst hn
      have ht2 : np.prev_sibling_key = some t := ht
      have htk : t ≠ k := hunref p np hgp t
        (mem_nodeRefs.mpr (Or.inr (Or.inr (Or.inr (Or.inl ht2)))))
      obtain ⟨m, hm, h1, h2⟩ := co.prev_coh p np hgp t ht2
      have htp : t ≠ p := by
        intro h
        rw [h, hgp] at hm
        injection hm with hm
        rw [← hm] at h1
        exact absurd (co.rank_sib p np hgp p h1) (lt_irrefl _)
      refine ⟨m, ?_, h1, h2⟩
      rw [hGx t htk htp]
      exact hm
    · obtain ⟨m, hm, h1, h2⟩ := co.prev_coh j n hj t ht
      have htk : t ≠ k := hunref j n hj t
        (mem_nodeRefs.mpr (Or.inr (Or.inr (Or.inr (Or.inl ht)))))
      by_cases htp : t = p
      · subst htp
        rw [hgp] at hm
        injection hm with hm
        subst hm
        refine ⟨_, hGp, ?_, ?_⟩
        · show np.next_sibling_key = some j
          exact h1
        · show np.parent_key = n.parent_key
          exact h2
      · refine ⟨m, ?_, h1, h2⟩
        rw [hGx t htk htp]
        exact hm
  · -- first_coh
    intro j n hg t ht
    rcases hsrc j n hg with ⟨hj, hn⟩ | ⟨hj, hn⟩ | ⟨hjk, hjp, hj⟩
    · subst hj
      subst hn
      have ht2 : nk.first_child_key = some t := ht
      rw [hk3] at ht2
      cases ht2
    · subst hj
      subst hn
      have ht2 : some k = some t := ht
      injection ht2 with ht2
      subst ht2
      refine ⟨_, hGk, rfl, rfl⟩
    · obtain ⟨m, hm, h1, h2⟩ := co.first_coh j n hj t ht
      have htk : t ≠ k := hunref j n hj t (mem_nodeRefs.mpr (Or.inr (Or.inl ht)))
      by_cases htp : t = p
      · subst htp
        rw [hgp] at hm
        injection hm with hm
        subst hm
        refine ⟨_, hGp, ?_, ?_⟩
        · show np.prev_sibling_key = none
          exact h1
        · show np.parent_key = some j
          exact h2
      · refine ⟨m, ?_, h1, h2⟩
        rw [hGx t htk htp]
        exact hm
  · -- last_coh
    intro j n hg t ht
    rcases hsrc j n hg with ⟨hj, hn⟩ | ⟨hj, hn⟩ | ⟨hjk, hjp, hj⟩
    · subst hj
      subst hn
      have ht2 : nk.last_child_key = some t := ht
      rw [hk4] at ht2
      cases ht2
    · subst hj
      subst hn
      have ht2 : some k = some t := ht
      injection ht2 with ht2
      subst ht2
      refine ⟨_, hGk, rfl, rfl⟩
    · obtain ⟨m, hm, h1, h2⟩ := co.last_coh j n hj t ht
      have htk : t ≠ k := hunref j n hj t
        (mem_nodeRefs.mpr (Or.inr (Or.inr (Or.inl ht))))
      by_cases htp : t = p
      · subst htp
        rw [hgp] at hm
        injection hm with hm
        subst hm
        refine ⟨_, hGp, ?_, ?_⟩
        · show np.next_sibling_key = none
          exact h1
        · show np.parent_key = some j
          exact h2
      · refine ⟨m, ?_, h1, h2⟩
        rw [hGx t htk htp]
        exact hm
  · -- fl_coh
    intro j n hg
    rcases hsrc j n hg with ⟨hj, hn⟩ | ⟨hj, hn⟩ | ⟨hjk, hjp, hj⟩
    · subst hn
      show nk.first_child_key = none ↔ nk.last_child_key = none
      rw [hk3, hk4]
    · subst hn
      show (some k : Option RSGNodeKey) = none ↔ (some k : Option RSGNodeKey) = none
      exact Iff.rfl
    · exact co.fl_coh j n hj
  · -- fst_bl
    intro j n hg hprev q hq m hmq
    rcases hsrc j n hg with ⟨hj, hn⟩ | ⟨hj, hn⟩ | ⟨hjk, hjp, hj⟩
    · subst hj
      subst hn
      have hq2 : some p = some q := hq
      injection hq2 with hq2
      subst hq2
      rw [hGp] at hmq
      injection hmq with hmq
      subst hmq
      rfl
    · subst hj
      subst hn
      have hprev2 : np.prev_sibling_key = none := hprev
      have hq2 : np.parent_key = some q := hq
      have hqk : q ≠ k := hunref p np hgp q (mem_nodeRefs.mpr (Or.inl hq2))
      have hqp : q ≠ p := fun h => hnp_no_p (h ▸ hq2)
      rw [hGx q hqk hqp] at hmq
      exact co.fst_bl p np hgp hprev2 q hq2 m hmq
    · have hqk : q ≠ k := hunref j n hj q (mem_nodeRefs.mpr (Or.inl hq))
      by_cases hqp : q = p
      · subst hqp
        rw [hGp] at hmq
        injection hmq with hmq
        subst hmq
        have := co.fst_bl j n hj hprev q hq np hgp
        rw [hfone] at this
        cases this
      · rw [hGx q hqk hqp] at hmq
        exact co.fst_bl j n hj hprev q hq m hmq
  · -- lst_bl
    intro j n hg hnext q hq m hmq
    rcases hsrc j n hg with ⟨hj, hn⟩ | ⟨hj, hn⟩ | ⟨hjk, hjp, hj⟩
    · subst hj
      subst hn
      have hq2 : some p = some q := hq
      injection hq2 with hq2
      subst hq2
      rw [hGp] at hmq
      injection hmq with hmq
      subst hmq
      rfl
    · subst hj
      subst hn
      have hnext2 : np.next_sibling_key = none := hnext
      have hq2 : np.parent_key = some q := hq
      have hqk : q ≠ k := hunref p np hgp q (mem_nodeRefs.mpr (Or.inl hq2))
      have hqp : q ≠ p := fun h => hnp_no_p (h ▸ hq2)
      rw [hGx q hqk hqp] at hmq
      exact co.lst_bl p np hgp hnext2 q hq2 m hmq
    · have hqk : q ≠ k := hunref j n hj q (mem_nodeRefs.mpr (Or.inl hq))
      by_cases hqp : q = p
      · subst hqp
        rw [hGp] at hmq
        injection hmq with hmq
        subst hmq
        have := co.lst_bl j n hj hnext q hq np hgp
        rw [hob] at this
        cases this
      · rw [hGx q hqk hqp] at hmq
        exact co.lst_bl j n hj hnext q hq m hmq
  · -- rank_par
    intro j n hg t ht
    rcases hsrc j n hg with ⟨hj, hn⟩ | ⟨hj, hn⟩ | ⟨hjk, hjp, hj⟩
    · subst hj
      subst hn
      have ht2 : some p = some t := ht
      injection ht2 with ht2
      subst ht2
      show (if p = k then f p + 1 else f p) < (if k = k then f p + 1 else f k)
      rw [if_neg hpk, if_pos rfl]
      exact lt_add_of_pos_right _ one_pos
    · subst hj
      subst hn
      have ht2 : np.parent_key = some t := ht
      have htk : t ≠ k := hunref p np hgp t (mem_nodeRefs.mpr (Or.inl ht2))
      show (if t = k then f p + 1 else f t) < (if p = k then f p + 1 else f p)
      rw [if_neg htk, if_neg hpk]
      exact co.rank_par p np hgp t ht2
    · have htk : t ≠ k := hunref j n hj t (mem_nodeRefs.mpr (Or.inl ht))
      show (if t = k then f p + 1 else f t) < (if j = k then f p + 1 else f j)
      rw [if_neg htk, if_neg hjk]
      exact co.rank_par j n hj t ht
  · -- rank_sib
    intro j n hg t ht
    rcases hsrc j n hg with ⟨hj, hn⟩ | ⟨hj, hn⟩ | ⟨hjk, hjp, hj⟩
    · subst hj
      subst hn
      have ht2 : (none : Option RSGNodeKey) = some t := ht
      cases ht2
    · subst hj
      subst hn
      have ht2 : np.next_sibling_key = some t := ht
      exact co.rank_sib p np hgp t ht2
    · exact co.rank_sib j n hj t ht

theorem coh_append_shape_absent {C : Type} {a aF : List (RSGNodeKey × RSGNode C)}
    {f g : RSGNodeKey → ℚ} (co : ArenaCoh a f g) (p k : RSGNodeKey)
    {nk : RSGNode C}
    (hgp : aGet a p = none) (hk : aGet a k = some nk)
    (hkcl : nk.is_clean)
    (hunref : ∀ j n, aGet a j = some n → ∀ t, t ∈ nodeRefs n → t ≠ k)
    (hgetF : ∀ x, aGet aF x =
      if x = k then some { nk with key := some k, parent_key := some p, prev_sibling_key := none, next_sibling_key := none }
      else aGet a x) :
    ArenaCoh aF (fun x => if x = k then f p + 1 else f x) g := by
  obtain ⟨hk1, hk2, hk3, hk4, hk5, hk6⟩ := hkcl
  have hpk : p ≠ k := by
    intro h
    rw [h, hk] at hgp
    cases hgp
  have hGx : ∀ x, x ≠ k → aGet aF x = aGet a x := by
    intro x h1
    rw [hgetF x, if_neg h1]
  have hsrc : ∀ j n, aGet aF j = some n →
      (k = j ∧ n = { nk with key := some k, parent_key := some p, prev_sibling_key := none, next_sibling_key := none }) ∨
      (j ≠ k ∧ aGet a j = some n) := by
    intro j n hg
    rw [hgetF j] at hg
    by_cases hjk : j = k
    · rw [if_pos hjk] at hg
      injection hg with hg
      exact Or.inl ⟨hjk.symm, hg.symm⟩
    · rw [if_neg hjk] at hg
      exact Or.inr ⟨hjk, hg⟩
  constructor
  · intro j n hg t ht
    rcases hsrc j n hg with ⟨hj, hn⟩ | ⟨hjk, hj⟩
    · subst hj
      subst hn
      have ht2 : (none : Option RSGNodeKey) = some t := ht
      cases ht2
    · obtain ⟨m, hm, h1, h2⟩ := co.next_coh j n hj t ht
      have htk : t ≠ k := hunref j n hj t
        (mem_nodeRefs.mpr (Or.inr (Or.inr (Or.inr (Or.inr ht)))))
      refine ⟨m, ?_, h1, h2⟩
      rw [hGx t htk]
      exact hm
  · intro j n hg t ht
    rcases hsrc j n hg with ⟨hj, hn⟩ | ⟨hjk, hj⟩
    · subst hj
      subst hn
      have ht2 : (none : Option RSGNodeKey) = some t := ht
      cases ht2
    · obtain ⟨m, hm, h1, h2⟩ := co.prev_coh j n hj t ht
      have htk : t ≠ k := hunref j n hj t
        (mem_nodeRefs.mpr (Or.inr (Or.inr (Or.inr (Or.inl ht)))))
      refine ⟨m, ?_, h1, h2⟩
      rw [hGx t htk]
      exact hm
  · intro j n hg t ht
    rcases hsrc j n hg with ⟨hj, hn⟩ | ⟨hjk, hj⟩
    · subst hj
      subst hn
      have ht2 : nk.first_child_key = some t := ht
      rw [hk3] at ht2
      cases ht2
    · obtain ⟨m, hm, h1, h2⟩ := co.first_coh j n hj t ht
      have htk : t ≠ k := hunref j n hj t (mem_nodeRefs.mpr (Or.inr (Or.inl ht)))
      refine ⟨m, ?_, h1, h2⟩
      rw [hGx t htk]
      exact hm
  · intro j n hg t ht
    rcases hsrc j n hg with ⟨hj, hn⟩ | ⟨hjk, hj⟩
    · subst hj
      subst hn
      have ht2 : nk.last_child_key = some t := ht
      rw [hk4] at ht2
      cases ht2
    · obtain ⟨m, hm, h1, h2⟩ := co.last_coh j n hj t ht
      have htk : t ≠ k := hunref j n hj t
        (mem_nodeRefs.mpr (Or.inr (Or.inr (Or.inl ht))))
      refine ⟨m, ?_, h1, h2⟩
      rw [hGx t htk]
      exact hm
  · intro j n hg
    rcases hsrc j n hg with ⟨hj, hn⟩ | ⟨hjk, hj⟩
    · subst hn
      show nk.first_child_key = none ↔ nk.last_child_key = none
      rw [hk3, hk4]
    · exact co.fl_coh j n hj
  · intro j n hg hprev q hq m hmq
    rcases hsrc j n hg with ⟨hj, hn⟩ | ⟨hjk, hj⟩
    · subst hj
      subst hn
      have hq2 : some p = some q := hq
      injection hq2 with hq2
      subst hq2
      rw [hGx p hpk, hgp] at hmq
      cases hmq
    · have hqk : q ≠ k := hunref j n hj q (mem_nodeRefs.mpr (Or.inl hq))
      rw [hGx q hqk] at hmq
      exact co.fst_bl j n hj hprev q hq m hmq
  · intro j n hg hnext q hq m hmq
    rcases hsrc j n hg with ⟨hj, hn⟩ | ⟨hjk, hj⟩
    · subst hj
      subst hn
      have hq2 : some p = some q := hq
      injection hq2 with hq2
      subst hq2
      rw [hGx p hpk, hgp] at hmq
      cases hmq
    · have hqk : q ≠ k := hunref j n hj q (mem_nodeRefs.mpr (Or.inl hq))
      rw [hGx q hqk] at hmq
      exact co.lst_bl j n hj hnext q hq m hmq
  · intro j n hg t ht
    rcases hsrc j n hg with ⟨hj, hn⟩ | ⟨hjk, hj⟩
    · subst hj
      subst hn
      have ht2 : some p = some t := ht
      injection ht2 with ht2
      subst ht2
      show (if p = k then f p + 1 else f p) < (if k = k then f p + 1 else f k)
      rw [if_neg hpk, if_pos rfl]
      exact lt_add_of_pos_right _ one_pos
    · have htk : t ≠ k := hunref j n hj t (mem_nodeRefs.mpr (Or.inl ht))
      show (if t = k then f p + 1 else f t) < (if j = k then f p + 1 else f j)
      rw [if_neg htk, if_neg hjk]
      exact co.rank_par j n hj t ht
  · intro j n hg t ht
    rcases hsrc j n hg with ⟨hj, hn⟩ | ⟨hjk, hj⟩
    · subst hj
      subst hn
      have ht2 : (none : Option RSGNodeKey) = some t := ht
      cases ht2
    · exact co.rank_sib j n hj t ht


theorem append_impl_coh {C : Type} {s : RSGScene C} {f g : RSGNodeKey → ℚ}
    (co : ArenaCoh s.arena f g) (p k : RSGNodeKey) (hpk : p ≠ k)
    {nk : RSGNode C} (hk : aGet s.arena k = some nk) (hkcl : nk.is_clean)
    (hunref : ∀ j n, aGet s.arena j = some n → ∀ t, t ∈ nodeRefs n → t ≠ k) :
    ∃ f2 g2, ArenaCoh (s.append_impl p k).arena f2 g2 := by
  have hkp : ¬ (k = p) := fun h => hpk h.symm
  cases hgp : aGet s.arena p with
  | none =>
    have holv : (aGet s.arena p).bind (·.last_child_key) = none := by
      rw [hgp]
      rfl
    have harena : (s.append_impl p k).arena =
        aModify (aModify s.arena p (fun q =>
          { q with
            first_child_key := if q.first_child_key = none then some k else q.first_child_key
            last_child_key := some k })) k (fun n =>
          { n with key := some k, parent_key := some p, prev_sibling_key := none, next_sibling_key := none }) := by
      simp only [RSGScene.append_impl, holv]
    refine ⟨_, _, coh_append_shape_absent co p k hgp hk hkcl hunref ?_⟩
    intro x
    rw [harena, aGet_aModify]
    by_cases hxk : x = k
    · subst hxk
      rw [if_pos rfl, if_pos rfl, aGet_aModify, if_neg hkp, hk]
      rfl
    · rw [if_neg hxk, if_neg hxk, aGet_aModify]
      by_cases hxp : x = p
      · subst hxp
        rw [if_pos rfl, hgp]
        rfl
      · rw [if_neg hxp]
  | some np =>
    cases hob : np.last_child_key with
    | none =>
      have hfone : np.first_child_key = none := (co.fl_coh p np hgp).mpr hob
      have holv : (aGet s.arena p).bind (·.last_child_key) = none := by
        rw [hgp]
        show np.last_child_key = none
        exact hob
      have harena : (s.append_impl p k).arena =
          aModify (aModify s.arena p (fun q =>
            { q with
              first_child_key := if q.first_child_key = none then some k else q.first_child_key
              last_child_key := some k })) k (fun n =>
            { n with key := some k, parent_key := some p, prev_sibling_key := none, next_sibling_key := none }) := by
        simp only [RSGScene.append_impl, holv]
      refine ⟨_, _, coh_append_shape_none co p k hgp hk hkcl hob hunref hpk ?_⟩
      intro x
      rw [harena, aGet_aModify]
      by_cases hxk : x = k
      · subst hxk
        rw [if_pos rfl, if_pos rfl, aGet_aModify, if_neg hkp, hk]
        rfl
      · rw [if_neg hxk, if_neg hxk, aGet_aModify]
        by_cases hxp : x = p
        · subst hxp
          rw [if_pos rfl, if_pos rfl, hgp]
          show (some { np with first_child_key := if np.first_child_key = none then some k else np.first_child_key, last_child_key := some k } : Option (RSGNode C)) = some { np with first_child_key := some k, last_child_key := some k }
          rw [if_pos hfone]
        · rw [if_neg hxp, if_neg hxp]
    | some o =>
      obtain ⟨no, hgo, hono, hopar⟩ := co.last_coh p np hgp o hob
      have hok : o ≠ k := hunref p np hgp o
        (mem_nodeRefs.mpr (Or.inr (Or.inr (Or.inl hob))))
      have hop : o ≠ p := by
        intro h
        rw [h, hgp] at hgo
        injection hgo with he
        have hself : np.parent_key = some p := by
          rw [he]
          exact hopar
        exact absurd (co.rank_par p np hgp p hself) (lt_irrefl _)
      have hfl : ¬ np.first_child_key = none := by
        intro h
        have := (co.fl_coh p np hgp).mp h
        rw [this] at hob
        cases hob
      have holv : (aGet s.arena p).bind (·.last_child_key) = some o := by
        rw [hgp]
        show np.last_child_key = some o
        exact hob
      have harena : (s.append_impl p k).arena =
          aModify (aModify (aModify s.arena p (fun q =>
            { q with
              first_child_key := if q.first_child_key = none then some k else q.first_child_key
              last_child_key := some k })) k (fun n =>
            { n with key := some k, parent_key := some p, prev_sibling_key := some o, next_sibling_key := none })) o
            (fun n => { n with next_sibling_key := some k }) := by
        simp only [RSGScene.append_impl, holv]
      refine ⟨_, _, coh_append_shape_some co p k o hgp hk hgo hkcl hob hono hopar
        hunref hpk hok hop ?_⟩
      intro x
      rw [harena, aGet_aModify]
      by_cases hxo : x = o
      · subst hxo
        rw [if_pos rfl, if_pos rfl, aGet_aModify, if_neg hok, aGet_aModify, if_neg hop, hgo]
        rfl
      · rw [if_neg hxo, if_neg hxo, aGet_aModify]
        by_cases hxk : x = k
        · subst hxk
          rw [if_pos rfl, if_pos rfl, aGet_aModify, if_neg hkp, hk]
          rfl
        · rw [if_neg hxk, if_neg hxk, aGet_aModify]
          by_cases hxp : x = p
          · subst hxp
            rw [if_pos rfl, if_pos rfl, hgp]
            show (some { np with first_child_key := if np.first_child_key = none then some k else np.first_child_key, last_child_key := some k } : Option (RSGNode C)) = some { np with last_child_key := some k }
            rw [if_neg hfl]
          · rw [if_neg hxp, if_neg hxp]


theorem coh_prepend_shape_some {C : Type} {a aF : List (RSGNodeKey × RSGNode C)}
    {f g : RSGNodeKey → ℚ} (co : ArenaCoh a f g) (p k o : RSGNodeKey)
    {np nk no : RSGNode C}
    (hgp : aGet a p = some np) (hk : aGet a k = some nk) (hgo : aGet a o = some no)
    (hkcl : nk.is_clean) (hob : np.first_child_key = some o)
    (hono : no.prev_sibling_key = none) (hopar : no.parent_key = some p)
    (hunref : ∀ j n, aGet a j = some n → ∀ t, t ∈ nodeRefs n → t ≠ k)
    (hpk : p ≠ k) (hok : o ≠ k) (hop : o ≠ p)
    (hgetF : ∀ x, aGet aF x =
      if x = o then some { no with prev_sibling_key := some k }
      else if x = k then some { nk with key := some k, parent_key := some p, prev_sibling_key := none, next_sibling_key := some o }
      else if x = p then some { np with first_child_key := some k }
      else aGet a x) :
    ArenaCoh aF (fun x => if x = k then f p + 1 else f x)
      (fun x => if x = k then g o - 1 else g x) := by
  obtain ⟨hk1, hk2, hk3, hk4, hk5, hk6⟩ := hkcl
  have hfpo : f p < f o := co.rank_par o no hgo p hopar
  have hGo : aGet aF o = some { no with prev_sibling_key := some k } := by
    rw [hgetF o, if_pos rfl]
  have hGk : aGet aF k = some { nk with key := some k, parent_key := some p, prev_sibling_key := none, next_sibling_key := some o } := by
    rw [hgetF k, if_neg (Ne.symm hok), if_pos rfl]
  have hGp : aGet aF p = some { np with first_child_key := some k } := by
    rw [hgetF p, if_neg (Ne.symm hop), if_neg hpk, if_pos rfl]
  have hGx : ∀ x, x ≠ o → x ≠ k → x ≠ p → aGet aF x = aGet a x := by
    intro x h1 h2 h3
    rw [hgetF x, if_neg h1, if_neg h2, if_neg h3]
  have hnp_no_p : ¬ np.parent_key = some p :=
    fun h => absurd (co.rank_par p np hgp p h) (lt_irrefl _)
  have hnp_no_o : ¬ np.parent_key = some o :=
    fun h => absurd hfpo (lt_asymm (co.rank_par p np hgp o h))
  have hsrc : ∀ j n, aGet aF j = some n →
      (o = j ∧ n = { no with prev_sibling_key := some k }) ∨
      (k = j ∧ n = { nk with key := some k, parent_key := some p, prev_sibling_key := none, next_sibling_key := some o }) ∨
      (p = j ∧ n = { np with first_child_key := some k }) ∨
      (j ≠ o ∧ j ≠ k ∧ j ≠ p ∧ aGet a j = some n) := by
    intro j n hg
    rw [hgetF j] at hg
    by_cases hjo : j = o
    · rw [if_pos hjo] at hg
      injection hg with hg
      exact Or.inl ⟨hjo.symm, hg.symm⟩
    · rw [if_neg hjo] at hg
      by_cases hjk : j = k
      · rw [if_pos hjk] at hg
        injection hg with hg
        exact Or.inr (Or.inl ⟨hjk.symm, hg.symm⟩)
      · rw [if_neg hjk] at hg
        by_cases hjp : j = p
        · rw [if_pos hjp] at hg
          injection hg with hg
          exact Or.inr (Or.inr (Or.inl ⟨hjp.symm, hg.symm⟩))
        · rw [if_neg hjp] at hg
          exact Or.inr (Or.inr (Or.inr ⟨hjo, hjk, hjp, hg⟩))
  constructor
  · -- next_coh
    intro j n hg t ht
    rcases hsrc j n hg with ⟨hj, hn⟩ | ⟨hj, hn⟩ | ⟨hj, hn⟩ | ⟨hjo, hjk, hjp, hj⟩
    · -- j = o: next unchanged
      subst hj
      subst hn
      have ht2 : no.next_sibling_key = some t := ht
      have htk : t ≠ k := hunref o no hgo t
        (mem_nodeRefs.mpr (Or.inr (Or.inr (Or.inr (Or.inr ht2)))))
      obtain ⟨m, hm, h1, h2⟩ := co.next_coh o no hgo t ht2
      have hto : t ≠ o := by
        intro h
        exact absurd (co.rank_sib o no hgo o (h ▸ ht2)) (lt_irrefl _)
      have htp : t ≠ p := by
        intro h
        rw [h, hgp] at hm
        injection hm with hm
        have h2' : np.parent_key = no.parent_key := by rw [hm]; exact h2
        exact hnp_no_p (by rw [h2']; exact hopar)
      refine ⟨m, ?_, h1, ?_⟩
      · rw [hGx t hto htk htp]
        exact hm
      · show m.parent_key = ({ no with prev_sibling_key := some k } : RSGNode C).parent_key
        exact h2
    · -- j = k: next = some o
      subst hj
      subst hn
      have ht2 : some o = some t := ht
      injection ht2 with ht2
      subst ht2
      refine ⟨_, hGo, rfl, ?_⟩
      show no.parent_key = some p
      exact hopar
    · -- j = p
      subst hj
      subst hn
      have ht2 : np.next_sibling_key = some t := ht
      have htk : t ≠ k := hunref p np hgp t
        (mem_nodeRefs.mpr (Or.inr (Or.inr (Or.inr (Or.inr ht2)))))
      obtain ⟨m, hm, h1, h2⟩ := co.next_coh p np hgp t ht2
      have hto : t ≠ o := by
        intro h
        rw [h, hgo] at hm
        injection hm with hm
        rw [← hm, hono] at h1
        cases h1
      have htp : t ≠ p := by
        intro h
        exact absurd (co.rank_sib p np hgp p (h ▸ ht2)) (lt_irrefl _)
      refine ⟨m, ?_, h1, h2⟩
      rw [hGx t hto htk htp]
      exact hm
    · -- j elsewhere
      obtain ⟨m, hm, h1, h2⟩ := co.next_coh j n hj t ht
      have htk : t ≠ k := hunref j n hj t
        (mem_nodeRefs.mpr (Or.inr (Or.inr (Or.inr (Or.inr ht)))))
      by_cases hto : t = o
      · subst hto
        rw [hgo] at hm
        injection hm with hm
        rw [← hm, hono] at h1
        cases h1
      · by_cases htp : t = p
        · subst htp
          rw [hgp] at hm
          injection hm with hm
          subst hm
          refine ⟨_, hGp, ?_, ?_⟩
          · show np.prev_sibling_key = some j
            exact h1
          · show np.parent_key = n.parent_key
            exact h2
        · refine ⟨m, ?_, h1, h2⟩
          rw [hGx t hto htk htp]
          exact hm
  · -- prev_coh
    intro j n hg t ht
    rcases hsrc j n hg with ⟨hj, hn⟩ | ⟨hj, hn⟩ | ⟨hj, hn⟩ | ⟨hjo, hjk, hjp, hj⟩
    · -- j = o: prev := some k
      subst hj
      subst hn
      have ht2 : some k = some t := ht
      injection ht2 with ht2
      subst ht2
      refine ⟨_, hGk, rfl, ?_⟩
      show some p = ({ no with prev_sibling_key := some k } : RSGNode C).parent_key
      show some p = no.parent_key
      exact hopar.symm
    · -- j = k: prev = none
      subst hj
      subst hn
      have ht2 : (none : Option RSGNodeKey) = some t := ht
      cases ht2
    · -- j = p
      subst hj
      subst hn
      have ht2 : np.prev_sibling_key = some t := ht
      have htk : t ≠ k := hunref p np hgp t
        (mem_nodeRefs.mpr (Or.inr (Or.inr (Or.inr (Or.inl ht2)))))
      obtain ⟨m, hm, h1, h2⟩ := co.prev_coh p np hgp t ht2
      have hto : t ≠ o := by
        intro h
        rw [h, hgo] at hm
        injection hm with hm
        have h2' : no.parent_key = np.parent_key := by rw [← hm] at h2; exact h2
        exact hnp_no_p (by rw [← h2']; exact hopar)
      have htp : t ≠ p := by
        intro h
        rw [h, hgp] at hm
        injection hm with hm
        rw [← hm] at h1
        exact absurd (co.rank_sib p np hgp p h1) (lt_irrefl _)
      refine ⟨m, ?_, h1, h2⟩
      rw [hGx t hto htk htp]
      exact hm
    · -- j elsewhere
      obtain ⟨m, hm, h1, h2⟩ := co.prev_coh j n hj t ht
      have htk : t ≠ k := hunref j n hj t
        (mem_nodeRefs.mpr (Or.inr (Or.inr (Or.inr (Or.inl ht)))))
      by_cases hto : t = o
      · subst hto
        rw [hgo] at hm
        injection hm with hm
        subst hm
        refine ⟨_, hGo, ?_, ?_⟩
        · show no.next_sibling_key = some j
          exact h1
        · show no.parent_key = n.parent_key
          exact h2
      · by_cases htp : t = p
        · subst htp
          rw [hgp] at hm
          injection hm with hm
          subst hm
          refine ⟨_, hGp, ?_, ?_⟩
          · show np.next_sibling_key = some j
            exact h1
          · show np.parent_key = n.parent_key
            exact h2
        · refine ⟨m, ?_, h1, h2⟩
          rw [hGx t hto htk htp]
          exact hm
  · -- first_coh
    intro j n hg t ht
    rcases hsrc j n hg with ⟨hj, hn⟩ | ⟨hj, hn⟩ | ⟨hj, hn⟩ | ⟨hjo, hjk, hjp, hj⟩
    · subst hj
      subst hn
      have ht2 : no.first_child_key = some t := ht
      have htk : t ≠ k := hunref o no hgo t (mem_nodeRefs.mpr (Or.inr (Or.inl ht2)))
      obtain ⟨m, hm, h1, h2⟩ := co.first_coh o no hgo t ht2
      have hto : t ≠ o := by
        intro h
        rw [h, hgo] at hm
        injection hm with hm
        rw [← hm] at h2
        exact absurd (co.rank_par o no hgo o h2) (lt_irrefl _)
      have htp : t ≠ p := by
        intro h
        rw [h, hgp] at hm
        injection hm with hm
        rw [← hm] at h2
        exact hnp_no_o h2
      refine ⟨m, ?_, h1, h2⟩
      rw [hGx t hto htk htp]
      exact hm
    · subst hj
      subst hn
      have ht2 : nk.first_child_key = some t := ht
      rw [hk3] at ht2
      cases ht2
    · subst hj
      subst hn
      have ht2 : some k = some t := ht
      injection ht2 with ht2
      subst ht2
      refine ⟨_, hGk, rfl, rfl⟩
    · obtain ⟨m, hm, h1, h2⟩ := co.first_coh j n hj t ht
      have htk : t ≠ k := hunref j n hj t (mem_nodeRefs.mpr (Or.inr (Or.inl ht)))
      by_cases hto : t = o
      · subst hto
        rw [hgo] at hm
        injection hm with hm
        rw [← hm] at h2
        rw [hopar] at h2
        injection h2 with h2
        exact absurd h2 (Ne.symm hjp)
      · by_cases htp : t = p
        · subst htp
          rw [hgp] at hm
          injection hm with hm
          subst hm
          refine ⟨_, hGp, ?_, ?_⟩
          · show np.prev_sibling_key = none
            exact h1
          · show np.parent_key = some j
            exact h2
        · refine ⟨m, ?_, h1, h2⟩
          rw [hGx t hto htk htp]
          exact hm
  · -- last_coh
    intro j n hg t ht
    rcases hsrc j n hg with ⟨hj, hn⟩ | ⟨hj, hn⟩ | ⟨hj, hn⟩ | ⟨hjo, hjk, hjp, hj⟩
    · subst hj
      subst hn
      have ht2 : no.last_child_key = some t := ht
      have htk : t ≠ k := hunref o no hgo t
        (mem_nodeRefs.mpr (Or.inr (Or.inr (Or.inl ht2))))
      obtain ⟨m, hm, h1, h2⟩ := co.last_coh o no hgo t ht2
      have hto : t ≠ o := by
        intro h
        rw [h, hgo] at hm
        injection hm with hm
        rw [← hm] at h2
        exact absurd (co.rank_par o no hgo o h2) (lt_irrefl _)
      have htp : t ≠ p := by
        intro h
        rw [h, hgp] at hm
        injection hm with hm
        rw [← hm] at h2
        exact hnp_no_o h2
      refine ⟨m, ?_, h1, h2⟩
      rw [hGx t hto htk htp]
      exact hm
    · subst hj
      subst hn
      have ht2 : nk.last_child_key = some t := ht
      rw [hk4] at ht2
      cases ht2
    · subst hj
      subst hn
      have ht2 : np.last_child_key = some t := ht
      have htk : t ≠ k := hunref p np hgp t
        (mem_nodeRefs.mpr (Or.inr (Or.inr (Or.inl ht2))))
      obtain ⟨m, hm, h1, h2⟩ := co.last_coh p np hgp t ht2
      have htp : t ≠ p := by
        intro h
        rw [h, hgp] at hm
        injection hm with hm
        rw [← hm] at h2
        exact hnp_no_p h2
      by_cases hto : t = o
      · subst hto
        rw [hgo] at hm
        injection hm with hm
        subst hm
        refine ⟨_, hGo, ?_, ?_⟩
        · show no.next_sibling_key = none
          exact h1
        · show no.parent_key = some p
          exact h2
      · refine ⟨m, ?_, h1, h2⟩
        rw [hGx t hto htk htp]
        exact hm
    · obtain ⟨m, hm, h1, h2⟩ := co.last_coh j n hj t ht
      have htk : t ≠ k := hunref j n hj t
        (mem_nodeRefs.mpr (Or.inr (Or.inr (Or.inl ht))))
      by_cases hto : t = o
      · subst hto
        rw [hgo] at hm
        injection hm with hm
        subst hm
        refine ⟨_, hGo, ?_, ?_⟩
        · show no.next_sibling_key = none
          exact h1
        · show no.parent_key = some j
          exact h2
      · by_cases htp : t = p
        · subst htp
          rw [hgp] at hm
          injection hm with hm
          subst hm
          refine ⟨_, hGp, ?_, ?_⟩
          · show np.next_sibling_key = none
            exact h1
          · show np.parent_key = some j
            exact h2
        · refine ⟨m, ?_, h1, h2⟩
          rw [hGx t hto htk htp]
          exact hm
  · -- fl_coh
    intro j n hg
    rcases hsrc j n hg with ⟨hj, hn⟩ | ⟨hj, hn⟩ | ⟨hj, hn⟩ | ⟨hjo, hjk, hjp, hj⟩
    · subst hn
      exact co.fl_coh o no (hj ▸ hgo)
    · subst hn
      show nk.first_child_key = none ↔ nk.last_child_key = none
      rw [hk3, hk4]
    · subst hn
      show (some k : Option RSGNodeKey) = none ↔ np.last_child_key = none
      constructor
      · intro h
        cases h
      · intro h
        have := (co.fl_coh p np hgp).mpr h
        rw [this] at hob
        cases hob
    · exact co.fl_coh j n hj
  · -- fst_bl
    intro j n hg hprev q hq m hmq
    rcases hsrc j n hg with ⟨hj, hn⟩ | ⟨hj, hn⟩ | ⟨hj, hn⟩ | ⟨hjo, hjk, hjp, hj⟩
    · -- j = o: prev := some k
      subst hj
      subst hn
      have hprev2 : some k = (none : Option RSGNodeKey) := hprev
      cases hprev2
    · -- j = k: prev = none, parent = some p
      subst hj
      subst hn
      have hq2 : some p = some q := hq
      injection hq2 with hq2
      subst hq2
      rw [hGp] at hmq
      injection hmq with hmq
      subst hmq
      rfl
    · -- j = p
      subst hj
      subst hn
      have hprev2 : np.prev_sibling_key = none := hprev
      have hq2 : np.parent_key = some q := hq
      have hqk : q ≠ k := hunref p np hgp q (mem_nodeRefs.mpr (Or.inl hq2))
      have hqp : q ≠ p := fun h => hnp_no_p (h ▸ hq2)
      have hqo : q ≠ o := fun h => hnp_no_o (h ▸ hq2)
      rw [hGx q hqo hqk hqp] at hmq
      exact co.fst_bl p np hgp hprev2 q hq2 m hmq
    · have hqk : q ≠ k := hunref j n hj q (mem_nodeRefs.mpr (Or.inl hq))
      by_cases hqo : q = o
      · subst hqo
        rw [hGo] at hmq
        injection hmq with hmq
        subst hmq
        show no.first_child_key = some j
        exact co.fst_bl j n hj hprev q hq no hgo
      · by_cases hqp : q = p
        · subst hqp
          rw [hGp] at hmq
          injection hmq with hmq
          subst hmq
          have := co.fst_bl j n hj hprev q hq np hgp
          rw [hob] at this
          injection this with this
          exact absurd this.symm hjo
        · rw [hGx q hqo hqk hqp] at hmq
          exact co.fst_bl j n hj hprev q hq m hmq
  · -- lst_bl
    intro j n hg hnext q hq m hmq
    rcases hsrc j n hg with ⟨hj, hn⟩ | ⟨hj, hn⟩ | ⟨hj, hn⟩ | ⟨hjo, hjk, hjp, hj⟩
    · -- j = o
      subst hj
      subst hn
      have hnext2 : no.next_sibling_key = none := hnext
      have hq2 : no.parent_key = some q := hq
      have hqp : p = q := by
        rw [hopar] at hq2
        injection hq2 with h
      subst hqp
      rw [hGp] at hmq
      injection hmq with hmq
      subst hmq
      show np.last_child_key = some o
      exact co.lst_bl o no hgo hnext2 p hopar np hgp
    · -- j = k: next = some o
      subst hj
      subst hn
      have hnext2 : some o = (none : Option RSGNodeKey) := hnext
      cases hnext2
    · -- j = p
      subst hj
      subst hn
      have hnext2 : np.next_sibling_key = none := hnext
      have hq2 : np.parent_key = some q := hq
      have hqk : q ≠ k := hunref p np hgp q (mem_nodeRefs.mpr (Or.inl hq2))
      have hqp : q ≠ p := fun h => hnp_no_p (h ▸ hq2)
      have hqo : q ≠ o := fun h => hnp_no_o (h ▸ hq2)
      rw [hGx q hqo hqk hqp] at hmq
      exact co.lst_bl p np hgp hnext2 q hq2 m hmq
    · have hqk : q ≠ k := hunref j n hj q (mem_nodeRefs.mpr (Or.inl hq))
      by_cases hqo : q = o
      · subst hqo
        rw [hGo] at hmq
        injection hmq with hmq
        subst hmq
        show no.last_child_key = some j
        exact co.lst_bl j n hj hnext q hq no hgo
      · by_cases hqp : q = p
        · subst hqp
          rw [hGp] at hmq
          injection hmq with hmq
          subst hmq
          show np.last_child_key = some j
          exact co.lst_bl j n hj hnext q hq np hgp
        · rw [hGx q hqo hqk hqp] at hmq
          exact co.lst_bl j n hj hnext q hq m hmq
  · -- rank_par
    intro j n hg t ht
    rcases hsrc j n hg with ⟨hj, hn⟩ | ⟨hj, hn⟩ | ⟨hj, hn⟩ | ⟨hjo, hjk, hjp, hj⟩
    · subst hj
      subst hn
      have ht2 : no.parent_key = some t := ht
      have htk : t ≠ k := hunref o no hgo t (mem_nodeRefs.mpr (Or.inl ht2))
      show (if t = k then f p + 1 else f t) < (if o = k then f p + 1 else f o)
      rw [if_neg htk, if_neg hok]
      exact co.rank_par o no hgo t ht2
    · subst hj
      subst hn
      have ht2 : some p = some t := ht
      injection ht2 with ht2
      subst ht2
      show (if p = k then f p + 1 else f p) < (if k = k then f p + 1 else f k)
      rw [if_neg hpk, if_pos rfl]
      exact lt_add_of_pos_right _ one_pos
    · subst hj
      subst hn
      have ht2 : np.parent_key = some t := ht
      have htk : t ≠ k := hunref p np hgp t (mem_nodeRefs.mpr (Or.inl ht2))
      show (if t = k then f p + 1 else f t) < (if p = k then f p + 1 else f p)
      rw [if_neg htk, if_neg hpk]
      exact co.rank_par p np hgp t ht2
    · have htk : t ≠ k := hunref j n hj t (mem_nodeRefs.mpr (Or.inl ht))
      show (if t = k then f p + 1 else f t) < (if j = k then f p + 1 else f j)
      rw [if_neg htk, if_neg hjk]
      exact co.rank_par j n hj t ht
  · -- rank_sib
    intro j n hg t ht
    rcases hsrc j n hg with ⟨hj, hn⟩ | ⟨hj, hn⟩ | ⟨hj, hn⟩ | ⟨hjo, hjk, hjp, hj⟩
    · subst hj
      subst hn
      have ht2 : no.next_sibling_key = some t := ht
      have htk : t ≠ k := hunref o no hgo t
        (mem_nodeRefs.mpr (Or.inr (Or.inr (Or.inr (Or.inr ht2)))))
      show (if o = k then g o - 1 else g o) < (if t = k then g o - 1 else g t)
      rw [if_neg hok, if_neg htk]
      exact co.rank_sib o no hgo t ht2
    · subst hj
      subst hn
      have ht2 : some o = some t := ht
      injection ht2 with ht2
      subst ht2
      show (if k = k then g o - 1 else g k) < (if o = k then g o - 1 else g o)
      rw [if_pos rfl, if_neg hok]
      exact sub_lt_self _ one_pos
    · subst hj
      subst hn
      have ht2 : np.next_sibling_key = some t := ht
      have htk : t ≠ k := hunref p np hgp t
        (mem_nodeRefs.mpr (Or.inr (Or.inr (Or.inr (Or.inr ht2)))))
      show (if p = k then g o - 1 else g p) < (if t = k then g o - 1 else g t)
      rw [if_neg hpk, if_neg htk]
      exact co.rank_sib p np hgp t ht2
    · have htk : t ≠ k := hunref j n hj t
        (mem_nodeRefs.mpr (Or.inr (Or.inr (Or.inr (Or.inr ht)))))
      show (if j = k then g o - 1 else g j) < (if t = k then g o - 1 else g t)
      rw [if_neg hjk, if_neg htk]
      exact co.rank_sib j n hj t ht


theorem prepend_impl_coh {C : Type} {s : RSGScene C} {f g : RSGNodeKey → ℚ}
    (co : ArenaCoh s.arena f g) (p k : RSGNodeKey) (hpk : p ≠ k)
    {nk : RSGNode C} (hk : aGet s.arena k = some nk) (hkcl : nk.is_clean)
    (hunref : ∀ j n, aGet s.arena j = some n → ∀ t, t ∈ nodeRefs n → t ≠ k) :
    ∃ f2 g2, ArenaCoh (s.prepend_impl p k).arena f2 g2 := by
  have hkp : ¬ (k = p) := fun h => hpk h.symm
  cases hgp : aGet s.arena p with
  | none =>
    have holv : (aGet s.arena p).bind (·.first_child_key) = none := by
      rw [hgp]
      rfl
    have harena : (s.prepend_impl p k).arena =
        aModify (aModify s.arena p (fun q =>
          { q with
            first_child_key := some k
            last_child_key := if q.last_child_key = none then some k else q.last_child_key })) k (fun n =>
          { n with key := some k, parent_key := some p, prev_sibling_key := none, next_sibling_key := none }) := by
      simp only [RSGScene.prepend_impl, holv]
    refine ⟨_, _, coh_append_shape_absent co p k hgp hk hkcl hunref ?_⟩
    intro x
    rw [harena, aGet_aModify]
    by_cases hxk : x = k
    · subst hxk
      rw [if_pos rfl, if_pos rfl, aGet_aModify, if_neg hkp, hk]
      rfl
    · rw [if_neg hxk, if_neg hxk, aGet_aModify]
      by_cases hxp : x = p
      · subst hxp
        rw [if_pos rfl, hgp]
        rfl
      · rw [if_neg hxp]
  | some np =>
    cases hob : np.first_child_key with
    | none =>
      have hlnone : np.last_child_key = none := (co.fl_coh p np hgp).mp hob
      have holv : (aGet s.arena p).bind (·.first_child_key) = none := by
        rw [hgp]
        show np.first_child_key = none
        exact hob
      have harena : (s.prepend_impl p k).arena =
          aModify (aModify s.arena p (fun q =>
            { q with
              first_child_key := some k
              last_child_key := if q.last_child_key = none then some k else q.last_child_key })) k (fun n =>
            { n with key := some k, parent_key := some p, prev_sibling_key := none, next_sibling_key := none }) := by
        simp only [RSGScene.prepend_impl, holv]
      refine ⟨_, _, coh_append_shape_none co p k hgp hk hkcl hlnone hunref hpk ?_⟩
      intro x
      rw [harena, aGet_aModify]
      by_cases hxk : x = k
      · subst hxk
        rw [if_pos rfl, if_pos rfl, aGet_aModify, if_neg hkp, hk]
        rfl
      · rw [if_neg hxk, if_neg hxk, aGet_aModify]
        by_cases hxp : x = p
        · subst hxp
          rw [if_pos rfl, if_pos rfl, hgp]
          show (some { np with first_child_key := some k, last_child_key := if np.last_child_key = none then some k else np.last_child_key } : Option (RSGNode C)) = some { np with first_child_key := some k, last_child_key := some k }
          rw [if_pos hlnone]
        · rw [if_neg hxp, if_neg hxp]
    | some o =>
      obtain ⟨no, hgo, hono, hopar⟩ := co.first_coh p np hgp o hob
      have hok : o ≠ k := hunref p np hgp o
        (mem_nodeRefs.mpr (Or.inr (Or.inl hob)))
      have hop : o ≠ p := by
        intro h
        rw [h, hgp] at hgo
        injection hgo with he
        have hself : np.parent_key = some p := by
          rw [he]
          exact hopar
        exact absurd (co.rank_par p np hgp p hself) (lt_irrefl _)
      have hfl : ¬ np.last_child_key = none := by
        intro h
        have := (co.fl_coh p np hgp).mpr h
        rw [this] at hob
        cases hob
      have holv : (aGet s.arena p).bind (·.first_child_key) = some o := by
        rw [hgp]
        show np.first_child_key = some o
        exact hob
      have harena : (s.prepend_impl p k).arena =
          aModify (aModify (aModify s.arena p (fun q =>
            { q with
              first_child_key := some k
              last_child_key := if q.last_child_key = none then some k else q.last_child_key })) k (fun n =>
            { n with key := some k, parent_key := some p, prev_sibling_key := none, next_sibling_key := some o })) o
            (fun n => { n with prev_sibling_key := some k }) := by
        simp only [RSGScene.prepend_impl, holv]
      refine ⟨_, _, coh_prepend_shape_some co p k o hgp hk hgo hkcl hob hono hopar
        hunref hpk hok hop ?_⟩
      intro x
      rw [harena, aGet_aModify]
      by_cases hxo : x = o
      · subst hxo
        rw [if_pos rfl, if_pos rfl, aGet_aModify, if_neg hok, aGet_aModify, if_neg hop, hgo]
        rfl
      · rw [if_neg hxo, if_neg hxo, aGet_aModify]
        by_cases hxk : x = k
        · subst hxk
          rw [if_pos rfl, if_pos rfl, aGet_aModify, if_neg hkp, hk]
          rfl
        · rw [if_neg hxk, if_neg hxk, aGet_aModify]
          by_cases hxp : x = p
          · subst hxp
            rw [if_pos rfl, if_pos rfl, hgp]
            show (some { np with first_child_key := some k, last_child_key := if np.last_child_key = none then some k else np.last_child_key } : Option (RSGNode C)) = some { np with first_child_key := some k }
            rw [if_neg hfl]
          · rw [if_neg hxp, if_neg hxp]


theorem insertNode_fresh_facts {C : Type} {s : RSGScene C}
    {ts : List RSGSubtreeAddTransaction} {E : List RSGNodeKey}
    (inv : SceneInvX s ts E) (node : RSGNode C) (hclean : node.is_clean) :
    aGet (s.arena ++ [(s.next, node)]) s.next = some node ∧
    (∀ j n, aGet (s.arena ++ [(s.next, node)]) j = some n →
      ∀ t, t ∈ nodeRefs n → t ≠ s.next) := by
  have hfresh : aGet s.arena s.next = none := by
    rw [aGet_none_iff]
    intro q hq he
    exact absurd (he ▸ inv.keys_lt q hq) (lt_irrefl _)
  have hrefs_clean : ∀ t, t ∈ nodeRefs node → False := by
    intro t ht
    obtain ⟨h1, h2, h3, h4, h5, h6⟩ := hclean
    rcases mem_nodeRefs.mp ht with h | h | h | h | h
    · rw [h2] at h; cases h
    · rw [h3] at h; cases h
    · rw [h4] at h; cases h
    · rw [h5] at h; cases h
    · rw [h6] at h; cases h
  constructor
  · rw [aGet_appendEntry, hfresh]
    simp
  · intro j n hg t ht
    rcases aGet_append_cases hg with hj | ⟨_, _, he⟩
    · have := inv.refs_lt (j, n) (aGet_some_mem hj) t ht
      exact Nat.ne_of_lt this
    · exact absurd (he ▸ ht) (fun h => hrefs_clean t h)

theorem append_coh {C : Type} {s : RSGScene C} {ts : List RSGSubtreeAddTransaction}
    (inv : SceneInv s ts) (co : Coh s) (p : RSGNodeKey) (node : RSGNode C)
    (hclean : node.is_clean) (hplt : p < s.next) :
    Coh (s.append p node).1 := by
  obtain ⟨f, g, co⟩ := co
  obtain ⟨hk, hunref⟩ := insertNode_fresh_facts inv node hclean
  have co1 : ArenaCoh (s.arena ++ [(s.next, node)]) f g := by
    refine co.insertClean s.next node ?_ hclean
    intro j n hg t ht
    exact Nat.ne_of_lt (inv.refs_lt (j, n) (aGet_some_mem hg) t ht)
  have heq : (s.append p node).1 =
      RSGScene.append_impl { s with arena := s.arena ++ [(s.next, node)], next := s.next + 1 }
        p s.next := rfl
  rw [heq]
  obtain ⟨f2, g2, co2⟩ := @append_impl_coh C
    { s with arena := s.arena ++ [(s.next, node)], next := s.next + 1 } f g co1 p s.next
    (Nat.ne_of_lt hplt) node hk hclean hunref
  exact ⟨f2, g2, co2⟩

theorem prepend_coh {C : Type} {s : RSGScene C} {ts : List RSGSubtreeAddTransaction}
    (inv : SceneInv s ts) (co : Coh s) (p : RSGNodeKey) (node : RSGNode C)
    (hclean : node.is_clean) (hplt : p < s.next) :
    Coh (s.prepend p node).1 := by
  obtain ⟨f, g, co⟩ := co
  obtain ⟨hk, hunref⟩ := insertNode_fresh_facts inv node hclean
  have co1 : ArenaCoh (s.arena ++ [(s.next, node)]) f g := by
    refine co.insertClean s.next node ?_ hclean
    intro j n hg t ht
    exact Nat.ne_of_lt (inv.refs_lt (j, n) (aGet_some_mem hg) t ht)
  have heq : (s.prepend p node).1 =
      RSGScene.prepend_impl { s with arena := s.arena ++ [(s.next, node)], next := s.next + 1 }
        p s.next := rfl
  rw [heq]
  obtain ⟨f2, g2, co2⟩ := @prepend_impl_coh C
    { s with arena := s.arena ++ [(s.next, node)], next := s.next + 1 } f g co1 p s.next
    (Nat.ne_of_lt hplt) node hk hclean hunref
  exact ⟨f2, g2, co2⟩


theorem coh_insert_mid_shape {C : Type} {a aF : List (RSGNodeKey × RSGNode C)}
    {f g : RSGNodeKey → ℚ} (co : ArenaCoh a f g) (x y k P : RSGNodeKey)
    {nx ny nk : RSGNode C}
    (hgx : aGet a x = some nx) (hgy : aGet a y = some ny) (hk : aGet a k = some nk)
    (hkcl : nk.is_clean) (hxy : nx.next_sibling_key = some y)
    (hpar : nx.parent_key = some P)
    (hunref : ∀ j n, aGet a j = some n → ∀ t, t ∈ nodeRefs n → t ≠ k)
    (hgetF : ∀ x2, aGet aF x2 =
      if x2 = x then some { nx with next_sibling_key := some k }
      else if x2 = y then some { ny with prev_sibling_key := some k }
      else if x2 = k then some { nk with key := some k, parent_key := some P, prev_sibling_key := some x, next_sibling_key := some y }
      else aGet a x2) :
    ArenaCoh aF (fun z => if z = k then f P + 1 else f z)
      (fun z => if z = k then (g x + g y) / 2 else g z) := by
  obtain ⟨hk1, hk2, hk3, hk4, hk5, hk6⟩ := hkcl
  obtain ⟨ny2, hgy2, hyprev, hypar⟩ := co.next_coh x nx hgx y hxy
  rw [hgy] at hgy2
  injection hgy2 with hgy2
  rw [← hgy2] at hyprev hypar
  -- hyprev : ny.prev_sibling_key = some x ; hypar : ny.parent_key = nx.parent_key
  have hgxy : g x < g y := co.rank_sib x nx hgx y hxy
  have hxyne : x ≠ y := fun h => absurd (h ▸ hgxy) (lt_irrefl _)
  have hyk : y ≠ k := hunref x nx hgx y
    (mem_nodeRefs.mpr (Or.inr (Or.inr (Or.inr (Or.inr hxy)))))
  have hxk : x ≠ k := by
    intro h
    rw [h, hk] at hgx
    injection hgx with he
    rw [← he, hk6] at hxy
    cases hxy
  have hPk : P ≠ k := hunref x nx hgx P (mem_nodeRefs.mpr (Or.inl hpar))
  have hnx_no_x : ¬ nx.parent_key = some x :=
    fun h => absurd (co.rank_par x nx hgx x h) (lt_irrefl _)
  have hny_no_y : ¬ ny.parent_key = some y :=
    fun h => absurd (co.rank_par y ny hgy y h) (lt_irrefl _)
  have hnx_no_y : ¬ nx.parent_key = some y := by
    intro h
    rw [hypar] at hny_no_y
    exact hny_no_y h
  have hny_no_x : ¬ ny.parent_key = some x := by
    intro h
    rw [hypar] at h
    exact hnx_no_x h
  have hGx' : aGet aF x = some { nx with next_sibling_key := some k } := by
    rw [hgetF x, if_pos rfl]
  have hGy : aGet aF y = some { ny with prev_sibling_key := some k } := by
    rw [hgetF y, if_neg (Ne.symm hxyne), if_pos rfl]
  have hGk : aGet aF k = some { nk with key := some k, parent_key := some P, prev_sibling_key := some x, next_sibling_key := some y } := by
    rw [hgetF k, if_neg (Ne.symm hxk), if_neg (Ne.symm hyk), if_pos rfl]
  have hGo : ∀ z, z ≠ x → z ≠ y → z ≠ k → aGet aF z = aGet a z := by
    intro z h1 h2 h3
    rw [hgetF z, if_neg h1, if_neg h2, if_neg h3]
  have hsrc : ∀ j n, aGet aF j = some n →
      (x = j ∧ n = { nx with next_sibling_key := some k }) ∨
      (y = j ∧ n = { ny with prev_sibling_key := some k }) ∨
      (k = j ∧ n = { nk with key := some k, parent_key := some P, prev_sibling_key := some x, next_sibling_key := some y }) ∨
      (j ≠ x ∧ j ≠ y ∧ j ≠ k ∧ aGet a j = some n) := by
    intro j n hg
    rw [hgetF j] at hg
    by_cases hjx : j = x
    · rw [if_pos hjx] at hg
      injection hg with hg
      exact Or.inl ⟨hjx.symm, hg.symm⟩
    · rw [if_neg hjx] at hg
      by_cases hjy : j = y
      · rw [if_pos hjy] at hg
        injection hg with hg
        exact Or.inr (Or.inl ⟨hjy.symm, hg.symm⟩)
      · rw [if_neg hjy] at hg
        by_cases hjk : j = k
        · rw [if_pos hjk] at hg
          injection hg with hg
          exact Or.inr (Or.inr (Or.inl ⟨hjk.symm, hg.symm⟩))
        · rw [if_neg hjk] at hg
          exact Or.inr (Or.inr (Or.inr ⟨hjx, hjy, hjk, hg⟩))
  constructor
  · -- next_coh
    intro j n hg t ht
    rcases hsrc j n hg with ⟨hj, hn⟩ | ⟨hj, hn⟩ | ⟨hj, hn⟩ | ⟨hjx, hjy, hjk, hj⟩
    · subst hj
      subst hn
      have ht2 : some k = some t := ht
      injection ht2 with ht2
      subst ht2
      refine ⟨_, hGk, rfl, ?_⟩
      show some P = ({ nx with next_sibling_key := some k } : RSGNode C).parent_key
      show some P = nx.parent_key
      exact hpar.symm
    · subst hj
      subst hn
      have ht2 : ny.next_sibling_key = some t := ht
      have htk : t ≠ k := hunref y ny hgy t
        (mem_nodeRefs.mpr (Or.inr (Or.inr (Or.inr (Or.inr ht2)))))
      obtain ⟨m, hm, h1, h2⟩ := co.next_coh y ny hgy t ht2
      have hty : t ≠ y := fun h =>
        absurd (co.rank_sib y ny hgy y (h ▸ ht2)) (lt_irrefl _)
      have htx : t ≠ x := by
        intro h
        have hgyx : g y < g x := co.rank_sib y ny hgy x (h ▸ ht2)
        exact absurd hgxy (lt_asymm hgyx)
      refine ⟨m, ?_, h1, ?_⟩
      · rw [hGo t htx hty htk]
        exact hm
      · show m.parent_key = ({ ny with prev_sibling_key := some k } : RSGNode C).parent_key
        exact h2
    · subst hj
      subst hn
      have ht2 : some y = some t := ht
      injection ht2 with ht2
      subst ht2
      refine ⟨_, hGy, rfl, ?_⟩
      show ny.parent_key = some P
      rw [hypar]
      exact hpar
    · obtain ⟨m, hm, h1, h2⟩ := co.next_coh j n hj t ht
      have htk : t ≠ k := hunref j n hj t
        (mem_nodeRefs.mpr (Or.inr (Or.inr (Or.inr (Or.inr ht)))))
      by_cases htx : t = x
      · subst htx
        rw [hgx] at hm
        injection hm with hm
        subst hm
        refine ⟨_, hGx', ?_, ?_⟩
        · show nx.prev_sibling_key = some j
          exact h1
        · show nx.parent_key = n.parent_key
          exact h2
      · by_cases hty : t = y
        · subst hty
          rw [hgy] at hm
          injection hm with hm
          rw [← hm] at h1
          rw [hyprev] at h1
          injection h1 with h1
          exact absurd h1.symm hjx
        · refine ⟨m, ?_, h1, h2⟩
          rw [hGo t htx hty htk]
          exact hm
  · -- prev_coh
    intro j n hg t ht
    rcases hsrc j n hg with ⟨hj, hn⟩ | ⟨hj, hn⟩ | ⟨hj, hn⟩ | ⟨hjx, hjy, hjk, hj⟩
    · subst hj
      subst hn
      have ht2 : nx.prev_sibling_key = some t := ht
      have htk : t ≠ k := hunref x nx hgx t
        (mem_nodeRefs.mpr (Or.inr (Or.inr (Or.inr (Or.inl ht2)))))
      obtain ⟨m, hm, h1, h2⟩ := co.prev_coh x nx hgx t ht2
      have htx : t ≠ x := by
        intro h
        rw [h, hgx] at hm
        injection hm with hm
        rw [← hm] at h1
        exact absurd (co.rank_sib x nx hgx x h1) (lt_irrefl _)
      have hty : t ≠ y := by
        intro h
        rw [h, hgy] at hm
        injection hm with hm
        rw [← hm] at h1
        have hgyx : g y < g x := co.rank_sib y ny hgy x h1
        exact absurd hgxy (lt_asymm hgyx)
      refine ⟨m, ?_, h1, ?_⟩
      · rw [hGo t htx hty htk]
        exact hm
      · show m.parent_key = ({ nx with next_sibling_key := some k } : RSGNode C).parent_key
        exact h2
    · subst hj
      subst hn
      have ht2 : some k = some t := ht
      injection ht2 with ht2
      subst ht2
      refine ⟨_, hGk, rfl, ?_⟩
      show some P = ({ ny with prev_sibling_key := some k } : RSGNode C).parent_key
      show some P = ny.parent_key
      rw [hypar, hpar]
    · subst hj
      subst hn
      have ht2 : some x = some t := ht
      injection ht2 with ht2
      subst ht2
      refine ⟨_, hGx', rfl, ?_⟩
      show nx.parent_key = some P
      exact hpar
    · obtain ⟨m, hm, h1, h2⟩ := co.prev_coh j n hj t ht
      have htk : t ≠ k := hunref j n hj t
        (mem_nodeRefs.mpr (Or.inr (Or.inr (Or.inr (Or.inl ht)))))
      by_cases htx : t = x
      · subst htx
        rw [hgx] at hm
        injection hm with hm
        rw [← hm] at h1
        rw [hxy] at h1
        injection h1 with h1
        exact absurd h1.symm hjy
      · by_cases hty : t = y
        · subst hty
          rw [hgy] at hm
          injection hm with hm
          subst hm
          refine ⟨_, hGy, ?_, ?_⟩
          · show ny.next_sibling_key = some j
            exact h1
          · show ny.parent_key = n.parent_key
            exact h2
        · refine ⟨m, ?_, h1, h2⟩
          rw [hGo t htx hty htk]
          exact hm
  · -- first_coh
    intro j n hg t ht
    rcases hsrc j n hg with ⟨hj, hn⟩ | ⟨hj, hn⟩ | ⟨hj, hn⟩ | ⟨hjx, hjy, hjk, hj⟩
    · subst hj
      subst hn
      have ht2 : nx.first_child_key = some t := ht
      have htk : t ≠ k := hunref x nx hgx t (mem_nodeRefs.mpr (Or.inr (Or.inl ht2)))
      obtain ⟨m, hm, h1, h2⟩ := co.first_coh x nx hgx t ht2
      have htx : t ≠ x := by
        intro h
        rw [h, hgx] at hm
        injection hm with hm
        rw [← hm] at h2
        exact hnx_no_x h2
      have hty : t ≠ y := by
        intro h
        rw [h, hgy] at hm
        injection hm with hm
        rw [← hm] at h2
        rw [hypar] at h2
        exact hnx_no_x h2
      refine ⟨m, ?_, h1, h2⟩
      rw [hGo t htx hty htk]
      exact hm
    · subst hj
      subst hn
      have ht2 : ny.first_child_key = some t := ht
      have htk : t ≠ k := hunref y ny hgy t (mem_nodeRefs.mpr (Or.inr (Or.inl ht2)))
      obtain ⟨m, hm, h1, h2⟩ := co.first_coh y ny hgy t ht2
      have htx : t ≠ x := by
        intro h
        rw [h, hgx] at hm
        injection hm with hm
        rw [← hm] at h2
        exact hnx_no_y h2
      have hty : t ≠ y := by
        intro h
        rw [h, hgy] at hm
        injection hm with hm
        rw [← hm] at h2
        exact hny_no_y h2
      refine ⟨m, ?_, h1, h2⟩
      rw [hGo t htx hty htk]
      exact hm
    · subst hj
      subst hn
      have ht2 : nk.first_child_key = some t := ht
      rw [hk3] at ht2
      cases ht2
    · obtain ⟨m, hm, h1, h2⟩ := co.first_coh j n hj t ht
      have htk : t ≠ k := hunref j n hj t (mem_nodeRefs.mpr (Or.inr (Or.inl ht)))
      by_cases htx : t = x
      · subst htx
        rw [hgx] at hm
        injection hm with hm
        subst hm
        refine ⟨_, hGx', ?_, ?_⟩
        · show nx.prev_sibling_key = none
          exact h1
        · show nx.parent_key = some j
          exact h2
      · by_cases hty : t = y
        · subst hty
          rw [hgy] at hm
          injection hm with hm
          rw [← hm] at h1
          rw [hyprev] at h1
          cases h1
        · refine ⟨m, ?_, h1, h2⟩
          rw [hGo t htx hty htk]
          exact hm
  · -- last_coh
    intro j n hg t ht
    rcases hsrc j n hg with ⟨hj, hn⟩ | ⟨hj, hn⟩ | ⟨hj, hn⟩ | ⟨hjx, hjy, hjk, hj⟩
    · subst hj
      subst hn
      have ht2 : nx.last_child_key = some t := ht
      have htk : t ≠ k := hunref x nx hgx t
        (mem_nodeRefs.mpr (Or.inr (Or.inr (Or.inl ht2))))
      obtain ⟨m, hm, h1, h2⟩ := co.last_coh x nx hgx t ht2
      have htx : t ≠ x := by
        intro h
        rw [h, hgx] at hm
        injection hm with hm
        rw [← hm] at h2
        exact hnx_no_x h2
      have hty : t ≠ y := by
        intro h
        rw [h, hgy] at hm
        injection hm with hm
        rw [← hm] at h2
        rw [hypar] at h2
        exact hnx_no_x h2
      refine ⟨m, ?_, h1, h2⟩
      rw [hGo t htx hty htk]
      exact hm
    · subst hj
      subst hn
      have ht2 : ny.last_child_key = some t := ht
      have htk : t ≠ k := hunref y ny hgy t
        (mem_nodeRefs.mpr (Or.inr (Or.inr (Or.inl ht2))))
      obtain ⟨m, hm, h1, h2⟩ := co.last_coh y ny hgy t ht2
      have htx : t ≠ x := by
        intro h
        rw [h, hgx] at hm
        injection hm with hm
        rw [← hm] at h2
        exact hnx_no_y h2
      have hty : t ≠ y := by
        intro h
        rw [h, hgy] at hm
        injection hm with hm
        rw [← hm] at h2
        exact hny_no_y h2
      refine ⟨m, ?_, h1, h2⟩
      rw [hGo t htx hty htk]
      exact hm
    · subst hj
      subst hn
      have ht2 : nk.last_child_key = some t := ht
      rw [hk4] at ht2
      cases ht2
    · obtain ⟨m, hm, h1, h2⟩ := co.last_coh j n hj t ht
      have htk : t ≠ k := hunref j n hj t
        (mem_nodeRefs.mpr (Or.inr (Or.inr (Or.inl ht))))
      by_cases htx : t = x
      · subst htx
        rw [hgx] at hm
        injection hm with hm
        rw [← hm] at h1
        rw [hxy] at h1
        cases h1
      · by_cases hty : t = y
        · subst hty
          rw [hgy] at hm
          injection hm with hm
          subst hm
          refine ⟨_, hGy, ?_, ?_⟩
          · show ny.next_sibling_key = none
            exact h1
          · show ny.parent_key = some j
            exact h2
        · refine ⟨m, ?_, h1, h2⟩
          rw [hGo t htx hty htk]
          exact hm
  · -- fl_coh
    intro j n hg
    rcases hsrc j n hg with ⟨hj, hn⟩ | ⟨hj, hn⟩ | ⟨hj, hn⟩ | ⟨hjx, hjy, hjk, hj⟩
    · subst hn
      exact co.fl_coh x nx (hj ▸ hgx)
    · subst hn
      exact co.fl_coh y ny (hj ▸ hgy)
    · subst hn
      show nk.first_child_key = none ↔ nk.last_child_key = none
      rw [hk3, hk4]
    · exact co.fl_coh j n hj
  · -- fst_bl
    intro j n hg hprev q hq m hmq
    rcases hsrc j n hg with ⟨hj, hn⟩ | ⟨hj, hn⟩ | ⟨hj, hn⟩ | ⟨hjx, hjy, hjk, hj⟩
    · subst hj
      subst hn
      have hprev2 : nx.prev_sibling_key = none := hprev
      have hq2 : nx.parent_key = some q := hq
      have hqk : q ≠ k := hunref x nx hgx q (mem_nodeRefs.mpr (Or.inl hq2))
      have hqx : q ≠ x := fun h => hnx_no_x (h ▸ hq2)
      have hqy : q ≠ y := fun h => hnx_no_y (h ▸ hq2)
      rw [hGo q hqx hqy hqk] at hmq
      exact co.fst_bl x nx hgx hprev2 q hq2 m hmq
    · subst hj
      subst hn
      have hprev2 : some k = (none : Option RSGNodeKey) := hprev
      cases hprev2
    · subst hj
      subst hn
      have hprev2 : some x = (none : Option RSGNodeKey) := hprev
      cases hprev2
    · have hqk : q ≠ k := hunref j n hj q (mem_nodeRefs.mpr (Or.inl hq))
      by_cases hqx : q = x
      · subst hqx
        rw [hGx'] at hmq
        injection hmq with hmq
        subst hmq
        show nx.first_child_key = some j
        exact co.fst_bl j n hj hprev q hq nx hgx
      · by_cases hqy : q = y
        · subst hqy
          rw [hGy] at hmq
          injection hmq with hmq
          subst hmq
          show ny.first_child_key = some j
          exact co.fst_bl j n hj hprev q hq ny hgy
        · rw [hGo q hqx hqy hqk] at hmq
          exact co.fst_bl j n hj hprev q hq m hmq
  · -- lst_bl
    intro j n hg hnext q hq m hmq
    rcases hsrc j n hg with ⟨hj, hn⟩ | ⟨hj, hn⟩ | ⟨hj, hn⟩ | ⟨hjx, hjy, hjk, hj⟩
    · subst hj
      subst hn
      have hnext2 : some k = (none : Option RSGNodeKey) := hnext
      cases hnext2
    · subst hj
      subst hn
      have hnext2 : ny.next_sibling_key = none := hnext
      have hq2 : ny.parent_key = some q := hq
      have hqk : q ≠ k := hunref y ny hgy q (mem_nodeRefs.mpr (Or.inl hq2))
      have hqx : q ≠ x := fun h => hny_no_x (h ▸ hq2)
      have hqy : q ≠ y := fun h => hny_no_y (h ▸ hq2)
      rw [hGo q hqx hqy hqk] at hmq
      exact co.lst_bl y ny hgy hnext2 q hq2 m hmq
    · subst hj
      subst hn
      have hnext2 : some y = (none : Option RSGNodeKey) := hnext
      cases hnext2
    · have hqk : q ≠ k := hunref j n hj q (mem_nodeRefs.mpr (Or.inl hq))
      by_cases hqx : q = x
      · subst hqx
        rw [hGx'] at hmq
        injection hmq with hmq
        subst hmq
        show nx.last_child_key = some j
        exact co.lst_bl j n hj hnext q hq nx hgx
      · by_cases hqy : q = y
        · subst hqy
          rw [hGy] at hmq
          injection hmq with hmq
          subst hmq
          show ny.last_child_key = some j
          exact co.lst_bl j n hj hnext q hq ny hgy
        · rw [hGo q hqx hqy hqk] at hmq
          exact co.lst_bl j n hj hnext q hq m hmq
  · -- rank_par
    intro j n hg t ht
    rcases hsrc j n hg with ⟨hj, hn⟩ | ⟨hj, hn⟩ | ⟨hj, hn⟩ | ⟨hjx, hjy, hjk, hj⟩
    · subst hj
      subst hn
      have ht2 : nx.parent_key = some t := ht
      have htk : t ≠ k := hunref x nx hgx t (mem_nodeRefs.mpr (Or.inl ht2))
      show (if t = k then f P + 1 else f t) < (if x = k then f P + 1 else f x)
      rw [if_neg htk, if_neg hxk]
      exact co.rank_par x nx hgx t ht2
    · subst hj
      subst hn
      have ht2 : ny.parent_key = some t := ht
      have htk : t ≠ k := hunref y ny hgy t (mem_nodeRefs.mpr (Or.inl ht2))
      show (if t = k then f P + 1 else f t) < (if y = k then f P + 1 else f y)
      rw [if_neg htk, if_neg hyk]
      exact co.rank_par y ny hgy t ht2
    · subst hj
      subst hn
      have ht2 : some P = some t := ht
      injection ht2 with ht2
      subst ht2
      show (if P = k then f P + 1 else f P) < (if k = k then f P + 1 else f k)
      rw [if_neg hPk, if_pos rfl]
      exact lt_add_of_pos_right _ one_pos
    · have htk : t ≠ k := hunref j n hj t (mem_nodeRefs.mpr (Or.inl ht))
      show (if t = k then f P + 1 else f t) < (if j = k then f P + 1 else f j)
      rw [if_neg htk, if_neg hjk]
      exact co.rank_par j n hj t ht
  · -- rank_sib
    intro j n hg t ht
    rcases hsrc j n hg with ⟨hj, hn⟩ | ⟨hj, hn⟩ | ⟨hj, hn⟩ | ⟨hjx, hjy, hjk, hj⟩
    · subst hj
      subst hn
      have ht2 : some k = some t := ht
      injection ht2 with ht2
      subst ht2
      show (if x = k then (g x + g y) / 2 else g x) < (if k = k then (g x + g y) / 2 else g k)
      rw [if_neg hxk, if_pos rfl]
      exact left_lt_add_div_two.mpr hgxy
    · subst hj
      subst hn
      have ht2 : ny.next_sibling_key = some t := ht
      have htk : t ≠ k := hunref y ny hgy t
        (mem_nodeRefs.mpr (Or.inr (Or.inr (Or.inr (Or.inr ht2)))))
      show (if y = k then (g x + g y) / 2 else g y) < (if t = k then (g x + g y) / 2 else g t)
      rw [if_neg hyk, if_neg htk]
      exact co.rank_sib y ny hgy t ht2
    · subst hj
      subst hn
      have ht2 : some y = some t := ht
      injection ht2 with ht2
      subst ht2
      show (if k = k then (g x + g y) / 2 else g k) < (if y = k then (g x + g y) / 2 else g y)
      rw [if_pos rfl, if_neg hyk]
      exact add_div_two_lt_right.mpr hgxy
    · have htk : t ≠ k := hunref j n hj t
        (mem_nodeRefs.mpr (Or.inr (Or.inr (Or.inr (Or.inr ht)))))
      show (if j = k then (g x + g y) / 2 else g j) < (if t = k then (g x + g y) / 2 else g t)
      rw [if_neg hjk, if_neg htk]
      exact co.rank_sib j n hj t ht


theorem coh_insert_front_orphan {C : Type} {a aF : List (RSGNodeKey × RSGNode C)}
    {f g : RSGNodeKey → ℚ} (co : ArenaCoh a f g) (b k P : RSGNodeKey)
    {nb nk : RSGNode C}
    (hgb : aGet a b = some nb) (hk : aGet a k = some nk) (hkcl : nk.is_clean)
    (hbprev : nb.prev_sibling_key = none) (hbpar : nb.parent_key = some P)
    (hgP : aGet a P = none)
    (hunref : ∀ j n, aGet a j = some n → ∀ t, t ∈ nodeRefs n → t ≠ k)
    (hgetF : ∀ x, aGet aF x =
      if x = b then some { nb with prev_sibling_key := some k }
      else if x = k then some { nk with key := some k, parent_key := some P, prev_sibling_key := none, next_sibling_key := some b }
      else aGet a x) :
    ArenaCoh aF (fun z => if z = k then f P + 1 else f z)
      (fun z => if z = k then g b - 1 else g z) := by
  obtain ⟨hk1, hk2, hk3, hk4, hk5, hk6⟩ := hkcl
  have hbk : b ≠ k := by
    intro h
    rw [h, hk] at hgb
    injection hgb with he
    rw [← he, hk2] at hbpar
    cases hbpar
  have hPk : P ≠ k := hunref b nb hgb P (mem_nodeRefs.mpr (Or.inl hbpar))
  have hnb_no_b : ¬ nb.parent_key = some b :=
    fun h => absurd (co.rank_par b nb hgb b h) (lt_irrefl _)
  have hGb : aGet aF b = some { nb with prev_sibling_key := some k } := by
    rw [hgetF b, if_pos rfl]
  have hGk : aGet aF k = some { nk with key := some k, parent_key := some P, prev_sibling_key := none, next_sibling_key := some b } := by
    rw [hgetF k, if_neg (Ne.symm hbk), if_pos rfl]
  have hGo : ∀ z, z ≠ b → z ≠ k → aGet aF z = aGet a z := by
    intro z h1 h2
    rw [hgetF z, if_neg h1, if_neg h2]
  have hsrc : ∀ j n, aGet aF j = some n →
      (b = j ∧ n = { nb with prev_sibling_key := some k }) ∨
      (k = j ∧ n = { nk with key := some k, parent_key := some P, prev_sibling_key := none, next_sibling_key := some b }) ∨
      (j ≠ b ∧ j ≠ k ∧ aGet a j = some n) := by
    intro j n hg
    rw [hgetF j] at hg
    by_cases hjb : j = b
    · rw [if_pos hjb] at hg
      injection hg with hg
      exact Or.inl ⟨hjb.symm, hg.symm⟩
    · rw [if_neg hjb] at hg
      by_cases hjk : j = k
      · rw [if_pos hjk] at hg
        injection hg with hg
        exact Or.inr (Or.inl ⟨hjk.symm, hg.symm⟩)
      · rw [if_neg hjk] at hg
        exact Or.inr (Or.inr ⟨hjb, hjk, hg⟩)
  constructor
  · -- next_coh
    intro j n hg t ht
    rcases hsrc j n hg with ⟨hj, hn⟩ | ⟨hj, hn⟩ | ⟨hjb, hjk, hj⟩
    · subst hj
      subst hn
      have ht2 : nb.next_sibling_key = some t := ht
      have htk : t ≠ k := hunref b nb hgb t
        (mem_nodeRefs.mpr (Or.inr (Or.inr (Or.inr (Or.inr ht2)))))
      obtain ⟨m, hm, h1, h2⟩ := co.next_coh b nb hgb t ht2
      have htb : t ≠ b := fun h =>
        absurd (co.rank_sib b nb hgb b (h ▸ ht2)) (lt_irrefl _)
      refine ⟨m, ?_, h1, ?_⟩
      · rw [hGo t htb htk]
        exact hm
      · show m.parent_key = ({ nb with prev_sibling_key := some k } : RSGNode C).parent_key
        exact h2
    · subst hj
      subst hn
      have ht2 : some b = some t := ht
      injection ht2 with ht2
      subst ht2
      refine ⟨_, hGb, rfl, ?_⟩
      show nb.parent_key = some P
      exact hbpar
    · obtain ⟨m, hm, h1, h2⟩ := co.next_coh j n hj t ht
      have htk : t ≠ k := hunref j n hj t
        (mem_nodeRefs.mpr (Or.inr (Or.inr (Or.inr (Or.inr ht)))))
      by_cases htb : t = b
      · subst htb
        rw [hgb] at hm
        injection hm with hm
        rw [← hm] at h1
        rw [hbprev] at h1
        cases h1
      · refine ⟨m, ?_, h1, h2⟩
        rw [hGo t htb htk]
        exact hm
  · -- prev_coh
    intro j n hg t ht
    rcases hsrc j n hg with ⟨hj, hn⟩ | ⟨hj, hn⟩ | ⟨hjb, hjk, hj⟩
    · subst hj
      subst hn
      have ht2 : some k = some t := ht
      injection ht2 with ht2
      subst ht2
      refine ⟨_, hGk, rfl, ?_⟩
      show some P = nb.parent_key
      exact hbpar.symm
    · subst hj
      subst hn
      have ht2 : (none : Option RSGNodeKey) = some t := ht
      cases ht2
    · obtain ⟨m, hm, h1, h2⟩ := co.prev_coh j n hj t ht
      have htk : t ≠ k := hunref j n hj t
        (mem_nodeRefs.mpr (Or.inr (Or.inr (Or.inr (Or.inl ht)))))
      by_cases htb : t = b
      · subst htb
        rw [hgb] at hm
        injection hm with hm
        subst hm
        refine ⟨_, hGb, ?_, ?_⟩
        · show nb.next_sibling_key = some j
          exact h1
        · show nb.parent_key = n.parent_key
          exact h2
      · refine ⟨m, ?_, h1, h2⟩
        rw [hGo t htb htk]
        exact hm
  · -- first_coh
    intro j n hg t ht
    rcases hsrc j n hg with ⟨hj, hn⟩ | ⟨hj, hn⟩ | ⟨hjb, hjk, hj⟩
    · subst hj
      subst hn
      have ht2 : nb.first_child_key = some t := ht
      have htk : t ≠ k := hunref b nb hgb t (mem_nodeRefs.mpr (Or.inr (Or.inl ht2)))
      obtain ⟨m, hm, h1, h2⟩ := co.first_coh b nb hgb t ht2
      have htb : t ≠ b := by
        intro h
        rw [h, hgb] at hm
        injection hm with hm
        rw [← hm] at h2
        exact hnb_no_b h2
      refine ⟨m, ?_, h1, h2⟩
      rw [hGo t htb htk]
      exact hm
    · subst hj
      subst hn
      have ht2 : nk.first_child_key = some t := ht
      rw [hk3] at ht2
      cases ht2
    · obtain ⟨m, hm, h1, h2⟩ := co.first_coh j n hj t ht
      have htk : t ≠ k := hunref j n hj t (mem_nodeRefs.mpr (Or.inr (Or.inl ht)))
      by_cases htb : t = b
      · subst htb
        rw [hgb] at hm
        injection hm with hm
        rw [← hm] at h2
        rw [hbpar] at h2
        injection h2 with h2
        rw [h2] at hgP
        rw [hj] at hgP
        cases hgP
      · refine ⟨m, ?_, h1, h2⟩
        rw [hGo t htb htk]
        exact hm
  · -- last_coh
    intro j n hg t ht
    rcases hsrc j n hg with ⟨hj, hn⟩ | ⟨hj, hn⟩ | ⟨hjb, hjk, hj⟩
    · subst hj
      subst hn
      have ht2 : nb.last_child_key = some t := ht
      have htk : t ≠ k := hunref b nb hgb t
        (mem_nodeRefs.mpr (Or.inr (Or.inr (Or.inl ht2))))
      obtain ⟨m, hm, h1, h2⟩ := co.last_coh b nb hgb t ht2
      have htb : t ≠ b := by
        intro h
        rw [h, hgb] at hm
        injection hm with hm
        rw [← hm] at h2
        exact hnb_no_b h2
      refine ⟨m, ?_, h1, h2⟩
      rw [hGo t htb htk]
      exact hm
    · subst hj
      subst hn
      have ht2 : nk.last_child_key = some t := ht
      rw [hk4] at ht2
      cases ht2
    · obtain ⟨m, hm, h1, h2⟩ := co.last_coh j n hj t ht
      have htk : t ≠ k := hunref j n hj t
        (mem_nodeRefs.mpr (Or.inr (Or.inr (Or.inl ht))))
      by_cases htb : t = b
      · subst htb
        rw [hgb] at hm
        injection hm with hm
        rw [← hm] at h2
        rw [hbpar] at h2
        injection h2 with h2
        rw [h2] at hgP
        rw [hj] at hgP
        cases hgP
      · refine ⟨m, ?_, h1, h2⟩
        rw [hGo t htb htk]
        exact hm
  · -- fl_coh
    intro j n hg
    rcases hsrc j n hg with ⟨hj, hn⟩ | ⟨hj, hn⟩ | ⟨hjb, hjk, hj⟩
    · subst hn
      exact co.fl_coh b nb (hj ▸ hgb)
    · subst hn
      show nk.first_child_key = none ↔ nk.last_child_key = none
      rw [hk3, hk4]
    · exact co.fl_coh j n hj
  · -- fst_bl
    intro j n hg hprev q hq m hmq
    rcases hsrc j n hg with ⟨hj, hn⟩ | ⟨hj, hn⟩ | ⟨hjb, hjk, hj⟩
    · subst hj
      subst hn
      have hprev2 : some k = (none : Option RSGNodeKey) := hprev
      cases hprev2
    · subst hj
      subst hn
      have hq2 : some P = some q := hq
      injection hq2 with hq2
      subst hq2
      have hPb : P ≠ b := by
        intro h
        rw [h, hgb] at hgP
        cases hgP
      rw [hGo P hPb hPk, hgP] at hmq
      cases hmq
    · have hqk : q ≠ k := hunref j n hj q (mem_nodeRefs.mpr (Or.inl hq))
      by_cases hqb : q = b
      · subst hqb
        rw [hGb] at hmq
        injection hmq with hmq
        subst hmq
        show nb.first_child_key = some j
        exact co.fst_bl j n hj hprev q hq nb hgb
      · rw [hGo q hqb hqk] at hmq
        exact co.fst_bl j n hj hprev q hq m hmq
  · -- lst_bl
    intro j n hg hnext q hq m hmq
    rcases hsrc j n hg with ⟨hj, hn⟩ | ⟨hj, hn⟩ | ⟨hjb, hjk, hj⟩
    · subst hj
      subst hn
      have hnext2 : nb.next_sibling_key = none := hnext
      have hq2 : nb.parent_key = some q := hq
      rw [hbpar] at hq2
      injection hq2 with hq2
      subst hq2
      have hPb : P ≠ b := by
        intro h
        rw [h, hgb] at hgP
        cases hgP
      rw [hGo P hPb hPk, hgP] at hmq
      cases hmq
    · subst hj
      subst hn
      have hnext2 : some b = (none : Option RSGNodeKey) := hnext
      cases hnext2
    · have hqk : q ≠ k := hunref j n hj q (mem_nodeRefs.mpr (Or.inl hq))
      by_cases hqb : q = b
      · subst hqb
        rw [hGb] at hmq
        injection hmq with hmq
        subst hmq
        show nb.last_child_key = some j
        exact co.lst_bl j n hj hnext q hq nb hgb
      · rw [hGo q hqb hqk] at hmq
        exact co.lst_bl j n hj hnext q hq m hmq
  · -- rank_par
    intro j n hg t ht
    rcases hsrc j n hg with ⟨hj, hn⟩ | ⟨hj, hn⟩ | ⟨hjb, hjk, hj⟩
    · subst hj
      subst hn
      have ht2 : nb.parent_key = some t := ht
      have htk : t ≠ k := hunref b nb hgb t (mem_nodeRefs.mpr (Or.inl ht2))
      show (if t = k then f P + 1 else f t) < (if b = k then f P + 1 else f b)
      rw [if_neg htk, if_neg hbk]
      exact co.rank_par b nb hgb t ht2
    · subst hj
      subst hn
      have ht2 : some P = some t := ht
      injection ht2 with ht2
      subst ht2
      show (if P = k then f P + 1 else f P) < (if k = k then f P + 1 else f k)
      rw [if_neg hPk, if_pos rfl]
      exact lt_add_of_pos_right _ one_pos
    · have htk : t ≠ k := hunref j n hj t (mem_nodeRefs.mpr (Or.inl ht))
      show (if t = k then f P + 1 else f t) < (if j = k then f P + 1 else f j)
      rw [if_neg htk, if_neg hjk]
      exact co.rank_par j n hj t ht
  · -- rank_sib
    intro j n hg t ht
    rcases hsrc j n hg with ⟨hj, hn⟩ | ⟨hj, hn⟩ | ⟨hjb, hjk, hj⟩
    · subst hj
      subst hn
      have ht2 : nb.next_sibling_key = some t := ht
      have htk : t ≠ k := hunref b nb hgb t
        (mem_nodeRefs.mpr (Or.inr (Or.inr (Or.inr (Or.inr ht2)))))
      show (if b = k then g b - 1 else g b) < (if t = k then g b - 1 else g t)
      rw [if_neg hbk, if_neg htk]
      exact co.rank_sib b nb hgb t ht2
    · subst hj
      subst hn
      have ht2 : some b = some t := ht
      injection ht2 with ht2
      subst ht2
      show (if k = k then g b - 1 else g k) < (if b = k then g b - 1 else g b)
      rw [if_pos rfl, if_neg hbk]
      exact sub_lt_self _ one_pos
    · have htk : t ≠ k := hunref j n hj t
        (mem_nodeRefs.mpr (Or.inr (Or.inr (Or.inr (Or.inr ht)))))
      show (if j = k then g b - 1 else g j) < (if t = k then g b - 1 else g t)
      rw [if_neg hjk, if_neg htk]
      exact co.rank_sib j n hj t ht


theorem coh_insert_back_orphan {C : Type} {a aF : List (RSGNodeKey × RSGNode C)}
    {f g : RSGNodeKey → ℚ} (co : ArenaCoh a f g) (b k P : RSGNodeKey)
    {nb nk : RSGNode C}
    (hgb : aGet a b = some nb) (hk : aGet a k = some nk) (hkcl : nk.is_clean)
    (hbnext : nb.next_sibling_key = none) (hbpar : nb.parent_key = some P)
    (hgP : aGet a P = none)
    (hunref : ∀ j n, aGet a j = some n → ∀ t, t ∈ nodeRefs n → t ≠ k)
    (hgetF : ∀ x, aGet aF x =
      if x = b then some { nb with next_sibling_key := some k }
      else if x = k then some { nk with key := some k, parent_key := some P, prev_sibling_key := some b, next_sibling_key := none }
      else aGet a x) :
    ArenaCoh aF (fun z => if z = k then f P + 1 else f z)
      (fun z => if z = k then g b + 1 else g z) := by
  obtain ⟨hk1, hk2, hk3, hk4, hk5, hk6⟩ := hkcl
  have hbk : b ≠ k := by
    intro h
    rw [h, hk] at hgb
    injection hgb with he
    rw [← he, hk2] at hbpar
    cases hbpar
  have hPk : P ≠ k := hunref b nb hgb P (mem_nodeRefs.mpr (Or.inl hbpar))
  have hnb_no_b : ¬ nb.parent_key = some b :=
    fun h => absurd (co.rank_par b nb hgb b h) (lt_irrefl _)
  have hGb : aGet aF b = some { nb with next_sibling_key := some k } := by
    rw [hgetF b, if_pos rfl]
  have hGk : aGet aF k = some { nk with key := some k, parent_key := some P, prev_sibling_key := some b, next_sibling_key := none } := by
    rw [hgetF k, if_neg (Ne.symm hbk), if_pos rfl]
  have hGo : ∀ z, z ≠ b → z ≠ k → aGet aF z = aGet a z := by
    intro z h1 h2
    rw [hgetF z, if_neg h1, if_neg h2]
  have hsrc : ∀ j n, aGet aF j = some n →
      (b = j ∧ n = { nb with next_sibling_key := some k }) ∨
      (k = j ∧ n = { nk with key := some k, parent_key := some P, prev_sibling_key := some b, next_sibling_key := none }) ∨
      (j ≠ b ∧ j ≠ k ∧ aGet a j = some n) := by
    intro j n hg
    rw [hgetF j] at hg
    by_cases hjb : j = b
    · rw [if_pos hjb] at hg
      injection hg with hg
      exact Or.inl ⟨hjb.symm, hg.symm⟩
    · rw [if_neg hjb] at hg
      by_cases hjk : j = k
      · rw [if_pos hjk] at hg
        injection hg with hg
        exact Or.inr (Or.inl ⟨hjk.symm, hg.symm⟩)
      · rw [if_neg hjk] at hg
        exact Or.inr (Or.inr ⟨hjb, hjk, hg⟩)
  constructor
  · -- next_coh
    intro j n hg t ht
    rcases hsrc j n hg with ⟨hj, hn⟩ | ⟨hj, hn⟩ | ⟨hjb, hjk, hj⟩
    · subst hj
      subst hn
      have ht2 : some k = some t := ht
      injection ht2 with ht2
      subst ht2
      refine ⟨_, hGk, rfl, ?_⟩
      show some P = nb.parent_key
      exact hbpar.symm
    · subst hj
      subst hn
      have ht2 : (none : Option RSGNodeKey) = some t := ht
      cases ht2
    · obtain ⟨m, hm, h1, h2⟩ := co.next_coh j n hj t ht
      have htk : t ≠ k := hunref j n hj t
        (mem_nodeRefs.mpr (Or.inr (Or.inr (Or.inr (Or.inr ht)))))
      by_cases htb : t = b
      · subst htb
        rw [hgb] at hm
        injection hm with hm
        subst hm
        refine ⟨_, hGb, ?_, ?_⟩
        · show nb.prev_sibling_key = some j
          exact h1
        · show nb.parent_key = n.parent_key
          exact h2
      · refine ⟨m, ?_, h1, h2⟩
        rw [hGo t htb htk]
        exact hm
  · -- prev_coh
    intro j n hg t ht
    rcases hsrc j n hg with ⟨hj, hn⟩ | ⟨hj, hn⟩ | ⟨hjb, hjk, hj⟩
    · subst hj
      subst hn
      have ht2 : nb.prev_sibling_key = some t := ht
      have htk : t ≠ k := hunref b nb hgb t
        (mem_nodeRefs.mpr (Or.inr (Or.inr (Or.inr (Or.inl ht2)))))
      obtain ⟨m, hm, h1, h2⟩ := co.prev_coh b nb hgb t ht2
      have htb : t ≠ b := by
        intro h
        rw [h, hgb] at hm
        injection hm with hm
        rw [← hm] at h1
        exact absurd (co.rank_sib b nb hgb b h1) (lt_irrefl _)
      refine ⟨m, ?_, h1, ?_⟩
      · rw [hGo t htb htk]
        exact hm
      · show m.parent_key = ({ nb with next_sibling_key := some k } : RSGNode C).parent_key
        exact h2
    · subst hj
      subst hn
      have ht2 : some b = some t := ht
      injection ht2 with ht2
      subst ht2
      refine ⟨_, hGb, rfl, ?_⟩
      show nb.parent_key = some P
      exact hbpar
    · obtain ⟨m, hm, h1, h2⟩ := co.prev_coh j n hj t ht
      have htk : t ≠ k := hunref j n hj t
        (mem_nodeRefs.mpr (Or.inr (Or.inr (Or.inr (Or.inl ht)))))
      by_cases htb : t = b
      · subst htb
        rw [hgb] at hm
        injection hm with hm
        rw [← hm] at h1
        rw [hbnext] at h1
        cases h1
      · refine ⟨m, ?_, h1, h2⟩
        rw [hGo t htb htk]
        exact hm
  · -- first_coh
    intro j n hg t ht
    rcases hsrc j n hg with ⟨hj, hn⟩ | ⟨hj, hn⟩ | ⟨hjb, hjk, hj⟩
    · subst hj
      subst hn
      have ht2 : nb.first_child_key = some t := ht
      have htk : t ≠ k := hunref b nb hgb t (mem_nodeRefs.mpr (Or.inr (Or.inl ht2)))
      obtain ⟨m, hm, h1, h2⟩ := co.first_coh b nb hgb t ht2
      have htb : t ≠ b := by
        intro h
        rw [h, hgb] at hm
        injection hm with hm
        rw [← hm] at h2
        exact hnb_no_b h2
      refine ⟨m, ?_, h1, h2⟩
      rw [hGo t htb htk]
      exact hm
    · subst hj
      subst hn
      have ht2 : nk.first_child_key = some t := ht
      rw [hk3] at ht2
      cases ht2
    · obtain ⟨m, hm, h1, h2⟩ := co.first_coh j n hj t ht
      have htk : t ≠ k := hunref j n hj t (mem_nodeRefs.mpr (Or.inr (Or.inl ht)))
      by_cases htb : t = b
      · subst htb
        rw [hgb] at hm
        injection hm with hm
        rw [← hm] at h2
        rw [hbpar] at h2
        injection h2 with h2
        rw [h2] at hgP
        rw [hj] at hgP
        cases hgP
      · refine ⟨m, ?_, h1, h2⟩
        rw [hGo t htb htk]
        exact hm
  · -- last_coh
    intro j n hg t ht
    rcases hsrc j n hg with ⟨hj, hn⟩ | ⟨hj, hn⟩ | ⟨hjb, hjk, hj⟩
    · subst hj
      subst hn
      have ht2 : nb.last_child_key = some t := ht
      have htk : t ≠ k := hunref b nb hgb t
        (mem_nodeRefs.mpr (Or.inr (Or.inr (Or.inl ht2))))
      obtain ⟨m, hm, h1, h2⟩ := co.last_coh b nb hgb t ht2
      have htb : t ≠ b := by
        intro h
        rw [h, hgb] at hm
        injection hm with hm
        rw [← hm] at h2
        exact hnb_no_b h2
      refine ⟨m, ?_, h1, h2⟩
      rw [hGo t htb htk]
      exact hm
    · subst hj
      subst hn
      have ht2 : nk.last_child_key = some t := ht
      rw [hk4] at ht2
      cases ht2
    · obtain ⟨m, hm, h1, h2⟩ := co.last_coh j n hj t ht
      have htk : t ≠ k := hunref j n hj t
        (mem_nodeRefs.mpr (Or.inr (Or.inr (Or.inl ht))))
      by_cases htb : t = b
      · subst htb
        rw [hgb] at hm
        injection hm with hm
        rw [← hm] at h2
        rw [hbpar] at h2
        injection h2 with h2
        rw [h2] at hgP
        rw [hj] at hgP
        cases hgP
      · refine ⟨m, ?_, h1, h2⟩
        rw [hGo t htb htk]
        exact hm
  · -- fl_coh
    intro j n hg
    rcases hsrc j n hg with ⟨hj, hn⟩ | ⟨hj, hn⟩ | ⟨hjb, hjk, hj⟩
    · subst hn
      exact co.fl_coh b nb (hj ▸ hgb)
    · subst hn
      show nk.first_child_key = none ↔ nk.last_child_key = none
      rw [hk3, hk4]
    · exact co.fl_coh j n hj
  · -- fst_bl
    intro j n hg hprev q hq m hmq
    rcases hsrc j n hg with ⟨hj, hn⟩ | ⟨hj, hn⟩ | ⟨hjb, hjk, hj⟩
    · subst hj
      subst hn
      have hprev2 : nb.prev_sibling_key = none := hprev
      have hq2 : nb.parent_key = some q := hq
      rw [hbpar] at hq2
      injection hq2 with hq2
      subst hq2
      have hPb : P ≠ b := by
        intro h
        rw [h, hgb] at hgP
        cases hgP
      rw [hGo P hPb hPk, hgP] at hmq
      cases hmq
    · subst hj
      subst hn
      have hprev2 : some b = (none : Option RSGNodeKey) := hprev
      cases hprev2
    · have hqk : q ≠ k := hunref j n hj q (mem_nodeRefs.mpr (Or.inl hq))
      by_cases hqb : q = b
      · subst hqb
        rw [hGb] at hmq
        injection hmq with hmq
        subst hmq
        show nb.first_child_key = some j
        exact co.fst_bl j n hj hprev q hq nb hgb
      · rw [hGo q hqb hqk] at hmq
        exact co.fst_bl j n hj hprev q hq m hmq
  · -- lst_bl
    intro j n hg hnext q hq m hmq
    rcases hsrc j n hg with ⟨hj, hn⟩ | ⟨hj, hn⟩ | ⟨hjb, hjk, hj⟩
    · subst hj
      subst hn
      have hnext2 : some k = (none : Option RSGNodeKey) := hnext
      cases hnext2
    · subst hj
      subst hn
      have hq2 : some P = some q := hq
      injection hq2 with hq2
      subst hq2
      have hPb : P ≠ b := by
        intro h
        rw [h, hgb] at hgP
        cases hgP
      rw [hGo P hPb hPk, hgP] at hmq
      cases hmq
    · have hqk : q ≠ k := hunref j n hj q (mem_nodeRefs.mpr (Or.inl hq))
      by_cases hqb : q = b
      · subst hqb
        rw [hGb] at hmq
        injection hmq with hmq
        subst hmq
        show nb.last_child_key = some j
        exact co.lst_bl j n hj hnext q hq nb hgb
      · rw [hGo q hqb hqk] at hmq
        exact co.lst_bl j n hj hnext q hq m hmq
  · -- rank_par
    intro j n hg t ht
    rcases hsrc j n hg with ⟨hj, hn⟩ | ⟨hj, hn⟩ | ⟨hjb, hjk, hj⟩
    · subst hj
      subst hn
      have ht2 : nb.parent_key = some t := ht
      have htk : t ≠ k := hunref b nb hgb t (mem_nodeRefs.mpr (Or.inl ht2))
      show (if t = k then f P + 1 else f t) < (if b = k then f P + 1 else f b)
      rw [if_neg htk, if_neg hbk]
      exact co.rank_par b nb hgb t ht2
    · subst hj
      subst hn
      have ht2 : some P = some t := ht
      injection ht2 with ht2
      subst ht2
      show (if P = k then f P + 1 else f P) < (if k = k then f P + 1 else f k)
      rw [if_neg hPk, if_pos rfl]
      exact lt_add_of_pos_right _ one_pos
    · have htk : t ≠ k := hunref j n hj t (mem_nodeRefs.mpr (Or.inl ht))
      show (if t = k then f P + 1 else f t) < (if j = k then f P + 1 else f j)
      rw [if_neg htk, if_neg hjk]
      exact co.rank_par j n hj t ht
  · -- rank_sib
    intro j n hg t ht
    rcases hsrc j n hg with ⟨hj, hn⟩ | ⟨hj, hn⟩ | ⟨hjb, hjk, hj⟩
    · subst hj
      subst hn
      have ht2 : some k = some t := ht
      injection ht2 with ht2
      subst ht2
      show (if b = k then g b + 1 else g b) < (if k = k then g b + 1 else g k)
      rw [if_neg hbk, if_pos rfl]
      exact lt_add_of_pos_right _ one_pos
    · subst hj
      subst hn
      have ht2 : (none : Option RSGNodeKey) = some t := ht
      cases ht2
    · have htk : t ≠ k := hunref j n hj t
        (mem_nodeRefs.mpr (Or.inr (Or.inr (Or.inr (Or.inr ht)))))
      show (if j = k then g b + 1 else g j) < (if t = k then g b + 1 else g t)
      rw [if_neg hjk, if_neg htk]
      exact co.rank_sib j n hj t ht


theorem insert_before_coh {C : Type} {s : RSGScene C} {ts : List RSGSubtreeAddTransaction}
    (inv : SceneInv s ts) (co : Coh s) (b : RSGNodeKey) (node : RSGNode C)
    (hclean : node.is_clean) (hv : s.is_valid b = true) {r : RSGNodeKey}
    (hr : s.root_key = some r) (hbr : b ≠ r) :
    Coh (s.insert_before b node).1 := by
  obtain ⟨f, g, co⟩ := co
  obtain ⟨nb, hgb, hbkey, hbp⟩ := inv.valid_linked hv
  have hbpar : ∃ P, nb.parent_key = some P := by
    rcases hbp with h | h
    · exact Option.isSome_iff_exists.mp h
    · rw [hr] at h
      injection h with h
      exact absurd h.symm hbr
  obtain ⟨P, hbpar⟩ := hbpar
  obtain ⟨hk1, hunref1⟩ := insertNode_fresh_facts inv node hclean
  have hblt : b < s.next := inv.keys_lt (b, nb) (aGet_some_mem hgb)
  have hbk : b ≠ s.next := Nat.ne_of_lt hblt
  have co1 : ArenaCoh (s.arena ++ [(s.next, node)]) f g := by
    refine co.insertClean s.next node ?_ hclean
    intro j n hg t ht
    exact Nat.ne_of_lt (inv.refs_lt (j, n) (aGet_some_mem hg) t ht)
  have hgb1 : aGet (s.arena ++ [(s.next, node)]) b = some nb := aGet_append_keep hgb
  have hPk : P ≠ s.next := hunref1 b nb hgb1 P (mem_nodeRefs.mpr (Or.inl hbpar))
  have hbP : b ≠ P := by
    intro h
    exact absurd (co1.rank_par b nb hgb1 P hbpar)
      (by rw [← h]; exact lt_irrefl _)
  have hparv : (aGet (s.arena ++ [(s.next, node)]) b).bind (·.parent_key) = some P := by
    rw [hgb1]
    show nb.parent_key = some P
    exact hbpar
  have heq : (s.insert_before b node).1 =
      RSGScene.insert_before_impl
        { s with arena := s.arena ++ [(s.next, node)], next := s.next + 1 } b s.next := rfl
  rw [heq]
  cases hbprev : nb.prev_sibling_key with
  | some op =>
    obtain ⟨nop, hgop1, hopnext, hoppar⟩ := co1.prev_coh b nb hgb1 op hbprev
    have hopb : op ≠ b := by
      intro h
      rw [h, hgb1] at hgop1
      injection hgop1 with he
      rw [← he] at hopnext
      exact absurd (co1.rank_sib b nb hgb1 b hopnext) (lt_irrefl _)
    have hopk : op ≠ s.next := hunref1 b nb hgb1 op
      (mem_nodeRefs.mpr (Or.inr (Or.inr (Or.inr (Or.inl hbprev)))))
    have hoppk : nop.parent_key = some P := by
      rw [hoppar]
      exact hbpar
    have hprevv : (aGet (s.arena ++ [(s.next, node)]) b).bind (·.prev_sibling_key) =
        some op := by
      rw [hgb1]
      show nb.prev_sibling_key = some op
      exact hbprev
    have harena : (RSGScene.insert_before_impl
        { s with arena := s.arena ++ [(s.next, node)], next := s.next + 1 } b s.next).arena =
        aModify (aModify (aModify (s.arena ++ [(s.next, node)]) b
          (fun n => { n with prev_sibling_key := some s.next })) s.next (fun n =>
          { n with key := some s.next, parent_key := some P, prev_sibling_key := some op, next_sibling_key := some b })) op
          (fun n => { n with next_sibling_key := some s.next }) := by
      simp only [RSGScene.insert_before_impl, hparv, hprevv]
    refine ⟨_, _, coh_insert_mid_shape co1 op b s.next P hgop1 hgb1 hk1 hclean
      hopnext hoppk hunref1 ?_⟩
    intro x
    rw [harena, aGet_aModify]
    by_cases hxop : x = op
    · subst hxop
      rw [if_pos rfl, if_pos rfl, aGet_aModify, if_neg hopk, aGet_aModify, if_neg hopb,
        hgop1]
      rfl
    · rw [if_neg hxop, if_neg hxop, aGet_aModify]
      by_cases hxk : x = s.next
      · subst hxk
        rw [if_pos rfl, aGet_aModify, if_neg (Ne.symm hbk), hk1, if_neg (Ne.symm hbk),
          if_pos rfl]
        rfl
      · rw [if_neg hxk, aGet_aModify]
        by_cases hxb : x = b
        · subst hxb
          rw [if_pos rfl, hgb1, if_pos rfl]
          rfl
        · rw [if_neg hxb, if_neg hxb, if_neg hxk]
  | none =>
    have hprevv : (aGet (s.arena ++ [(s.next, node)]) b).bind (·.prev_sibling_key) =
        (none : Option RSGNodeKey) := by
      rw [hgb1]
      show nb.prev_sibling_key = none
      exact hbprev
    have harena : (RSGScene.insert_before_impl
        { s with arena := s.arena ++ [(s.next, node)], next := s.next + 1 } b s.next).arena =
        aModify (aModify (aModify (s.arena ++ [(s.next, node)]) b
          (fun n => { n with prev_sibling_key := some s.next })) s.next (fun n =>
          { n with key := some s.next, parent_key := some P, prev_sibling_key := none, next_sibling_key := some b })) P
          (fun n => { n with first_child_key := some s.next }) := by
      simp only [RSGScene.insert_before_impl, hparv, hprevv]
    cases hgP1 : aGet (s.arena ++ [(s.next, node)]) P with
    | some nP =>
      have hob : nP.first_child_key = some b :=
        co1.fst_bl b nb hgb1 hbprev P hbpar nP hgP1
      refine ⟨_, _, coh_prepend_shape_some co1 P s.next b hgP1 hk1 hgb1 hclean hob
        hbprev hbpar hunref1 hPk hbk hbP ?_⟩
      intro x
      rw [harena, aGet_aModify]
      by_cases hxP : x = P
      · subst hxP
        rw [if_pos rfl, aGet_aModify, if_neg hPk, aGet_aModify, if_neg (Ne.symm hbP), hgP1]
        rw [if_neg (Ne.symm hbP), if_neg hPk, if_pos rfl]
        rfl
      · rw [if_neg hxP, aGet_aModify]
        by_cases hxk : x = s.next
        · subst hxk
          rw [if_pos rfl, aGet_aModify, if_neg (Ne.symm hbk), hk1, if_neg (Ne.symm hbk),
            if_pos rfl]
          rfl
        · rw [if_neg hxk, aGet_aModify]
          by_cases hxb : x = b
          · subst hxb
            rw [if_pos rfl, hgb1, if_pos rfl]
            rfl
          · rw [if_neg hxb, if_neg hxb, if_neg hxk, if_neg hxP]
    | none =>
      refine ⟨_, _, coh_insert_front_orphan co1 b s.next P hgb1 hk1 hclean hbprev hbpar
        hgP1 hunref1 ?_⟩
      intro x
      rw [harena, aGet_aModify]
      by_cases hxP : x = P
      · subst hxP
        rw [if_pos rfl, aGet_aModify, if_neg hPk, aGet_aModify, if_neg (Ne.symm hbP), hgP1]
        rw [if_neg (Ne.symm hbP), if_neg hPk]
        rfl
      · rw [if_neg hxP, aGet_aModify]
        by_cases hxk : x = s.next
        · subst hxk
          rw [if_pos rfl, aGet_aModify, if_neg (Ne.symm hbk), hk1, if_neg (Ne.symm hbk),
            if_pos rfl]
          rfl
        · rw [if_neg hxk, aGet_aModify]
          by_cases hxb : x = b
          · subst hxb
            rw [if_pos rfl, hgb1, if_pos rfl]
            rfl
          · rw [if_neg hxb, if_neg hxb, if_neg hxk]

theorem insert_after_coh {C : Type} {s : RSGScene C} {ts : List RSGSubtreeAddTransaction}
    (inv : SceneInv s ts) (co : Coh s) (b : RSGNodeKey) (node : RSGNode C)
    (hclean : node.is_clean) (hv : s.is_valid b = true) {r : RSGNodeKey}
    (hr : s.root_key = some r) (hbr : b ≠ r) :
    Coh (s.insert_after b node).1 := by
  obtain ⟨f, g, co⟩ := co
  obtain ⟨nb, hgb, hbkey, hbp⟩ := inv.valid_linked hv
  have hbpar : ∃ P, nb.parent_key = some P := by
    rcases hbp with h | h
    · exact Option.isSome_iff_exists.mp h
    · rw [hr] at h
      injection h with h
      exact absurd h.symm hbr
  obtain ⟨P, hbpar⟩ := hbpar
  obtain ⟨hk1, hunref1⟩ := insertNode_fresh_facts inv node hclean
  have hblt : b < s.next := inv.keys_lt (b, nb) (aGet_some_mem hgb)
  have hbk : b ≠ s.next := Nat.ne_of_lt hblt
  have co1 : ArenaCoh (s.arena ++ [(s.next, node)]) f g := by
    refine co.insertClean s.next node ?_ hclean
    intro j n hg t ht
    exact Nat.ne_of_lt (inv.refs_lt (j, n) (aGet_some_mem hg) t ht)
  have hgb1 : aGet (s.arena ++ [(s.next, node)]) b = some nb := aGet_append_keep hgb
  have hPk : P ≠ s.next := hunref1 b nb hgb1 P (mem_nodeRefs.mpr (Or.inl hbpar))
  have hbP : b ≠ P := by
    intro h
    exact absurd (co1.rank_par b nb hgb1 P hbpar)
      (by rw [← h]; exact lt_irrefl _)
  have hparv : (aGet (s.arena ++ [(s.next, node)]) b).bind (·.parent_key) = some P := by
    rw [hgb1]
    show nb.parent_key = some P
    exact hbpar
  have heq : (s.insert_after b node).1 =
      RSGScene.insert_after_impl
        { s with arena := s.arena ++ [(s.next, node)], next := s.next + 1 } b s.next := rfl
  rw [heq]
  cases hbnext : nb.next_sibling_key with
  | some onx =>
    obtain ⟨non, hgon1, honprev, honpar⟩ := co1.next_coh b nb hgb1 onx hbnext
    have honb : onx ≠ b := by
      intro h
      exact absurd (co1.rank_sib b nb hgb1 b (h ▸ hbnext)) (lt_irrefl _)
    have honk : onx ≠ s.next := hunref1 b nb hgb1 onx
      (mem_nodeRefs.mpr (Or.inr (Or.inr (Or.inr (Or.inr hbnext)))))
    have hnextv : (aGet (s.arena ++ [(s.next, node)]) b).bind (·.next_sibling_key) =
        some onx := by
      rw [hgb1]
      show nb.next_sibling_key = some onx
      exact hbnext
    have harena : (RSGScene.insert_after_impl
        { s with arena := s.arena ++ [(s.next, node)], next := s.next + 1 } b s.next).arena =
        aModify (aModify (aModify (s.arena ++ [(s.next, node)]) b
          (fun n => { n with next_sibling_key := some s.next })) s.next (fun n =>
          { n with key := some s.next, parent_key := some P, prev_sibling_key := some b, next_sibling_key := some onx })) onx
          (fun n => { n with prev_sibling_key := some s.next }) := by
      simp only [RSGScene.insert_after_impl, hparv, hnextv]
    refine ⟨_, _, coh_insert_mid_shape co1 b onx s.next P hgb1 hgon1 hk1 hclean
      hbnext hbpar hunref1 ?_⟩
    intro x
    rw [harena, aGet_aModify]
    by_cases hxon : x = onx
    · subst hxon
      rw [if_pos rfl, aGet_aModify, if_neg honk, aGet_aModify, if_neg honb, hgon1,
        if_neg honb, if_pos rfl]
      rfl
    · rw [if_neg hxon, aGet_aModify]
      by_cases hxk : x = s.next
      · subst hxk
        rw [if_pos rfl, aGet_aModify, if_neg (Ne.symm hbk), hk1, if_neg (Ne.symm hbk),
          if_neg hxon, if_pos rfl]
        rfl
      · rw [if_neg hxk, aGet_aModify]
        by_cases hxb : x = b
        · subst hxb
          rw [if_pos rfl, hgb1, if_pos rfl]
          rfl
        · rw [if_neg hxb, if_neg hxb, if_neg hxon, if_neg hxk]
  | none =>
    have hnextv : (aGet (s.arena ++ [(s.next, node)]) b).bind (·.next_sibling_key) =
        (none : Option RSGNodeKey) := by
      rw [hgb1]
      show nb.next_sibling_key = none
      exact hbnext
    have harena : (RSGScene.insert_after_impl
        { s with arena := s.arena ++ [(s.next, node)], next := s.next + 1 } b s.next).arena =
        aModify (aModify (aModify (s.arena ++ [(s.next, node)]) b
          (fun n => { n with next_sibling_key := some s.next })) s.next (fun n =>
          { n with key := some s.next, parent_key := some P, prev_sibling_key := some b, next_sibling_key := none })) P
          (fun n => { n with last_child_key := some s.next }) := by
      simp only [RSGScene.insert_after_impl, hparv, hnextv]
    cases hgP1 : aGet (s.arena ++ [(s.next, node)]) P with
    | some nP =>
      have hob : nP.last_child_key = some b :=
        co1.lst_bl b nb hgb1 hbnext P hbpar nP hgP1
      refine ⟨_, _, coh_append_shape_some co1 P s.next b hgP1 hk1 hgb1 hclean hob
        hbnext hbpar hunref1 hPk hbk hbP ?_⟩
      intro x
      rw [harena, aGet_aModify]
      by_cases hxP : x = P
      · subst hxP
        rw [if_pos rfl, aGet_aModify, if_neg hPk, aGet_aModify, if_neg (Ne.symm hbP), hgP1]
        rw [if_neg (Ne.symm hbP), if_neg hPk, if_pos rfl]
        rfl
      · rw [if_neg hxP, aGet_aModify]
        by_cases hxk : x = s.next
        · subst hxk
          rw [if_pos rfl, aGet_aModify, if_neg (Ne.symm hbk), hk1, if_neg (Ne.symm hbk),
            if_pos rfl]
          rfl
        · rw [if_neg hxk, aGet_aModify]
          by_cases hxb : x = b
          · subst hxb
            rw [if_pos rfl, hgb1, if_pos rfl]
            rfl
          · rw [if_neg hxb, if_neg hxb, if_neg hxk, if_neg hxP]
    | none =>
      refine ⟨_, _, coh_insert_back_orphan co1 b s.next P hgb1 hk1 hclean hbnext hbpar
        hgP1 hunref1 ?_⟩
      intro x
      rw [harena, aGet_aModify]
      by_cases hxP : x = P
      · subst hxP
        rw [if_pos rfl, aGet_aModify, if_neg hPk, aGet_aModify, if_neg (Ne.symm hbP), hgP1]
        rw [if_neg (Ne.symm hbP), if_neg hPk]
        rfl
      · rw [if_neg hxP, aGet_aModify]
        by_cases hxk : x = s.next
        · subst hxk
          rw [if_pos rfl, aGet_aModify, if_neg (Ne.symm hbk), hk1, if_neg (Ne.symm hbk),
            if_pos rfl]
          rfl
        · rw [if_neg hxk, aGet_aModify]
          by_cases hxb : x = b
          · subst hxb
            rw [if_pos rfl, hgb1, if_pos rfl]
            rfl
          · rw [if_neg hxb, if_neg hxb, if_neg hxk]


theorem countP_le_of_imp {α : Type} {p q : α → Bool} :
    ∀ (l : List α), (∀ x ∈ l, p x = true → q x = true) → l.countP p ≤ l.countP q := by
  intro l
  induction l with
  | nil => intro _; exact Nat.le_refl _
  | cons h t ih =>
    intro himp
    rw [List.countP_cons, List.countP_cons]
    have h1 := ih (fun x hx => himp x (List.mem_cons_of_mem h hx))
    by_cases hp : p h = true
    · rw [if_pos hp, if_pos (himp h (List.mem_cons_self h t) hp)]
      exact Nat.add_le_add h1 (Nat.le_refl 1)
    · rw [if_neg hp]
      exact Nat.add_le_add h1 (Nat.zero_le _)

theorem countP_lt_of_witness {α : Type} {p q : α → Bool} {l : List α}
    (himp : ∀ x ∈ l, p x = true → q x = true) {x : α} (hx : x ∈ l)
    (hq : q x = true) (hp : ¬ p x = true) : l.countP p < l.countP q := by
  obtain ⟨l1, l2, rfl⟩ := List.append_of_mem hx
  rw [List.countP_append, List.countP_append, List.countP_cons, List.countP_cons]
  have h1 := countP_le_of_imp l1 (fun y hy => himp y (by simp [hy]))
  have h2 := countP_le_of_imp l2 (fun y hy => himp y (by simp [hy]))
  rw [if_neg hp, if_pos hq]
  omega

theorem isNextChain_head_mem {C : Type} {a : List (RSGNodeKey × RSGNode C)}
    {cs : List RSGNodeKey} {t : RSGNodeKey}
    (h : IsNextChain a cs (some t)) : t ∈ cs := by
  cases cs with
  | nil =>
    simp only [IsNextChain] at h
    exact Option.noConfusion h
  | cons c cs' =>
    simp only [IsNextChain] at h
    injection h.1 with ho
    rw [ho]
    exact List.mem_cons_self c cs'

theorem isNextChain_mem_get {C : Type} {a : List (RSGNodeKey × RSGNode C)} :
    ∀ (cs : List RSGNodeKey) (o : Option RSGNodeKey), IsNextChain a cs o →
      ∀ j ∈ cs, ∃ n, aGet a j = some n := by
  intro cs
  induction cs with
  | nil => intro o _ j hj; exact absurd hj (List.not_mem_nil j)
  | cons c cs' ih =>
    intro o h j hj
    simp only [IsNextChain] at h
    obtain ⟨ho, n, hn, hrest⟩ := h
    rcases List.mem_cons.mp hj with rfl | hj'
    · exact ⟨n, hn⟩
    · exact ih _ hrest j hj'

theorem isNextChain_parent {C : Type} {a : List (RSGNodeKey × RSGNode C)}
    {f g : RSGNodeKey → ℚ} (co : ArenaCoh a f g) (pa : Option RSGNodeKey) :
    ∀ (cs : List RSGNodeKey) (o : Option RSGNodeKey), IsNextChain a cs o →
      (∀ c, o = some c → ∀ n, aGet a c = some n → n.parent_key = pa) →
      ∀ j ∈ cs, ∀ n, aGet a j = some n → n.parent_key = pa := by
  intro cs
  induction cs with
  | nil => intro o _ _ j hj; exact absurd hj (List.not_mem_nil j)
  | cons c cs' ih =>
    intro o h hhead j hj m hm
    simp only [IsNextChain] at h
    obtain ⟨ho, n, hn, hrest⟩ := h
    subst ho
    rcases List.mem_cons.mp hj with rfl | hj'
    · exact hhead _ rfl m hm
    · refine ih n.next_sibling_key hrest ?_ j hj' m hm
      intro t ht m2 hm2
      obtain ⟨m3, hm3, _, hpar3⟩ := co.next_coh c n hn t ht
      rw [hm2] at hm3
      injection hm3 with he
      rw [he, hpar3]
      exact hhead c rfl n hn

theorem isNextChain_g_le {C : Type} {a : List (RSGNodeKey × RSGNode C)}
    {f g : RSGNodeKey → ℚ} (co : ArenaCoh a f g) :
    ∀ (cs : List RSGNodeKey) (o : Option RSGNodeKey), IsNextChain a cs o →
      ∀ c, o = some c → ∀ j ∈ cs, g c ≤ g j := by
  intro cs
  induction cs with
  | nil => intro o _ c _ j hj; exact absurd hj (List.not_mem_nil j)
  | cons d cs' ih =>
    intro o h c hoc j hj
    simp only [IsNextChain] at h
    obtain ⟨ho, n, hn, hrest⟩ := h
    rw [ho] at hoc
    injection hoc with hoc
    subst hoc
    rcases List.mem_cons.mp hj with rfl | hj'
    · exact le_refl _
    · cases cs' with
      | nil => exact absurd hj' (List.not_mem_nil j)
      | cons e cs'' =>
        have ho2 : n.next_sibling_key = some e := by
          simp only [IsNextChain] at hrest
          exact hrest.1
        have h1 : g d < g e := co.rank_sib d n hn e ho2
        have h2 : g e ≤ g j := ih n.next_sibling_key hrest e ho2 j hj'
        exact le_of_lt (lt_of_lt_of_le h1 h2)

theorem isNextChain_pairwise {C : Type} {a : List (RSGNodeKey × RSGNode C)}
    {f g : RSGNodeKey → ℚ} (co : ArenaCoh a f g) :
    ∀ (cs : List RSGNodeKey) (o : Option RSGNodeKey), IsNextChain a cs o →
      cs.Pairwise (fun x y => g x < g y) := by
  intro cs
  induction cs with
  | nil => intro o _; exact List.Pairwise.nil
  | cons c cs' ih =>
    intro o h
    simp only [IsNextChain] at h
    obtain ⟨ho, n, hn, hrest⟩ := h
    refine List.Pairwise.cons ?_ (ih _ hrest)
    intro y hy
    cases cs' with
    | nil => exact absurd hy (List.not_mem_nil y)
    | cons e cs'' =>
      have ho2 : n.next_sibling_key = some e := by
        simp only [IsNextChain] at hrest
        exact hrest.1
      have h1 : g c < g e := co.rank_sib c n hn e ho2
      have h2 : g e ≤ g y := isNextChain_g_le co (e :: cs'') n.next_sibling_key hrest e ho2 y hy
      exact lt_of_lt_of_le h1 h2

theorem isNextChain_nodup {C : Type} {a : List (RSGNodeKey × RSGNode C)}
    {f g : RSGNodeKey → ℚ} (co : ArenaCoh a f g) {cs : List RSGNodeKey}
    {o : Option RSGNodeKey} (h : IsNextChain a cs o) : cs.Nodup :=
  (isNextChain_pairwise co cs o h).imp (fun h1 h2 => absurd (h2 ▸ h1) (lt_irrefl _))

theorem isNextChain_next_mem {C : Type} {a : List (RSGNodeKey × RSGNode C)} :
    ∀ (cs : List RSGNodeKey) (o : Option RSGNodeKey), IsNextChain a cs o →
      ∀ j ∈ cs, ∀ n, aGet a j = some n → ∀ t, n.next_sibling_key = some t → t ∈ cs := by
  intro cs
  induction cs with
  | nil => intro o _ j hj; exact absurd hj (List.not_mem_nil j)
  | cons c cs' ih =>
    intro o h j hj m hm t ht
    simp only [IsNextChain] at h
    obtain ⟨ho, n, hn, hrest⟩ := h
    rcases List.mem_cons.mp hj with rfl | hj'
    · rw [hn] at hm
      injection hm with hm
      rw [hm] at hrest
      rw [ht] at hrest
      exact List.mem_cons_of_mem _ (isNextChain_head_mem hrest)
    · exact List.mem_cons_of_mem _ (ih _ hrest j hj' m hm t ht)

theorem isNextChain_pred {C : Type} {a : List (RSGNodeKey × RSGNode C)} :
    ∀ (cs : List RSGNodeKey) (c1 : RSGNodeKey), IsNextChain a cs (some c1) →
      ∀ j ∈ cs, j ≠ c1 →
      ∃ q ∈ cs, ∃ nq, aGet a q = some nq ∧ nq.next_sibling_key = some j := by
  intro cs
  induction cs with
  | nil => intro c1 _ j hj; exact absurd hj (List.not_mem_nil j)
  | cons c cs' ih =>
    intro c1 h j hj hjc
    simp only [IsNextChain] at h
    obtain ⟨ho, n, hn, hrest⟩ := h
    injection ho with ho
    subst ho
    rcases List.mem_cons.mp hj with rfl | hj'
    · exact absurd rfl hjc
    · cases cs' with
      | nil => exact absurd hj' (List.not_mem_nil j)
      | cons e cs'' =>
        have ho2 : n.next_sibling_key = some e := by
          simp only [IsNextChain] at hrest
          exact hrest.1
        by_cases hje : j = e
        · subst hje
          exact ⟨_, List.mem_cons_self _ _, n, hn, ho2⟩
        · rw [ho2] at hrest
          obtain ⟨q, hq, nq, hnq, hqn⟩ := ih e hrest j hj' hje
          exact ⟨q, List.mem_cons_of_mem _ hq, nq, hnq, hqn⟩

theorem isNextChain_exists_last {C : Type} {a : List (RSGNodeKey × RSGNode C)} :
    ∀ (cs : List RSGNodeKey) (o : Option RSGNodeKey), IsNextChain a cs o → cs ≠ [] →
      ∃ z ∈ cs, ∃ nz, aGet a z = some nz ∧ nz.next_sibling_key = none := by
  intro cs
  induction cs with
  | nil => intro o _ hne; exact absurd rfl hne
  | cons c cs' ih =>
    intro o h _
    simp only [IsNextChain] at h
    obtain ⟨ho, n, hn, hrest⟩ := h
    cases cs' with
    | nil =>
      simp only [IsNextChain] at hrest
      exact ⟨c, List.mem_cons_self c _, n, hn, hrest⟩
    | cons e cs'' =>
      obtain ⟨z, hz, nz, hnz, hzn⟩ := ih _ hrest (List.cons_ne_nil e cs'')
      exact ⟨z, List.mem_cons_of_mem _ hz, nz, hnz, hzn⟩

theorem isNextChain_congr {C : Type} {a b : List (RSGNodeKey × RSGNode C)}
    (h : ∀ x, (aGet b x).map (·.next_sibling_key) = (aGet a x).map (·.next_sibling_key)) :
    ∀ (cs : List RSGNodeKey) (o : Option RSGNodeKey), IsNextChain a cs o →
      IsNextChain b cs o := by
  intro cs
  induction cs with
  | nil => intro o hh; exact hh
  | cons c cs' ih =>
    intro o hh
    simp only [IsNextChain] at hh ⊢
    obtain ⟨ho, n, hn, hrest⟩ := hh
    have h3 : (aGet b c).map (·.next_sibling_key) = some n.next_sibling_key := by
      rw [h c, hn]
      rfl
    obtain ⟨n2, hn2, hnn⟩ := Option.map_eq_some'.mp h3
    refine ⟨ho, n2, hn2, ?_⟩
    rw [hnn]
    exact ih _ hrest

theorem isNextChain_modify {C : Type} {a : List (RSGNodeKey × RSGNode C)}
    (c : RSGNodeKey) (fm : RSGNode C → RSGNode C)
    (hfm : ∀ n, (fm n).next_sibling_key = n.next_sibling_key) :
    ∀ (cs : List RSGNodeKey) (o : Option RSGNodeKey), IsNextChain a cs o →
      IsNextChain (aModify a c fm) cs o := by
  refine isNextChain_congr ?_
  intro x
  rw [aGet_aModify]
  by_cases hxc : x = c
  · rw [if_pos hxc, hxc]
    cases hg : aGet a c with
    | none => rfl
    | some n =>
      show some ((fm n).next_sibling_key) = some n.next_sibling_key
      rw [hfm n]
  · rw [if_neg hxc]

theorem isNextChain_exists {C : Type} {a : List (RSGNodeKey × RSGNode C)}
    {f g : RSGNodeKey → ℚ} (co : ArenaCoh a f g) :
    ∀ (N : Nat) (o : Option RSGNodeKey),
      (∀ c, o = some c → (∃ n, aGet a c = some n) ∧
        a.countP (fun e => decide (g c ≤ g e.1)) ≤ N) →
      ∃ cs, IsNextChain a cs o := by
  intro N
  induction N with
  | zero =>
    intro o h
    cases o with
    | none => exact ⟨[], rfl⟩
    | some c =>
      obtain ⟨⟨n, hn⟩, hcnt⟩ := h c rfl
      have hpos : 0 < a.countP (fun e => decide (g c ≤ g e.1)) :=
        List.countP_pos.mpr ⟨(c, n), aGet_some_mem hn, by simp⟩
      omega
  | succ N ih =>
    intro o h
    cases o with
    | none => exact ⟨[], rfl⟩
    | some c =>
      obtain ⟨⟨n, hn⟩, hcnt⟩ := h c rfl
      cases hnx : n.next_sibling_key with
      | none =>
        refine ⟨[c], ?_⟩
        simp only [IsNextChain]
        exact ⟨trivial, n, hn, hnx⟩
      | some t =>
        obtain ⟨m, hm, _, _⟩ := co.next_coh c n hn t hnx
        have hgt : g c < g t := co.rank_sib c n hn t hnx
        have hlt : a.countP (fun e => decide (g t ≤ g e.1)) <
            a.countP (fun e => decide (g c ≤ g e.1)) := by
          refine countP_lt_of_witness ?_ (aGet_some_mem hn) ?_ ?_
          · intro x _ hx
            simp only [decide_eq_true_eq] at hx ⊢
            exact le_trans (le_of_lt hgt) hx
          · simp
          · simp only [decide_eq_true_eq]
            exact not_le.mpr hgt
        have harg : ∀ c2, (some t : Option RSGNodeKey) = some c2 →
            (∃ n2, aGet a c2 = some n2) ∧
              a.countP (fun e => decide (g c2 ≤ g e.1)) ≤ N := by
          intro c2 hc2
          injection hc2 with hc2
          subst hc2
          exact ⟨⟨m, hm⟩, by omega⟩
        obtain ⟨cs', hcs'⟩ := ih (some t) harg
        refine ⟨c :: cs', ?_⟩
        simp only [IsNextChain]
        refine ⟨trivial, n, hn, ?_⟩
        rw [hnx]
        exact hcs'

theorem foldr_min_le {f : RSGNodeKey → ℚ} :
    ∀ (cs : List RSGNodeKey) (b : ℚ) (c : RSGNodeKey), c ∈ cs →
      List.foldr (fun c m => min (f c) m) b cs ≤ f c := by
  intro cs
  induction cs with
  | nil => intro b c hc; exact absurd hc (List.not_mem_nil c)
  | cons d cs' ih =>
    intro b c hc
    simp only [List.foldr]
    rcases List.mem_cons.mp hc with rfl | hc'
    · exact min_le_left _ _
    · exact le_trans (min_le_right _ _) (ih b c hc')

theorem lt_foldr_min {f : RSGNodeKey → ℚ} :
    ∀ (cs : List RSGNodeKey) (b x : ℚ), x < b → (∀ c ∈ cs, x < f c) →
      x < List.foldr (fun c m => min (f c) m) b cs := by
  intro cs
  induction cs with
  | nil => intro b x hb _; exact hb
  | cons d cs' ih =>
    intro b x hb hall
    simp only [List.foldr]
    exact lt_min (hall d (List.mem_cons_self d cs'))
      (ih b x hb (fun c hc => hall c (List.mem_cons_of_mem d hc)))

theorem reparent_go_none {C : Type} :
    ∀ (fuel : Nat) (s : RSGScene C) (k : RSGNodeKey),
      RSGScene.reparent_go fuel s none k = s := by
  intro fuel s k
  cases fuel with
  | zero => rfl
  | succ m => rfl

theorem reparent_go_map {C : Type} :
    ∀ (cs : List RSGNodeKey) (fuel : Nat) (s : RSGScene C) (o : Option RSGNodeKey)
      (k : RSGNodeKey),
      IsNextChain s.arena cs o → cs.Nodup → cs.length ≤ fuel →
      ∀ x, aGet (RSGScene.reparent_go fuel s o k).arena x =
        if x ∈ cs then (aGet s.arena x).map (fun n => { n with parent_key := some k })
        else aGet s.arena x := by
  intro cs
  induction cs with
  | nil =>
    intro fuel s o k hch _ _ x
    rw [if_neg (List.not_mem_nil x)]
    have ho : o = none := hch
    subst ho
    rw [reparent_go_none]
  | cons c cs' ih =>
    intro fuel s o k hch hnd hlen x
    simp only [IsNextChain] at hch
    obtain ⟨ho, n, hn, hrest⟩ := hch
    subst ho
    cases fuel with
    | zero => simp at hlen
    | succ m =>
      simp only [RSGScene.reparent_go]
      have harg : ((aGet (aModify s.arena c (fun q => { q with parent_key := some k })) c).bind
          (·.next_sibling_key)) = n.next_sibling_key := by
        rw [aGet_aModify, if_pos rfl, hn]
        rfl
      rw [harg]
      have hch1 : IsNextChain (aModify s.arena c (fun q => { q with parent_key := some k }))
          cs' n.next_sibling_key :=
        isNextChain_modify c (fun q => { q with parent_key := some k })
          (fun _ => rfl) cs' _ hrest
      have hnd' : cs'.Nodup := (List.nodup_cons.mp hnd).2
      have hcn : c ∉ cs' := (List.nodup_cons.mp hnd).1
      have hlen' : cs'.length ≤ m := by
        simp only [List.length_cons] at hlen
        omega
      have hmap : ∀ y, aGet (RSGScene.reparent_go m
          { s with arena := aModify s.arena c (fun q => { q with parent_key := some k }) }
          n.next_sibling_key k).arena y =
          if y ∈ cs' then
            (aGet (aModify s.arena c (fun q => { q with parent_key := some k })) y).map
              (fun q => { q with parent_key := some k })
          else aGet (aModify s.arena c (fun q => { q with parent_key := some k })) y :=
        fun y => ih m _ n.next_sibling_key k hch1 hnd' hlen' y
      rw [hmap x]
      by_cases hxc : x = c
      · subst hxc
        rw [if_neg hcn, aGet_aModify, if_pos rfl, if_pos (List.mem_cons_self x cs'), hn]
      · rw [aGet_aModify, if_neg hxc]
        by_cases hxcs : x ∈ cs'
        · rw [if_pos hxcs, if_pos (List.mem_cons_of_mem c hxcs)]
        · rw [if_neg hxcs, if_neg (fun hh => (List.mem_cons.mp hh).elim hxc hxcs)]

theorem clean_node_update_eq {C : Type} {n : RSGNode C} (h : n.is_clean)
    (a b : Option RSGNodeKey) :
    ({ n with key := a, parent_key := b, first_child_key := none, last_child_key := none } : RSGNode C) =
    { n with key := a, parent_key := b, prev_sibling_key := none, next_sibling_key := none } := by
  obtain ⟨h1, h2, h3, h4, h5, h6⟩ := h
  cases n with
  | mk k0 p0 f0 l0 pr0 nx0 cm0 =>
    simp only [RSGNode.first_child_key, RSGNode.last_child_key, RSGNode.prev_sibling_key,
      RSGNode.next_sibling_key] at h3 h4 h5 h6
    subst h3
    subst h4
    subst h5
    subst h6
    rfl


theorem coh_insert_under_shape {C : Type} {a aF : List (RSGNodeKey × RSGNode C)}
    {f g : RSGNodeKey → ℚ} (co : ArenaCoh a f g) (P k c1 cL : RSGNodeKey)
    (cs : List RSGNodeKey) (v : ℚ) {nP nk : RSGNode C}
    (hgP : aGet a P = some nP) (hk : aGet a k = some nk) (hkcl : nk.is_clean)
    (hPc1 : nP.first_child_key = some c1) (hPcL : nP.last_child_key = some cL)
    (hchain : IsNextChain a cs (some c1))
    (hunref : ∀ j n, aGet a j = some n → ∀ t, t ∈ nodeRefs n → t ≠ k)
    (hvP : f P < v) (hvc : ∀ c ∈ cs, v < f c)
    (hgetF : ∀ x, aGet aF x =
      if x = P then some { nP with first_child_key := some k, last_child_key := some k }
      else if x = k then some { nk with key := some k, parent_key := some P, first_child_key := some c1, last_child_key := some cL }
      else if x ∈ cs then (aGet a x).map (fun n => { n with parent_key := some k })
      else aGet a x) :
    ArenaCoh aF (fun x => if x = k then v else f x) g := by
  obtain ⟨hk1, hk2, hk3, hk4, hk5, hk6⟩ := hkcl
  obtain ⟨n1, hg1, h1prev, h1par⟩ := co.first_coh P nP hgP c1 hPc1
  have hpar : ∀ j ∈ cs, ∀ n, aGet a j = some n → n.parent_key = some P := by
    refine isNextChain_parent co (some P) cs (some c1) hchain ?_
    intro c hc n hn
    injection hc with hc
    subst hc
    rw [hg1] at hn
    injection hn with hn
    rw [← hn]
    exact h1par
  have hc1cs : c1 ∈ cs := isNextChain_head_mem hchain
  have hkcs : k ∉ cs := by
    intro hkc
    have h := hpar k hkc nk hk
    rw [hk2] at h
    exact Option.noConfusion h
  have hPcs : P ∉ cs := by
    intro hPc
    exact absurd (co.rank_par P nP hgP P (hpar P hPc nP hgP)) (lt_irrefl _)
  have hPk : P ≠ k := by
    intro h
    rw [h, hk] at hgP
    injection hgP with he
    rw [← he, hk3] at hPc1
    exact Option.noConfusion hPc1
  have hmemget := isNextChain_mem_get cs (some c1) hchain
  have hcsP : ∀ j ∈ cs, j ≠ P := fun j hj he => hPcs (he ▸ hj)
  have hcsk : ∀ j ∈ cs, j ≠ k := fun j hj he => hkcs (he ▸ hj)
  have hcLfacts : cL ∈ cs ∧ ∃ nz, aGet a cL = some nz ∧ nz.next_sibling_key = none := by
    obtain ⟨z, hz, nz, hnz, hzn⟩ := isNextChain_exists_last cs (some c1) hchain
      (by intro hh; rw [hh] at hc1cs; exact List.not_mem_nil c1 hc1cs)
    have hzP : nz.parent_key = some P := hpar z hz nz hnz
    have h := co.lst_bl z nz hnz hzn P hzP nP hgP
    rw [hPcL] at h
    injection h with h
    subst h
    exact ⟨hz, nz, hnz, hzn⟩
  obtain ⟨hcLcs, ncL, hgcL, hcLnext⟩ := hcLfacts
  have hprev_none_c1 : ∀ j ∈ cs, ∀ n0, aGet a j = some n0 → n0.prev_sibling_key = none → j = c1 := by
    intro j hj n0 hn0 hpn
    have h := co.fst_bl j n0 hn0 hpn P (hpar j hj n0 hn0) nP hgP
    rw [hPc1] at h
    injection h with h
    exact h.symm
  have hnext_none_cL : ∀ j ∈ cs, ∀ n0, aGet a j = some n0 → n0.next_sibling_key = none → j = cL := by
    intro j hj n0 hn0 hpn
    have h := co.lst_bl j n0 hn0 hpn P (hpar j hj n0 hn0) nP hgP
    rw [hPcL] at h
    injection h with h
    exact h.symm
  have hpred := isNextChain_pred cs c1 hchain
  have hnextmem := isNextChain_next_mem cs (some c1) hchain
  have hGP : aGet aF P = some { nP with first_child_key := some k, last_child_key := some k } := by
    rw [hgetF P, if_pos rfl]
  have hGk : aGet aF k = some { nk with key := some k, parent_key := some P, first_child_key := some c1, last_child_key := some cL } := by
    rw [hgetF k, if_neg (Ne.symm hPk), if_pos rfl]
  have hGc : ∀ j ∈ cs, ∀ n0, aGet a j = some n0 → aGet aF j = some { n0 with parent_key := some k } := by
    intro j hj n0 hn0
    rw [hgetF j, if_neg (hcsP j hj), if_neg (hcsk j hj), if_pos hj, hn0]
    rfl
  have hGe : ∀ x, x ≠ P → x ≠ k → x ∉ cs → aGet aF x = aGet a x := by
    intro x h1 h2 h3
    rw [hgetF x, if_neg h1, if_neg h2, if_neg h3]
  have hsrc : ∀ j n, aGet aF j = some n →
      (P = j ∧ n = { nP with first_child_key := some k, last_child_key := some k }) ∨
      (k = j ∧ n = { nk with key := some k, parent_key := some P, first_child_key := some c1, last_child_key := some cL }) ∨
      (j ∈ cs ∧ ∃ n0, aGet a j = some n0 ∧ n = { n0 with parent_key := some k }) ∨
      (j ≠ P ∧ j ≠ k ∧ j ∉ cs ∧ aGet a j = some n) := by
    intro j n hg
    by_cases hjP : j = P
    · rw [hjP, hGP] at hg
      injection hg with hg
      exact Or.inl ⟨hjP.symm, hg.symm⟩
    · by_cases hjk : j = k
      · rw [hjk, hGk] at hg
        injection hg with hg
        exact Or.inr (Or.inl ⟨hjk.symm, hg.symm⟩)
      · by_cases hjcs : j ∈ cs
        · obtain ⟨n0, hn0⟩ := hmemget j hjcs
          rw [hGc j hjcs n0 hn0] at hg
          injection hg with hg
          exact Or.inr (Or.inr (Or.inl ⟨hjcs, n0, hn0, hg.symm⟩))
        · rw [hGe j hjP hjk hjcs] at hg
          exact Or.inr (Or.inr (Or.inr ⟨hjP, hjk, hjcs, hg⟩))
  refine ⟨?_, ?_, ?_, ?_, ?_, ?_, ?_, ?_, ?_⟩
  · -- next_coh
    intro j n hg t ht
    rcases hsrc j n hg with ⟨rfl, rfl⟩ | ⟨rfl, rfl⟩ | ⟨hjcs, n0, hn0, rfl⟩ | ⟨hjP, hjk, hjcs, hja⟩
    · have ht' : nP.next_sibling_key = some t := ht
      obtain ⟨m, hm, hmp, hmpar⟩ := co.next_coh P nP hgP t ht'
      have htk : t ≠ k := hunref P nP hgP t (mem_nodeRefs.mpr (Or.inr (Or.inr (Or.inr (Or.inr ht')))))
      have htP : t ≠ P := by
        intro he
        rw [he] at ht'
        exact absurd (co.rank_sib P nP hgP P ht') (lt_irrefl _)
      have htcs : t ∉ cs := by
        intro hc
        have h2 := hpar t hc m hm
        rw [h2] at hmpar
        exact absurd (co.rank_par P nP hgP P hmpar.symm) (lt_irrefl _)
      refine ⟨m, ?_, hmp, hmpar⟩
      rw [hGe t htP htk htcs]
      exact hm
    · have ht' : nk.next_sibling_key = some t := ht
      rw [hk6] at ht'
      exact Option.noConfusion ht'
    · have ht' : n0.next_sibling_key = some t := ht
      have htcs : t ∈ cs := hnextmem j hjcs n0 hn0 t ht'
      obtain ⟨m, hm, hmp, hmpar⟩ := co.next_coh j n0 hn0 t ht'
      exact ⟨{ m with parent_key := some k }, hGc t htcs m hm, hmp, rfl⟩
    · obtain ⟨m, hm, hmp, hmpar⟩ := co.next_coh j n hja t ht
      have htk : t ≠ k := hunref j n hja t (mem_nodeRefs.mpr (Or.inr (Or.inr (Or.inr (Or.inr ht)))))
      have htcs : t ∉ cs := by
        intro hc
        by_cases htc1 : t = c1
        · subst htc1
          rw [hg1] at hm
          injection hm with hm
          rw [← hm, h1prev] at hmp
          exact Option.noConfusion hmp
        · obtain ⟨q, hq, nq, hnq, hqn⟩ := hpred t hc htc1
          obtain ⟨m2, hm2, hm2p, _⟩ := co.next_coh q nq hnq t hqn
          rw [hm] at hm2
          injection hm2 with hm2
          rw [← hm2] at hm2p
          rw [hmp] at hm2p
          injection hm2p with he
          exact hjcs (he ▸ hq)
      by_cases htP : t = P
      · subst htP
        rw [hgP] at hm
        injection hm with hm
        refine ⟨{ nP with first_child_key := some k, last_child_key := some k }, hGP, ?_, ?_⟩
        · show nP.prev_sibling_key = some j
          rw [hm]
          exact hmp
        · show nP.parent_key = n.parent_key
          rw [hm]
          exact hmpar
      · refine ⟨m, ?_, hmp, hmpar⟩
        rw [hGe t htP htk htcs]
        exact hm
  · -- prev_coh
    intro j n hg t ht
    rcases hsrc j n hg with ⟨rfl, rfl⟩ | ⟨rfl, rfl⟩ | ⟨hjcs, n0, hn0, rfl⟩ | ⟨hjP, hjk, hjcs, hja⟩
    · have ht' : nP.prev_sibling_key = some t := ht
      obtain ⟨m, hm, hmn, hmpar⟩ := co.prev_coh P nP hgP t ht'
      have htk : t ≠ k := hunref P nP hgP t (mem_nodeRefs.mpr (Or.inr (Or.inr (Or.inr (Or.inl ht')))))
      have htP : t ≠ P := by
        intro he
        rw [he, hgP] at hm
        injection hm with hm
        rw [← hm] at hmn
        exact absurd (co.rank_sib P nP hgP P hmn) (lt_irrefl _)
      have htcs : t ∉ cs := by
        intro hc
        have h2 := hpar t hc m hm
        rw [h2] at hmpar
        exact absurd (co.rank_par P nP hgP P hmpar.symm) (lt_irrefl _)
      refine ⟨m, ?_, hmn, hmpar⟩
      rw [hGe t htP htk htcs]
      exact hm
    · have ht' : nk.prev_sibling_key = some t := ht
      rw [hk5] at ht'
      exact Option.noConfusion ht'
    · have ht' : n0.prev_sibling_key = some t := ht
      by_cases hjc1 : j = c1
      · subst hjc1
        rw [hg1] at hn0
        injection hn0 with he
        rw [he] at h1prev
        rw [h1prev] at ht'
        exact Option.noConfusion ht'
      · obtain ⟨q, hq, nq, hnq, hqn⟩ := hpred j hjcs hjc1
        obtain ⟨m2, hm2, hm2p, _⟩ := co.next_coh q nq hnq j hqn
        rw [hn0] at hm2
        injection hm2 with hm2
        rw [← hm2] at hm2p
        rw [ht'] at hm2p
        injection hm2p with he
        subst he
        exact ⟨{ nq with parent_key := some k }, hGc _ hq nq hnq, hqn, rfl⟩
    · obtain ⟨m, hm, hmn, hmpar⟩ := co.prev_coh j n hja t ht
      have htk : t ≠ k := hunref j n hja t (mem_nodeRefs.mpr (Or.inr (Or.inr (Or.inr (Or.inl ht)))))
      have htcs : t ∉ cs := by
        intro hc
        exact hjcs (hnextmem t hc m hm j hmn)
      by_cases htP : t = P
      · subst htP
        rw [hgP] at hm
        injection hm with hm
        refine ⟨{ nP with first_child_key := some k, last_child_key := some k }, hGP, ?_, ?_⟩
        · show nP.next_sibling_key = some j
          rw [hm]
          exact hmn
        · show nP.parent_key = n.parent_key
          rw [hm]
          exact hmpar
      · refine ⟨m, ?_, hmn, hmpar⟩
        rw [hGe t htP htk htcs]
        exact hm
  · -- first_coh
    intro j n hg t ht
    rcases hsrc j n hg with ⟨rfl, rfl⟩ | ⟨rfl, rfl⟩ | ⟨hjcs, n0, hn0, rfl⟩ | ⟨hjP, hjk, hjcs, hja⟩
    · have ht' : (some k : Option RSGNodeKey) = some t := ht
      injection ht' with ht'
      subst ht'
      refine ⟨_, hGk, hk5, rfl⟩
    · have ht' : (some c1 : Option RSGNodeKey) = some t := ht
      injection ht' with ht'
      subst ht'
      exact ⟨{ n1 with parent_key := some k }, hGc c1 hc1cs n1 hg1, h1prev, rfl⟩
    · have ht' : n0.first_child_key = some t := ht
      obtain ⟨m, hm, hmp, hmpar⟩ := co.first_coh j n0 hn0 t ht'
      have htk : t ≠ k := hunref j n0 hn0 t (mem_nodeRefs.mpr (Or.inr (Or.inl ht')))
      have htP : t ≠ P := by
        intro he
        rw [he, hgP] at hm
        injection hm with hm
        have hfj := co.rank_par P nP hgP j (by rw [hm]; exact hmpar)
        have hfP := co.rank_par j n0 hn0 P (hpar j hjcs n0 hn0)
        exact absurd (lt_trans hfj hfP) (lt_irrefl _)
      have htcs : t ∉ cs := by
        intro hc
        have h2 := hpar t hc m hm
        rw [h2] at hmpar
        injection hmpar with he
        exact hPcs (by rw [he]; exact hjcs)
      refine ⟨m, ?_, hmp, hmpar⟩
      rw [hGe t htP htk htcs]
      exact hm
    · obtain ⟨m, hm, hmp, hmpar⟩ := co.first_coh j n hja t ht
      have htk : t ≠ k := hunref j n hja t (mem_nodeRefs.mpr (Or.inr (Or.inl ht)))
      have htcs : t ∉ cs := by
        intro hc
        have h2 := hpar t hc m hm
        rw [h2] at hmpar
        injection hmpar with he
        exact hjP he.symm
      by_cases htP : t = P
      · subst htP
        rw [hgP] at hm
        injection hm with hm
        refine ⟨{ nP with first_child_key := some k, last_child_key := some k }, hGP, ?_, ?_⟩
        · show nP.prev_sibling_key = none
          rw [hm]
          exact hmp
        · show nP.parent_key = some j
          rw [hm]
          exact hmpar
      · refine ⟨m, ?_, hmp, hmpar⟩
        rw [hGe t htP htk htcs]
        exact hm
  · -- last_coh
    intro j n hg t ht
    rcases hsrc j n hg with ⟨rfl, rfl⟩ | ⟨rfl, rfl⟩ | ⟨hjcs, n0, hn0, rfl⟩ | ⟨hjP, hjk, hjcs, hja⟩
    · have ht' : (some k : Option RSGNodeKey) = some t := ht
      injection ht' with ht'
      subst ht'
      refine ⟨_, hGk, hk6, rfl⟩
    · have ht' : (some cL : Option RSGNodeKey) = some t := ht
      injection ht' with ht'
      subst ht'
      exact ⟨{ ncL with parent_key := some k }, hGc cL hcLcs ncL hgcL, hcLnext, rfl⟩
    · have ht' : n0.last_child_key = some t := ht
      obtain ⟨m, hm, hmn, hmpar⟩ := co.last_coh j n0 hn0 t ht'
      have htk : t ≠ k := hunref j n0 hn0 t (mem_nodeRefs.mpr (Or.inr (Or.inr (Or.inl ht'))))
      have htP : t ≠ P := by
        intro he
        rw [he, hgP] at hm
        injection hm with hm
        have hfj := co.rank_par P nP hgP j (by rw [hm]; exact hmpar)
        have hfP := co.rank_par j n0 hn0 P (hpar j hjcs n0 hn0)
        exact absurd (lt_trans hfj hfP) (lt_irrefl _)
      have htcs : t ∉ cs := by
        intro hc
        have h2 := hpar t hc m hm
        rw [h2] at hmpar
        injection hmpar with he
        exact hPcs (by rw [he]; exact hjcs)
      refine ⟨m, ?_, hmn, hmpar⟩
      rw [hGe t htP htk htcs]
      exact hm
    · obtain ⟨m, hm, hmn, hmpar⟩ := co.last_coh j n hja t ht
      have htk : t ≠ k := hunref j n hja t (mem_nodeRefs.mpr (Or.inr (Or.inr (Or.inl ht))))
      have htcs : t ∉ cs := by
        intro hc
        have h2 := hpar t hc m hm
        rw [h2] at hmpar
        injection hmpar with he
        exact hjP he.symm
      by_cases htP : t = P
      · subst htP
        rw [hgP] at hm
        injection hm with hm
        refine ⟨{ nP with first_child_key := some k, last_child_key := some k }, hGP, ?_, ?_⟩
        · show nP.next_sibling_key = none
          rw [hm]
          exact hmn
        · show nP.parent_key = some j
          rw [hm]
          exact hmpar
      · refine ⟨m, ?_, hmn, hmpar⟩
        rw [hGe t htP htk htcs]
        exact hm
  · -- fl_coh
    intro j n hg
    rcases hsrc j n hg with ⟨rfl, rfl⟩ | ⟨rfl, rfl⟩ | ⟨hjcs, n0, hn0, rfl⟩ | ⟨hjP, hjk, hjcs, hja⟩
    · show ((some k : Option RSGNodeKey) = none ↔ (some k : Option RSGNodeKey) = none)
      exact Iff.rfl
    · show ((some c1 : Option RSGNodeKey) = none ↔ (some cL : Option RSGNodeKey) = none)
      exact ⟨fun h => Option.noConfusion h, fun h => Option.noConfusion h⟩
    · show (n0.first_child_key = none ↔ n0.last_child_key = none)
      exact co.fl_coh j n0 hn0
    · exact co.fl_coh j n hja
  · -- fst_bl
    intro j n hg hpn q hq m hm
    rcases hsrc j n hg with ⟨rfl, rfl⟩ | ⟨rfl, rfl⟩ | ⟨hjcs, n0, hn0, rfl⟩ | ⟨hjP, hjk, hjcs, hja⟩
    · have hpn' : nP.prev_sibling_key = none := hpn
      have hq' : nP.parent_key = some q := hq
      have hqk : q ≠ k := hunref P nP hgP q (mem_nodeRefs.mpr (Or.inl hq'))
      have hqP : q ≠ P := by
        intro he
        rw [he] at hq'
        exact absurd (co.rank_par P nP hgP P hq') (lt_irrefl _)
      by_cases hqcs : q ∈ cs
      · obtain ⟨nq0, hnq0⟩ := hmemget q hqcs
        rw [hGc q hqcs nq0 hnq0] at hm
        injection hm with hm
        rw [← hm]
        show nq0.first_child_key = some P
        exact co.fst_bl P nP hgP hpn' q hq' nq0 hnq0
      · rw [hGe q hqP hqk hqcs] at hm
        exact co.fst_bl P nP hgP hpn' q hq' m hm
    · have hq' : (some P : Option RSGNodeKey) = some q := hq
      injection hq' with hq2
      subst hq2
      rw [hGP] at hm
      injection hm with hm
      rw [← hm]
    · have hpn' : n0.prev_sibling_key = none := hpn
      have hj1 : j = c1 := hprev_none_c1 j hjcs n0 hn0 hpn'
      have hq' : (some k : Option RSGNodeKey) = some q := hq
      injection hq' with hq2
      subst hq2
      rw [hGk] at hm
      injection hm with hm
      rw [← hm]
      show some c1 = some j
      rw [hj1]
    · have hqk : q ≠ k := hunref j n hja q (mem_nodeRefs.mpr (Or.inl hq))
      by_cases hqP : q = P
      · subst hqP
        have h2 := co.fst_bl j n hja hpn q hq nP hgP
        rw [hPc1] at h2
        injection h2 with h2
        exact absurd (h2 ▸ hc1cs) hjcs
      · by_cases hqcs : q ∈ cs
        · obtain ⟨nq0, hnq0⟩ := hmemget q hqcs
          rw [hGc q hqcs nq0 hnq0] at hm
          injection hm with hm
          rw [← hm]
          show nq0.first_child_key = some j
          exact co.fst_bl j n hja hpn q hq nq0 hnq0
        · rw [hGe q hqP hqk hqcs] at hm
          exact co.fst_bl j n hja hpn q hq m hm
  · -- lst_bl
    intro j n hg hpn q hq m hm
    rcases hsrc j n hg with ⟨rfl, rfl⟩ | ⟨rfl, rfl⟩ | ⟨hjcs, n0, hn0, rfl⟩ | ⟨hjP, hjk, hjcs, hja⟩
    · have hpn' : nP.next_sibling_key = none := hpn
      have hq' : nP.parent_key = some q := hq
      have hqk : q ≠ k := hunref P nP hgP q (mem_nodeRefs.mpr (Or.inl hq'))
      have hqP : q ≠ P := by
        intro he
        rw [he] at hq'
        exact absurd (co.rank_par P nP hgP P hq') (lt_irrefl _)
      by_cases hqcs : q ∈ cs
      · obtain ⟨nq0, hnq0⟩ := hmemget q hqcs
        rw [hGc q hqcs nq0 hnq0] at hm
        injection hm with hm
        rw [← hm]
        show nq0.last_child_key = some P
        exact co.lst_bl P nP hgP hpn' q hq' nq0 hnq0
      · rw [hGe q hqP hqk hqcs] at hm
        exact co.lst_bl P nP hgP hpn' q hq' m hm
    · have hq' : (some P : Option RSGNodeKey) = some q := hq
      injection hq' with hq2
      subst hq2
      rw [hGP] at hm
      injection hm with hm
      rw [← hm]
    · have hpn' : n0.next_sibling_key = none := hpn
      have hjL : j = cL := hnext_none_cL j hjcs n0 hn0 hpn'
      have hq' : (some k : Option RSGNodeKey) = some q := hq
      injection hq' with hq2
      subst hq2
      rw [hGk] at hm
      injection hm with hm
      rw [← hm]
      show some cL = some j
      rw [hjL]
    · have hqk : q ≠ k := hunref j n hja q (mem_nodeRefs.mpr (Or.inl hq))
      by_cases hqP : q = P
      · subst hqP
        have h2 := co.lst_bl j n hja hpn q hq nP hgP
        rw [hPcL] at h2
        injection h2 with h2
        exact absurd (h2 ▸ hcLcs) hjcs
      · by_cases hqcs : q ∈ cs
        · obtain ⟨nq0, hnq0⟩ := hmemget q hqcs
          rw [hGc q hqcs nq0 hnq0] at hm
          injection hm with hm
          rw [← hm]
          show nq0.last_child_key = some j
          exact co.lst_bl j n hja hpn q hq nq0 hnq0
        · rw [hGe q hqP hqk hqcs] at hm
          exact co.lst_bl j n hja hpn q hq m hm
  · -- rank_par
    intro j n hg t htp
    rcases hsrc j n hg with ⟨rfl, rfl⟩ | ⟨rfl, rfl⟩ | ⟨hjcs, n0, hn0, rfl⟩ | ⟨hjP, hjk, hjcs, hja⟩
    · have htp' : nP.parent_key = some t := htp
      have htk : t ≠ k := hunref P nP hgP t (mem_nodeRefs.mpr (Or.inl htp'))
      show (if t = k then v else f t) < (if P = k then v else f P)
      rw [if_neg htk, if_neg hPk]
      exact co.rank_par P nP hgP t htp'
    · have htp' : (some P : Option RSGNodeKey) = some t := htp
      injection htp' with htp'
      subst htp'
      show (if P = k then v else f P) < (if k = k then v else f k)
      rw [if_neg hPk, if_pos rfl]
      exact hvP
    · have htp' : (some k : Option RSGNodeKey) = some t := htp
      injection htp' with htp'
      subst htp'
      show (if k = k then v else f k) < (if j = k then v else f j)
      rw [if_pos rfl, if_neg (hcsk j hjcs)]
      exact hvc j hjcs
    · have htk : t ≠ k := hunref j n hja t (mem_nodeRefs.mpr (Or.inl htp))
      show (if t = k then v else f t) < (if j = k then v else f j)
      rw [if_neg htk, if_neg hjk]
      exact co.rank_par j n hja t htp
  · -- rank_sib
    intro j n hg t htn
    rcases hsrc j n hg with ⟨rfl, rfl⟩ | ⟨rfl, rfl⟩ | ⟨hjcs, n0, hn0, rfl⟩ | ⟨hjP, hjk, hjcs, hja⟩
    · exact co.rank_sib P nP hgP t htn
    · have htn' : nk.next_sibling_key = some t := htn
      rw [hk6] at htn'
      exact Option.noConfusion htn'
    · exact co.rank_sib j n0 hn0 t htn
    · exact co.rank_sib j n hja t htn


